import Mathlib

/-!
Wesnoth `unit.cpp`: a shallow embedding.

The development embeds the unit state of `src/unit.cpp` and the routines that
derive a unit's effective statistics from its type, its modification ledger
and the board: `generate_traits`, `advance_to`, `reset_modifications`,
`apply_modifications`, `add_modification`, the two terrain caches, the filter
engine and the concealment check.

Conventions.
* A C++ `int` is an `Int`; no routine embedded here relies on wrap-around.
* A member function that mutates the unit takes the unit and returns the new
  unit.  A routine that can throw returns a `Res`, which keeps the machine
  state at the moment of the throw.
* Collaborators that live outside `unit.cpp` (string utilities, the type
  registry, the terrain table, the attack class, the board) are the fields of
  an environment `Env`; every theorem is stated for an arbitrary environment.
* Display text (`modification_descriptions_`, effect tooltips), animations,
  haloes, events and formula variables do not influence any embedded field
  and are left out of the unit record.
-/

namespace Wesnoth

/-! ## The attribute store (`config`) -/

/-- Modelled from the spec: the attribute-store document (`config`, not part of
the sources at hand): a key/value map (`values`) and an ordered list of tagged
child sections. -/
inductive config where
  | mk (values : List (String × String)) (children : List (String × config))

namespace config

/-- The attribute map of a document. -/
def values : config → List (String × String)
  | mk v _ => v

/-- The child sections of a document, in document order, each with its tag. -/
def children : config → List (String × config)
  | mk _ c => c

mutual
/-- Decidable equality of documents. -/
def decEq : (a b : config) → Decidable (a = b)
  | mk v1 c1, mk v2 c2 =>
    if hv : v1 = v2 then
      match decEqL c1 c2 with
      | isTrue hc => isTrue (by rw [hv, hc])
      | isFalse hc => isFalse (fun h => hc (by cases h; rfl))
    else isFalse (fun h => hv (by cases h; rfl))
/-- Decidable equality of child lists. -/
def decEqL : (a b : List (String × config)) → Decidable (a = b)
  | [], [] => isTrue rfl
  | [], _ :: _ => isFalse (fun h => by cases h)
  | _ :: _, [] => isFalse (fun h => by cases h)
  | (t1, x) :: r1, (t2, y) :: r2 =>
    if ht : t1 = t2 then
      match decEq x y with
      | isTrue hx =>
        match decEqL r1 r2 with
        | isTrue hr => isTrue (by rw [ht, hx, hr])
        | isFalse hr => isFalse (fun h => hr (by cases h; rfl))
      | isFalse hx => isFalse (fun h => hx (by cases h; rfl))
    else isFalse (fun h => ht (by cases h; rfl))
end

instance : DecidableEq config := decEq

instance : Inhabited config := ⟨mk [] []⟩

/-- The empty document. -/
def empty : config := mk [] []

end config

/-- The order of `std::string` keys: lexicographic on the characters. -/
def key_lt (a b : String) : Bool := decide (a.data < b.data)

/-- Read of a `string_map`: the stored value, or the empty string. -/
def smap_get (m : List (String × String)) (k : String) : String :=
  (m.lookup k).getD ""

/-- Write of a `string_map` (`m[k] = v`); the map is kept ordered by key. -/
def smap_set : List (String × String) → String → String → List (String × String)
  | [], k, v => [(k, v)]
  | (k1, v1) :: rest, k, v =>
    if k1 = k then (k, v) :: rest
    else if key_lt k k1 then (k, v) :: (k1, v1) :: rest
    else (k1, v1) :: smap_set rest k v

/-- Removal of a key of a `string_map`. -/
def smap_erase (m : List (String × String)) (k : String) : List (String × String) :=
  m.filter (fun p => p.1 ≠ k)

/-- Assignment of every entry of `src` into `dst`, in the order of `src`. -/
def smap_assign (dst src : List (String × String)) : List (String × String) :=
  src.foldl (fun acc p => smap_set acc p.1 p.2) dst

/-- The distinct tags of a child list in ascending order: the keys of the
`std::map` from tag to child vector. -/
def sorted_tags (l : List (String × config)) : List String :=
  ((l.map (fun p => p.1)).dedup).insertionSort (fun a b => key_lt a b = true)

/-- Children grouped by tag, tags ascending, document order kept inside a tag:
the order in which an iteration over `config::children` (a `std::map` from tag
to child vector) meets them. -/
def by_tag (l : List (String × config)) : List (String × config) :=
  (sorted_tags l).flatMap (fun t => l.filter (fun p => p.1 = t))

/-- Split off the first child with tag `t`. -/
def take_first (t : String) : List (String × config) → Option (config × List (String × config))
  | [] => none
  | (t1, x) :: rest =>
    if t1 = t then some (x, rest)
    else match take_first t rest with
      | some (y, rest1) => some (y, (t1, x) :: rest1)
      | none => none

/-- Removal of the `idx`-th child with tag `t` from a child list. -/
def remove_nth_tagged (t : String) : Nat → List (String × config) → List (String × config)
  | _, [] => []
  | idx, (t1, x) :: rest =>
    if t1 = t then
      match idx with
      | 0 => rest
      | n + 1 => (t1, x) :: remove_nth_tagged t n rest
    else (t1, x) :: remove_nth_tagged t idx rest

/-- Replacement of the first child with tag `t` inside a child list. -/
def replace_first_tagged (t : String) (x : config) : List (String × config) → List (String × config)
  | [] => []
  | (t1, y) :: rest =>
    if t1 = t then (t1, x) :: rest else (t1, y) :: replace_first_tagged t x rest

namespace config

/-- Const `operator[]`: the value of a key, empty when absent. -/
def attr (c : config) (k : String) : String := smap_get c.values k

/-- Assignment through `operator[]`. -/
def set_attr (c : config) (k v : String) : config := mk (smap_set c.values k v) c.children

/-- Erasure `values.erase(k)`. -/
def erase_attr (c : config) (k : String) : config := mk (smap_erase c.values k) c.children

/-- Whether the key is present (`has_attribute`). -/
def has_attribute (c : config) (k : String) : Bool := (c.values.lookup k).isSome

/-- All children with a tag, in order (`get_children`). -/
def get_children (c : config) (t : String) : List config :=
  (c.children.filter (fun p => p.1 = t)).map (fun p => p.2)

/-- First child with a tag, if any (`child`). -/
def child (c : config) (t : String) : Option config := (c.get_children t).head?

/-- Whether there is a child with the tag (`has_child`). -/
def has_child (c : config) (t : String) : Bool := (c.child t).isSome

/-- Append a child at the end (`add_child`). -/
def add_child (c : config) (t : String) (x : config) : config :=
  mk c.values (c.children ++ [(t, x)])

/-- Drop every child with the tag (`clear_children`). -/
def clear_children (c : config) (t : String) : config :=
  mk c.values (c.children.filter (fun p => p.1 ≠ t))

/-- Drop the `idx`-th child with the tag (`remove_child`). -/
def remove_child (c : config) (t : String) (idx : Nat) : config :=
  mk c.values (remove_nth_tagged t idx c.children)

/-- Replace the first child with the tag by `x`: the effect of writing through
the pointer returned by `child(t)`. -/
def set_first_child (c : config) (t : String) (x : config) : config :=
  mk c.values (replace_first_tagged t x c.children)

/-- Append of a whole document (`append`): its children are added at the end in
document order, then its values are assigned. -/
def append (c d : config) : config :=
  mk (smap_assign c.values d.values) (c.children ++ d.children)

mutual
/-- Merge of `d` into `c` (`merge_with`): values of `d` win; the `k`-th child of
a tag in `c` is merged with the `k`-th child of that tag in `d`; children of `d`
without a partner are added at the end, tag by tag. -/
def merge_with : config → config → config
  | mk v ch, d =>
    let r := merge_children ch d.children
    mk (smap_assign v d.values) (r.1 ++ by_tag r.2)
/-- The pairing pass of `merge_with`: returns the merged children of the
receiver and the children of the argument that found no partner. -/
def merge_children : List (String × config) → List (String × config) →
    List (String × config) × List (String × config)
  | [], theirs => ([], theirs)
  | (t, x) :: rest, theirs =>
    match take_first t theirs with
    | some (y, theirs1) =>
      let r := merge_children rest theirs1
      ((t, merge_with x y) :: r.1, r.2)
    | none =>
      let r := merge_children rest theirs
      ((t, x) :: r.1, r.2)
end

end config

/-! ## Unit types, units and the environment -/

/-- Genders of `unit_race` (declared in `race.hpp`). -/
inductive GENDER where
  | MALE
  | FEMALE
  deriving DecidableEq, Repr

/-- Alignments of `unit_type` (declared in `unit_types.hpp`). -/
inductive ALIGNMENT where
  | LAWFUL
  | NEUTRAL
  | CHAOTIC
  deriving DecidableEq, Repr

/-- A map location (`gamemap::location`). -/
structure location where
  x : Int
  y : Int
  deriving DecidableEq, Repr

/-- An attack (`attack_type`, declared in `unit_types.hpp`), carried by the
document it writes with `get_cfg()`. -/
structure attack_type where
  cfg_ : config
  deriving DecidableEq

/-- The part of a unit type (`unit_type`, declared in `unit_types.hpp`) that
`unit.cpp` reads through its accessors. -/
structure unit_type where
  id : String
  cfg_ : config
  hitpoints : Int
  movement : Int
  experience_needed : Int
  level : Int
  max_attacks : Int
  attacks : List attack_type
  possible_traits : List config
  num_traits : Nat
  genders : List GENDER
  advances_to : List String
  has_zoc : Bool
  cost : Int
  is_flying : Bool
  movement_parent : Option config
  alignment : ALIGNMENT
  alpha : Int
  type_name : String
  unit_description : String
  undead_variation : String
  race : String
  flag_rgb : String
  deriving DecidableEq

/-- The errors a routine of `unit.cpp` can raise. `unknown_unit_type` and
`unknown_unit_type_traits` are the two `game::game_error`s, `load_game_failed`
the error of `read`; `null_type` stands for the dereference of the null type
pointer that `type()` returns for a unit without type id, `invalid_side` for the
error of `validate_side`. -/
inductive game_error where
  | unknown_unit_type (type : String)
  | unknown_unit_type_traits (type : String)
  | load_game_failed
  | invalid_side
  | null_type
  deriving DecidableEq, Repr

/-- A source of random numbers (`get_random()` or `state->rng().get_random()`):
the numbers it will deliver and how many were drawn. -/
structure rng where
  gen : Nat → Nat
  pos : Nat

/-- One draw from a source. -/
def rng.get_random (r : rng) : Nat × rng := (r.gen r.pos, { r with pos := r.pos + 1 })

/-- The unit (`class unit`), restricted to the members that carry game state. -/
structure unit where
  cfg_ : config
  advances_to_ : List String
  type_ : String
  race_ : String
  id_ : String
  name_ : String
  underlying_id_ : Nat
  type_name_ : String
  undead_variation_ : String
  variation_ : String
  hit_points_ : Int
  max_hit_points_ : Int
  experience_ : Int
  max_experience_ : Int
  level_ : Int
  alignment_ : ALIGNMENT
  flag_rgb_ : String
  image_mods_ : String
  unrenamable_ : Bool
  side_ : Int
  gender_ : GENDER
  alpha_ : Int
  recruits_ : List String
  movement_ : Int
  max_movement_ : Int
  movement_costs_ : List (String × Int)
  defense_mods_ : List (String × Int)
  hold_position_ : Bool
  end_turn_ : Bool
  resting_ : Bool
  attacks_left_ : Int
  max_attacks_ : Int
  states_ : List (String × String)
  variables_ : config
  emit_zoc_ : Bool
  overlays_ : List String
  role_ : String
  ai_special_ : String
  attacks_ : List attack_type
  facing_ : String
  traits_description_ : String
  unit_value_ : Int
  goto_ : location
  flying_ : Bool
  is_fearless_ : Bool
  is_healthy_ : Bool
  refreshing_ : Bool
  hidden_ : Bool
  modifications_ : config
  invisibility_cache_ : List (location × Bool)
  unit_formula_ : String

/-- A side of the game (`class team`, declared in `team.hpp`): whom it fights
and which tiles are fogged to it. -/
structure team where
  is_enemy : Int → Bool
  fogged : location → Bool

/-- The collaborators of `unit.cpp` that are defined elsewhere. -/
structure Env where
  /-- The type registry `unit_type_data::types()`. -/
  types : List (String × unit_type)
  /-- The ids of the race registry `unit_type_data::types().races()`. -/
  races : List String
  /-- The check `validate_side(side)`: whether the side is accepted. -/
  valid_side : Int → Bool
  /-- The name generator `unit::generate_name(rng)`, given the document of the
  unit and the generator it draws from. -/
  generate_name : config → rng → String × rng
  /-- The selection `t.get_gender_unit_type(g).get_variation(v)`. -/
  variant : unit_type → GENDER → String → unit_type
  /-- The conversion `utils::string_bool(str, def)`. -/
  string_bool : String → Bool → Bool
  /-- The conversion `lexical_cast_default<int>(str, def)`. -/
  lexical_cast_int : String → Int → Int
  /-- The conversion of an `int` to its text (`operator<<`, `lexical_cast`). -/
  int_to_string : Int → String
  /-- The C library `atoi`. -/
  atoi : String → Int
  /-- The delta rule `utils::apply_modifier(number, amount, minimum)`. -/
  apply_modifier : Int → String → Int → Int
  /-- The splitter `utils::split`. -/
  split : String → List String
  /-- The joiner `utils::join`. -/
  join : List String → String
  /-- The text of a gender (`gender_string`). -/
  gender_string : GENDER → String
  /-- The gender of a text (`string_gender`). -/
  string_gender : String → GENDER
  /-- The animation tags `unit_animation::all_tag_names()`. -/
  all_tag_names : List String
  /-- The setting `unit_type::experience_accelerator::get_acceleration()`. -/
  exp_accel : Int
  /-- The constructor `attack_type(cfg)`. -/
  attack_of_cfg : config → attack_type
  /-- The update `attack_type::apply_modification(cfg, &desc)`. -/
  attack_apply_modification : attack_type → config → attack_type
  /-- The test `attack_type::matches_filter(cfg, false)`. -/
  attack_matches_filter : attack_type → config → Bool
  /-- The id of an attack (`attack_type::id()`). -/
  attack_id : attack_type → String
  /-- The alias table `map_->underlying_mvt_terrain(terrain)`. -/
  underlying_mvt_terrain : String → List String
  /-- The alias table `map_->underlying_def_terrain(terrain)`. -/
  underlying_def_terrain : String → List String
  /-- The id of a terrain, `map_->get_terrain_info(terrain).id()`. -/
  terrain_id : String → String
  /-- The terrain of a tile, `map_->get_terrain(loc)`. -/
  get_terrain : location → String
  /-- The test `tiles_adjacent(a, b)`. -/
  tiles_adjacent : location → location → Bool
  /-- The sides of the game, `teams_manager::get_teams()`. -/
  teams : List team
  /-- The location filter `terrain_filter(cfg, ..., use_flat_tod).match(loc)`. -/
  terrain_filter_match : config → location → Bool → Bool
  /-- The test `map_->on_board(loc)`. -/
  on_board : location → Bool
  /-- The test `loc.matches_range(x, y)`. -/
  matches_range : location → String → String → Bool
  /-- The test `config::matches` of a written unit against a `filter_wml`. -/
  config_matches : config → config → Bool
  /-- The parser `utils::parse_ranges`. -/
  parse_ranges : String → List (Int × Int)
  /-- The test `in_ranges(value, ranges)`. -/
  in_ranges : Int → List (Int × Int) → Bool
  /-- The parser `gamemap::location::parse_directions`, directions as indices
  into the adjacent tiles. -/
  parse_directions : String → List Nat
  /-- The six tiles around a tile (`get_adjacent_tiles`). -/
  get_adjacent_tiles : location → List location
  /-- The `find_in` clause: whether the stored variable named by the clause
  holds a unit with the given id. -/
  find_in : String → String → Bool
  /-- The `formula` clause: the formula run on the unit at the location. -/
  formula_matches : String → location → unit → Bool
  /-- The ability test `unit::get_ability_bool(ability, loc)` (in
  `unit_abilities.cpp`), which reads the abilities of the unit document. -/
  get_ability_bool : config → String → location → Bool
  /-- The default location `gamemap::location()`, the location of no tile. -/
  null_location : location

/-- The mutable state a routine of the unit can touch: the unit itself, the
process-wide generator behind `get_random()`, the generator of the game state
(`state->rng()`) and the last id handed out by `n_unit::id_manager`. -/
structure St where
  u : unit
  rnd : rng
  game : rng
  ids : Nat

/-- The outcome of a routine that can throw: normal return, or the error with
the state reached when it was raised. -/
inductive Res where
  | ok (s : St)
  | thrown (e : game_error) (s : St)

/-- The state a routine ends in, returned or thrown. -/
def Res.state : Res → St
  | .ok s => s
  | .thrown _ s => s

/-- Whether a routine returned normally. -/
def Res.isOk : Res → Bool
  | .ok _ => true
  | .thrown _ _ => false

/-- The error a routine raised, if any. -/
def Res.error : Res → Option game_error
  | .ok _ => none
  | .thrown e _ => some e

/-- Sequencing of routines: a throw stops the sequence. -/
def Res.andThen (r : Res) (f : St → Res) : Res :=
  match r with
  | .ok s => f s
  | .thrown e s => .thrown e s

/-! ## Accessors and status flags -/

/-- Modelled from the spec: the accessor `type_id()` of `unit.hpp`, the current
type id of the unit. -/
def unit.type_id (u : unit) : String := u.type_

/-- Modelled from the spec: the accessor `can_recruit()` of `unit.hpp`; a unit
can recruit (is a leader) when its `canrecruit` attribute is true. -/
def unit.can_recruit (E : Env) (u : unit) : Bool :=
  E.string_bool (u.cfg_.attr "canrecruit") false

/-- Modelled from the spec: `heal_all()` of `unit.hpp`, which heals the unit to
its full hitpoints. -/
def unit.heal_all (u : unit) : unit := { u with hit_points_ := u.max_hit_points_ }

/-- The lookup `unit::get_state`. -/
def unit.get_state (u : unit) (state : String) : String := smap_get u.states_ state

/-- The update `unit::set_state`: an empty value erases the flag. -/
def unit.set_state (u : unit) (state value : String) : unit :=
  { u with states_ := if value = "" then smap_erase u.states_ state
      else smap_set u.states_ state value }

/-- The resolution `unit::type()`: the registered type of the unit id, narrowed to
the gender and variation of the unit; an error for an unknown non-empty id; no
type (the null pointer) for an empty unknown id. -/
def unit.type (E : Env) (u : unit) : Except game_error (Option unit_type) :=
  match E.types.lookup u.type_id with
  | some t => .ok (some (E.variant t u.gender_ u.variation_))
  | none =>
    if u.type_id ≠ "" then .error (.unknown_unit_type u.type_id) else .ok none

/-! ## Gender and trait generation -/

/-- The routine `unit::generate_gender(type, gen, state)`: it marks the random
gender as used and picks a gender, drawing from the game state when one is given
and from the process-wide generator otherwise. -/
def generate_gender (t : unit_type) (gen : Bool) (state : Bool) (s : St) : GENDER × St :=
  let s1 : St := { s with u := { s.u with cfg_ := s.u.cfg_.set_attr "random_gender" "no" } }
  match t.genders with
  | [] => (GENDER.MALE, s1)
  | g :: gs =>
    if gen then
      if state then
        let r := s1.game.get_random
        (((g :: gs).get? (r.1 % (g :: gs).length)).getD g, { s1 with game := r.2 })
      else
        let r := s1.rnd.get_random
        (((g :: gs).get? (r.1 % (g :: gs).length)).getD g, { s1 with rnd := r.2 })
    else (g, s1)

/-- The inner loop of the first pass of `generate_traits`,
`for(n = 0; n < candidate_traits.size(); ++n)`: the element at `m` is erased when
its id is `id`, otherwise `m` advances.  The bound is read again at every round.
`fuel` bounds the number of rounds; the initial length is always enough. -/
def erase_held_loop (id : String) : Nat → Nat → Nat → List config → List config
  | 0, _, _, cands => cands
  | fuel + 1, n, m, cands =>
    if n < cands.length then
      match cands.get? m with
      | some c =>
        if c.attr "id" = id then erase_held_loop id fuel (n + 1) m (cands.eraseIdx m)
        else erase_held_loop id fuel (n + 1) (m + 1) cands
      | none => cands
    else cands

/-- The first pass of `generate_traits`: for every trait of the ledger the
candidates are scanned by `erase_held_loop`. -/
def erase_held (held : List config) (cands : List config) : List config :=
  held.foldl (fun acc j => erase_held_loop (j.attr "id") acc.length 0 0 acc) cands

/-- The second pass of `generate_traits`, `for(n = 0; n < num_traits; ++n)` with
the bound taken before the loop: a candidate whose availability is `musthave` is
moved to `traits` and counted in `t`.  The result is the remaining candidates,
the traits and the count. -/
def musthave_loop : Nat → Nat → List config → List config → Nat →
    List config × List config × Nat
  | 0, _, cands, traits, t => (cands, traits, t)
  | k + 1, m, cands, traits, t =>
    match cands.get? m with
    | some c =>
      if c.attr "availability" ≠ "" ∧ c.attr "availability" = "musthave" then
        musthave_loop k m (cands.eraseIdx m) (traits ++ [c]) (t + 1)
      else musthave_loop k (m + 1) cands traits t
    | none => (cands, traits, t)

/-- The leader pass of `generate_traits`: a candidate is erased when
`!availability.empty() || availability != "any"`. -/
def leader_loop : Nat → Nat → List config → List config
  | 0, _, cands => cands
  | k + 1, m, cands =>
    match cands.get? m with
    | some c =>
      if c.attr "availability" ≠ "" ∨ c.attr "availability" ≠ "any" then
        leader_loop k m (cands.eraseIdx m)
      else leader_loop k (m + 1) cands
    | none => cands

/-- The random fill of `generate_traits`,
`for(n = t; n < num_traits && !candidate_traits.empty(); ++n)`; `k` is the number
of rounds left, `num_traits - t`.  Each round draws one number, from the game
state when `state` is set. -/
def random_fill (state : Bool) : Nat → List config → List config → rng → rng →
    List config × List config × rng × rng
  | 0, cands, traits, rnd, game => (cands, traits, rnd, game)
  | k + 1, cands, traits, rnd, game =>
    match cands with
    | [] => (cands, traits, rnd, game)
    | c0 :: cs =>
      let r := if state then game.get_random else rnd.get_random
      let num := r.1 % (c0 :: cs).length
      let pick := ((c0 :: cs).get? num).getD c0
      let rnd1 := if state then rnd else r.2
      let game1 := if state then r.2 else game
      random_fill state k ((c0 :: cs).eraseIdx num) (traits ++ [pick]) rnd1 game1

/-- The routine `unit::generate_traits(musthaveonly, state)`. -/
def generate_traits (E : Env) (musthaveonly : Bool) (state : Bool) (s : St) : Res :=
  match E.types.lookup s.u.type_id with
  | none => .thrown (.unknown_unit_type_traits s.u.type_id) s
  | some type =>
    let candidate_traits := type.possible_traits
    let mods := s.u.modifications_.get_children "trait"
    let t0 := mods.length
    let cands1 := erase_held mods candidate_traits
    let r2 := musthave_loop cands1.length 0 cands1 [] t0
    if musthaveonly then
      .ok { s with u := { s.u with
              modifications_ := r2.2.1.foldl (fun m j => m.add_child "trait" j)
                s.u.modifications_ } }
    else
      let cands3 := if s.u.can_recruit E then leader_loop r2.1.length 0 r2.1 else r2.1
      let r4 := random_fill state (type.num_traits - r2.2.2) cands3 r2.2.1 s.rnd s.game
      .ok { u := { s.u with
              cfg_ := s.u.cfg_.set_attr "random_traits" "no"
              modifications_ := r4.2.1.foldl (fun m j => m.add_child "trait" j)
                s.u.modifications_ }
            rnd := r4.2.2.1
            game := r4.2.2.2
            ids := s.ids }

/-- The listing `unit::get_traits_list`: the non-empty ids of the trait records. -/
def unit.get_traits_list (u : unit) : List String :=
  ((u.modifications_.get_children "trait").map (fun j => j.attr "id")).filter (fun i => i ≠ "")

/-! ## The modification merge engine -/

/-- The sections that modifications govern (`mod_childs` of
`reset_modifications`). -/
def mod_childs : List String := ["attacks", "movement_costs", "defense", "resistance", "abilities"]

/-- The kinds of the ledger, in the order of `ModificationTypes`. -/
def ModificationTypes : List String := ["advance", "trait", "object"]

/-- The document `to_merge` of `reset_modifications`: the children of the type
document under the governed tags, tag after tag. -/
def to_merge (t : unit_type) : config :=
  mod_childs.foldl
    (fun acc tag => (t.cfg_.get_children tag).foldl (fun a child => a.add_child tag child) acc)
    config.empty

/-- The body of `reset_modifications` once the type `t` is resolved. -/
def reset_to (t : unit_type) (u : unit) : unit :=
  let cfg1 := mod_childs.foldl (fun c tag => c.clear_children tag) u.cfg_
  let cfg2 := match t.movement_parent with
    | some parent => cfg1.merge_with parent
    | none => cfg1
  { u with
    traits_description_ := ""
    is_fearless_ := false
    is_healthy_ := false
    max_hit_points_ := t.hitpoints
    max_experience_ := t.experience_needed
    max_movement_ := t.movement
    attacks_ := t.attacks
    movement_costs_ := []
    defense_mods_ := []
    cfg_ := cfg2.merge_with (to_merge t) }

/-- The routine `unit::reset_modifications`: nothing happens for a unit without
type; the error of `type()` propagates. -/
def reset_modifications (E : Env) (u : unit) : Except game_error unit :=
  match u.type E with
  | .error e => .error e
  | .ok none => .ok u
  | .ok (some t) => .ok (reset_to t u)

/-- Whether a text ends in a percent sign (`s[s.size()-1] == '%'`). -/
def ends_percent (str : String) : Bool := str.data.getLast? = some '%'

/-- The helper `mod_mdr_merge(dst, mod, delta)`. -/
def mod_mdr_merge (E : Env) (dst mod : config) (delta : Bool) : config :=
  mod.values.foldl
    (fun d p => d.set_attr p.1
      (E.int_to_string ((if delta then E.lexical_cast_int (d.attr p.1) 0 else 0)
        + E.lexical_cast_int p.2 0)))
    dst

/-- The shared body of the `movement_costs`, `defense` and `resistance` effects:
the first section with the tag (added when absent) receives the overlay of the
effect. -/
def merge_section (E : Env) (tag : String) (eff : config) (cfg : config) : config :=
  let cfg1 := if (cfg.child tag).isSome then cfg else cfg.add_child tag config.empty
  match eff.child tag with
  | some ap =>
    cfg1.set_first_child tag
      (mod_mdr_merge E ((cfg1.child tag).getD config.empty) ap
        (!E.string_bool (eff.attr "replace") false))
  | none => cfg1

/-- The test `unit::has_ability_by_id` on the unit document. -/
def has_ability_by_id (cfg : config) (ability : String) : Bool :=
  match cfg.child "abilities" with
  | some abil => abil.children.any (fun p => p.2.attr "id" = ability)
  | none => false

/-- The routine `unit::remove_ability_by_id` on the unit document. -/
def remove_ability_by_id (cfg : config) (ability : String) : config :=
  match cfg.child "abilities" with
  | some abil =>
    cfg.set_first_child "abilities"
      (config.mk abil.values (abil.children.filter (fun p => p.2.attr "id" ≠ ability)))
  | none => cfg

/-- The maximum hitpoints after one `hitpoints` effect: `set_total`, then
`increase_total`, then the floor of one. -/
def hitpoints_new_max (E : Env) (eff : config) (max_hp : Int) : Int :=
  let max1 : Int :=
    if eff.attr "set_total" ≠ "" then
      if ends_percent (eff.attr "set_total") then
        (E.lexical_cast_int (eff.attr "set_total") 0 * max_hp).tdiv 100
      else E.lexical_cast_int (eff.attr "set_total") 0
    else max_hp
  let max2 : Int :=
    if eff.attr "increase_total" ≠ "" then E.apply_modifier max1 (eff.attr "increase_total") 0
    else max1
  if max2 < 1 then 1 else max2

/-- The hitpoints after one `hitpoints` effect: `set` (a percentage is taken of
the maximum before the effect), `heal_full`, `increase`, the cap at the new
maximum unless `violate_maximum` is given, the floor of one. -/
def hitpoints_new_hp (E : Env) (eff : config) (hp max_hp : Int) : Int :=
  let hp1 : Int :=
    if eff.attr "set" ≠ "" then
      if ends_percent (eff.attr "set") then
        (E.lexical_cast_int (eff.attr "set") 0 * max_hp).tdiv 100
      else E.lexical_cast_int (eff.attr "set") 0
    else hp
  let hp2 : Int :=
    if eff.attr "heal_full" ≠ "" ∧ E.string_bool (eff.attr "heal_full") true = true then
      hitpoints_new_max E eff max_hp
    else hp1
  let hp3 : Int :=
    if eff.attr "increase" ≠ "" then E.apply_modifier hp2 (eff.attr "increase") 0 else hp2
  let hp4 : Int :=
    if hp3 > hitpoints_new_max E eff max_hp ∧ eff.attr "violate_maximum" = "" then
      hitpoints_new_max E eff max_hp
    else hp3
  if hp4 < 1 then 1 else hp4

/-- The `hitpoints` effect. -/
def effect_hitpoints (E : Env) (eff : config) (u : unit) : unit :=
  { u with
    hit_points_ := hitpoints_new_hp E eff u.hit_points_ u.max_hit_points_
    max_hit_points_ := hitpoints_new_max E eff u.max_hit_points_ }

/-- The maximum movement after one `movement` effect: `increase` (floor one),
then `set` read by `atoi`. -/
def movement_new_max (E : Env) (eff : config) (max_mv : Int) : Int :=
  let mm1 : Int :=
    if eff.attr "increase" ≠ "" then E.apply_modifier max_mv (eff.attr "increase") 1 else max_mv
  if eff.attr "set" ≠ "" then E.atoi (eff.attr "set") else mm1

/-- The `movement` effect. -/
def effect_movement (E : Env) (eff : config) (u : unit) : unit :=
  { u with
    max_movement_ := movement_new_max E eff u.max_movement_
    movement_ :=
      if u.movement_ > movement_new_max E eff u.max_movement_ then
        movement_new_max E eff u.max_movement_
      else u.movement_ }

/-- The `max_experience` effect. -/
def effect_max_experience (E : Env) (eff : config) (u : unit) : unit :=
  { u with max_experience_ :=
      if eff.attr "increase" ≠ "" then E.apply_modifier u.max_experience_ (eff.attr "increase") 1
      else u.max_experience_ }

/-- The `status` effect. -/
def effect_status (eff : config) (u : unit) : unit :=
  let states1 := if eff.attr "add" ≠ "" then (u.set_state (eff.attr "add") "yes").states_
    else u.states_
  { u with states_ :=
      if eff.attr "remove" ≠ "" then
        (({ u with states_ := states1 } : unit).set_state (eff.attr "remove") "").states_
      else states1 }

/-- The `new_ability` effect on the unit document: the abilities of the effect
that the unit does not have yet (by id) are appended to the first `abilities`
section, which is added when absent. -/
def new_ability_cfg (eff : config) (cfg : config) : config :=
  let cfg1 := if (cfg.child "abilities").isSome then cfg
    else cfg.add_child "abilities" config.empty
  match eff.child "abilities" with
  | some ab_effect =>
    let to_append := config.mk []
      (ab_effect.children.filter (fun p => !has_ability_by_id cfg1 (p.2.attr "id")))
    cfg1.set_first_child "abilities"
      (((cfg1.child "abilities").getD config.empty).append to_append)
  | none => cfg1

/-- The `new_ability` effect. -/
def effect_new_ability (eff : config) (u : unit) : unit :=
  { u with cfg_ := new_ability_cfg eff u.cfg_ }

/-- The `remove_ability` effect on the unit document. -/
def remove_ability_cfg (eff : config) (cfg : config) : config :=
  match eff.child "abilities" with
  | some ab_effect =>
    ab_effect.children.foldl (fun c p => remove_ability_by_id c (p.2.attr "id")) cfg
  | none => cfg

/-- The `remove_ability` effect. -/
def effect_remove_ability (eff : config) (u : unit) : unit :=
  { u with cfg_ := remove_ability_cfg eff u.cfg_ }

/-- The `image_mod` effect. -/
def effect_image_mod (eff : config) (u : unit) : unit :=
  let im1 := if eff.attr "replace" ≠ "" then eff.attr "replace" else u.image_mods_
  { u with image_mods_ := if eff.attr "add" ≠ "" then im1 ++ eff.attr "add" else im1 }

/-- The `profile` effect. -/
def effect_profile (eff : config) (u : unit) : unit :=
  let c1 := if eff.attr "portrait" ≠ "" then u.cfg_.set_attr "profile" (eff.attr "portrait")
    else u.cfg_
  let c2 := if eff.attr "description" ≠ "" then c1.set_attr "description" (eff.attr "description")
    else c1
  { u with cfg_ := c2 }

/-- The `new_attack` effect. -/
def effect_new_attack (E : Env) (eff : config) (u : unit) : unit :=
  { u with attacks_ := u.attacks_ ++ [E.attack_of_cfg eff] }

/-- The `remove_attacks` effect: every attack that matches the filter is erased. -/
def effect_remove_attacks (E : Env) (eff : config) (u : unit) : unit :=
  { u with attacks_ := u.attacks_.filter (fun a => !E.attack_matches_filter a eff) }

/-- The `attack` effect: every attack receives the modification. -/
def effect_attack (E : Env) (eff : config) (u : unit) : unit :=
  { u with attacks_ := u.attacks_.map (fun a => E.attack_apply_modification a eff) }

/-- The `loyal` effect. -/
def effect_loyal (u : unit) : unit := { u with cfg_ := u.cfg_.set_attr "upkeep" "loyal" }

/-- The `movement_costs` effect; it clears the movement-cost cache. -/
def effect_movement_costs (E : Env) (eff : config) (u : unit) : unit :=
  { u with cfg_ := merge_section E "movement_costs" eff u.cfg_, movement_costs_ := [] }

/-- The `defense` effect; it clears the defense cache. -/
def effect_defense (E : Env) (eff : config) (u : unit) : unit :=
  { u with cfg_ := merge_section E "defense" eff u.cfg_, defense_mods_ := [] }

/-- The `resistance` effect. -/
def effect_resistance (E : Env) (eff : config) (u : unit) : unit :=
  { u with cfg_ := merge_section E "resistance" eff u.cfg_ }

/-- The `zoc` effect. -/
def effect_zoc (E : Env) (eff : config) (u : unit) : unit :=
  { u with emit_zoc_ :=
      if eff.attr "value" ≠ "" then E.string_bool (eff.attr "value") false else u.emit_zoc_ }

/-- One round of the `while (times > 0)` body of `add_modification` for every
effect kind that does not re-resolve the type: the chain from `profile` to
`new_animation`.  An unknown kind changes nothing. -/
def apply_effect (E : Env) (eff : config) (u : unit) : unit :=
  if eff.attr "apply_to" = "profile" then effect_profile eff u
  else if eff.attr "apply_to" = "new_attack" then effect_new_attack E eff u
  else if eff.attr "apply_to" = "remove_attacks" then effect_remove_attacks E eff u
  else if eff.attr "apply_to" = "attack" then effect_attack E eff u
  else if eff.attr "apply_to" = "hitpoints" then effect_hitpoints E eff u
  else if eff.attr "apply_to" = "movement" then effect_movement E eff u
  else if eff.attr "apply_to" = "max_experience" then effect_max_experience E eff u
  else if eff.attr "apply_to" = "loyal" then effect_loyal u
  else if eff.attr "apply_to" = "status" then effect_status eff u
  else if eff.attr "apply_to" = "movement_costs" then effect_movement_costs E eff u
  else if eff.attr "apply_to" = "defense" then effect_defense E eff u
  else if eff.attr "apply_to" = "resistance" then effect_resistance E eff u
  else if eff.attr "apply_to" = "zoc" then effect_zoc E eff u
  else if eff.attr "apply_to" = "new_ability" then effect_new_ability eff u
  else if eff.attr "apply_to" = "remove_ability" then effect_remove_ability eff u
  else if eff.attr "apply_to" = "image_mod" then effect_image_mod eff u
  else u

/-- The two filters at the head of the effect loop: the effect is skipped when
its `unit_type` list misses the type id or its `unit_gender` list misses the
gender of the unit. -/
def effect_applies (E : Env) (eff : config) (u : unit) : Bool :=
  (eff.attr "unit_type" = "" || decide (u.type_id ∈ E.split (eff.attr "unit_type"))) &&
  (eff.attr "unit_gender" = "" ||
    decide (E.gender_string u.gender_ ∈ E.split (eff.attr "unit_gender")))

/-- The repeat count of an effect: the level for `times=per level`, else one;
the loop runs while the count is positive. -/
def effect_times (eff : config) (u : unit) : Nat :=
  if eff.attr "times" = "per level" then u.level_.toNat else 1

/-- Iteration of a state update. -/
def iterate_unit (f : unit → unit) : Nat → unit → unit
  | 0, u => u
  | n + 1, u => iterate_unit f n (f u)

/-- The effect loop of `add_modification` when the record is not being added
(`no_add == true`): every effect that passes the filters runs its body `times`
times. -/
def apply_effects (E : Env) (mod : config) (u : unit) : unit :=
  (mod.get_children "effect").foldl
    (fun v eff =>
      if effect_applies E eff v then iterate_unit (apply_effect E eff) (effect_times eff v) v
      else v)
    u

/-- The key of the gender specific name of a trait (`gender_string` in
`apply_modifications`). -/
def gender_name_key (gender : GENDER) : String :=
  if gender = GENDER.FEMALE then "female_name" else "male_name"

/-- The name a trait record takes in `apply_modifications`: the gender specific
name when there is one. -/
def rename_trait (gender : GENDER) (j : config) : config :=
  if j.attr (gender_name_key gender) ≠ "" then j.set_attr "name" (j.attr (gender_name_key gender))
  else j

/-- The first loop of `apply_modifications` on the ledger: every trait record is
renamed in place. -/
def rename_traits (gender : GENDER) (ledger : config) : config :=
  config.mk ledger.values
    (ledger.children.map (fun p => if p.1 = "trait" then (p.1, rename_trait gender p.2) else p))

/-- The names collected by the first loop of `apply_modifications`. -/
def trait_names (gender : GENDER) (traits : List config) : List String :=
  (traits.map (fun j => (rename_trait gender j).attr "name")).filter (fun n => n ≠ "")

/-- The records of the ledger in the order in which `apply_modifications` hands
them to `add_modification`: kind after kind, ledger order inside a kind. -/
def ledger_records (ledger : config) : List (String × config) :=
  ModificationTypes.flatMap (fun mod => (ledger.get_children mod).map (fun j => (mod, j)))

/-- The first loop of `apply_modifications`: the `fearless` and `healthy` traits
are noted and the trait records renamed. -/
def note_traits (u : unit) : unit :=
  { u with
    is_fearless_ := u.is_fearless_ ||
      (u.modifications_.get_children "trait").any (fun j => j.attr "id" = "fearless")
    is_healthy_ := u.is_healthy_ ||
      (u.modifications_.get_children "trait").any (fun j => j.attr "id" = "healthy")
    modifications_ := rename_traits u.gender_ u.modifications_ }

/-- The end of `apply_modifications`: the trait names are appended to the
description and the experience acceleration is applied. -/
def finish_modifications (E : Env) (traits : List String) (u : unit) : unit :=
  { u with
    traits_description_ := u.traits_description_ ++ String.intercalate ", " traits
    max_experience_ := max 1 ((u.max_experience_ * E.exp_accel + 50).tdiv 100) }

/-- The routine `unit::apply_modifications`: after the trait loop every record of
the ledger goes through the effect loop of `add_modification` (called with
`no_add` set), kind after kind. -/
def apply_modifications (E : Env) (u : unit) : unit :=
  finish_modifications E (trait_names u.gender_ (u.modifications_.get_children "trait"))
    ((ledger_records (note_traits u).modifications_).foldl
      (fun v r => apply_effects E r.2 v) (note_traits u))

/-- The first steps of `advance_to` on the unit document: the halo, the
animations, the abilities and the attacks of the old type are removed and the
parent of the movement type is merged in. -/
def advance_cfg_clear (E : Env) (t : unit_type) (cfg : config) : config :=
  let cfg1 := cfg.set_attr "halo" ""
  let cfg2 := E.all_tag_names.foldl (fun c tag => c.clear_children tag) cfg1
  let cfg3 := (cfg2.clear_children "abilities").clear_children "attacks"
  match t.movement_parent with
  | some parent => cfg3.merge_with parent
  | none => cfg3

/-- The profile a unit keeps through `advance_to`: its own, when it has one that
differs from the profile of its current type `ty`. -/
def specific_profile (ty : Option unit_type) (cfg : config) : String :=
  match ty with
  | some ty1 =>
    if cfg.attr "profile" ≠ "" ∧ cfg.attr "profile" ≠ ty1.cfg_.attr "profile" then
      cfg.attr "profile"
    else ""
  | none => ""

/-- The next steps of `advance_to` on the unit document: the document of the new
type is merged in, the specific profile restored, the gender sections and the
`advanceto` key dropped, the description set. -/
def advance_cfg_merge (t : unit_type) (ty : Option unit_type) (cfg : config) : config :=
  let cfg5 := cfg.merge_with t.cfg_
  let cfg6 := if specific_profile ty cfg ≠ "" then cfg5.set_attr "profile" (specific_profile ty cfg)
    else cfg5
  let cfg7 := (cfg6.clear_children "male").clear_children "female"
  (cfg7.erase_attr "advanceto").set_attr "description" t.unit_description

/-- The scalar fields `advance_to` takes from the new type. -/
def advance_fields (t : unit_type) (u : unit) : unit :=
  { u with
    advances_to_ := t.advances_to
    race_ := t.race
    type_name_ := t.type_name
    undead_variation_ := t.undead_variation
    max_experience_ := t.experience_needed
    level_ := t.level
    alignment_ := t.alignment
    alpha_ := t.alpha
    hit_points_ := t.hitpoints
    max_hit_points_ := t.hitpoints
    max_movement_ := t.movement
    emit_zoc_ := t.has_zoc
    attacks_ := t.attacks
    unit_value_ := t.cost
    flying_ := t.is_flying
    max_attacks_ := t.max_attacks
    flag_rgb_ := t.flag_rgb }

/-- The unit of `advance_to` once the type is resolved: the document rebuilt
and the scalar fields taken from the new type `t`; `ty` is the current type of
the unit. -/
def advance_prepare (E : Env) (t : unit_type) (ty : Option unit_type) (u1 : unit) : unit :=
  advance_fields t
    { u1 with cfg_ := advance_cfg_merge t ty (advance_cfg_clear E t u1.cfg_) }

/-- The gender step of `advance_to`: with `random_gender` set a gender is drawn,
without a game state, and written to the `gender` key of the document. -/
def advance_gender (E : Env) (t : unit_type) (s : St) : St :=
  if E.string_bool (s.u.cfg_.attr "random_gender") false then
    let r := generate_gender t true false s
    { r.2 with u := { r.2.u with cfg_ := r.2.u.cfg_.set_attr "gender" (E.gender_string r.1) } }
  else s

/-- The type step of `advance_to`: a new type id is taken over. -/
def advance_type (t : unit_type) (s : St) : St :=
  if s.u.type_id ≠ t.id then { s with u := { s.u with type_ := t.id } } else s

/-- The trait step of `advance_to`. -/
def advance_traits (E : Env) (use_traits : Bool) (state : Bool) (s : St) : Res :=
  if E.string_bool (s.u.cfg_.attr "random_traits") true then
    generate_traits E (!use_traits) state s
  else generate_traits E true false s

/-- The last steps of `advance_to`: the ledger is applied, the unit healed when
its type changed, the transient statuses and flags cleared. -/
def advance_finish (E : Env) (do_heal : Bool) (u : unit) : unit :=
  let u6 := apply_modifications E u
  let u7 := if do_heal then u6.heal_all else u6
  let u8 := ((u7.set_state "poisoned" "").set_state "slowed" "").set_state "stoned" ""
  { u8 with end_turn_ := false, refreshing_ := false, hidden_ := false }

/-- The routine `unit::advance_to(t, use_traits, state)`. -/
def advance_to (E : Env) (t0 : unit_type) (use_traits : Bool) (state : Bool) (s : St) : Res :=
  let t := E.variant t0 s.u.gender_ s.u.variation_
  match reset_modifications E s.u with
  | .error e => .thrown e s
  | .ok u1 =>
    let cfg4 := advance_cfg_clear E t u1.cfg_
    match u1.type E with
    | .error e => .thrown e { s with u := { u1 with cfg_ := cfg4 } }
    | .ok ty =>
      let s3 := advance_gender E t { s with u := advance_prepare E t ty u1 }
      let do_heal : Bool := decide (s3.u.type_id ≠ t.id)
      (advance_traits E use_traits state (advance_type t s3)).andThen (fun s5 =>
        .ok { s5 with u := advance_finish E do_heal s5.u })

/-- One round of the `while (times > 0)` body of `add_modification`: the
`variation` and `type` effects re-resolve the unit when the record is being added;
every other case is `apply_effect`. -/
def effect_round (E : Env) (no_add : Bool) (eff : config) (s : St) : Res :=
  if eff.attr "apply_to" = "variation" ∧ no_add = false then
    let u1 : unit := { s.u with variation_ := eff.attr "name" }
    match u1.type E with
    | .error e => .thrown e { s with u := u1 }
    | .ok none => .thrown .null_type { s with u := u1 }
    | .ok (some t) => advance_to E t false false { s with u := u1 }
  else if eff.attr "apply_to" = "type" ∧ no_add = false then
    let u1 : unit := { s.u with type_ := eff.attr "name" }
    match u1.type E with
    | .error e => .thrown e { s with u := u1 }
    | .ok none => .thrown .null_type { s with u := u1 }
    | .ok (some t) =>
      (advance_to E t false false { s with u := u1 }).andThen (fun s2 =>
        .ok { s2 with u := { s2.u with
                hit_points_ := s.u.hit_points_
                experience_ := s.u.experience_
                movement_ := s.u.movement_ } })
  else .ok { s with u := apply_effect E eff s.u }

/-- The loop `while (times > 0)` of `add_modification`. -/
def effect_rounds (E : Env) (no_add : Bool) (eff : config) : Nat → St → Res
  | 0, s => .ok s
  | n + 1, s => (effect_round E no_add eff s).andThen (effect_rounds E no_add eff n)

/-- The routine `unit::add_modification(type, mod, no_add)`. -/
def add_modification (E : Env) (type : String) (mod : config) (no_add : Bool) (s : St) : Res :=
  let s1 : St :=
    if no_add = false then
      { s with u := { s.u with modifications_ := s.u.modifications_.add_child type mod } }
    else s
  (mod.get_children "effect").foldl
    (fun r eff => r.andThen (fun s2 =>
      if effect_applies E eff s2.u then effect_rounds E no_add eff (effect_times eff s2.u) s2
      else .ok s2))
    (.ok s1)

/-! ## Turn, level and healing -/

/-- Modelled from the spec: the accessor `total_movement()` of `unit.hpp`, the
maximum movement of the unit. -/
def unit.total_movement (u : unit) : Int := u.max_movement_

/-- Modelled from the spec: the accessor `max_hitpoints()` of `unit.hpp`, the
maximum hitpoints of the unit. -/
def unit.max_hitpoints (u : unit) : Int := u.max_hit_points_

/-- The routine `unit::new_turn`. -/
def new_turn (u : unit) : unit :=
  let u1 : unit :=
    ({ u with end_turn_ := false, movement_ := u.total_movement,
              attacks_left_ := u.max_attacks_ } : unit).set_state "hidden" "yes"
  if u1.hold_position_ then { u1 with end_turn_ := true } else u1

/-- The test of `remove_temporary_modifications` on a record of the ledger: its
duration is neither `forever` nor empty. -/
def is_temporary (m : config) : Bool :=
  decide (m.attr "duration" ≠ "forever" ∧ m.attr "duration" ≠ "")

/-- The inner loop of `remove_temporary_modifications` for one kind,
`for(j = 0; j != mods.size(); ++j)`, `mods` being a reference into the ledger:
a temporary record is removed and the index stays (`--j` followed by `++j`),
otherwise the index advances.  `fuel` bounds the number of rounds; one more than
the number of records of the kind is always enough. -/
def remove_temporary_loop (mod : String) : Nat → Nat → config → config
  | 0, _, ledger => ledger
  | fuel + 1, j, ledger =>
    if j = (ledger.get_children mod).length then ledger
    else
      match (ledger.get_children mod).get? j with
      | none => ledger
      | some m =>
        if is_temporary m then remove_temporary_loop mod fuel j (ledger.remove_child mod j)
        else remove_temporary_loop mod fuel (j + 1) ledger

/-- The routine `unit::remove_temporary_modifications`: the loop runs for the
three kinds in the order of `ModificationTypes`. -/
def remove_temporary_modifications (u : unit) : unit :=
  { u with modifications_ :=
      (ModificationTypes.foldl
        (fun ledger mod =>
          remove_temporary_loop mod ((ledger.get_children mod).length + 1) 0 ledger)
        u.modifications_) }

/-- The routine `unit::new_level`; the error of `type()` inside
`reset_modifications` is passed on. -/
def new_level (E : Env) (u : unit) : Except game_error unit :=
  (reset_modifications E
      (remove_temporary_modifications { u with ai_special_ := "", goto_ := E.null_location })).map
    (fun u2 =>
      (((apply_modifications E u2).heal_all.set_state "slowed" "").set_state "poisoned"
        "").set_state "stoned" "")

/-- The routine `unit::heal(amount)`. -/
def heal (u : unit) (amount : Int) : unit :=
  let hp1 : Int :=
    if u.hit_points_ < u.max_hitpoints then
      (if u.hit_points_ + amount > u.max_hitpoints then u.max_hitpoints
       else u.hit_points_ + amount)
    else u.hit_points_
  { u with hit_points_ := if hp1 < 1 then 1 else hp1 }

/-! ## Serialisation -/

/-- The routine `unit::set_underlying_id`: a unit without id takes the next id
of the id manager. -/
def set_underlying_id (s : St) : St :=
  if s.u.underlying_id_ = 0 then
    { s with u := { s.u with underlying_id_ := s.ids + 1 }, ids := s.ids + 1 }
  else s

/-- The text of an alignment written by `unit::write`. -/
def alignment_string (a : ALIGNMENT) : String :=
  match a with
  | .LAWFUL => "lawful"
  | .NEUTRAL => "neutral"
  | .CHAOTIC => "chaotic"

/-- Assignment of a list of attributes, in order. -/
def set_attrs (c : config) (kvs : List (String × String)) : config :=
  kvs.foldl (fun d p => d.set_attr p.1 p.2) c

/-- The routine `unit::write(cfg)`: the document `cfg` after the unit was written
into it.  The `ai_vars` section of formula variables is not embedded. -/
def unit.write (E : Env) (u : unit) (cfg : config) : config :=
  let c1 := ((cfg.append u.cfg_).set_attr "x" (cfg.attr "x")).set_attr "y" (cfg.attr "y")
  let ut : Option unit_type :=
    (E.types.lookup u.type_id).map (fun t => E.variant t u.gender_ u.variation_)
  let c2 := match ut with
    | some t => if c1.attr "description" = t.unit_description then c1.set_attr "description" "" else c1
    | none => c1
  let c3 := set_attrs c2
    [("hitpoints", E.int_to_string u.hit_points_),
     ("max_hitpoints", E.int_to_string u.max_hit_points_),
     ("experience", E.int_to_string u.experience_),
     ("max_experience", E.int_to_string u.max_experience_),
     ("side", E.int_to_string u.side_),
     ("type", u.type_id)]
  let c4 := if u.unit_formula_ ≠ "" then c3.set_attr "formula" u.unit_formula_ else c3
  let c5 := set_attrs c4
    [("gender", E.gender_string u.gender_),
     ("variation", u.variation_),
     ("role", u.role_),
     ("ai_special", u.ai_special_),
     ("flying", if u.flying_ then "yes" else "no")]
  let c6 := ((c5.clear_children "variables").add_child "variables" u.variables_)
  let c7 := ((c6.clear_children "status").add_child "status"
    (config.mk (smap_assign [] u.states_) []))
  let c8 := set_attrs c7
    [("overlays", E.join u.overlays_),
     ("name", u.name_),
     ("id", u.id_),
     ("underlying_id", E.int_to_string u.underlying_id_)]
  let c9 := if u.can_recruit E then c8.set_attr "canrecruit" "yes" else c8
  let c10 := set_attrs c9
    [("facing", u.facing_),
     ("goto_x", E.int_to_string (u.goto_.x + 1)),
     ("goto_y", E.int_to_string (u.goto_.y + 1)),
     ("moves", E.int_to_string u.movement_),
     ("max_moves", E.int_to_string u.max_movement_),
     ("resting", if u.resting_ then "yes" else "no"),
     ("advances_to", E.join u.advances_to_),
     ("race", u.race_),
     ("language_name", u.type_name_),
     ("undead_variation", u.undead_variation_),
     ("variation", u.variation_),
     ("level", E.int_to_string u.level_),
     ("alignment", alignment_string u.alignment_),
     ("flag_rgb", u.flag_rgb_),
     ("unrenamable", if u.unrenamable_ then "yes" else "no"),
     ("alpha", E.int_to_string u.alpha_),
     ("recruits", E.join u.recruits_),
     ("attacks_left", E.int_to_string u.attacks_left_),
     ("max_attacks", E.int_to_string u.max_attacks_),
     ("zoc", if u.emit_zoc_ then "yes" else "no")]
  let c11 := u.attacks_.foldl (fun c a => c.add_child "attack" a.cfg_) (c10.clear_children "attack")
  let c12 := c11.set_attr "cost" (E.int_to_string u.unit_value_)
  (c12.clear_children "modifications").add_child "modifications" u.modifications_

/-- The replacement of a section by the sections of the input document of
`read`: when `cfg` has children with the tag they are appended into one fresh
child of the unit document. -/
def adopt_section (tag : String) (cfg : config) (own : config) : config :=
  match cfg.get_children tag with
  | [] => own
  | c :: cs =>
    (own.clear_children tag).add_child tag ((c :: cs).foldl (fun t x => t.append x) config.empty)

/-- The stage of `unit::read` between the choice of the gender and the call of
`advance_to`: the fields copied from the document `cfg`. -/
def read_head (E : Env) (cfg : config) (u : unit) : unit :=
  let cfg1 := if (cfg.child "variables").isSome then u.cfg_.remove_child "variables" 0
    else u.cfg_
  let cfg2 := if (cfg.child "modifications").isSome then cfg1.remove_child "modifications" 0
    else cfg1
  { u with
    cfg_ := cfg2
    variation_ := cfg.attr "variation"
    id_ := if cfg.attr "id" = "" then cfg.attr "type" else cfg.attr "id"
    name_ := cfg.attr "name"
    underlying_id_ := (E.lexical_cast_int (cfg.attr "underlying_id") 0).toNat
    role_ := cfg.attr "role"
    ai_special_ := cfg.attr "ai_special"
    overlays_ := if E.split (cfg.attr "overlays") = [""] then [] else E.split (cfg.attr "overlays")
    variables_ := (cfg.child "variables").getD config.empty
    facing_ := if cfg.attr "facing" ∈ ["n", "ne", "se", "s", "sw", "nw"] then cfg.attr "facing"
      else "se"
    recruits_ := if E.split (cfg.attr "recruits") = [""] then [] else E.split (cfg.attr "recruits")
    modifications_ := (cfg.child "modifications").getD u.modifications_ }

/-- The last stage of `unit::read`, after the call of `advance_to`: the values of
the document override what the type and the ledger gave. -/
def read_tail (E : Env) (cfg : config) (u : unit) : unit :=
  let max_attacks : Int :=
    if cfg.attr "max_attacks" ≠ "" then max 0 (E.lexical_cast_int (cfg.attr "max_attacks") 1)
    else u.max_attacks_
  let attacks_left : Int := max 0 (E.lexical_cast_int (cfg.attr "attacks_left") max_attacks)
  let max_hit_points : Int := max 1 (E.lexical_cast_int (cfg.attr "max_hitpoints") u.max_hit_points_)
  let max_movement : Int := max 0 (E.lexical_cast_int (cfg.attr "max_moves") u.max_movement_)
  let max_experience : Int := max 1 (E.lexical_cast_int (cfg.attr "max_experience") u.max_experience_)
  let temp_advances := E.split (cfg.attr "advances_to")
  let cfgA := if cfg.attr "description" ≠ "" then u.cfg_.set_attr "description" (cfg.attr "description")
    else u.cfg_
  let cfgB := if cfg.attr "profile" ≠ "" then cfgA.set_attr "profile" (cfg.attr "profile") else cfgA
  let cfgC := (cfgB.clear_children "ai_vars").clear_children "attack"
  let cfgD := adopt_section "resistance" cfg
    (adopt_section "movement_costs" cfg (adopt_section "defense" cfg (adopt_section "abilities" cfg cfgC)))
  let status_flags := cfg.child "status"
  let cfgE := if status_flags.isSome then cfgD.remove_child "status" 0 else cfgD
  let states1 := match status_flags with
    | some st => smap_assign u.states_ st.values
    | none => u.states_
  let states2 := if cfg.attr "ai_special" = "guardian" then smap_set states1 "guardian" "yes"
    else states1
  let cfgF := E.all_tag_names.foldl (fun c tag => c.clear_children tag) cfgE
  let moves := E.lexical_cast_int (cfg.attr "moves") 0
  { u with
    race_ := if cfg.attr "race" ≠ "" then (if cfg.attr "race" ∈ E.races then cfg.attr "race" else "")
      else u.race_
    level_ := E.lexical_cast_int (cfg.attr "level") u.level_
    undead_variation_ := if cfg.attr "undead_variation" ≠ "" then cfg.attr "undead_variation"
      else u.undead_variation_
    max_attacks_ := max_attacks
    attacks_left_ := if cfg.attr "moves" ≠ "" ∧ moves < 0 then 0 else attacks_left
    alpha_ := if cfg.attr "alpha" ≠ "" then E.lexical_cast_int (cfg.attr "alpha") 0 else u.alpha_
    emit_zoc_ := if cfg.attr "zoc" ≠ "" then E.string_bool (cfg.attr "zoc") false else u.emit_zoc_
    flying_ := if cfg.attr "flying" ≠ "" then E.string_bool (cfg.attr "flying") false else u.flying_
    unit_value_ := if cfg.attr "cost" ≠ "" then E.lexical_cast_int (cfg.attr "cost") 0
      else u.unit_value_
    max_hit_points_ := max_hit_points
    max_movement_ := max_movement
    max_experience_ := max_experience
    advances_to_ :=
      if temp_advances = ["null"] then []
      else if temp_advances.length ≥ 1 ∧ temp_advances.head? ≠ some "" then temp_advances
      else u.advances_to_
    unit_formula_ := cfg.attr "formula"
    attacks_ := match cfg.get_children "attack" with
      | [] => u.attacks_
      | a :: rest => (a :: rest).map E.attack_of_cfg
    defense_mods_ := if (cfg.get_children "defense").isEmpty then u.defense_mods_ else []
    movement_costs_ := if (cfg.get_children "movement_costs").isEmpty then u.movement_costs_ else []
    states_ := states2
    cfg_ := cfgF
    hit_points_ := if cfg.attr "hitpoints" ≠ "" then E.lexical_cast_int (cfg.attr "hitpoints") 0
      else max_hit_points
    goto_ := ⟨E.lexical_cast_int (cfg.attr "goto_x") 0 - 1, E.lexical_cast_int (cfg.attr "goto_y") 0 - 1⟩
    movement_ := if cfg.attr "moves" ≠ "" then (if moves < 0 then 0 else moves) else max_movement
    experience_ := E.lexical_cast_int (cfg.attr "experience") 0
    resting_ := E.string_bool (cfg.attr "resting") false
    unrenamable_ := E.string_bool (cfg.attr "unrenamable") false
    alignment_ :=
      if cfg.attr "alignment" = "lawful" then ALIGNMENT.LAWFUL
      else if cfg.attr "alignment" = "neutral" then ALIGNMENT.NEUTRAL
      else if cfg.attr "alignment" = "chaotic" then ALIGNMENT.CHAOTIC
      else if cfg.attr "type" = "" then ALIGNMENT.NEUTRAL
      else u.alignment_ }

/-- The closing steps of `unit::read`: the generated name and the default
upkeep. -/
def read_finish (E : Env) (cfg : config) (state : Bool) (s : St) : St :=
  let s1 : St :=
    if E.string_bool (cfg.attr "generate_name") false then
      let r := E.generate_name s.u.cfg_ (if state then s.game else s.rnd)
      { u := { s.u with name_ := r.1, cfg_ := s.u.cfg_.set_attr "generate_name" "" }
        rnd := if state then s.rnd else r.2
        game := if state then r.2 else s.game
        ids := s.ids }
    else s
  if s1.u.cfg_.attr "upkeep" = "" then
    { s1 with u := { s1.u with cfg_ := s1.u.cfg_.set_attr "upkeep" "full" } }
  else s1

/-- The type of the unit as a routine that throws: the null pointer of a unit
without type id is an error for a caller that dereferences it. -/
def type_or_throw (E : Env) (s : St) : Except (game_error × St) unit_type :=
  match s.u.type E with
  | .error e => .error (e, s)
  | .ok none => .error (.null_type, s)
  | .ok (some t) => .ok t

/-- The first part of `unit::read(cfg, use_traits, state)`, up to and including
its call of `advance_to`: the type id, the document and the side are taken from
`cfg`, the gender is read or drawn, the fields of `read_head` are copied and the
unit advances to its type, which applies the ledger read from `cfg`. -/
def read_advance (E : Env) (cfg : config) (use_traits : Bool) (state : Bool) (s : St) : Res :=
  if cfg.attr "type" = "" then .thrown .load_game_failed s
  else
    let side := E.lexical_cast_int (cfg.attr "side") 0
    let s0 : St := { s with u := { s.u with
      type_ := cfg.attr "type"
      cfg_ := cfg
      side_ := if side ≤ 0 then 1 else side } }
    if E.valid_side s0.u.side_ = false then .thrown .invalid_side s0
    else
      let s1 : St := { s0 with u := { s0.u with hit_points_ := 1 } }
      let g : Except (game_error × St) St :=
        if cfg.attr "gender" = "" then
          match type_or_throw E s1 with
          | .error e => .error e
          | .ok t =>
            let r := generate_gender t (E.string_bool (s1.u.cfg_.attr "random_gender") false) state s1
            .ok { r.2 with u := { r.2.u with gender_ := r.1 } }
        else .ok { s1 with u := { s1.u with gender_ := E.string_gender (cfg.attr "gender") } }
      match g with
      | .error e => .thrown e.1 e.2
      | .ok s2 =>
        let s3 : St := set_underlying_id { s2 with u := read_head E cfg s2.u }
        match type_or_throw E s3 with
        | .error e => .thrown e.1 e.2
        | .ok t => advance_to E t use_traits state s3

/-- The routine `unit::read(cfg, use_traits, state)`: after `advance_to` the
values of the document are written over what the type and the ledger gave. -/
def read (E : Env) (cfg : config) (use_traits : Bool) (state : Bool) (s : St) : Res :=
  (read_advance E cfg use_traits state s).andThen (fun s4 =>
    .ok (read_finish E cfg state { s4 with u := read_tail E cfg s4.u }))

/-! ## The terrain-cost caches -/

/-- Modelled from the spec: the composition operator PLUS of `t_translation`
(the terrain code written `+`). -/
def PLUS : String := "+"

/-- Modelled from the spec: the composition operator MINUS of `t_translation`
(the terrain code written `-`). -/
def MINUS : String := "-"

/-- The insertion `std::map::insert`: an existing entry is kept. -/
def cache_insert (cache : List (String × Int)) (terrain : String) (value : Int) :
    List (String × Int) :=
  if (cache.lookup terrain).isSome then cache else cache ++ [(terrain, value)]

/-- The loop over the underlying terrains of an alias, shared by
`movement_cost_internal` and `defense_modifier`: an operator sets `revert`, any
other entry is resolved by `resolve` (the recursive call, which may extend the
cache) and replaces `ret_value` when it is smaller (`!revert`) or larger
(`revert`). -/
def alias_loop (resolve : String → List (String × Int) → Option (Int × List (String × Int))) :
    List String → Bool → Int → List (String × Int) → Option (Int × List (String × Int))
  | [], _, ret_value, cache => some (ret_value, cache)
  | i :: rest, revert, ret_value, cache =>
    if i = PLUS then alias_loop resolve rest false ret_value cache
    else if i = MINUS then alias_loop resolve rest true ret_value cache
    else
      match resolve i cache with
      | none => none
      | some (value, cache1) =>
        if value < ret_value ∧ revert = false then alias_loop resolve rest revert value cache1
        else if value > ret_value ∧ revert = true then alias_loop resolve rest revert value cache1
        else alias_loop resolve rest revert ret_value cache1

/-- The sentinel `impassable` of `movement_cost_internal`. -/
def impassable : Int := 10000000

/-- The body of `unit::movement_cost_internal` on the cache; `cfg` is the unit
document.  `fuel` bounds the nesting of the recursion, which the guard
`recurse_count >= 100` already bounds; a failed assertion gives `none`. -/
def movement_cost_aux (E : Env) (cfg : config) :
    Nat → String → Int → List (String × Int) → Option (Int × List (String × Int))
  | 0, _, _, _ => none
  | fuel + 1, terrain, recurse_count, cache =>
    match cache.lookup terrain with
    | some v => some (v, cache)
    | none =>
      match E.underlying_mvt_terrain terrain with
      | [] => none
      | front :: others =>
        if (front :: others).length ≠ 1 ∨ front ≠ terrain then
          if recurse_count ≥ 100 then some (impassable, cache)
          else
            match alias_loop (fun i c => movement_cost_aux E cfg fuel i (recurse_count + 1) c)
                (front :: others) (decide (front = MINUS))
                (if front = MINUS then 0 else impassable) cache with
            | none => none
            | some (ret_value, cache1) => some (ret_value, cache_insert cache1 terrain ret_value)
        else
          let res : Int :=
            match cfg.child "movement_costs" with
            | some movement_costs =>
              if movement_costs.attr (E.terrain_id front) ≠ "" then
                E.atoi (movement_costs.attr (E.terrain_id front))
              else -1
            | none => -1
          let res1 : Int := if res ≤ 0 then impassable else res
          some (res1, cache_insert cache terrain res1)

/-- The value `movement_cost_internal` computes for a base terrain (one that
stands for itself alone): the entry of the `movement_costs` section, and the
sentinel when there is none or it is not positive. -/
def movement_base (E : Env) (cfg : config) (front : String) : Int :=
  let res : Int :=
    match cfg.child "movement_costs" with
    | some movement_costs =>
      if movement_costs.attr (E.terrain_id front) ≠ "" then
        E.atoi (movement_costs.attr (E.terrain_id front))
      else -1
    | none => -1
  if res ≤ 0 then impassable else res

/-- The fuel that covers every nesting the guard allows from `recurse_count`. -/
def alias_fuel (recurse_count : Int) : Nat := (100 - recurse_count).toNat + 1

/-- The routine `unit::movement_cost_internal(terrain, recurse_count)`: the cost
and the unit with its updated movement-cost cache. -/
def movement_cost_internal (E : Env) (u : unit) (terrain : String) (recurse_count : Int) :
    Option (Int × unit) :=
  (movement_cost_aux E u.cfg_ (alias_fuel recurse_count) terrain recurse_count u.movement_costs_).map
    (fun r => (r.1, { u with movement_costs_ := r.2 }))

/-- The routine `unit::movement_cost(terrain)`: the `slowed` status doubles the
result. -/
def movement_cost (E : Env) (u : unit) (terrain : String) : Option (Int × unit) :=
  (movement_cost_internal E u terrain 0).map
    (fun r => (if E.string_bool (u.get_state "slowed") false then r.1 * 2 else r.1, r.2))

/-- The body of `unit::defense_modifier` on the cache. -/
def defense_modifier_aux (E : Env) (cfg : config) :
    Nat → String → Int → List (String × Int) → Option (Int × List (String × Int))
  | 0, _, _, _ => none
  | fuel + 1, terrain, recurse_count, cache =>
    match cache.lookup terrain with
    | some v => some (v, cache)
    | none =>
      match E.underlying_def_terrain terrain with
      | [] => none
      | front :: others =>
        if (front :: others).length ≠ 1 ∨ front ≠ terrain then
          if recurse_count ≥ 100 then some (100, cache)
          else
            match alias_loop (fun i c => defense_modifier_aux E cfg fuel i (recurse_count + 1) c)
                (front :: others) (decide (front = MINUS))
                (if front = MINUS then 0 else 100) cache with
            | none => none
            | some (ret_value, cache1) => some (ret_value, cache_insert cache1 terrain ret_value)
        else
          let res : Int :=
            match cfg.child "defense" with
            | some defense =>
              if defense.attr (E.terrain_id front) ≠ "" then
                E.atoi (defense.attr (E.terrain_id front))
              else -1
            | none => -1
          let res1 : Int := if res < 0 then 0 else res
          some (res1, cache_insert cache terrain res1)

/-- The value `defense_modifier` computes for a base terrain: the entry of the
`defense` section, and zero when there is none or it is negative. -/
def defense_base (E : Env) (cfg : config) (front : String) : Int :=
  let res : Int :=
    match cfg.child "defense" with
    | some defense =>
      if defense.attr (E.terrain_id front) ≠ "" then
        E.atoi (defense.attr (E.terrain_id front))
      else -1
    | none => -1
  if res < 0 then 0 else res

/-- The routine `unit::defense_modifier(terrain, recurse_count)`: the modifier
and the unit with its updated defense cache. -/
def defense_modifier (E : Env) (u : unit) (terrain : String) (recurse_count : Int) :
    Option (Int × unit) :=
  (defense_modifier_aux E u.cfg_ (alias_fuel recurse_count) terrain recurse_count u.defense_mods_).map
    (fun r => (r.1, { u with defense_mods_ := r.2 }))

/-! ## The concealment engine -/

/-- The units alive and the process-wide registry `units_with_cache`.  A unit is
named by its address; `heap` gives the unit at an address. -/
structure world where
  heap : List (Nat × unit)
  units_with_cache : List Nat

/-- Store of a unit at an address. -/
def heap_set : List (Nat × unit) → Nat → unit → List (Nat × unit)
  | [], _, _ => []
  | (a, v) :: rest, self, u => if a = self then (a, u) :: rest else (a, v) :: heap_set rest self u

/-- The element `teams[side_-1]`; none when the index is out of range. -/
def team_of (teams : List team) (side : Int) : Option team :=
  if 1 ≤ side then teams.get? (side - 1).toNat else none

/-- The loop of `unit::invisible` over the unit map, entered with `is_inv` true:
an adjacent enemy defeats the concealment at once when `see_all` is set, and
otherwise when its tile is not fogged and `recurse` (the call
`u->second.invisible(u->first, units, teams, true)`) finds it visible.  The
result is the final `is_inv` and the world left by the nested calls. -/
def spot_loop (E : Env) (recurse : Nat → location → world → Option (Bool × world))
    (teams : List team) (side : Int) (loc : location) (see_all : Bool) :
    List (location × Nat) → world → Option (Bool × world)
  | [], W => some (true, W)
  | (l, a) :: rest, W =>
    match team_of teams side, W.heap.lookup a with
    | some tm, some v =>
      if tm.is_enemy v.side_ && E.tiles_adjacent loc l then
        if see_all then some (false, W)
        else if tm.fogged l then spot_loop E recurse teams side loc see_all rest W
        else
          match recurse a l W with
          | none => none
          | some (inv, W1) =>
            if inv then spot_loop E recurse teams side loc see_all rest W1
            else some (false, W1)
      else spot_loop E recurse teams side loc see_all rest W
    | _, _ => none

/-- The cache write at the end of `unit::invisible`: a unit whose cache is empty
is entered into the registry, and the verdict is stored under the location. -/
def write_visibility (W : world) (self : Nat) (u1 : unit) (loc : location) (is_inv : Bool) :
    world :=
  { heap := heap_set W.heap self
      { u1 with invisibility_cache_ :=
          u1.invisibility_cache_.filter (fun p => p.1 ≠ loc) ++ [(loc, is_inv)] }
    units_with_cache :=
      if u1.invisibility_cache_.isEmpty then W.units_with_cache ++ [self]
      else W.units_with_cache }

/-- The body of `unit::invisible` for the unit at address `self`; `recurse` is
the nested call with `see_all = true`. -/
def invisible_body (E : Env) (recurse : Nat → location → world → Option (Bool × world))
    (W : world) (self : Nat) (loc : location) (units : List (location × Nat))
    (teams : List team) (see_all : Bool) : Option (Bool × world) :=
  match W.heap.lookup self with
  | none => none
  | some u =>
    match (if see_all then u.invisibility_cache_.lookup loc else none) with
    | some cached => some (cached, W)
    | none =>
      let r : Option (Bool × world) :=
        if E.string_bool (u.get_state "hidden") false && E.get_ability_bool u.cfg_ "hides" loc then
          spot_loop E recurse teams u.side_ loc see_all units W
        else some (false, W)
      match r with
      | none => none
      | some (is_inv, W1) =>
        if see_all then
          match W1.heap.lookup self with
          | none => none
          | some u1 => some (is_inv, write_visibility W1 self u1 loc is_inv)
        else some (is_inv, W1)

/-- The all-seeing check `invisible(loc, units, teams, true)`; it makes no nested
call. -/
def invisible_all (E : Env) (units : List (location × Nat)) (teams : List team)
    (self : Nat) (loc : location) (W : world) : Option (Bool × world) :=
  invisible_body E (fun _ _ _ => none) W self loc units teams true

/-- The routine `unit::invisible(loc, units, teams, see_all)` for the unit at
address `self`: whether it is concealed, and the world with the caches written.
`none` stands for an access outside `teams` or to a unit that is not alive. -/
def invisible (E : Env) (W : world) (self : Nat) (loc : location)
    (units : List (location × Nat)) (teams : List team) (see_all : Bool) :
    Option (Bool × world) :=
  invisible_body E (invisible_all E units teams) W self loc units teams see_all

/-- The routine `unit::clear_visibility_cache` of `unit.hpp`. -/
def clear_visibility_cache (u : unit) : unit := { u with invisibility_cache_ := [] }

/-- The routine `unit::ambush` for the unit at address `self`. -/
def ambush (W : world) (self : Nat) : world :=
  { heap := match W.heap.lookup self with
      | some u => heap_set W.heap self (clear_visibility_cache u)
      | none => W.heap
    units_with_cache := W.units_with_cache.erase self }

/-- The routine `unit::clear_status_caches`: the cache of every registered unit
is emptied, in registry order, and the registry is cleared. -/
def clear_status_caches (W : world) : world :=
  { heap := W.units_with_cache.foldl
      (fun h a =>
        match h.lookup a with
        | some u => heap_set h a (clear_visibility_cache u)
        | none => h)
      W.heap
    units_with_cache := [] }

/-- The copy constructor `unit::unit(const unit& o)`, building the copy of the
unit at `src` at the address `dst`: every embedded field is copied except the
invisibility cache, which starts empty; the registry is not touched. -/
def copy_construct (W : world) (src dst : Nat) : world :=
  match W.heap.lookup src with
  | some o => { W with heap := W.heap ++ [(dst, { o with invisibility_cache_ := [] })] }
  | none => W

/-- The destructor `unit::~unit` for the unit at address `self`: the unit leaves
the registry, when it is listed, and is no longer alive. -/
def destroy (W : world) (self : Nat) : world :=
  { heap := W.heap.filter (fun p => p.1 ≠ self)
    units_with_cache := W.units_with_cache.erase self }

/-- The routine `unit::invisible` with its recursion left open: the nested call
is `invisible(u->first, units, teams, true)` on another unit of the map.  `fuel`
bounds the nesting of the calls. -/
def invisible_fuel (E : Env) (units : List (location × Nat)) (teams : List team) :
    Nat → world → Nat → location → Bool → Option (Bool × world)
  | 0, _, _, _, _ => none
  | fuel + 1, W, self, loc, see_all =>
    invisible_body E (fun a l W1 => invisible_fuel E units teams fuel W1 a l true)
      W self loc units teams see_all

/-! ## The filter engine

The lookups a filter makes (`defense_modifier`, `movement_cost`, `invisible`)
are `const` in the source and write only memo tables; the filter is embedded as
a function of the world that returns the verdict, `none` standing for a failed
assertion or an access to a unit that is not alive. -/

/-- A comma separated membership test as `internal_matches_filter` makes it for
`type`: equality first, then the full split only when the text holds a comma and
the wanted word occurs in it. -/
def csv_type_matches (E : Env) (type this_type : String) : Bool :=
  if type ≠ "" ∧ type ≠ this_type then
    if type.data.contains ',' ∧ this_type.data <:+: type.data then
      decide (this_type ∈ E.split type)
    else false
  else true

/-- The `ability` clause. -/
def ability_clause (E : Env) (ability : String) (cfg_ : config) : Bool :=
  if ability ≠ "" ∧ has_ability_by_id cfg_ ability = false then
    if ability.data.contains ',' then (E.split ability).any (fun a => has_ability_by_id cfg_ a)
    else false
  else true

/-- The `side` clause. -/
def side_clause (E : Env) (side : String) (u : unit) : Bool :=
  if side ≠ "" ∧ u.side_ ≠ E.lexical_cast_int side 0 then
    if side.data.contains ',' then decide (E.int_to_string u.side_ ∈ E.split side)
    else false
  else true

/-- The viewers of a `filter_vision` clause: the listed sides that exist, or all
enemies of the side of the unit. -/
def vision_viewers (E : Env) (i : config) (u : unit) : Option (List Int) :=
  let sides : List Int := (List.range E.teams.length).map (fun k => (k : Int) + 1)
  if i.has_attribute "viewing_side" then
    some (sides.filter (fun k =>
      (E.parse_ranges (i.attr "viewing_side")).any (fun r => decide (r.1 ≤ k ∧ k ≤ r.2))))
  else
    match team_of E.teams u.side_ with
    | some my_team => some (sides.filter (fun k => my_team.is_enemy k))
    | none => none

/-- One `filter_vision` clause; `not_seen` is the verdict of `invisible` for the
unit at the location. -/
def vision_clause (E : Env) (i : config) (u : unit) (loc : location) (not_seen : Option Bool) :
    Option Bool :=
  match vision_viewers E i u with
  | none => none
  | some [] => some false
  | some (v :: vs) =>
    match not_seen with
    | none => none
    | some h =>
      if (v :: vs).all (fun viewer => ((team_of E.teams viewer).isSome : Bool)) then
        some ((v :: vs).all (fun viewer =>
          match team_of E.teams viewer with
          | some tm =>
            !(decide (E.string_bool (i.attr "visible") true ≠ !tm.fogged loc) && !h)
          | none => true))
      else none

/-- The clauses of `internal_matches_filter` that precede `filter_adjacent`, for
the unit `u` at address `self`. -/
def flat_head (E : Env) (W : world) (units : List (location × Nat)) (cfg : config)
    (self : Nat) (u : unit) (loc : location) (use_flat_tod : Bool) : Option Bool :=
  if cfg.attr "description" ≠ "" ∧ cfg.attr "description" ≠ u.name_ then some false
  else if cfg.attr "id" ≠ "" ∧ cfg.attr "id" ≠ u.id_ then some false
  else if cfg.attr "speaker" ≠ "" ∧ cfg.attr "speaker" ≠ u.id_ then some false
  else if cfg.has_child "filter_location" ∧
      E.terrain_filter_match ((cfg.child "filter_location").getD config.empty) loc use_flat_tod
        = false then some false
  else if (cfg.attr "x" ≠ "" ∨ cfg.attr "y" ≠ "") ∧
      (if cfg.attr "x" = "recall" ∧ cfg.attr "y" = "recall" then E.on_board loc
       else !E.matches_range loc (cfg.attr "x") (cfg.attr "y")) = true then some false
  else if csv_type_matches E (cfg.attr "type") u.type_id = false then some false
  else if ability_clause E (cfg.attr "ability") u.cfg_ = false then some false
  else if cfg.attr "race" ≠ "" ∧ u.race_ ≠ cfg.attr "race" then some false
  else if cfg.attr "gender" ≠ "" ∧ E.string_gender (cfg.attr "gender") ≠ u.gender_ then some false
  else if side_clause E (cfg.attr "side") u = false then some false
  else if cfg.attr "has_weapon" ≠ "" ∧
      u.attacks_.any (fun a => E.attack_id a = cfg.attr "has_weapon") = false then some false
  else if cfg.attr "role" ≠ "" ∧ u.role_ ≠ cfg.attr "role" then some false
  else if cfg.attr "ai_special" ≠ "" ∧ u.ai_special_ ≠ cfg.attr "ai_special" then some false
  else if cfg.attr "canrecruit" ≠ "" ∧
      E.string_bool (cfg.attr "canrecruit") false ≠ u.can_recruit E then some false
  else if cfg.attr "level" ≠ "" ∧ u.level_ ≠ E.lexical_cast_int (cfg.attr "level") (-1) then
    some false
  else
    let d : Option Bool :=
      if cfg.attr "defense" ≠ "" then
        (defense_modifier E u (E.get_terrain loc) 0).map
          (fun r => decide (r.1 = E.lexical_cast_int (cfg.attr "defense") (-1)))
      else some true
    match d with
    | none => none
    | some false => some false
    | some true =>
      let m : Option Bool :=
        if cfg.attr "movement_cost" ≠ "" then
          (movement_cost E u (E.get_terrain loc)).map
            (fun r => decide (r.1 = E.lexical_cast_int (cfg.attr "movement_cost") (-1)))
        else some true
      match m with
      | none => none
      | some false => some false
      | some true =>
        if (cfg.get_children "filter_wml").any
            (fun w => !E.config_matches (u.write E config.empty) w) then some false
        else
          (cfg.get_children "filter_vision").foldl
            (fun acc i =>
              match acc with
              | some true =>
                vision_clause E i u loc ((invisible E W self loc units E.teams true).map (fun r => r.1))
              | other => other)
            (some true)

/-- The clauses of `internal_matches_filter` that follow `filter_adjacent`:
`find_in` and `formula`. -/
def flat_tail (E : Env) (cfg : config) (u : unit) (loc : location) : Bool :=
  (!cfg.has_attribute "find_in" || E.find_in (cfg.attr "find_in") u.id_) &&
  (!cfg.has_attribute "formula" || E.formula_matches (cfg.attr "formula") loc u)

/-- The directions of a `filter_adjacent` clause. -/
def adjacent_dirs (E : Env) (i : config) : List Nat :=
  if i.has_attribute "adjacent" then E.parse_directions (i.attr "adjacent")
  else E.parse_directions "n,ne,se,s,sw,nw"

/-- The accepted counts of a `filter_adjacent` clause. -/
def adjacent_counts (E : Env) (i : config) : List (Int × Int) :=
  if i.has_attribute "count" then E.parse_ranges (i.attr "count") else E.parse_ranges "1-6"

/-- Whether a neighbour that matched counts for a `filter_adjacent` clause:
without `is_enemy` always, otherwise when its enmity is the one asked for. -/
def adjacent_counted (E : Env) (i : config) (u v : unit) : Option Bool :=
  if i.has_attribute "is_enemy" then
    (team_of E.teams u.side_).map
      (fun tm => decide (E.string_bool (i.attr "is_enemy") false = tm.is_enemy v.side_))
  else some true

mutual
/-- The routine `unit::matches_filter(cfg, loc, use_flat_tod)` for the unit at
address `self`: the flat clauses, then the `and`, `or` and `not` children in
document order. -/
def matches_filter (E : Env) (W : world) (units : List (location × Nat)) :
    config → Nat → location → Bool → Option Bool
  | config.mk vals ch, self, loc, use_flat_tod =>
    match W.heap.lookup self with
    | none => none
    | some u =>
      let flat : Option Bool :=
        match flat_head E W units (config.mk vals ch) self u loc use_flat_tod with
        | some true =>
          match adjacent_clauses E W units ch u loc use_flat_tod with
          | some true => some (flat_tail E (config.mk vals ch) u loc)
          | other => other
        | other => other
      match flat with
      | none => none
      | some m => connectives E W units ch self loc use_flat_tod m
/-- The `filter_adjacent` clauses of `internal_matches_filter`: for every such
child the neighbours in the asked directions that match the child are counted,
and the count has to lie in the accepted ranges. -/
def adjacent_clauses (E : Env) (W : world) (units : List (location × Nat)) :
    List (String × config) → unit → location → Bool → Option Bool
  | [], _, _, _ => some true
  | (tag, i) :: rest, u, loc, use_flat_tod =>
    if tag = "filter_adjacent" then
      let count : Option Int :=
        (adjacent_dirs E i).foldl
          (fun acc j =>
            match acc with
            | none => none
            | some n =>
              match (E.get_adjacent_tiles loc).get? j with
              | none => none
              | some l =>
                match units.lookup l with
                | none => some n
                | some a =>
                  match matches_filter E W units i a l use_flat_tod, W.heap.lookup a with
                  | some true, some v =>
                    (adjacent_counted E i u v).map (fun c => if c then n + 1 else n)
                  | some false, _ => some n
                  | _, _ => none)
          (some 0)
      match count with
      | none => none
      | some n =>
        if E.in_ranges n (adjacent_counts E i) then adjacent_clauses E W units rest u loc use_flat_tod
        else some false
    else adjacent_clauses E W units rest u loc use_flat_tod
/-- The loop of `matches_filter` over the children of the filter, `matches_`
being the verdict so far; `&&` and `||` skip their right operand as in C++. -/
def connectives (E : Env) (W : world) (units : List (location × Nat)) :
    List (String × config) → Nat → location → Bool → Bool → Option Bool
  | [], _, _, _, matches_ => some matches_
  | (cond_name, cond_filter) :: rest, self, loc, use_flat_tod, matches_ =>
    if cond_name = "and" then
      if matches_ then
        match matches_filter E W units cond_filter self loc use_flat_tod with
        | none => none
        | some b => connectives E W units rest self loc use_flat_tod b
      else connectives E W units rest self loc use_flat_tod false
    else if cond_name = "or" then
      if matches_ then connectives E W units rest self loc use_flat_tod true
      else
        match matches_filter E W units cond_filter self loc use_flat_tod with
        | none => none
        | some b => connectives E W units rest self loc use_flat_tod b
    else if cond_name = "not" then
      if matches_ then
        match matches_filter E W units cond_filter self loc use_flat_tod with
        | none => none
        | some b => connectives E W units rest self loc use_flat_tod (!b)
      else connectives E W units rest self loc use_flat_tod false
    else connectives E W units rest self loc use_flat_tod matches_
end

/-- The routine `unit::internal_matches_filter(cfg, loc, use_flat_tod)` for the
unit at address `self`: every flat clause of the filter has to pass. -/
def internal_matches_filter (E : Env) (W : world) (units : List (location × Nat))
    (cfg : config) (self : Nat) (loc : location) (use_flat_tod : Bool) : Option Bool :=
  match W.heap.lookup self with
  | none => none
  | some u =>
    match flat_head E W units cfg self u loc use_flat_tod with
    | some true =>
      match adjacent_clauses E W units cfg.children u loc use_flat_tod with
      | some true => some (flat_tail E cfg u loc)
      | other => other
    | other => other

/-! ## The alias fold as the specification words it -/

/-- The direction in which an alias takes the better value. -/
inductive alias_mode where
  | increasing
  | decreasing
  deriving DecidableEq, Repr

/-- The state of the fold over the underlying terrains: the mode, the running
value and the cache. -/
structure alias_state where
  mode : alias_mode
  value : Int
  cache : List (String × Int)

/-- One token of the fold: PLUS sets the mode to increasing, MINUS sets it to
decreasing; the resolved value of any other terrain replaces the running value
when it is strictly smaller (increasing) or strictly larger (decreasing). -/
def alias_fold_step (resolve : String → List (String × Int) → Option (Int × List (String × Int)))
    (st : Option alias_state) (token : String) : Option alias_state :=
  match st with
  | none => none
  | some a =>
    if token = PLUS then some { a with mode := alias_mode.increasing }
    else if token = MINUS then some { a with mode := alias_mode.decreasing }
    else
      match resolve token a.cache with
      | none => none
      | some (v, c) =>
        match a.mode with
        | alias_mode.increasing => some { a with value := if v < a.value then v else a.value, cache := c }
        | alias_mode.decreasing => some { a with value := if v > a.value then v else a.value, cache := c }

/-- The fold of an alias: it starts decreasing at 0 when the first token is
MINUS and increasing at the sentinel otherwise. -/
def alias_fold (resolve : String → List (String × Int) → Option (Int × List (String × Int)))
    (sentinel : Int) (tokens : List String) (cache : List (String × Int)) : Option alias_state :=
  tokens.foldl (alias_fold_step resolve)
    (some
      { mode := if tokens.head? = some MINUS then alias_mode.decreasing else alias_mode.increasing
        value := if tokens.head? = some MINUS then 0 else sentinel
        cache := cache })

/-- The recursive resolution of an underlying terrain by
`movement_cost_internal` at depth `recurse_count`, on the cache `c`. -/
def resolve_movement (E : Env) (u : unit) (recurse_count : Int) (i : String)
    (c : List (String × Int)) : Option (Int × List (String × Int)) :=
  (movement_cost_internal E { u with movement_costs_ := c } i recurse_count).map
    (fun r => (r.1, r.2.movement_costs_))

/-- The recursive resolution of an underlying terrain by `defense_modifier` at
depth `recurse_count`, on the cache `c`. -/
def resolve_defense (E : Env) (u : unit) (recurse_count : Int) (i : String)
    (c : List (String × Int)) : Option (Int × List (String × Int)) :=
  (defense_modifier E { u with defense_mods_ := c } i recurse_count).map
    (fun r => (r.1, r.2.defense_mods_))

/-! ## The alias fold on a `revert` flag -/

/-- The state of the fold over the underlying terrains on a flag: the flag
`revert`, the running value `ret` and the cache. -/
structure revert_state where
  revert : Bool
  ret : Int
  cache : List (String × Int)

/-- One token of the fold with a flag that flips: every operator token flips
`revert`; the resolved value of any other entry gives `ret = min(ret, val)` when
`revert` is off and `ret = max(ret, val)` when it is on. -/
def flip_fold_step (resolve : String → List (String × Int) → Option (Int × List (String × Int)))
    (st : Option revert_state) (token : String) : Option revert_state :=
  match st with
  | none => none
  | some a =>
    if token = PLUS ∨ token = MINUS then some { a with revert := !a.revert }
    else
      match resolve token a.cache with
      | none => none
      | some (val, c) =>
        some { a with ret := if a.revert = true then max a.ret val else min a.ret val, cache := c }

/-- The fold with a flag that flips: `revert` starts as "the first token is
MINUS"; `ret` starts as in the source, at 0 when `revert` is on and at the
sentinel otherwise. -/
def flip_fold (resolve : String → List (String × Int) → Option (Int × List (String × Int)))
    (sentinel : Int) (tokens : List String) (cache : List (String × Int)) : Option revert_state :=
  tokens.foldl (flip_fold_step resolve)
    (some
      { revert := decide (tokens.head? = some MINUS)
        ret := if tokens.head? = some MINUS then 0 else sentinel
        cache := cache })

/-- One token of the fold with a flag that is set: MINUS turns `revert` on, PLUS
turns it off; the resolved value of any other entry gives `ret = min(ret, val)`
when `revert` is off and `ret = max(ret, val)` when it is on. -/
def revert_fold_step (resolve : String → List (String × Int) → Option (Int × List (String × Int)))
    (st : Option revert_state) (token : String) : Option revert_state :=
  match st with
  | none => none
  | some a =>
    if token = PLUS then some { a with revert := false }
    else if token = MINUS then some { a with revert := true }
    else
      match resolve token a.cache with
      | none => none
      | some (val, c) =>
        some { a with ret := if a.revert = true then max a.ret val else min a.ret val, cache := c }

/-- The fold with a flag that is set: `revert` starts as "the first token is
MINUS"; `ret` starts as in the source, at 0 when `revert` is on and at the
sentinel otherwise. -/
def revert_fold (resolve : String → List (String × Int) → Option (Int × List (String × Int)))
    (sentinel : Int) (tokens : List String) (cache : List (String × Int)) : Option revert_state :=
  tokens.foldl (revert_fold_step resolve)
    (some
      { revert := decide (tokens.head? = some MINUS)
        ret := if tokens.head? = some MINUS then 0 else sentinel
        cache := cache })

/-! ## The connective fold as the specification words it -/

/-- The C++ conjunction `m && rhs`: the right operand is evaluated only when `m`
holds. -/
def cpp_and (m : Bool) (rhs : Option Bool) : Option Bool := if m then rhs else some false

/-- The C++ disjunction `m || rhs`: the right operand is evaluated only when `m`
fails. -/
def cpp_or (m : Bool) (rhs : Option Bool) : Option Bool := if m then some true else rhs

/-- One child of the filter in the left fold: `and` gives `m && f`, `or` gives
`m || f`, `not` gives `m && !f`, any other child leaves `m` unchanged; `sub` is
the verdict of `matches_filter` on a child. -/
def connective_step (sub : config → Option Bool) (acc : Option Bool) (child : String × config) :
    Option Bool :=
  match acc with
  | none => none
  | some m =>
    if child.1 = "and" then cpp_and m (sub child.2)
    else if child.1 = "or" then cpp_or m (sub child.2)
    else if child.1 = "not" then cpp_and m ((sub child.2).map (fun b => !b))
    else some m

/-! ## The concealment verdict as the specification words it -/

/-- The unit holds the `hidden` status and has an active `hides` ability at the
location. -/
def hidden_and_hides (E : Env) (v : unit) (loc : location) : Bool :=
  E.string_bool (v.get_state "hidden") false && E.get_ability_bool v.cfg_ "hides" loc

/-- Whether the unit at address `a`, standing on tile `l`, is an enemy of the
side `tm` on a tile adjacent to `loc`. -/
def adjacent_enemy (E : Env) (W : world) (tm : team) (loc : location) (p : location × Nat) : Bool :=
  match W.heap.lookup p.2 with
  | some v => tm.is_enemy v.side_ && E.tiles_adjacent loc p.1
  | none => false

/-- The verdict of the loop of `invisible` with `see_all` set, as a value: false
at the first adjacent enemy. -/
def spot_all (E : Env) (teams : List team) (side : Int) (loc : location) :
    List (location × Nat) → world → Option Bool
  | [], _ => some true
  | (l, a) :: rest, W =>
    match team_of teams side, W.heap.lookup a with
    | some tm, some v =>
      if tm.is_enemy v.side_ && E.tiles_adjacent loc l then some false
      else spot_all E teams side loc rest W
    | _, _ => none

/-- The verdict of the all-seeing check `invisible(loc, units, teams, true)` for
the unit at address `a`, as a value: the cached verdict, or the fresh one. -/
def verdict_all (E : Env) (units : List (location × Nat)) (teams : List team) (W : world)
    (a : Nat) (l : location) : Option Bool :=
  match W.heap.lookup a with
  | none => none
  | some v =>
    match v.invisibility_cache_.lookup l with
    | some cached => some cached
    | none => if hidden_and_hides E v l then spot_all E teams v.side_ l units W else some false

/-- Two worlds hold the same units up to their visibility caches. -/
def same_board (W W1 : world) : Prop :=
  ∀ a, (W1.heap.lookup a).map clear_visibility_cache = (W.heap.lookup a).map clear_visibility_cache

/-- Whether the map entry `p` defeats the concealment of a unit of side `tm` at
`loc`: an adjacent enemy, and, unless `see_all` is set, one whose tile is not
fogged and whom the all-seeing check finds visible. -/
def defeats (E : Env) (W : world) (units : List (location × Nat)) (teams : List team)
    (tm : team) (loc : location) (see_all : Bool) (p : location × Nat) : Bool :=
  adjacent_enemy E W tm loc p &&
    (see_all ||
      (!tm.fogged p.1 &&
        decide ((invisible E W p.2 p.1 units teams true).map (fun r => r.1) = some false)))

/-- Every unit of the map is alive and belongs to a side of `teams`. -/
def board_alive (W : world) (units : List (location × Nat)) (teams : List team) : Prop :=
  units.all (fun p =>
    match W.heap.lookup p.2 with
    | some v => (team_of teams v.side_).isSome
    | none => false) = true

instance (W : world) (units : List (location × Nat)) (teams : List team) :
    Decidable (board_alive W units teams) := by
  unfold board_alive; infer_instance

/-! ## The sections of a merged document -/

/-- The children of one tag after `merge_with`: the `k`-th child of the receiver
merged with the `k`-th child of the argument, then the surplus of either. -/
def zip_merge : List (String × config) → List (String × config) → List (String × config)
  | [], ys => ys
  | (t, x) :: xs, [] => (t, x) :: xs
  | (t, x) :: xs, (_, y) :: ys => (t, x.merge_with y) :: zip_merge xs ys

/-- The children of a child list that carry the tag `t`, with their tag. -/
def tagged (t : String) (l : List (String × config)) : List (String × config) :=
  l.filter (fun p => p.1 = t)

/-- Sections "merged over" the sections of a parent, as the specification
words the base type: the `k`-th section of the type is merged into the `k`-th
section of the parent (the values of the type win), and a section without
partner is kept. -/
def merged_over : List config → List config → List config
  | [], ys => ys
  | x :: xs, [] => x :: xs
  | x :: xs, y :: ys => x.merge_with y :: merged_over xs ys

/-- The sections with tag `tag` of the base type, as the specification words
them: the sections of the type document `t.cfg_`, merged over the sections of the
parent of the movement type when there is one. -/
def base_sections (t : unit_type) (tag : String) : List config :=
  match t.movement_parent with
  | some parent => merged_over (parent.get_children tag) (t.cfg_.get_children tag)
  | none => t.cfg_.get_children tag

/-! ## What the outcome of the ledger pass depends on -/

/-- Two documents have the same governed sections. -/
def same_sections (c d : config) : Prop :=
  ∀ tag ∈ mod_childs, tagged tag c.children = tagged tag d.children

/-- Two units agree on everything the ledger pass reads and on the derived
statistics it produces: type id, gender, level, the three maxima, the attacks and
the governed sections of the document. -/
def same_governed (u v : unit) : Prop :=
  u.type_ = v.type_ ∧ u.gender_ = v.gender_ ∧ u.level_ = v.level_ ∧
  u.max_hit_points_ = v.max_hit_points_ ∧ u.max_movement_ = v.max_movement_ ∧
  u.max_experience_ = v.max_experience_ ∧ u.attacks_ = v.attacks_ ∧
  same_sections u.cfg_ v.cfg_

/-- The sequence `reset_modifications(); apply_modifications();`. -/
def reset_and_apply (E : Env) (u : unit) : Except game_error unit :=
  (reset_modifications E u).map (apply_modifications E)

/-! ## Predicates used in the statements -/

/-- Modelled from the spec: the signed percentage increment of
`utils::apply_modifier`, a routine defined outside `unit.cpp`. An amount `+P%`
is an increment by `P` percent of the current value. -/
def percent_increment (number percent : Int) : Int := number + number * percent / 100

/-- A `hitpoints` effect that uses only `set` and `set_total`. -/
def set_style (eff : config) : Prop :=
  eff.attr "apply_to" = "hitpoints" ∧ eff.attr "increase" = "" ∧
  eff.attr "increase_total" = "" ∧ eff.attr "heal_full" = "" ∧
  eff.attr "violate_maximum" = ""

/-- The forms of `set` and `set_total` under which a repeated `hitpoints` effect
is the single one: no `set_total`, or an absolute `set_total` together with no
`set` or an absolute `set`. -/
def absolute_total (eff : config) : Prop :=
  eff.attr "set_total" = "" ∨
  (ends_percent (eff.attr "set_total") = false ∧
    (eff.attr "set" = "" ∨ ends_percent (eff.attr "set") = false))

/-- The children of a ledger once the loop of `remove_temporary_modifications`
for the kind `mod` has come to index `j` and runs to its end: the first `j`
records of the kind stay, of the later ones the temporary ones go; the children
of every other tag stay. -/
def keep_from (mod : String) : Nat → List (String × config) → List (String × config)
  | _, [] => []
  | j, (t, x) :: rest =>
    if t = mod then
      match j with
      | 0 => if is_temporary x then keep_from mod 0 rest else (t, x) :: keep_from mod 0 rest
      | n + 1 => (t, x) :: keep_from mod n rest
    else (t, x) :: keep_from mod j rest

/-- Whether a child of the ledger stays in `remove_temporary_modifications`: it
is no record of one of the three kinds, or it is not temporary. -/
def stays (p : String × config) : Bool :=
  !(decide (p.1 ∈ ModificationTypes) && is_temporary p.2)

/-- The movement left after the caps of a run of `movement` effects, `c` being
the lowest maximum the run went through: `none` when no effect capped. -/
def capped (c : Option Int) (x : Int) : Int :=
  match c with
  | none => x
  | some m => if x > m then m else x

/-- The cap of a run of `movement` effects after one more effect with the
maximum `m`. -/
def cap_min (c : Option Int) (m : Int) : Int :=
  match c with
  | none => m
  | some c0 => if c0 > m then m else c0

/-- Two runs of the ledger pass side by side, started with the movement `mx`
resp. `my` and the status flags `sx` resp. `sy`: the units agree on the governed
state, their movement is the start value under the same cap, and every status
flag is either the same in both or still the start value in both. -/
def twin_run (mx my : Int) (sx sy : List (String × String)) (a b : unit) : Prop :=
  same_governed a b ∧
  (∃ c : Option Int, a.movement_ = capped c mx ∧ b.movement_ = capped c my) ∧
  (∀ k : String, a.get_state k = b.get_state k ∨
    (a.get_state k = smap_get sx k ∧ b.get_state k = smap_get sy k))

mutual
/-- A filter tree that is built from the connectives alone: no attribute, and
every child is an `and`, `or` or `not` node over such a tree. -/
def connective_only : config → Bool
  | config.mk vals ch => vals.isEmpty && connective_only_list ch
/-- A child list of connective nodes over trees built from connectives alone. -/
def connective_only_list : List (String × config) → Bool
  | [] => true
  | (t, f) :: rest =>
    (decide (t = "and") || decide (t = "or") || decide (t = "not")) &&
      connective_only f && connective_only_list rest
end

/-- The invariant of the registry `units_with_cache`: no address is listed
twice, and an address is listed exactly when it is the address of a unit alive
whose invisibility cache is not empty. -/
def registry_invariant (W : world) : Prop :=
  W.units_with_cache.Nodup ∧
  ∀ a, a ∈ W.units_with_cache ↔
    ∃ u, W.heap.lookup a = some u ∧ u.invisibility_cache_ ≠ []

/-- A candidate trait is mandatory: its availability is `musthave`. -/
def is_musthave (c : config) : Bool := decide (c.attr "availability" = "musthave")

/-- The mandatory traits `generate_traits` grants to a unit of the type: the
candidates left by the scan for held traits whose availability is `musthave`. -/
def traits_granted (type : unit_type) (u : unit) : List config :=
  (erase_held (u.modifications_.get_children "trait") type.possible_traits).filter is_musthave

/-- The candidates the first two passes of `generate_traits` leave to the random
fill: what the scan `erase_held` left, without the mandatory ones.  When the pool
repeats an id the scan can leave a held trait in. -/
def traits_remaining (type : unit_type) (u : unit) : List config :=
  (erase_held (u.modifications_.get_children "trait") type.possible_traits).filter
    (fun c => !is_musthave c)

/-- The ids of the traits the ledger of a unit holds. -/
def held_ids (u : unit) : List String :=
  (u.modifications_.get_children "trait").map (fun j => j.attr "id")

/-- The candidates left "after removing already-held" traits, as the
specification words the first pass: every candidate whose id is the id of a
trait of the ledger is dropped. -/
def unheld_candidates (type : unit_type) (u : unit) : List config :=
  type.possible_traits.filter (fun c => decide (c.attr "id" ∉ held_ids u))

/-- The remaining candidates that `c` counts, as the specification words them:
the candidates that are neither held nor mandatory. -/
def open_candidates (type : unit_type) (u : unit) : List config :=
  (unheld_candidates type u).filter (fun c => !is_musthave c)

/-- The count `t` of `generate_traits` before the random fill: the trait records
of the ledger and the mandatory traits granted by the call. -/
def traits_counted (type : unit_type) (u : unit) : Nat :=
  (u.modifications_.get_children "trait").length + (traits_granted type u).length

/-- The alias table `underlying` is hierarchical for `rank`: every terrain an
alias stands for, the operators apart, has a smaller rank than the alias.  A
table with a cyclic alias definition has no such rank. -/
def hierarchical (underlying : String → List String) (rank : String → Nat) : Prop :=
  ∀ t i, underlying t ≠ [t] → i ∈ underlying t → i ≠ PLUS → i ≠ MINUS → rank i < rank t

/-- The text of a number survives the way through a document: it is not empty
and `lexical_cast_default` reads the number back, whatever the default. -/
def faithful_number (E : Env) (n : Int) : Prop :=
  E.int_to_string n ≠ "" ∧ ∀ d : Int, E.lexical_cast_int (E.int_to_string n) d = n

/-- No `hitpoints` effect of the record may exceed the maximum: each leaves
`violate_maximum` empty. -/
def respects_maximum (mod : config) : Prop :=
  ∀ eff ∈ mod.get_children "effect",
    eff.attr "apply_to" = "hitpoints" → eff.attr "violate_maximum" = ""

/-- No record of the ledger has a `hitpoints` effect with `violate_maximum`. -/
def ledger_respects_maximum (ledger : config) : Prop :=
  ∀ r ∈ ledger_records ledger, respects_maximum r.2

instance (mod : config) : Decidable (respects_maximum mod) := by
  unfold respects_maximum; infer_instance

instance (ledger : config) : Decidable (ledger_respects_maximum ledger) := by
  unfold ledger_respects_maximum; infer_instance

/-! ## A concrete environment

The string utilities below follow the C++ ones on the inputs used in the
examples of this file; they make the sample environment executable. -/

/-- The value of a decimal digit. -/
def digit_val (c : Char) : Nat := c.toNat - 48

/-- The value of the leading decimal digits of a text, none when it starts with
no digit. -/
def leading_nat (l : List Char) : Option Nat :=
  match l.takeWhile Char.isDigit with
  | [] => none
  | d :: ds => some ((d :: ds).foldl (fun acc c => acc * 10 + digit_val c) 0)

/-- The integer at the head of a text: blanks, an optional sign, digits. -/
def leading_int (l : List Char) : Option Int :=
  match l.dropWhile (fun c => c = ' ') with
  | '-' :: rest => (leading_nat rest).map (fun n => - (n : Int))
  | '+' :: rest => (leading_nat rest).map (fun n => (n : Int))
  | rest => (leading_nat rest).map (fun n => (n : Int))

/-- Sample `lexical_cast_default<int>`. -/
def sample_lexical_cast (str : String) (dflt : Int) : Int := (leading_int str.data).getD dflt

/-- Sample `atoi`. -/
def sample_atoi (str : String) : Int := (leading_int str.data).getD 0

/-- Sample `utils::string_bool`. -/
def sample_string_bool (str : String) (dflt : Bool) : Bool :=
  if str = "" then dflt
  else if str = "yes" ∨ str = "on" ∨ str = "true" ∨ sample_lexical_cast str 0 ≠ 0 then true
  else false

/-- Rounded hundredth (`div100rounded`). -/
def div100rounded (num : Int) : Int :=
  if num < 0 then - ((-num + 50).tdiv 100) else (num + 50).tdiv 100

/-- Sample `utils::apply_modifier`. -/
def sample_apply_modifier (number : Int) (amount : String) (minimum : Int) : Int :=
  let value0 := sample_atoi amount
  let value1 := if ends_percent amount then div100rounded (number * value0) else value0
  let value2 := value1 + number
  if minimum > 0 ∧ value2 < minimum then minimum else value2

/-- Split of a character list at commas. -/
def split_commas : List Char → List Char → List (List Char)
  | [], cur => [cur.reverse]
  | c :: rest, cur => if c = ',' then cur.reverse :: split_commas rest [] else split_commas rest (c :: cur)

/-- Removal of the blanks around a word. -/
def strip_blanks (l : List Char) : List Char :=
  ((l.dropWhile (fun c => c = ' ')).reverse.dropWhile (fun c => c = ' ')).reverse

/-- Sample `utils::split`: comma separated words, stripped, empty words dropped. -/
def sample_split (str : String) : List String :=
  (((split_commas str.data []).map strip_blanks).filter (fun w => w ≠ [])).map String.mk

/-- The decimal digits of a number, `fuel` bounding their count. -/
def nat_digits : Nat → Nat → List Char → List Char
  | 0, _, acc => acc
  | fuel + 1, n, acc =>
    let acc1 := Char.ofNat (48 + n % 10) :: acc
    if n / 10 = 0 then acc1 else nat_digits fuel (n / 10) acc1

/-- Sample text of an integer. -/
def sample_int_to_string (i : Int) : String :=
  match i with
  | Int.ofNat n => String.mk (nat_digits (n + 1) n [])
  | Int.negSucc n => String.mk ('-' :: nat_digits (n + 2) (n + 1) [])

/-- A sample environment with an empty registry. -/
def sampleEnv : Env where
  types := []
  races := ["human"]
  valid_side := fun _ => true
  generate_name := fun _ r => ("Unnamed", (r.get_random).2)
  variant := fun t _ _ => t
  string_bool := sample_string_bool
  lexical_cast_int := sample_lexical_cast
  int_to_string := sample_int_to_string
  atoi := sample_atoi
  apply_modifier := sample_apply_modifier
  split := sample_split
  join := String.intercalate ","
  gender_string := fun g => if g = GENDER.FEMALE then "female" else "male"
  string_gender := fun str => if str = "female" then GENDER.FEMALE else GENDER.MALE
  all_tag_names := ["animation", "attack_anim", "standing_anim", "idle_anim"]
  exp_accel := 100
  attack_of_cfg := fun c => ⟨c⟩
  attack_apply_modification := fun a _ => a
  attack_matches_filter := fun a f => decide (f.attr "name" = "" ∨ f.attr "name" = a.cfg_.attr "name")
  attack_id := fun a => a.cfg_.attr "name"
  underlying_mvt_terrain := fun t => [t]
  underlying_def_terrain := fun t => [t]
  terrain_id := fun t => t
  get_terrain := fun _ => "Gg"
  tiles_adjacent := fun a b =>
    decide (a ≠ b ∧ (a.x - b.x).natAbs ≤ 1 ∧ (a.y - b.y).natAbs ≤ 1)
  get_ability_bool := fun cfg ability _ => has_ability_by_id cfg ability
  teams := []
  terrain_filter_match := fun _ _ _ => true
  on_board := fun l => decide (0 ≤ l.x ∧ 0 ≤ l.y)
  matches_range := fun _ _ _ => true
  config_matches := fun _ _ => true
  parse_ranges := fun _ => [(1, 6)]
  in_ranges := fun v rs => rs.any (fun r => decide (r.1 ≤ v ∧ v ≤ r.2))
  parse_directions := fun _ => [0, 1, 2, 3, 4, 5]
  get_adjacent_tiles := fun l =>
    [⟨l.x, l.y - 1⟩, ⟨l.x + 1, l.y⟩, ⟨l.x + 1, l.y + 1⟩, ⟨l.x, l.y + 1⟩, ⟨l.x - 1, l.y + 1⟩,
     ⟨l.x - 1, l.y⟩]
  find_in := fun _ _ => true
  formula_matches := fun _ _ _ => true
  null_location := ⟨-1, -1⟩

/-- A sample unit type: 30 hitpoints, 5 moves, no traits. -/
def sampleType : unit_type where
  id := "Spearman"
  cfg_ := config.mk [("hitpoints", "30"), ("id", "Spearman"), ("movement", "5")] []
  hitpoints := 30
  movement := 5
  experience_needed := 40
  level := 1
  max_attacks := 1
  attacks := []
  possible_traits := []
  num_traits := 2
  genders := [GENDER.MALE]
  advances_to := []
  has_zoc := true
  cost := 14
  is_flying := false
  movement_parent := none
  alignment := ALIGNMENT.LAWFUL
  alpha := 0
  type_name := "Spearman"
  unit_description := ""
  undead_variation := ""
  race := "human"
  flag_rgb := ""

/-- A blank unit, the state set up by the member initialisers of the
constructors. -/
def blankUnit : unit where
  cfg_ := config.empty
  advances_to_ := []
  type_ := ""
  race_ := ""
  id_ := ""
  name_ := ""
  underlying_id_ := 0
  type_name_ := ""
  undead_variation_ := ""
  variation_ := ""
  hit_points_ := 0
  max_hit_points_ := 0
  experience_ := 0
  max_experience_ := 0
  level_ := 0
  alignment_ := ALIGNMENT.NEUTRAL
  flag_rgb_ := ""
  image_mods_ := ""
  unrenamable_ := false
  side_ := 0
  gender_ := GENDER.MALE
  alpha_ := 0
  recruits_ := []
  movement_ := 0
  max_movement_ := 0
  movement_costs_ := []
  defense_mods_ := []
  hold_position_ := false
  end_turn_ := false
  resting_ := false
  attacks_left_ := 0
  max_attacks_ := 0
  states_ := []
  variables_ := config.empty
  emit_zoc_ := false
  overlays_ := []
  role_ := ""
  ai_special_ := ""
  attacks_ := []
  facing_ := "se"
  traits_description_ := ""
  unit_value_ := 0
  goto_ := ⟨0, 0⟩
  flying_ := false
  is_fearless_ := false
  is_healthy_ := false
  refreshing_ := false
  hidden_ := false
  modifications_ := config.empty
  invisibility_cache_ := []
  unit_formula_ := ""

/-- A generator that always delivers zero. -/
def zeroRng : rng := ⟨fun _ => 0, 0⟩

/-- The sample environment with the sample type registered. -/
def spearEnv : Env := { sampleEnv with types := [("Spearman", sampleType)] }

/-- An object record whose single effect raises the hitpoints by five and may
exceed the maximum. -/
def overhealObject : config :=
  config.mk [("id", "potion")]
    [("effect", config.mk
      [("apply_to", "hitpoints"), ("increase", "5"), ("violate_maximum", "yes")] [])]

/-- A Spearman without modifications. -/
def plainUnit : unit :=
  { blankUnit with type_ := "Spearman", hit_points_ := 12, max_hit_points_ := 30 }

/-- A Spearman that carries the overheal object. -/
def overhealUnit : unit :=
  { blankUnit with
    type_ := "Spearman"
    hit_points_ := 30
    max_hit_points_ := 30
    modifications_ := config.mk [] [("object", overhealObject)] }

/-- A Spearman below its maximum that carries an object lowering the maximum
hitpoints by twenty, without `violate_maximum`. -/
def woundedUnit : unit :=
  { blankUnit with
    type_ := "Spearman"
    hit_points_ := 25
    max_hit_points_ := 30
    modifications_ := config.mk []
      [("object", config.mk [("id", "curse")]
        [("effect", config.mk [("apply_to", "hitpoints"), ("increase_total", "-20")] [])])] }

/-- A type without hitpoints. -/
def wispType : unit_type := { sampleType with id := "Wisp", hitpoints := 0 }

/-- The sample environment with the type without hitpoints registered. -/
def wispEnv : Env := { sampleEnv with types := [("Wisp", wispType)] }

/-- A terrain table in which `Alias` stands for `A`, then MINUS, `B` and `C`. -/
def aliasEnv : Env :=
  { sampleEnv with
    underlying_mvt_terrain := fun t => if t = "Alias" then ["A", "-", "B", "C"] else [t]
    underlying_def_terrain := fun t => if t = "Alias" then ["A", "-", "B", "C"] else [t] }

/-- A unit with movement costs and defense values for `A`, `B` and `C`. -/
def costUnit : unit :=
  { blankUnit with
    cfg_ := config.mk []
      [("movement_costs", config.mk [("A", "2"), ("B", "5"), ("C", "3")] []),
       ("defense", config.mk [("A", "60"), ("B", "40"), ("C", "70")] [])] }

/-- A unit of side 1 that is hidden and has the `hides` ability. -/
def hiderUnit : unit :=
  { blankUnit with
    side_ := 1
    states_ := [("hidden", "yes")]
    cfg_ := config.mk [] [("abilities", config.mk [] [("hides", config.mk [("id", "hides")] [])])] }

/-- A plain unit of side 2. -/
def scoutUnit : unit := { blankUnit with side_ := 2 }

/-- Two sides at war, without fog. -/
def twoTeams : List team :=
  [⟨fun side => decide (side = 2), fun _ => false⟩, ⟨fun side => decide (side = 1), fun _ => false⟩]

/-- The hider at address 0 and the scout at address 1. -/
def duelWorld : world := { heap := [(0, hiderUnit), (1, scoutUnit)], units_with_cache := [] }

/-- The hider on tile (1,1), the scout next to it on tile (1,2). -/
def duelUnits : List (location × Nat) := [(⟨1, 1⟩, 0), (⟨1, 2⟩, 1)]

/-- A type whose trait pool holds two traits with the same id, the second one
mandatory. -/
def twinTraitType : unit_type :=
  { sampleType with
    id := "Ghoul"
    possible_traits :=
      [config.mk [("id", "strong")] [],
       config.mk [("availability", "musthave"), ("id", "strong")] []] }

/-- The registry with the twin-trait type. -/
def twinTraitEnv : Env := { sampleEnv with types := [("Ghoul", twinTraitType)] }

/-- A Ghoul with an empty ledger. -/
def ghoulUnit : unit := { blankUnit with type_ := "Ghoul" }

/-- The state after `generate_traits(true)` on the Ghoul. -/
def ghoulOnce : Res :=
  generate_traits twinTraitEnv true false ⟨ghoulUnit, zeroRng, zeroRng, 0⟩

/-- The state after a second `generate_traits(true)`. -/
def ghoulTwice : Res := generate_traits twinTraitEnv true false ghoulOnce.state

/-- A type with a movement-type parent and governed sections of its own. -/
def knightType : unit_type :=
  { sampleType with
    id := "Knight"
    cfg_ := config.mk [("id", "Knight")]
      [("movement_costs", config.mk [("forest", "3")] []),
       ("abilities", config.mk [] [("leadership", config.mk [("id", "leadership")] [])])]
    movement_parent := some (config.mk []
      [("movement_costs", config.mk [("forest", "2"), ("hills", "2")] []),
       ("defense", config.mk [("forest", "50")] [])]) }

/-- The registry with the Knight. -/
def knightEnv : Env := { sampleEnv with types := [("Knight", knightType)] }

/-- A Knight whose document and caches carry traces of modifications. -/
def usedKnight : unit :=
  { blankUnit with
    type_ := "Knight"
    max_hit_points_ := 99
    movement_costs_ := [("Gg", 1)]
    defense_mods_ := [("Gg", 40)]
    cfg_ := config.mk [("id", "Knight")]
      [("movement_costs", config.mk [("forest", "1")] []),
       ("resistance", config.mk [("blade", "80")] [])] }

/-- A used Knight whose ledger holds a trait that raises the maximum hitpoints
and an object that changes the movement costs. -/
def toughKnight : unit :=
  { usedKnight with
    modifications_ := config.mk []
      [("trait", config.mk [("id", "resilient"), ("male_name", "resilient")]
        [("effect", config.mk [("apply_to", "hitpoints"), ("increase_total", "5")] [])]),
       ("object", config.mk [("id", "boots")]
        [("effect", config.mk [("apply_to", "movement_costs")]
          [("movement_costs", config.mk [("forest", "-1")] [])])])] }

/-- A Knight in the field: wounded, partly moved, with a lance and the
leadership ability. -/
def veteranKnight : unit :=
  { blankUnit with
    type_ := "Knight"
    side_ := 1
    hit_points_ := 25
    max_hit_points_ := 30
    experience_ := 3
    max_experience_ := 40
    movement_ := 2
    max_movement_ := 5
    attacks_ := [⟨config.mk [("damage", "9"), ("name", "lance")] []⟩]
    cfg_ := config.mk [("id", "Knight"), ("upkeep", "full")]
      [("abilities", config.mk [] [("leadership", config.mk [("id", "leadership")] [])])] }

/-- A Spearman as the constructor from a type makes it: `advance_to` on a blank
unit of side one. -/
def recruitedSpearman : unit :=
  (advance_to spearEnv sampleType false false
    ⟨{ blankUnit with side_ := 1, cfg_ := config.empty.set_attr "upkeep" "full" },
      zeroRng, zeroRng, 0⟩).state.u

/-- An object record whose single effect sets the maximum movement to minus two. -/
def anchorObject : config :=
  config.mk [("id", "anchor")]
    [("effect", config.mk [("apply_to", "movement"), ("set", "-2")] [])]

/-- The recruited Spearman after the anchor object was added to it. -/
def anchoredSpearman : unit :=
  (add_modification spearEnv "object" anchorObject false
    ⟨recruitedSpearman, zeroRng, zeroRng, 0⟩).state.u

/-- A unit of the type without hitpoints as the constructor from a type makes
it. -/
def recruitedWisp : unit :=
  (advance_to wispEnv wispType false false
    ⟨{ blankUnit with side_ := 1, cfg_ := config.empty.set_attr "upkeep" "full" },
      zeroRng, zeroRng, 0⟩).state.u

/-- An object record whose single effect adds a bow to the attacks. -/
def bowObject : config :=
  config.mk [("id", "bow")]
    [("effect", config.mk [("apply_to", "new_attack"), ("name", "bow")] [])]

/-- An advancement record whose single effect removes every attack. -/
def disarmAdvance : config :=
  config.mk [("id", "pacifist")]
    [("effect", config.mk [("apply_to", "remove_attacks")] [])]

/-- The recruited Spearman after it received the bow object and then the
advancement that removes every attack. -/
def disarmedSpearman : unit :=
  (add_modification spearEnv "advance" disarmAdvance false
    ⟨(add_modification spearEnv "object" bowObject false
        ⟨recruitedSpearman, zeroRng, zeroRng, 0⟩).state.u, zeroRng, zeroRng, 0⟩).state.u

/-- A type whose document has two `abilities` sections. -/
def twinAuraType : unit_type :=
  { sampleType with
    id := "Mage"
    cfg_ := config.mk [("id", "Mage")]
      [("abilities", config.mk [] [("heals", config.mk [("id", "heals")] [])]),
       ("abilities", config.mk [] [("cures", config.mk [("id", "cures")] [])])] }

/-- The registry with the Mage. -/
def twinAuraEnv : Env := { sampleEnv with types := [("Mage", twinAuraType)] }

/-- A Mage as the constructor from a type makes it. -/
def recruitedMage : unit :=
  (advance_to twinAuraEnv twinAuraType false false
    ⟨{ blankUnit with side_ := 1, cfg_ := config.empty.set_attr "upkeep" "full" },
      zeroRng, zeroRng, 0⟩).state.u

/-- A unit without type id (no type is registered under the empty id) whose
ledger holds one object that raises the maximum hitpoints by five. -/
def strayUnit : unit :=
  { blankUnit with
    hit_points_ := 30
    max_hit_points_ := 30
    modifications_ := config.mk []
      [("object", config.mk [("id", "amulet")]
        [("effect", config.mk [("apply_to", "hitpoints"), ("increase_total", "5")] [])])] }

/-- A terrain table with a cyclic alias: `A` stands for itself and `D`, and `D`
stands for `B`. -/
def cycleEnv : Env :=
  { sampleEnv with
    underlying_mvt_terrain := fun t =>
      if t = "A" then ["A", "D"] else if t = "D" then ["B"] else [t]
    underlying_def_terrain := fun t =>
      if t = "A" then ["A", "D"] else if t = "D" then ["B"] else [t] }

/-- A unit that crosses `B` at cost 2 and defends there at 40. -/
def cycleUnit : unit :=
  { blankUnit with
    cfg_ := config.mk []
      [("movement_costs", config.mk [("B", "2")] []),
       ("defense", config.mk [("B", "40")] [])] }

/-- A trait open to every unit (availability `any`). -/
def quickTrait : config := config.mk [("availability", "any"), ("id", "quick")] []

/-- A type with one candidate trait, open to every unit, and room for one
trait. -/
def captainType : unit_type :=
  { sampleType with id := "Captain", possible_traits := [quickTrait], num_traits := 1 }

/-- The registry with the Captain. -/
def captainEnv : Env := { sampleEnv with types := [("Captain", captainType)] }

/-- A Captain that can recruit. -/
def captainUnit : unit :=
  { blankUnit with type_ := "Captain", cfg_ := config.mk [("canrecruit", "yes")] [] }

/-- A Captain that cannot recruit. -/
def recruitUnit : unit := { blankUnit with type_ := "Captain" }

/-- A type whose pool lists the trait `quick` twice, with room for two traits. -/
def twinQuickType : unit_type :=
  { sampleType with id := "Runner", possible_traits := [quickTrait, quickTrait], num_traits := 2 }

/-- The registry with the Runner. -/
def twinQuickEnv : Env := { sampleEnv with types := [("Runner", twinQuickType)] }

/-- A Runner that cannot recruit and holds the trait `quick`. -/
def quickRunner : unit :=
  { blankUnit with type_ := "Runner", modifications_ := config.mk [] [("trait", quickTrait)] }

/-- A type with two distinct optional traits and a mandatory one, with room for
two traits. -/
def scoutType : unit_type :=
  { sampleType with
    id := "Scout"
    possible_traits :=
      [quickTrait, config.mk [("availability", "musthave"), ("id", "loyal")] [],
       config.mk [("id", "strong")] []]
    num_traits := 2 }

/-- The registry with the Scout. -/
def scoutEnv : Env := { sampleEnv with types := [("Scout", scoutType)] }

/-- A Scout that cannot recruit and holds no trait. -/
def freshScout : unit := { blankUnit with type_ := "Scout" }

/-- A unit of side 2 that is hidden and has the `hides` ability. -/
def rivalUnit : unit := { hiderUnit with side_ := 2 }

/-- Two hidden units of opposite sides, both with the `hides` ability, at the
addresses 0 and 1. -/
def ambushWorld : world := { heap := [(0, hiderUnit), (1, rivalUnit)], units_with_cache := [] }

/-- A Spearman that still has three attacks left out of three. -/
def eagerUnit : unit := { plainUnit with attacks_left_ := 3, max_attacks_ := 3 }

/-- A Spearman with ten moves out of ten. -/
def swiftUnit : unit := { plainUnit with movement_ := 10, max_movement_ := 10 }

/-- A Spearman of level 2 with 40 hitpoints out of 40. -/
def veteranSpearman : unit :=
  { plainUnit with level_ := 2, hit_points_ := 40, max_hit_points_ := 40 }

/-- An effect that halves the maximum hitpoints at every level. -/
def halvingEffect : config :=
  config.mk [("apply_to", "hitpoints"), ("set_total", "50%"), ("times", "per level")] []

/-- An effect that sets the hitpoints to half the maximum and the maximum to 60,
at every level. -/
def halfOfSixtyEffect : config :=
  config.mk [("apply_to", "hitpoints"), ("set", "50%"), ("set_total", "60"),
    ("times", "per level")] []

/-- A terrain table in which `Mix` stands for `A`, then PLUS and `B`. -/
def flipEnv : Env :=
  { sampleEnv with
    underlying_mvt_terrain := fun t => if t = "Mix" then ["A", "+", "B"] else [t]
    underlying_def_terrain := fun t => if t = "Mix" then ["A", "+", "B"] else [t] }

/-- A generator that always delivers one. -/
def oneRng : rng := ⟨fun _ => 1, 0⟩

/-- The Spearman type with both genders. -/
def twoGenderType : unit_type := { sampleType with genders := [GENDER.MALE, GENDER.FEMALE] }

/-- The sample environment with the two-gender Spearman registered. -/
def genderEnv : Env := { sampleEnv with types := [("Spearman", twoGenderType)] }

/-- A Spearman whose gender is still to be rolled. -/
def undecidedUnit : unit :=
  { plainUnit with cfg_ := config.mk [("random_gender", "yes")] [] }

/-- A Spearman whose ledger holds an object that adds an image modifier. -/
def paintedSpearman : unit :=
  { plainUnit with
    modifications_ := config.mk []
      [("object", config.mk [("id", "paint")]
        [("effect", config.mk [("add", "~GS()"), ("apply_to", "image_mod")] [])])] }

/-- A Spearman in the field: slowed, with two moves left, whose ledger holds a
trait that lowers the moves and a temporary object. -/
def tiredSpearman : unit :=
  { plainUnit with
    movement_ := 4
    max_movement_ := 5
    states_ := [("slowed", "yes")]
    modifications_ := config.mk []
      [("trait", config.mk [("id", "slow"), ("male_name", "slow")]
        [("effect", config.mk [("apply_to", "movement"), ("increase", "-2")] []),
         ("effect", config.mk [("add", "guardian"), ("apply_to", "status")] [])]),
       ("object", config.mk [("duration", "turn"), ("id", "potion")]
        [("effect", config.mk [("apply_to", "hitpoints"), ("increase_total", "5")] [])])] }

/-- An effect that sets the hitpoints to 20 and the maximum to 60, at every
level. -/
def steadyEffect : config :=
  config.mk [("apply_to", "hitpoints"), ("set", "20"), ("set_total", "60"),
    ("times", "per level")] []

/-- The unit with costs for `A`, `B` and `C` whose movement-cost cache holds 9
for the alias `Mix`. -/
def staleUnit : unit := { costUnit with movement_costs_ := [("Mix", 9)] }

/-! # Theorems -/

/-! ## Case analysis of the effect chain -/

/-- A property holds of `apply_effect` when it holds of every branch of the
chain. -/
theorem apply_effect_cases (P : unit → Prop) (E : Env) (eff : config) (u : unit)
    (h1 : eff.attr "apply_to" = "profile" → P (effect_profile eff u))
    (h2 : eff.attr "apply_to" = "new_attack" → P (effect_new_attack E eff u))
    (h3 : eff.attr "apply_to" = "remove_attacks" → P (effect_remove_attacks E eff u))
    (h4 : eff.attr "apply_to" = "attack" → P (effect_attack E eff u))
    (h5 : eff.attr "apply_to" = "hitpoints" → P (effect_hitpoints E eff u))
    (h6 : eff.attr "apply_to" = "movement" → P (effect_movement E eff u))
    (h7 : eff.attr "apply_to" = "max_experience" → P (effect_max_experience E eff u))
    (h8 : eff.attr "apply_to" = "loyal" → P (effect_loyal u))
    (h9 : eff.attr "apply_to" = "status" → P (effect_status eff u))
    (h10 : eff.attr "apply_to" = "movement_costs" → P (effect_movement_costs E eff u))
    (h11 : eff.attr "apply_to" = "defense" → P (effect_defense E eff u))
    (h12 : eff.attr "apply_to" = "resistance" → P (effect_resistance E eff u))
    (h13 : eff.attr "apply_to" = "zoc" → P (effect_zoc E eff u))
    (h14 : eff.attr "apply_to" = "new_ability" → P (effect_new_ability eff u))
    (h15 : eff.attr "apply_to" = "remove_ability" → P (effect_remove_ability eff u))
    (h16 : eff.attr "apply_to" = "image_mod" → P (effect_image_mod eff u))
    (h17 : P u) : P (apply_effect E eff u) := by
  unfold apply_effect
  by_cases c1 : eff.attr "apply_to" = "profile"
  · rw [if_pos c1]; exact h1 c1
  rw [if_neg c1]
  by_cases c2 : eff.attr "apply_to" = "new_attack"
  · rw [if_pos c2]; exact h2 c2
  rw [if_neg c2]
  by_cases c3 : eff.attr "apply_to" = "remove_attacks"
  · rw [if_pos c3]; exact h3 c3
  rw [if_neg c3]
  by_cases c4 : eff.attr "apply_to" = "attack"
  · rw [if_pos c4]; exact h4 c4
  rw [if_neg c4]
  by_cases c5 : eff.attr "apply_to" = "hitpoints"
  · rw [if_pos c5]; exact h5 c5
  rw [if_neg c5]
  by_cases c6 : eff.attr "apply_to" = "movement"
  · rw [if_pos c6]; exact h6 c6
  rw [if_neg c6]
  by_cases c7 : eff.attr "apply_to" = "max_experience"
  · rw [if_pos c7]; exact h7 c7
  rw [if_neg c7]
  by_cases c8 : eff.attr "apply_to" = "loyal"
  · rw [if_pos c8]; exact h8 c8
  rw [if_neg c8]
  by_cases c9 : eff.attr "apply_to" = "status"
  · rw [if_pos c9]; exact h9 c9
  rw [if_neg c9]
  by_cases c10 : eff.attr "apply_to" = "movement_costs"
  · rw [if_pos c10]; exact h10 c10
  rw [if_neg c10]
  by_cases c11 : eff.attr "apply_to" = "defense"
  · rw [if_pos c11]; exact h11 c11
  rw [if_neg c11]
  by_cases c12 : eff.attr "apply_to" = "resistance"
  · rw [if_pos c12]; exact h12 c12
  rw [if_neg c12]
  by_cases c13 : eff.attr "apply_to" = "zoc"
  · rw [if_pos c13]; exact h13 c13
  rw [if_neg c13]
  by_cases c14 : eff.attr "apply_to" = "new_ability"
  · rw [if_pos c14]; exact h14 c14
  rw [if_neg c14]
  by_cases c15 : eff.attr "apply_to" = "remove_ability"
  · rw [if_pos c15]; exact h15 c15
  rw [if_neg c15]
  by_cases c16 : eff.attr "apply_to" = "image_mod"
  · rw [if_pos c16]; exact h16 c16
  rw [if_neg c16]
  exact h17

/-- A property of state updates holds of `apply_effect` when it holds of every
branch of the chain. -/
theorem apply_effect_fun_cases (P : (unit → unit) → Prop) (E : Env) (eff : config)
    (h1 : P (effect_profile eff))
    (h2 : P (effect_new_attack E eff))
    (h3 : P (effect_remove_attacks E eff))
    (h4 : P (effect_attack E eff))
    (h5 : P (effect_hitpoints E eff))
    (h6 : P (effect_movement E eff))
    (h7 : P (effect_max_experience E eff))
    (h8 : P (effect_loyal))
    (h9 : P (effect_status eff))
    (h10 : P (effect_movement_costs E eff))
    (h11 : P (effect_defense E eff))
    (h12 : P (effect_resistance E eff))
    (h13 : P (effect_zoc E eff))
    (h14 : P (effect_new_ability eff))
    (h15 : P (effect_remove_ability eff))
    (h16 : P (effect_image_mod eff))
    (h17 : P (fun u => u)) : P (apply_effect E eff) := by
  have key : ∀ f : unit → unit, (∀ u, apply_effect E eff u = f u) → P f → P (apply_effect E eff) := by
    intro f hf hp
    have : apply_effect E eff = f := funext hf
    rw [this]; exact hp
  by_cases c1 : eff.attr "apply_to" = "profile"
  · refine key _ (fun u => ?_) h1
    unfold apply_effect
    rw [if_pos c1]
  by_cases c2 : eff.attr "apply_to" = "new_attack"
  · refine key _ (fun u => ?_) h2
    unfold apply_effect
    rw [if_neg c1, if_pos c2]
  by_cases c3 : eff.attr "apply_to" = "remove_attacks"
  · refine key _ (fun u => ?_) h3
    unfold apply_effect
    rw [if_neg c1, if_neg c2, if_pos c3]
  by_cases c4 : eff.attr "apply_to" = "attack"
  · refine key _ (fun u => ?_) h4
    unfold apply_effect
    rw [if_neg c1, if_neg c2, if_neg c3, if_pos c4]
  by_cases c5 : eff.attr "apply_to" = "hitpoints"
  · refine key _ (fun u => ?_) h5
    unfold apply_effect
    rw [if_neg c1, if_neg c2, if_neg c3, if_neg c4, if_pos c5]
  by_cases c6 : eff.attr "apply_to" = "movement"
  · refine key _ (fun u => ?_) h6
    unfold apply_effect
    rw [if_neg c1, if_neg c2, if_neg c3, if_neg c4, if_neg c5, if_pos c6]
  by_cases c7 : eff.attr "apply_to" = "max_experience"
  · refine key _ (fun u => ?_) h7
    unfold apply_effect
    rw [if_neg c1, if_neg c2, if_neg c3, if_neg c4, if_neg c5, if_neg c6, if_pos c7]
  by_cases c8 : eff.attr "apply_to" = "loyal"
  · refine key _ (fun u => ?_) h8
    unfold apply_effect
    rw [if_neg c1, if_neg c2, if_neg c3, if_neg c4, if_neg c5, if_neg c6, if_neg c7, if_pos c8]
  by_cases c9 : eff.attr "apply_to" = "status"
  · refine key _ (fun u => ?_) h9
    unfold apply_effect
    rw [if_neg c1, if_neg c2, if_neg c3, if_neg c4, if_neg c5, if_neg c6, if_neg c7, if_neg c8, if_pos c9]
  by_cases c10 : eff.attr "apply_to" = "movement_costs"
  · refine key _ (fun u => ?_) h10
    unfold apply_effect
    rw [if_neg c1, if_neg c2, if_neg c3, if_neg c4, if_neg c5, if_neg c6, if_neg c7, if_neg c8, if_neg c9, if_pos c10]
  by_cases c11 : eff.attr "apply_to" = "defense"
  · refine key _ (fun u => ?_) h11
    unfold apply_effect
    rw [if_neg c1, if_neg c2, if_neg c3, if_neg c4, if_neg c5, if_neg c6, if_neg c7, if_neg c8, if_neg c9, if_neg c10, if_pos c11]
  by_cases c12 : eff.attr "apply_to" = "resistance"
  · refine key _ (fun u => ?_) h12
    unfold apply_effect
    rw [if_neg c1, if_neg c2, if_neg c3, if_neg c4, if_neg c5, if_neg c6, if_neg c7, if_neg c8, if_neg c9, if_neg c10, if_neg c11, if_pos c12]
  by_cases c13 : eff.attr "apply_to" = "zoc"
  · refine key _ (fun u => ?_) h13
    unfold apply_effect
    rw [if_neg c1, if_neg c2, if_neg c3, if_neg c4, if_neg c5, if_neg c6, if_neg c7, if_neg c8, if_neg c9, if_neg c10, if_neg c11, if_neg c12, if_pos c13]
  by_cases c14 : eff.attr "apply_to" = "new_ability"
  · refine key _ (fun u => ?_) h14
    unfold apply_effect
    rw [if_neg c1, if_neg c2, if_neg c3, if_neg c4, if_neg c5, if_neg c6, if_neg c7, if_neg c8, if_neg c9, if_neg c10, if_neg c11, if_neg c12, if_neg c13, if_pos c14]
  by_cases c15 : eff.attr "apply_to" = "remove_ability"
  · refine key _ (fun u => ?_) h15
    unfold apply_effect
    rw [if_neg c1, if_neg c2, if_neg c3, if_neg c4, if_neg c5, if_neg c6, if_neg c7, if_neg c8, if_neg c9, if_neg c10, if_neg c11, if_neg c12, if_neg c13, if_neg c14, if_pos c15]
  by_cases c16 : eff.attr "apply_to" = "image_mod"
  · refine key _ (fun u => ?_) h16
    unfold apply_effect
    rw [if_neg c1, if_neg c2, if_neg c3, if_neg c4, if_neg c5, if_neg c6, if_neg c7, if_neg c8, if_neg c9, if_neg c10, if_neg c11, if_neg c12, if_neg c13, if_neg c14, if_neg c15, if_pos c16]
  refine key _ (fun u => ?_) h17
  unfold apply_effect
  rw [if_neg c1, if_neg c2, if_neg c3, if_neg c4, if_neg c5, if_neg c6, if_neg c7, if_neg c8, if_neg c9, if_neg c10, if_neg c11, if_neg c12, if_neg c13, if_neg c14, if_neg c15, if_neg c16]

/-! ## Hitpoints across the merge engine (C1) -/

theorem hitpoints_new_max_pos (E : Env) (eff : config) (m : Int) :
    1 ≤ hitpoints_new_max E eff m := by
  unfold hitpoints_new_max
  simp only
  split_ifs <;> omega

theorem hitpoints_new_hp_pos (E : Env) (eff : config) (hp m : Int) :
    1 ≤ hitpoints_new_hp E eff hp m := by
  unfold hitpoints_new_hp
  simp only
  split_ifs <;> omega

theorem hitpoints_new_hp_le (E : Env) (eff : config) (hp m : Int)
    (hv : eff.attr "violate_maximum" = "") :
    hitpoints_new_hp E eff hp m ≤ hitpoints_new_max E eff m := by
  have hm := hitpoints_new_max_pos E eff m
  unfold hitpoints_new_hp
  simp only [hv, and_true]
  split_ifs <;> omega

/-- Every effect other than `hitpoints` leaves both hitpoint fields alone. -/
theorem apply_effect_hp_frame (E : Env) (eff : config) (u : unit)
    (h : eff.attr "apply_to" ≠ "hitpoints") :
    (apply_effect E eff u).hit_points_ = u.hit_points_ ∧
    (apply_effect E eff u).max_hit_points_ = u.max_hit_points_ := by
  apply apply_effect_cases
    (fun v => v.hit_points_ = u.hit_points_ ∧ v.max_hit_points_ = u.max_hit_points_)
  case h5 => intro c; exact absurd c h
  all_goals intros; exact ⟨rfl, rfl⟩

theorem apply_effect_hitpoints_eq (E : Env) (eff : config) (u : unit)
    (h : eff.attr "apply_to" = "hitpoints") :
    apply_effect E eff u = effect_hitpoints E eff u := by
  unfold apply_effect
  rw [h]
  rfl

/-- A field that no effect body touches is the same after the whole effect loop
of a record. -/
theorem apply_effects_frame {α : Type} (f : unit → α) (E : Env)
    (hf : ∀ eff u, f (apply_effect E eff u) = f u) (mod : config) (u : unit) :
    f (apply_effects E mod u) = f u := by
  have hit : ∀ eff n v, f (iterate_unit (apply_effect E eff) n v) = f v := by
    intro eff n
    induction n with
    | zero => intro v; rfl
    | succ n ih => intro v; show f (iterate_unit _ n (apply_effect E eff v)) = f v; rw [ih, hf]
  unfold apply_effects
  generalize mod.get_children "effect" = l
  induction l generalizing u with
  | nil => rfl
  | cons eff rest ih =>
    rw [List.foldl_cons, ih]
    split
    · exact hit eff _ u
    · rfl

/-- A field that no effect body touches is the same after the effect loops of a
list of records. -/
theorem records_frame {α : Type} (f : unit → α) (E : Env)
    (hf : ∀ eff u, f (apply_effect E eff u) = f u) (l : List (String × config)) (u : unit) :
    f (l.foldl (fun v r => apply_effects E r.2 v) u) = f u := by
  induction l generalizing u with
  | nil => rfl
  | cons r rest ih => rw [List.foldl_cons, ih, apply_effects_frame f E hf]

theorem apply_effect_modifications (E : Env) (eff : config) (u : unit) :
    (apply_effect E eff u).modifications_ = u.modifications_ := by
  apply apply_effect_cases (fun v => v.modifications_ = u.modifications_)
  all_goals intros; rfl

/-- The ledger after `apply_modifications` is the ledger before it with the
trait records renamed. -/
theorem apply_modifications_ledger (E : Env) (u : unit) :
    (apply_modifications E u).modifications_ = rename_traits u.gender_ u.modifications_ := by
  unfold apply_modifications
  exact records_frame (fun v => v.modifications_) E (apply_effect_modifications E) _ _

/-- The hitpoints and their maximum are at least one after an effect body when
they were before. -/
theorem apply_effect_floor (E : Env) (eff : config) (u : unit)
    (h : 1 ≤ u.hit_points_ ∧ 1 ≤ u.max_hit_points_) :
    1 ≤ (apply_effect E eff u).hit_points_ ∧ 1 ≤ (apply_effect E eff u).max_hit_points_ := by
  by_cases c : eff.attr "apply_to" = "hitpoints"
  · rw [apply_effect_hitpoints_eq E eff u c]
    exact ⟨hitpoints_new_hp_pos E eff _ _, hitpoints_new_max_pos E eff _⟩
  · rw [(apply_effect_hp_frame E eff u c).1, (apply_effect_hp_frame E eff u c).2]
    exact h

/-- The hitpoints stay within the maximum through an effect body that does not
use `violate_maximum`. -/
theorem apply_effect_cap (E : Env) (eff : config) (u : unit)
    (hv : eff.attr "apply_to" = "hitpoints" → eff.attr "violate_maximum" = "")
    (h : u.hit_points_ ≤ u.max_hit_points_) :
    (apply_effect E eff u).hit_points_ ≤ (apply_effect E eff u).max_hit_points_ := by
  by_cases c : eff.attr "apply_to" = "hitpoints"
  · rw [apply_effect_hitpoints_eq E eff u c]
    exact hitpoints_new_hp_le E eff _ _ (hv c)
  · rw [(apply_effect_hp_frame E eff u c).1, (apply_effect_hp_frame E eff u c).2]
    exact h

/-- An invariant of the effect bodies of a record is an invariant of its effect
loop. -/
theorem apply_effects_invariant (P : unit → Prop) (E : Env) (mod : config)
    (hP : ∀ eff ∈ mod.get_children "effect", ∀ v, P v → P (apply_effect E eff v))
    (u : unit) (h : P u) : P (apply_effects E mod u) := by
  have hit : ∀ eff ∈ mod.get_children "effect", ∀ n v, P v →
      P (iterate_unit (apply_effect E eff) n v) := by
    intro eff he n
    induction n with
    | zero => intro v hv; exact hv
    | succ n ih => intro v hv; exact ih _ (hP eff he v hv)
  unfold apply_effects
  revert hit
  generalize mod.get_children "effect" = l
  intro hit
  induction l generalizing u with
  | nil => exact h
  | cons eff rest ih =>
    rw [List.foldl_cons]
    apply ih _ _ (fun e he => hit e (List.mem_cons_of_mem _ he))
    split
    · exact hit eff (List.mem_cons_self _ _) _ u h
    · exact h

/-- An invariant of the effect bodies of all records of a list is an invariant
of the pass over the list. -/
theorem records_invariant (P : unit → Prop) (E : Env) (l : List (String × config))
    (hP : ∀ r ∈ l, ∀ eff ∈ r.2.get_children "effect", ∀ v, P v → P (apply_effect E eff v))
    (u : unit) (h : P u) : P (l.foldl (fun v r => apply_effects E r.2 v) u) := by
  induction l generalizing u with
  | nil => exact h
  | cons r rest ih =>
    rw [List.foldl_cons]
    exact ih (fun r1 h1 => hP r1 (List.mem_cons_of_mem _ h1)) _
      (apply_effects_invariant P E r.2 (hP r (List.mem_cons_self _ _)) u h)

/-- The floor of one survives `apply_modifications`. -/
theorem apply_modifications_floor (E : Env) (u : unit)
    (h : 1 ≤ u.hit_points_ ∧ 1 ≤ u.max_hit_points_) :
    1 ≤ (apply_modifications E u).hit_points_ ∧ 1 ≤ (apply_modifications E u).max_hit_points_ := by
  unfold apply_modifications
  exact records_invariant (fun v => 1 ≤ v.hit_points_ ∧ 1 ≤ v.max_hit_points_) E _
    (fun _ _ eff _ v hv => apply_effect_floor E eff v hv) _ h

/-- The cap at the maximum survives `apply_modifications` when the ledger has no
`violate_maximum`. -/
theorem apply_modifications_cap (E : Env) (u : unit)
    (hl : ledger_respects_maximum (apply_modifications E u).modifications_)
    (h : u.hit_points_ ≤ u.max_hit_points_) :
    (apply_modifications E u).hit_points_ ≤ (apply_modifications E u).max_hit_points_ := by
  rw [apply_modifications_ledger] at hl
  unfold apply_modifications
  exact records_invariant (fun v => v.hit_points_ ≤ v.max_hit_points_) E _
    (fun r hr eff he v hv => apply_effect_cap E eff v (hl r hr eff he) hv) _ h

/-- A successful `generate_traits` changes only the document and the ledger of
the unit. -/
theorem generate_traits_ok_unit (E : Env) (m st : Bool) (s s1 : St)
    (h : generate_traits E m st s = .ok s1) :
    ∃ c l, s1.u = { s.u with cfg_ := c, modifications_ := l } := by
  unfold generate_traits at h
  split at h
  · cases h
  · simp only at h
    split at h
    · cases h; exact ⟨_, _, rfl⟩
    · cases h; exact ⟨_, _, rfl⟩

/-- The routine `generate_gender` changes only the document of the unit. -/
theorem generate_gender_unit (t : unit_type) (gen st : Bool) (s : St) :
    (generate_gender t gen st s).2.u = { s.u with cfg_ := s.u.cfg_.set_attr "random_gender" "no" } := by
  unfold generate_gender
  simp only
  split
  · rfl
  · split
    · split <;> rfl
    · rfl

/-- The gender step of `advance_to` changes only the document of the unit. -/
theorem advance_gender_unit (E : Env) (t : unit_type) (s : St) :
    ∃ c, (advance_gender E t s).u = { s.u with cfg_ := c } := by
  unfold advance_gender
  split
  · simp only [generate_gender_unit]
    exact ⟨_, rfl⟩
  · exact ⟨_, rfl⟩

/-- The state in which `advance_to` applies the ledger: the hitpoints and their
maximum are those of the new type, and the unit is healed afterwards exactly when
its type id differs from the id of the new type. -/
theorem advance_to_ok (E : Env) (t0 : unit_type) (use_traits state : Bool) (s s1 : St)
    (h : advance_to E t0 use_traits state s = .ok s1) :
    ∃ v : unit,
      v.hit_points_ = (E.variant t0 s.u.gender_ s.u.variation_).hitpoints ∧
      v.max_hit_points_ = (E.variant t0 s.u.gender_ s.u.variation_).hitpoints ∧
      s1.u = advance_finish E
        (decide (s.u.type_id ≠ (E.variant t0 s.u.gender_ s.u.variation_).id)) v := by
  unfold advance_to at h
  simp only at h
  split at h
  · cases h
  · rename_i u1 hreset
    split at h
    · cases h
    · rename_i ty hty
      have htype : u1.type_ = s.u.type_ := by
        unfold reset_modifications at hreset
        split at hreset
        · cases hreset
        · cases hreset; rfl
        · cases hreset; rfl
      obtain ⟨c, hc⟩ := advance_gender_unit E (E.variant t0 s.u.gender_ s.u.variation_)
        { s with u := advance_prepare E (E.variant t0 s.u.gender_ s.u.variation_) ty u1 }
      generalize advance_gender E (E.variant t0 s.u.gender_ s.u.variation_) _ = s3 at h hc
      have h3type : s3.u.type_id = s.u.type_id := by
        show s3.u.type_ = s.u.type_
        rw [hc]; exact htype
      rw [h3type] at h
      cases h4 : advance_traits E use_traits state
          (advance_type (E.variant t0 s.u.gender_ s.u.variation_) s3) with
      | thrown e s5 => rw [h4] at h; cases h
      | ok s5 =>
        rw [h4] at h
        simp only [Res.andThen] at h
        cases h
        have h5 : ∃ c l, s5.u = { (advance_type (E.variant t0 s.u.gender_ s.u.variation_) s3).u
            with cfg_ := c, modifications_ := l } := by
          unfold advance_traits at h4
          split at h4
          · exact generate_traits_ok_unit E _ _ _ _ h4
          · exact generate_traits_ok_unit E _ _ _ _ h4
        obtain ⟨c5, l5, h5⟩ := h5
        refine ⟨s5.u, ?_, ?_, rfl⟩
        · rw [h5]
          show (advance_type (E.variant t0 s.u.gender_ s.u.variation_) s3).u.hit_points_ = _
          unfold advance_type
          split
          · show s3.u.hit_points_ = _; rw [hc]; rfl
          · rw [hc]; rfl
        · rw [h5]
          show (advance_type (E.variant t0 s.u.gender_ s.u.variation_) s3).u.max_hit_points_ = _
          unfold advance_type
          split
          · show s3.u.max_hit_points_ = _; rw [hc]; rfl
          · rw [hc]; rfl

theorem advance_finish_fields (E : Env) (dh : Bool) (v : unit) :
    (advance_finish E dh v).hit_points_ =
      (if dh then (apply_modifications E v).max_hit_points_
       else (apply_modifications E v).hit_points_) ∧
    (advance_finish E dh v).max_hit_points_ = (apply_modifications E v).max_hit_points_ ∧
    (advance_finish E dh v).modifications_ = (apply_modifications E v).modifications_ := by
  unfold advance_finish
  generalize apply_modifications E v = w
  cases dh <;> exact ⟨rfl, rfl, rfl⟩

theorem Res.eq_ok_state (r : Res) (h : r.isOk = true) : r = .ok r.state := by
  cases r with
  | ok s => rfl
  | thrown e s => cases h

/-- C1, as amended: when `advance_to(t)` returns for a type with at least one
hitpoint, the hitpoints and their maximum are both at least one, whatever the
ledger holds and whether or not the type identity changed; the hitpoints are at
most the maximum when the type identity changed (the unit is healed) or no
`hitpoints` effect of the resulting ledger sets `violate_maximum`. -/
theorem advance_to_hitpoints_bounds (E : Env) (t0 : unit_type) (use_traits state : Bool)
    (s s1 : St) (h : advance_to E t0 use_traits state s = .ok s1)
    (hpos : 1 ≤ (E.variant t0 s.u.gender_ s.u.variation_).hitpoints) :
    1 ≤ s1.u.hit_points_ ∧ 1 ≤ s1.u.max_hit_points_ ∧
    ((s.u.type_id ≠ (E.variant t0 s.u.gender_ s.u.variation_).id ∨
        ledger_respects_maximum s1.u.modifications_) →
      s1.u.hit_points_ ≤ s1.u.max_hit_points_) := by
  obtain ⟨v, hv1, hv2, hs1⟩ := advance_to_ok E t0 use_traits state s s1 h
  have hfloor := apply_modifications_floor E v (by rw [hv1, hv2]; exact ⟨hpos, hpos⟩)
  obtain ⟨f1, f2, f3⟩ := advance_finish_fields E
    (decide (s.u.type_id ≠ (E.variant t0 s.u.gender_ s.u.variation_).id)) v
  rw [hs1, f1, f2]
  by_cases hne : s.u.type_id ≠ (E.variant t0 s.u.gender_ s.u.variation_).id
  · rw [decide_eq_true hne]
    simp only [if_true]
    exact ⟨hfloor.2, hfloor.2, fun _ => le_refl _⟩
  · rw [decide_eq_false hne]
    simp only [Bool.false_eq_true, if_false]
    refine ⟨hfloor.1, hfloor.2, ?_⟩
    intro hled
    rcases hled with hl | hl
    · exact absurd hl hne
    · rw [(advance_finish_fields E false v).2.2] at hl
      exact apply_modifications_cap E v hl (by rw [hv1, hv2])

set_option maxRecDepth 100000 in
theorem advance_to_hitpoints_bounds_witness :
    1 ≤ sampleType.hitpoints ∧
    (1 ≤ (advance_to spearEnv sampleType false false
        ⟨overhealUnit, zeroRng, zeroRng, 0⟩).state.u.hit_points_ ∧
      1 ≤ (advance_to spearEnv sampleType false false
        ⟨overhealUnit, zeroRng, zeroRng, 0⟩).state.u.max_hit_points_) ∧
    (advance_to spearEnv sampleType false false
        ⟨woundedUnit, zeroRng, zeroRng, 0⟩).state.u.hit_points_ ≤
      (advance_to spearEnv sampleType false false
        ⟨woundedUnit, zeroRng, zeroRng, 0⟩).state.u.max_hit_points_ ∧
    (advance_to spearEnv sampleType false false
        ⟨{ overhealUnit with type_ := "" }, zeroRng, zeroRng, 0⟩).state.u.hit_points_ ≤
      (advance_to spearEnv sampleType false false
        ⟨{ overhealUnit with type_ := "" }, zeroRng, zeroRng, 0⟩).state.u.max_hit_points_ :=
  ⟨by decide,
   ⟨(advance_to_hitpoints_bounds spearEnv sampleType false false
      ⟨overhealUnit, zeroRng, zeroRng, 0⟩ _ (Res.eq_ok_state _ (by decide)) (by decide)).1,
    (advance_to_hitpoints_bounds spearEnv sampleType false false
      ⟨overhealUnit, zeroRng, zeroRng, 0⟩ _ (Res.eq_ok_state _ (by decide)) (by decide)).2.1⟩,
   (advance_to_hitpoints_bounds spearEnv sampleType false false
      ⟨woundedUnit, zeroRng, zeroRng, 0⟩ _ (Res.eq_ok_state _ (by decide)) (by decide)).2.2
      (Or.inr (by decide)),
   (advance_to_hitpoints_bounds spearEnv sampleType false false
      ⟨{ overhealUnit with type_ := "" }, zeroRng, zeroRng, 0⟩ _
      (Res.eq_ok_state _ (by decide)) (by decide)).2.2 (Or.inl (by decide))⟩

set_option maxRecDepth 100000 in
/-- C1 as stated fails: a Spearman (30 hitpoints) that carries an object with
`increase=5` and `violate_maximum=yes` and advances to its own type ends with 35
hitpoints out of 30.  And a unit built from a type without hitpoints ends with
no hitpoint. -/
theorem advance_to_can_exceed_maximum :
    ¬ (∀ s1 : St, advance_to spearEnv sampleType false false ⟨overhealUnit, zeroRng, zeroRng, 0⟩
          = .ok s1 → 1 ≤ s1.u.hit_points_ ∧ s1.u.hit_points_ ≤ s1.u.max_hit_points_) ∧
    ((advance_to wispEnv wispType false false ⟨blankUnit, zeroRng, zeroRng, 0⟩).isOk = true ∧
      (advance_to wispEnv wispType false false
        ⟨blankUnit, zeroRng, zeroRng, 0⟩).state.u.hit_points_ = 0) := by
  refine ⟨?_, by decide, by decide⟩
  intro H
  have hok := Res.eq_ok_state
    (advance_to spearEnv sampleType false false ⟨overhealUnit, zeroRng, zeroRng, 0⟩) (by decide)
  have h35 : (advance_to spearEnv sampleType false false
      ⟨overhealUnit, zeroRng, zeroRng, 0⟩).state.u.hit_points_ = 35 := by decide
  have h30 : (advance_to spearEnv sampleType false false
      ⟨overhealUnit, zeroRng, zeroRng, 0⟩).state.u.max_hit_points_ = 30 := by decide
  have hb := (H _ hok).2
  rw [h35, h30] at hb
  exact absurd hb (by decide)

/-! ## The alias fold (C2) -/

theorem alias_fold_none (resolve : String → List (String × Int) → Option (Int × List (String × Int)))
    (l : List String) : l.foldl (alias_fold_step resolve) none = none := by
  induction l with
  | nil => rfl
  | cons x rest ih => exact ih

/-- The loop of the source is the fold of the specification, `revert` being the
decreasing mode. -/
theorem alias_loop_eq_fold
    (resolve : String → List (String × Int) → Option (Int × List (String × Int)))
    (l : List String) (revert : Bool) (ret : Int) (c : List (String × Int)) :
    alias_loop resolve l revert ret c =
      (l.foldl (alias_fold_step resolve)
        (some { mode := if revert then alias_mode.decreasing else alias_mode.increasing
                value := ret, cache := c })).map (fun a => (a.value, a.cache)) := by
  induction l generalizing revert ret c with
  | nil => rfl
  | cons i rest ih =>
    rw [List.foldl_cons]
    unfold alias_loop
    by_cases hp : i = PLUS
    · rw [if_pos hp, ih]
      simp [alias_fold_step, hp]
    · rw [if_neg hp]
      by_cases hm : i = MINUS
      · rw [if_pos hm, ih]
        have hmp : ¬ (MINUS = PLUS) := by decide
        simp [alias_fold_step, hm, hmp]
      · rw [if_neg hm]
        cases hr : resolve i c with
        | none =>
          simp [alias_fold_step, hp, hm, hr, alias_fold_none]
        | some vc =>
          obtain ⟨v, c1⟩ := vc
          cases revert with
          | false =>
            simp only [alias_fold_step, hp, hm, hr, if_false, Bool.false_eq_true, and_true,
              and_false]
            by_cases hlt : v < ret
            · simp only [hlt, if_true]; rw [ih]; rfl
            · simp only [hlt, if_false]; rw [ih]; rfl
          | true =>
            simp only [alias_fold_step, hp, hm, hr, if_false, if_true, Bool.true_eq_false,
              and_true, and_false]
            by_cases hgt : v > ret
            · simp only [hgt, if_true]; rw [ih]; rfl
            · simp only [hgt, if_false]; rw [ih]; rfl

theorem alias_fuel_succ (rc : Int) (h : rc < 100) : alias_fuel rc = alias_fuel (rc + 1) + 1 := by
  unfold alias_fuel
  omega

theorem alias_loop_isSome
    (resolve : String → List (String × Int) → Option (Int × List (String × Int)))
    (hres : ∀ i c, (resolve i c).isSome = true)
    (l : List String) (revert : Bool) (ret : Int) (c : List (String × Int)) :
    (alias_loop resolve l revert ret c).isSome = true := by
  induction l generalizing revert ret c with
  | nil => rfl
  | cons i rest ih =>
    unfold alias_loop
    split
    · exact ih _ _ _
    · split
      · exact ih _ _ _
      · have h := hres i c
        cases hr : resolve i c with
        | none => rw [hr] at h; cases h
        | some vc =>
          obtain ⟨v, c1⟩ := vc
          simp only
          split
          · exact ih _ _ _
          · split
            · exact ih _ _ _
            · exact ih _ _ _

/-- The movement-cost resolution returns for every fuel that covers the depth
the guard allows, when no terrain has an empty underlying list. -/
theorem movement_cost_aux_isSome (E : Env) (cfg : config)
    (hne : ∀ t, E.underlying_mvt_terrain t ≠ []) :
    ∀ (fuel : Nat) (terrain : String) (rc : Int) (cache : List (String × Int)),
      (100 - rc).toNat + 1 ≤ fuel →
      (movement_cost_aux E cfg fuel terrain rc cache).isSome = true := by
  intro fuel
  induction fuel with
  | zero => intro terrain rc cache h; omega
  | succ n ih =>
    intro terrain rc cache h
    unfold movement_cost_aux
    split
    · rfl
    · split
      · rename_i hu; exact absurd hu (hne terrain)
      · split
        · split
          · rfl
          · rename_i hrc
            have hl := alias_loop_isSome
              (fun i c => movement_cost_aux E cfg n i (rc + 1) c)
              (fun i c => ih i (rc + 1) c (by omega))
            split
            · rename_i hnone
              rw [← Option.not_isSome_iff_eq_none] at hnone
              exact absurd (hl _ _ _ _) hnone
            · rfl
        · rfl

/-- The defense resolution returns for every fuel that covers the depth the
guard allows, when no terrain has an empty underlying list. -/
theorem defense_modifier_aux_isSome (E : Env) (cfg : config)
    (hne : ∀ t, E.underlying_def_terrain t ≠ []) :
    ∀ (fuel : Nat) (terrain : String) (rc : Int) (cache : List (String × Int)),
      (100 - rc).toNat + 1 ≤ fuel →
      (defense_modifier_aux E cfg fuel terrain rc cache).isSome = true := by
  intro fuel
  induction fuel with
  | zero => intro terrain rc cache h; omega
  | succ n ih =>
    intro terrain rc cache h
    unfold defense_modifier_aux
    split
    · rfl
    · split
      · rename_i hu; exact absurd hu (hne terrain)
      · split
        · split
          · rfl
          · rename_i hrc
            have hl := alias_loop_isSome
              (fun i c => defense_modifier_aux E cfg n i (rc + 1) c)
              (fun i c => ih i (rc + 1) c (by omega))
            split
            · rename_i hnone
              rw [← Option.not_isSome_iff_eq_none] at hnone
              exact absurd (hl _ _ _ _) hnone
            · rfl
        · rfl

theorem resolve_movement_eq (E : Env) (u : unit) (rc : Int) :
    resolve_movement E u rc =
      fun i c => movement_cost_aux E u.cfg_ (alias_fuel rc) i rc c := by
  funext i c
  unfold resolve_movement movement_cost_internal
  cases movement_cost_aux E u.cfg_ (alias_fuel rc) i rc c <;> rfl

theorem resolve_defense_eq (E : Env) (u : unit) (rc : Int) :
    resolve_defense E u rc =
      fun i c => defense_modifier_aux E u.cfg_ (alias_fuel rc) i rc c := by
  funext i c
  unfold resolve_defense defense_modifier
  cases defense_modifier_aux E u.cfg_ (alias_fuel rc) i rc c <;> rfl

theorem alias_condition (front terrain : String) (others : List String)
    (h : front :: others ≠ [terrain]) : (front :: others).length ≠ 1 ∨ front ≠ terrain := by
  cases others with
  | nil =>
    right
    intro hf
    exact h (by rw [hf])
  | cons x xs => left; simp

theorem alias_start (front : String) (others : List String) (sentinel : Int)
    (c : List (String × Int)) :
    (some { mode := if decide (front = MINUS) = true then alias_mode.decreasing
                    else alias_mode.increasing
            value := if front = MINUS then 0 else sentinel
            cache := c } : Option alias_state) =
      some { mode := if (front :: others).head? = some MINUS then alias_mode.decreasing
                     else alias_mode.increasing
             value := if (front :: others).head? = some MINUS then 0 else sentinel
             cache := c } := by
  by_cases h : front = MINUS <;> simp [h]

theorem movement_cost_aux_alias (E : Env) (cfg : config) (n : Nat) (terrain : String) (rc : Int)
    (cache : List (String × Int)) (front : String) (others : List String)
    (hcache : cache.lookup terrain = none)
    (hu : E.underlying_mvt_terrain terrain = front :: others)
    (halias : (front :: others).length ≠ 1 ∨ front ≠ terrain) (hrc : ¬ rc ≥ 100) :
    movement_cost_aux E cfg (n + 1) terrain rc cache =
      (alias_loop (fun i c => movement_cost_aux E cfg n i (rc + 1) c) (front :: others)
        (decide (front = MINUS)) (if front = MINUS then 0 else impassable) cache).map
        (fun r => (r.1, cache_insert r.2 terrain r.1)) := by
  rw [movement_cost_aux]
  simp only [hcache, hu]
  rw [if_pos halias, if_neg hrc]
  cases alias_loop (fun i c => movement_cost_aux E cfg n i (rc + 1) c) (front :: others)
    (decide (front = MINUS)) (if front = MINUS then 0 else impassable) cache <;> rfl

theorem defense_modifier_aux_alias (E : Env) (cfg : config) (n : Nat) (terrain : String) (rc : Int)
    (cache : List (String × Int)) (front : String) (others : List String)
    (hcache : cache.lookup terrain = none)
    (hu : E.underlying_def_terrain terrain = front :: others)
    (halias : (front :: others).length ≠ 1 ∨ front ≠ terrain) (hrc : ¬ rc ≥ 100) :
    defense_modifier_aux E cfg (n + 1) terrain rc cache =
      (alias_loop (fun i c => defense_modifier_aux E cfg n i (rc + 1) c) (front :: others)
        (decide (front = MINUS)) (if front = MINUS then 0 else 100) cache).map
        (fun r => (r.1, cache_insert r.2 terrain r.1)) := by
  rw [defense_modifier_aux]
  simp only [hcache, hu]
  rw [if_pos halias, if_neg hrc]
  cases alias_loop (fun i c => defense_modifier_aux E cfg n i (rc + 1) c) (front :: others)
    (decide (front = MINUS)) (if front = MINUS then 0 else 100) cache <;> rfl

/-- The movement cost of an uncached alias below the recursion bound is the
value of the fold. -/
theorem movement_alias_fold (E : Env) (u : unit) (terrain : String) (rc : Int)
    (front : String) (others : List String)
    (hcache : u.movement_costs_.lookup terrain = none)
    (hu : E.underlying_mvt_terrain terrain = front :: others)
    (halias : front :: others ≠ [terrain]) (hrc : rc < 100) :
    (movement_cost_internal E u terrain rc).map (fun r => r.1) =
      (alias_fold (resolve_movement E u (rc + 1)) impassable (front :: others)
        u.movement_costs_).map (fun a => a.value) := by
  unfold movement_cost_internal alias_fold
  rw [alias_fuel_succ rc hrc, resolve_movement_eq, ← alias_start,
    movement_cost_aux_alias E u.cfg_ _ terrain rc _ front others hcache hu
      (alias_condition front terrain others halias) (by omega),
    alias_loop_eq_fold]
  cases List.foldl (alias_fold_step fun i c =>
      movement_cost_aux E u.cfg_ (alias_fuel (rc + 1)) i (rc + 1) c) _ (front :: others) <;> rfl

/-- The defense modifier of an uncached alias below the recursion bound is the
value of the fold. -/
theorem defense_alias_fold (E : Env) (u : unit) (terrain : String) (rc : Int)
    (front : String) (others : List String)
    (hcache : u.defense_mods_.lookup terrain = none)
    (hu : E.underlying_def_terrain terrain = front :: others)
    (halias : front :: others ≠ [terrain]) (hrc : rc < 100) :
    (defense_modifier E u terrain rc).map (fun r => r.1) =
      (alias_fold (resolve_defense E u (rc + 1)) 100 (front :: others)
        u.defense_mods_).map (fun a => a.value) := by
  unfold defense_modifier alias_fold
  rw [alias_fuel_succ rc hrc, resolve_defense_eq, ← alias_start,
    defense_modifier_aux_alias E u.cfg_ _ terrain rc _ front others hcache hu
      (alias_condition front terrain others halias) (by omega),
    alias_loop_eq_fold]
  cases List.foldl (alias_fold_step fun i c =>
      defense_modifier_aux E u.cfg_ (alias_fuel (rc + 1)) i (rc + 1) c) _ (front :: others) <;> rfl

/-- C2: for an alias (underlying list different from the terrain alone) that is
not cached and is resolved below depth 100, `movement_cost_internal` and
`defense_modifier` return the value of the in-order fold over the underlying
list (sentinel 10000000 resp. 100), and they do return when no terrain has an
empty underlying list. -/
theorem alias_resolution_is_fold (E : Env) (u : unit) (terrain : String) (rc : Int)
    (front : String) (others : List String) (halias : front :: others ≠ [terrain])
    (hrc : rc < 100) :
    (u.movement_costs_.lookup terrain = none →
      E.underlying_mvt_terrain terrain = front :: others →
      (movement_cost_internal E u terrain rc).map (fun r => r.1) =
        (alias_fold (resolve_movement E u (rc + 1)) 10000000 (front :: others)
          u.movement_costs_).map (fun a => a.value) ∧
      ((∀ t, E.underlying_mvt_terrain t ≠ []) →
        (movement_cost_internal E u terrain rc).isSome = true)) ∧
    (u.defense_mods_.lookup terrain = none →
      E.underlying_def_terrain terrain = front :: others →
      (defense_modifier E u terrain rc).map (fun r => r.1) =
        (alias_fold (resolve_defense E u (rc + 1)) 100 (front :: others)
          u.defense_mods_).map (fun a => a.value) ∧
      ((∀ t, E.underlying_def_terrain t ≠ []) →
        (defense_modifier E u terrain rc).isSome = true)) := by
  refine ⟨fun hcache hu => ⟨movement_alias_fold E u terrain rc front others hcache hu halias hrc,
      fun hne => ?_⟩,
    fun hcache hu => ⟨defense_alias_fold E u terrain rc front others hcache hu halias hrc,
      fun hne => ?_⟩⟩
  · unfold movement_cost_internal
    rw [Option.isSome_map']
    exact movement_cost_aux_isSome E u.cfg_ hne _ _ _ _ (le_refl _)
  · unfold defense_modifier
    rw [Option.isSome_map']
    exact defense_modifier_aux_isSome E u.cfg_ hne _ _ _ _ (le_refl _)

theorem alias_resolution_is_fold_witness :
    ((movement_cost_internal aliasEnv costUnit "Alias" 0).map (fun r => r.1) = some 5 ∧
      (alias_fold (resolve_movement aliasEnv costUnit (0 + 1)) 10000000 ["A", "-", "B", "C"]
        costUnit.movement_costs_).map (fun a => a.value) = some 5) ∧
    ((defense_modifier aliasEnv costUnit "Alias" 0).map (fun r => r.1) = some 70 ∧
      (alias_fold (resolve_defense aliasEnv costUnit (0 + 1)) 100 ["A", "-", "B", "C"]
        costUnit.defense_mods_).map (fun a => a.value) = some 70) := by
  have h := alias_resolution_is_fold aliasEnv costUnit "Alias" 0 "A" ["-", "B", "C"]
    (by decide) (by decide)
  have hm := (h.1 (by decide) (by decide)).1
  have hd := (h.2 (by decide) (by decide)).1
  have vm : (movement_cost_internal aliasEnv costUnit "Alias" 0).map (fun r => r.1) = some 5 := by
    decide
  have vd : (defense_modifier aliasEnv costUnit "Alias" 0).map (fun r => r.1) = some 70 := by
    decide
  exact ⟨⟨vm, by rw [← hm]; exact vm⟩, ⟨vd, by rw [← hd]; exact vd⟩⟩

/-! ## The connectives of the filter engine (C3) -/

theorem connective_fold_none (sub : config → Option Bool) (l : List (String × config)) :
    l.foldl (connective_step sub) none = none := by
  induction l with
  | nil => rfl
  | cons x rest ih => exact ih

/-- The loop over the children of a filter is the left fold of the connective
step. -/
theorem connectives_eq_fold (E : Env) (W : world) (units : List (location × Nat))
    (ch : List (String × config)) (self : Nat) (loc : location) (flat m : Bool) :
    connectives E W units ch self loc flat m =
      ch.foldl (connective_step (fun f => matches_filter E W units f self loc flat)) (some m) := by
  induction ch generalizing m with
  | nil => rw [connectives]; rfl
  | cons p rest ih =>
    obtain ⟨tag, f⟩ := p
    rw [connectives, List.foldl_cons]
    simp only [connective_step, cpp_and, cpp_or]
    by_cases h1 : tag = "and"
    · rw [if_pos h1, if_pos h1]
      cases m with
      | true =>
        simp only [if_true]
        cases matches_filter E W units f self loc flat with
        | none => rw [connective_fold_none]
        | some b => exact ih b
      | false => simp only [Bool.false_eq_true, if_false]; exact ih false
    · rw [if_neg h1, if_neg h1]
      by_cases h2 : tag = "or"
      · rw [if_pos h2, if_pos h2]
        cases m with
        | true => simp only [if_true]; exact ih true
        | false =>
          simp only [Bool.false_eq_true, if_false]
          cases matches_filter E W units f self loc flat with
          | none => rw [connective_fold_none]
          | some b => exact ih b
      · rw [if_neg h2, if_neg h2]
        by_cases h3 : tag = "not"
        · rw [if_pos h3, if_pos h3]
          cases m with
          | true =>
            simp only [if_true]
            cases matches_filter E W units f self loc flat with
            | none => simp only [Option.map_none']; rw [connective_fold_none]
            | some b => exact ih (!b)
          | false => simp only [Bool.false_eq_true, if_false]; exact ih false
        · rw [if_neg h3, if_neg h3]
          exact ih m

/-- C3: `matches_filter` is the left fold, over the children of the filter in
document order, of the connective step, started from the verdict of
`internal_matches_filter`; no precedence is applied. -/
theorem matches_filter_is_left_fold (E : Env) (W : world) (units : List (location × Nat))
    (cfg : config) (self : Nat) (loc : location) (flat : Bool) :
    matches_filter E W units cfg self loc flat =
      cfg.children.foldl
        (connective_step (fun f => matches_filter E W units f self loc flat))
        (internal_matches_filter E W units cfg self loc flat) := by
  cases cfg with
  | mk vals ch =>
    rw [matches_filter]
    unfold internal_matches_filter
    show _ = ch.foldl _ _
    cases W.heap.lookup self with
    | none => simp only; rw [connective_fold_none]
    | some u =>
      simp only
      show _ = List.foldl _ (match flat_head E W units (config.mk vals ch) self u loc flat with
        | some true => _
        | other => other) ch
      cases flat_head E W units (config.mk vals ch) self u loc flat with
      | none => simp only; rw [connective_fold_none]
      | some b =>
        cases b with
        | false => simp only; exact connectives_eq_fold E W units ch self loc flat false
        | true =>
          simp only
          show _ = List.foldl _ (match adjacent_clauses E W units ch u loc flat with
            | some true => _
            | other => other) ch
          cases adjacent_clauses E W units ch u loc flat with
          | none => simp only; rw [connective_fold_none]
          | some b2 =>
            cases b2 with
            | false => simp only; exact connectives_eq_fold E W units ch self loc flat false
            | true => simp only; exact connectives_eq_fold E W units ch self loc flat _

/-! ## The concealment check (C4) -/

/-- With `see_all` set the loop makes no nested call and leaves the world
alone. -/
theorem spot_loop_all (E : Env) (recurse : Nat → location → world → Option (Bool × world))
    (teams : List team) (side : Int) (loc : location) (us : List (location × Nat)) (W : world) :
    spot_loop E recurse teams side loc true us W =
      (spot_all E teams side loc us W).map (fun b => (b, W)) := by
  induction us with
  | nil => rfl
  | cons p rest ih =>
    obtain ⟨l, a⟩ := p
    rw [spot_loop, spot_all]
    cases team_of teams side with
    | none => rfl
    | some tm =>
      cases W.heap.lookup a with
      | none => rfl
      | some v =>
        simp only
        split
        · rfl
        · exact ih

theorem heap_set_lookup_self (h : List (Nat × unit)) (a : Nat) (v w : unit)
    (hl : h.lookup a = some v) : (heap_set h a w).lookup a = some w := by
  induction h with
  | nil => cases hl
  | cons p rest ih =>
    obtain ⟨b, x⟩ := p
    unfold heap_set
    by_cases hb : b = a
    · rw [if_pos hb]; simp [List.lookup, hb]
    · rw [if_neg hb]
      have hb2 : (a == b) = false := by simp [Ne.symm hb]
      simp only [List.lookup, hb2] at hl ⊢
      exact ih hl

theorem heap_set_lookup_other (h : List (Nat × unit)) (a b : Nat) (w : unit) (hne : b ≠ a) :
    (heap_set h a w).lookup b = h.lookup b := by
  induction h with
  | nil => rfl
  | cons p rest ih =>
    obtain ⟨c, x⟩ := p
    unfold heap_set
    by_cases hc : c = a
    · rw [if_pos hc]
      have : (b == c) = false := by simp [hc, hne]
      simp [List.lookup, this]
    · rw [if_neg hc]
      by_cases hbc : b = c
      · simp [List.lookup, hbc]
      · have : (b == c) = false := by simp [hbc]
        simp only [List.lookup, this]
        exact ih

/-- The all-seeing check, unfolded: the cached verdict, or the fresh verdict
together with the cache write. -/
theorem invisible_body_all (E : Env) (recurse : Nat → location → world → Option (Bool × world))
    (units : List (location × Nat)) (teams : List team) (a : Nat) (l : location) (W : world)
    (v : unit) (hv : W.heap.lookup a = some v) :
    invisible_body E recurse W a l units teams true =
      match v.invisibility_cache_.lookup l with
      | some cached => some (cached, W)
      | none =>
        (if hidden_and_hides E v l then spot_all E teams v.side_ l units W else some false).map
          (fun b => (b, write_visibility W a v l b)) := by
  unfold invisible_body
  simp only [hv, if_true]
  cases v.invisibility_cache_.lookup l with
  | some c => rfl
  | none =>
    simp only
    unfold hidden_and_hides
    by_cases hh : (E.string_bool (v.get_state "hidden") false &&
        E.get_ability_bool v.cfg_ "hides" l) = true
    · rw [if_pos hh, if_pos hh, spot_loop_all]
      cases spot_all E teams v.side_ l units W with
      | none => rfl
      | some b => simp only [Option.map_some', hv]
    · rw [if_neg hh, if_neg hh]
      simp only [Option.map_some', hv]

/-- The value of the all-seeing check is `verdict_all`. -/
theorem invisible_true_value (E : Env) (units : List (location × Nat)) (teams : List team)
    (a : Nat) (l : location) (W : world) :
    (invisible E W a l units teams true).map (fun r => r.1) = verdict_all E units teams W a l := by
  unfold verdict_all invisible
  cases hv : W.heap.lookup a with
  | none => unfold invisible_body; simp only [hv]; rfl
  | some v =>
    rw [invisible_body_all E _ units teams a l W v hv]
    simp only
    cases v.invisibility_cache_.lookup l with
    | some c => rfl
    | none =>
      simp only [Option.map_map]
      cases (if hidden_and_hides E v l then spot_all E teams v.side_ l units W else some false) <;>
        rfl

theorem same_board_side (W W1 : world) (h : same_board W W1) (a : Nat) :
    (W1.heap.lookup a).map (fun v => v.side_) = (W.heap.lookup a).map (fun v => v.side_) := by
  have := congrArg (Option.map (fun v : unit => v.side_)) (h a)
  simpa [Option.map_map, Function.comp_def, clear_visibility_cache] using this

theorem spot_all_same_board (E : Env) (teams : List team) (side : Int) (loc : location)
    (us : List (location × Nat)) (W W1 : world) (h : same_board W W1) :
    spot_all E teams side loc us W1 = spot_all E teams side loc us W := by
  induction us with
  | nil => rfl
  | cons p rest ih =>
    obtain ⟨l, a⟩ := p
    rw [spot_all, spot_all]
    have hs := same_board_side W W1 h a
    cases team_of teams side with
    | none => rfl
    | some tm =>
      cases h1 : W1.heap.lookup a with
      | none =>
        rw [h1] at hs
        cases h0 : W.heap.lookup a with
        | none => rfl
        | some v0 => rw [h0] at hs; cases hs
      | some v1 =>
        rw [h1] at hs
        cases h0 : W.heap.lookup a with
        | none => rw [h0] at hs; cases hs
        | some v0 =>
          rw [h0] at hs
          simp only [Option.map_some', Option.some.injEq] at hs
          simp only [hs, ih]

theorem lookup_filter_append (c : List (location × Bool)) (l l1 : location) (b : Bool)
    (hne : l1 ≠ l) :
    (c.filter (fun p => p.1 ≠ l) ++ [(l, b)]).lookup l1 = c.lookup l1 := by
  induction c with
  | nil =>
    have : (l1 == l) = false := by simp [hne]
    simp [List.lookup, this]
  | cons p rest ih =>
    obtain ⟨k, x⟩ := p
    by_cases hk : k = l
    · subst hk
      have h1 : (l1 == k) = false := by simp [hne]
      simp only [List.filter, ne_eq, not_true_eq_false, decide_False, List.lookup, h1]
      exact ih
    · simp only [List.filter, ne_eq, hk, not_false_eq_true, decide_True, List.cons_append,
        List.lookup]
      rw [ih]

theorem lookup_filter_append_self (c : List (location × Bool)) (l : location) (b : Bool) :
    (c.filter (fun p => p.1 ≠ l) ++ [(l, b)]).lookup l = some b := by
  induction c with
  | nil => simp [List.lookup]
  | cons p rest ih =>
    obtain ⟨k, x⟩ := p
    by_cases hk : k = l
    · simp only [List.filter, hk, ne_eq, not_true_eq_false, decide_False]
      exact ih
    · have h1 : (l == k) = false := by simp [Ne.symm hk]
      simp only [List.filter, ne_eq, hk, not_false_eq_true, decide_True, List.cons_append,
        List.lookup, h1]
      exact ih

theorem same_board_refl (W : world) : same_board W W := fun _ => rfl

theorem same_board_trans (W W1 W2 : world) (h1 : same_board W W1) (h2 : same_board W1 W2) :
    same_board W W2 := fun a => (h2 a).trans (h1 a)

theorem write_same_board (W : world) (a : Nat) (v : unit) (l : location) (b : Bool)
    (hv : W.heap.lookup a = some v) : same_board W (write_visibility W a v l b) := by
  intro a1
  unfold write_visibility
  simp only
  by_cases h : a1 = a
  · subst h
    rw [heap_set_lookup_self W.heap a1 v _ hv, hv]
    rfl
  · rw [heap_set_lookup_other W.heap a a1 _ h]

/-- The cache write stores the fresh verdict, so no verdict of the all-seeing
check changes. -/
theorem verdict_write (E : Env) (units : List (location × Nat)) (teams : List team)
    (W : world) (a : Nat) (v : unit) (l : location) (b : Bool)
    (hv : W.heap.lookup a = some v) (hc : v.invisibility_cache_.lookup l = none)
    (hb : (if hidden_and_hides E v l then spot_all E teams v.side_ l units W else some false)
      = some b) (a1 : Nat) (l1 : location) :
    verdict_all E units teams (write_visibility W a v l b) a1 l1 =
      verdict_all E units teams W a1 l1 := by
  have hsb := write_same_board W a v l b hv
  unfold verdict_all
  by_cases h : a1 = a
  · subst h
    have hl : (write_visibility W a1 v l b).heap.lookup a1 =
        some { v with invisibility_cache_ :=
          v.invisibility_cache_.filter (fun p => p.1 ≠ l) ++ [(l, b)] } :=
      heap_set_lookup_self W.heap a1 v _ hv
    rw [hl, hv]
    simp only
    by_cases hl1 : l1 = l
    · subst hl1
      rw [lookup_filter_append_self, hc]
      simp only
      exact hb.symm
    · rw [lookup_filter_append _ _ _ _ hl1]
      cases v.invisibility_cache_.lookup l1 with
      | some c => rfl
      | none =>
        simp only
        rw [spot_all_same_board E teams _ l1 units W _ hsb]
        rfl
  · have hl : (write_visibility W a v l b).heap.lookup a1 = W.heap.lookup a1 :=
      heap_set_lookup_other W.heap a a1 _ h
    rw [hl]
    cases W.heap.lookup a1 with
    | none => rfl
    | some v1 =>
      simp only
      cases v1.invisibility_cache_.lookup l1 with
      | some c => rfl
      | none =>
        simp only
        rw [spot_all_same_board E teams _ l1 units W _ hsb]

/-- One nested all-seeing check: it returns its verdict and leaves a world with
the same units and the same verdicts. -/
theorem invisible_all_step (E : Env) (units : List (location × Nat)) (teams : List team)
    (a : Nat) (l : location) (W1 : world) (v1 : unit) (b : Bool)
    (h1 : W1.heap.lookup a = some v1) (hb : verdict_all E units teams W1 a l = some b) :
    ∃ W2, invisible_all E units teams a l W1 = some (b, W2) ∧ same_board W1 W2 ∧
      ∀ a1 l1, verdict_all E units teams W2 a1 l1 = verdict_all E units teams W1 a1 l1 := by
  unfold invisible_all
  rw [invisible_body_all E _ units teams a l W1 v1 h1]
  unfold verdict_all at hb
  simp only [h1] at hb
  cases hc : v1.invisibility_cache_.lookup l with
  | some c =>
    rw [hc] at hb
    simp only [Option.some.injEq] at hb
    subst hb
    exact ⟨W1, rfl, same_board_refl W1, fun _ _ => rfl⟩
  | none =>
    rw [hc] at hb
    simp only at hb
    simp only
    rw [hb]
    exact ⟨_, rfl, write_same_board W1 a v1 l b h1,
      verdict_write E units teams W1 a v1 l b h1 hc hb⟩

theorem board_alive_mem (W : world) (units : List (location × Nat)) (teams : List team)
    (h : board_alive W units teams) (p : location × Nat) (hp : p ∈ units) :
    ∃ v, W.heap.lookup p.2 = some v ∧ (team_of teams v.side_).isSome = true := by
  unfold board_alive at h
  rw [List.all_eq_true] at h
  have hp2 := h p hp
  cases hl : W.heap.lookup p.2 with
  | none => rw [hl] at hp2; cases hp2
  | some v => rw [hl] at hp2; exact ⟨v, rfl, hp2⟩

theorem spot_all_alive (E : Env) (teams : List team) (side : Int) (loc : location) (W : world)
    (hteam : (team_of teams side).isSome = true) (us : List (location × Nat))
    (h : ∀ p ∈ us, (W.heap.lookup p.2).isSome = true) :
    (spot_all E teams side loc us W).isSome = true := by
  induction us with
  | nil => rfl
  | cons p rest ih =>
    obtain ⟨l, a⟩ := p
    rw [spot_all]
    have ha := h (l, a) (List.mem_cons_self _ _)
    cases ht : team_of teams side with
    | none => rw [ht] at hteam; cases hteam
    | some tm =>
      cases hl : W.heap.lookup a with
      | none => simp only [hl] at ha; cases ha
      | some v =>
        simp only
        split
        · rfl
        · exact ih (fun p hp => h p (List.mem_cons_of_mem _ hp))

/-- On a board whose units are alive the all-seeing check has a verdict. -/
theorem verdict_alive (E : Env) (units : List (location × Nat)) (teams : List team) (W : world)
    (halive : board_alive W units teams) (a : Nat) (l : location) (v : unit)
    (hv : W.heap.lookup a = some v) (hteam : (team_of teams v.side_).isSome = true) :
    (verdict_all E units teams W a l).isSome = true := by
  unfold verdict_all
  simp only [hv]
  cases v.invisibility_cache_.lookup l with
  | some c => rfl
  | none =>
    simp only
    split
    · apply spot_all_alive E teams v.side_ l W hteam
      intro p hp
      obtain ⟨w, hw, _⟩ := board_alive_mem W units teams halive p hp
      rw [hw]; rfl
    · rfl

/-- The loop of `invisible` without `see_all`: on a board whose units are alive
it returns, and the concealment stands exactly when no map entry defeats it. -/
theorem spot_loop_observer (E : Env) (units : List (location × Nat)) (teams : List team)
    (side : Int) (loc : location) (tm : team) (hteam : team_of teams side = some tm) (W : world)
    (halive : board_alive W units teams) :
    ∀ (us : List (location × Nat)) (W1 : world), (∀ p ∈ us, p ∈ units) → same_board W W1 →
      (∀ a l, verdict_all E units teams W1 a l = verdict_all E units teams W a l) →
      ∃ W2, spot_loop E (invisible_all E units teams) teams side loc false us W1 =
        some (!(us.any (defeats E W units teams tm loc false)), W2) := by
  intro us
  induction us with
  | nil => intro W1 _ _ _; exact ⟨W1, rfl⟩
  | cons p rest ih =>
    intro W1 hsub hsb hver
    obtain ⟨l, a⟩ := p
    obtain ⟨v, hv, hvt⟩ := board_alive_mem W units teams halive (l, a) (hsub _ (List.mem_cons_self _ _))
    have hrest : ∀ p ∈ rest, p ∈ units := fun p hp => hsub p (List.mem_cons_of_mem _ hp)
    have hside := same_board_side W W1 hsb a
    rw [hv] at hside
    cases h1 : W1.heap.lookup a with
    | none => rw [h1] at hside; cases hside
    | some v1 =>
      rw [h1] at hside
      simp only [Option.map_some', Option.some.injEq] at hside
      rw [spot_loop]
      simp only [hteam, h1, hside, Bool.false_eq_true, if_false, List.any_cons]
      have hdef : defeats E W units teams tm loc false (l, a) =
          ((tm.is_enemy v.side_ && E.tiles_adjacent loc l) &&
            (!tm.fogged l && decide (verdict_all E units teams W a l = some false))) := by
        unfold defeats adjacent_enemy
        simp only [hv, Bool.false_or, invisible_true_value]
      rw [hdef]
      by_cases hadj : (tm.is_enemy v.side_ && E.tiles_adjacent loc l) = true
      · rw [if_pos hadj, hadj]
        by_cases hfog : tm.fogged l = true
        · rw [if_pos hfog, hfog]
          simp only [Bool.not_true, Bool.false_and, Bool.and_false, Bool.false_or]
          exact ih W1 hrest hsb hver
        · rw [if_neg hfog]
          have hfog2 : tm.fogged l = false := by
            cases hf : tm.fogged l with
            | true => exact absurd hf hfog
            | false => rfl
          have hsome := verdict_alive E units teams W halive a l v hv hvt
          cases hb : verdict_all E units teams W a l with
          | none => rw [hb] at hsome; cases hsome
          | some b =>
            obtain ⟨W2, hcall, hsb2, hver2⟩ :=
              invisible_all_step E units teams a l W1 v1 b h1 ((hver a l).trans hb)
            rw [hcall]
            simp only [hfog2, Bool.not_false, Bool.true_and]
            cases b with
            | true =>
              simp only [if_true, Option.some.injEq, Bool.true_eq_false, decide_False,
                Bool.false_or]
              exact ih W2 hrest (same_board_trans W W1 W2 hsb hsb2)
                (fun a1 l1 => (hver2 a1 l1).trans (hver a1 l1))
            | false =>
              simp only [Bool.false_eq_true, if_false, decide_True, Bool.true_or, Bool.not_true]
              exact ⟨W2, rfl⟩
      · rw [if_neg hadj]
        have hadj2 : (tm.is_enemy v.side_ && E.tiles_adjacent loc l) = false := by
          cases hf : (tm.is_enemy v.side_ && E.tiles_adjacent loc l) with
          | true => exact absurd hf hadj
          | false => rfl
        rw [hadj2]
        simp only [Bool.false_and, Bool.false_or]
        exact ih W1 hrest hsb hver

/-- The loop of `invisible` with `see_all`: the concealment stands exactly when
no map entry is an adjacent enemy. -/
theorem spot_all_value (E : Env) (units : List (location × Nat)) (teams : List team)
    (side : Int) (loc : location) (tm : team) (hteam : team_of teams side = some tm) (W : world)
    (us : List (location × Nat)) (h : ∀ p ∈ us, (W.heap.lookup p.2).isSome = true) :
    spot_all E teams side loc us W =
      some (!(us.any (defeats E W units teams tm loc true))) := by
  induction us with
  | nil => rfl
  | cons p rest ih =>
    obtain ⟨l, a⟩ := p
    have ha := h (l, a) (List.mem_cons_self _ _)
    rw [spot_all]
    cases hl : W.heap.lookup a with
    | none => simp only [hl] at ha; cases ha
    | some v =>
      have hdef : defeats E W units teams tm loc true (l, a) =
          (tm.is_enemy v.side_ && E.tiles_adjacent loc l) := by
        unfold defeats adjacent_enemy
        simp only [hl, Bool.true_or, Bool.and_true]
      simp only [hteam, List.any_cons, hdef]
      by_cases hadj : (tm.is_enemy v.side_ && E.tiles_adjacent loc l) = true
      · rw [if_pos hadj, hadj]; rfl
      · rw [if_neg hadj]
        have hadj2 : (tm.is_enemy v.side_ && E.tiles_adjacent loc l) = false := by
          cases hf : (tm.is_enemy v.side_ && E.tiles_adjacent loc l) with
          | true => exact absurd hf hadj
          | false => rfl
        rw [hadj2]
        simp only [Bool.false_or]
        exact ih (fun p hp => h p (List.mem_cons_of_mem _ hp))

/-- C4: with no cache entry for the location, on a board whose units are alive,
`invisible` returns, and it returns true exactly when the unit is hidden with an
active `hides` ability and no map entry defeats the concealment: with `see_all`
an adjacent enemy, without it an adjacent enemy on a tile that is not fogged to
the side of the unit and that the all-seeing check does not find invisible. -/
theorem invisible_verdict (E : Env) (W : world) (self : Nat) (loc : location)
    (units : List (location × Nat)) (teams : List team) (see_all : Bool) (u : unit) (tm : team)
    (hself : W.heap.lookup self = some u)
    (hcache : u.invisibility_cache_.lookup loc = none)
    (hteam : team_of teams u.side_ = some tm)
    (halive : board_alive W units teams) :
    (invisible E W self loc units teams see_all).map (fun r => r.1) =
      some (hidden_and_hides E u loc && !(units.any (defeats E W units teams tm loc see_all))) := by
  cases see_all with
  | true =>
    rw [invisible_true_value]
    unfold verdict_all
    simp only [hself, hcache]
    split
    · rename_i hh
      rw [spot_all_value E units teams u.side_ loc tm hteam W units
        (fun p hp => by obtain ⟨w, hw, _⟩ := board_alive_mem W units teams halive p hp; rw [hw]; rfl)]
      simp [hh]
    · rename_i hh
      simp [hh]
  | false =>
    unfold invisible invisible_body
    simp only [hself, Bool.false_eq_true, if_false]
    by_cases hh : hidden_and_hides E u loc = true
    · have hh2 := hh
      unfold hidden_and_hides at hh2
      rw [if_pos hh2]
      obtain ⟨W2, hloop⟩ := spot_loop_observer E units teams u.side_ loc tm hteam W halive units W
        (fun _ hp => hp) (same_board_refl W) (fun _ _ => rfl)
      rw [hloop]
      simp [hh]
    · have hh2 := hh
      unfold hidden_and_hides at hh2
      rw [if_neg hh2]
      simp [hh]

theorem invisible_verdict_witness :
    (invisible sampleEnv duelWorld 0 ⟨1, 1⟩ duelUnits twoTeams false).map (fun r => r.1) =
        some false ∧
    (invisible sampleEnv duelWorld 0 ⟨1, 1⟩ duelUnits twoTeams true).map (fun r => r.1) =
        some false ∧
    (invisible sampleEnv duelWorld 0 ⟨5, 5⟩ duelUnits twoTeams false).map (fun r => r.1) =
        some true :=
  ⟨invisible_verdict sampleEnv duelWorld 0 ⟨1, 1⟩ duelUnits twoTeams false hiderUnit
      ⟨fun side => decide (side = 2), fun _ => false⟩ rfl rfl rfl (by decide),
   invisible_verdict sampleEnv duelWorld 0 ⟨1, 1⟩ duelUnits twoTeams true hiderUnit
      ⟨fun side => decide (side = 2), fun _ => false⟩ rfl rfl rfl (by decide),
   invisible_verdict sampleEnv duelWorld 0 ⟨5, 5⟩ duelUnits twoTeams false hiderUnit
      ⟨fun side => decide (side = 2), fun _ => false⟩ rfl rfl rfl (by decide)⟩

/-! ## Mandatory traits, called twice (C5) -/

/-- C5 fails on the code: for a trait pool that lists the id `strong` twice, the
second entry mandatory, the first call of `generate_traits(true)` grants the
mandatory trait and the second call grants it again, because the scan that
removes held traits stops one round early after an erasure. -/
theorem generate_traits_twice_grants_again :
    ghoulOnce.isOk = true ∧ ghoulTwice.isOk = true ∧
    (ghoulOnce.state.u.modifications_.get_children "trait").map (fun j => j.attr "id")
      = ["strong"] ∧
    (ghoulTwice.state.u.modifications_.get_children "trait").map (fun j => j.attr "id")
      = ["strong", "strong"] ∧
    erase_held (ghoulOnce.state.u.modifications_.get_children "trait")
        twinTraitType.possible_traits
      = [config.mk [("availability", "musthave"), ("id", "strong")] []] := by
  decide

/-! ## Facts about the attribute store -/

theorem smap_get_set_eq (m : List (String × String)) (k v : String) :
    smap_get (smap_set m k v) k = v := by
  unfold smap_get
  induction m with
  | nil => simp [smap_set, List.lookup]
  | cons p rest ih =>
    obtain ⟨k1, v1⟩ := p
    unfold smap_set
    by_cases h1 : k1 = k
    · rw [if_pos h1]; simp [List.lookup]
    · rw [if_neg h1]
      have h2 : (k == k1) = false := by simp [Ne.symm h1]
      split
      · simp [List.lookup]
      · simp only [List.lookup, h2]
        exact ih

theorem smap_get_set_ne (m : List (String × String)) (k k1 v : String) (h : k1 ≠ k) :
    smap_get (smap_set m k v) k1 = smap_get m k1 := by
  unfold smap_get
  induction m with
  | nil =>
    have : (k1 == k) = false := by simp [h]
    simp [smap_set, List.lookup, this]
  | cons p rest ih =>
    obtain ⟨k2, v2⟩ := p
    unfold smap_set
    by_cases h1 : k2 = k
    · rw [if_pos h1]
      subst h1
      have : (k1 == k2) = false := by simp [h]
      simp [List.lookup, this]
    · rw [if_neg h1]
      have hk : (k1 == k) = false := by simp [h]
      split
      · simp only [List.lookup, hk]
      · by_cases h3 : k1 = k2
        · subst h3; simp [List.lookup]
        · have : (k1 == k2) = false := by simp [h3]
          simp only [List.lookup, this]
          exact ih

theorem smap_set_cons (k1 v1 : String) (rest : List (String × String)) (k v : String) :
    smap_set ((k1, v1) :: rest) k v =
      if k1 = k then (k, v) :: rest
      else if key_lt k k1 then (k, v) :: (k1, v1) :: rest
      else (k1, v1) :: smap_set rest k v := by
  rw [smap_set]

theorem smap_set_idem (m : List (String × String)) (k v : String) :
    smap_set (smap_set m k v) k v = smap_set m k v := by
  induction m with
  | nil => simp [smap_set]
  | cons p rest ih =>
    obtain ⟨k1, v1⟩ := p
    rw [smap_set_cons k1 v1 rest k v]
    by_cases h1 : k1 = k
    · rw [if_pos h1, smap_set_cons, if_pos rfl]
    · rw [if_neg h1]
      by_cases h2 : key_lt k k1 = true
      · rw [if_pos h2, smap_set_cons, if_pos rfl]
      · rw [if_neg h2, smap_set_cons, if_neg h1, if_neg h2, ih]

theorem attr_set_attr_eq (c : config) (k v : String) : (c.set_attr k v).attr k = v :=
  smap_get_set_eq c.values k v

theorem attr_set_attr_ne (c : config) (k k1 v : String) (h : k1 ≠ k) :
    (c.set_attr k v).attr k1 = c.attr k1 :=
  smap_get_set_ne c.values k k1 v h

/-- The children of a child list that carry the tag `t`. -/
theorem get_children_eq (c : config) (t : String) :
    c.get_children t = (c.children.filter (fun p => p.1 = t)).map (fun p => p.2) := rfl

theorem children_set_attr (c : config) (k v : String) : (c.set_attr k v).children = c.children :=
  rfl

theorem children_erase_attr (c : config) (k : String) : (c.erase_attr k).children = c.children :=
  rfl

theorem children_add_child (c : config) (t : String) (x : config) :
    (c.add_child t x).children = c.children ++ [(t, x)] := rfl

theorem children_clear_children (c : config) (t : String) :
    (c.clear_children t).children = c.children.filter (fun p => p.1 ≠ t) := rfl

theorem filter_tag_clear_ne (l : List (String × config)) (t t1 : String) (h : t1 ≠ t) :
    (l.filter (fun p => p.1 ≠ t)).filter (fun p => p.1 = t1) = l.filter (fun p => p.1 = t1) := by
  rw [List.filter_filter]
  apply List.filter_congr
  intro p _
  by_cases hp : p.1 = t1
  · simp [hp, h]
  · simp [hp]

theorem filter_tag_clear_eq (l : List (String × config)) (t : String) :
    (l.filter (fun p => p.1 ≠ t)).filter (fun p => p.1 = t) = [] := by
  rw [List.filter_filter]
  apply List.filter_eq_nil_iff.mpr
  intro p _
  simp

/-- After clearing a list of tags, a cleared tag has no children and any other
tag keeps its own. -/
theorem filter_tag_clear_all (tags : List String) (c : config) (t : String) :
    (tags.foldl (fun d tag => d.clear_children tag) c).children.filter (fun p => p.1 = t) =
      if t ∈ tags then [] else c.children.filter (fun p => p.1 = t) := by
  induction tags generalizing c with
  | nil => simp
  | cons tag rest ih =>
    rw [List.foldl_cons, ih]
    by_cases h1 : t ∈ rest
    · simp [h1]
    · rw [if_neg h1]
      by_cases h2 : t = tag
      · subst h2
        simp [children_clear_children, filter_tag_clear_eq]
      · have : t ∉ tag :: rest := by simp [h1, h2]
        rw [if_neg this, children_clear_children, filter_tag_clear_ne _ _ _ h2]

/-! ## The sections of a merged document -/

theorem tagged_append (t : String) (l1 l2 : List (String × config)) :
    tagged t (l1 ++ l2) = tagged t l1 ++ tagged t l2 := by
  unfold tagged; exact List.filter_append _ _

theorem zip_merge_nil_right (l : List (String × config)) : zip_merge l [] = l := by
  cases l with
  | nil => rfl
  | cons p rest => obtain ⟨t, x⟩ := p; rfl

theorem take_first_some (t t1 : String) (theirs th1 : List (String × config)) (y : config)
    (h : take_first t theirs = some (y, th1)) :
    tagged t1 theirs = if t = t1 then (t, y) :: tagged t1 th1 else tagged t1 th1 := by
  induction theirs generalizing th1 with
  | nil => cases h
  | cons p rest ih =>
    obtain ⟨t2, x⟩ := p
    unfold take_first at h
    by_cases h2 : t2 = t
    · rw [if_pos h2] at h
      simp only [Option.some.injEq, Prod.mk.injEq] at h
      obtain ⟨hx, hr⟩ := h
      subst hx hr h2
      by_cases h3 : t2 = t1
      · simp [tagged, List.filter, h3]
      · simp [tagged, List.filter, h3]
    · rw [if_neg h2] at h
      cases htf : take_first t rest with
      | none => rw [htf] at h; cases h
      | some r =>
        obtain ⟨y1, r1⟩ := r
        rw [htf] at h
        simp only [Option.some.injEq, Prod.mk.injEq] at h
        obtain ⟨hy, hr⟩ := h
        subst hy hr
        have := ih r1 htf
        by_cases h3 : t2 = t1
        · have h4 : ¬ t = t1 := fun e => h2 (h3.trans e.symm)
          rw [if_neg h4] at this ⊢
          simp only [tagged, List.filter, h3, decide_True] at this ⊢
          rw [this]
        · simp only [tagged, List.filter, h3, decide_False] at this ⊢
          exact this

theorem take_first_none (t : String) (theirs : List (String × config))
    (h : take_first t theirs = none) : tagged t theirs = [] := by
  induction theirs with
  | nil => rfl
  | cons p rest ih =>
    obtain ⟨t2, x⟩ := p
    unfold take_first at h
    by_cases h2 : t2 = t
    · rw [if_pos h2] at h; cases h
    · rw [if_neg h2] at h
      cases htf : take_first t rest with
      | none =>
        simp only [tagged, List.filter, h2, decide_False]
        exact ih htf
      | some r => rw [htf] at h; cases h

theorem merge_children_cons (t : String) (x : config) (rest theirs : List (String × config)) :
    config.merge_children ((t, x) :: rest) theirs =
      match take_first t theirs with
      | some (y, theirs1) =>
        ((t, x.merge_with y) :: (config.merge_children rest theirs1).1,
          (config.merge_children rest theirs1).2)
      | none =>
        ((t, x) :: (config.merge_children rest theirs).1, (config.merge_children rest theirs).2) := by
  rw [config.merge_children]

/-- The pairing pass, seen through one tag. -/
theorem merge_children_tagged (t : String) (mine theirs : List (String × config)) :
    tagged t (config.merge_children mine theirs).1 ++ tagged t (config.merge_children mine theirs).2
      = zip_merge (tagged t mine) (tagged t theirs) := by
  induction mine generalizing theirs with
  | nil =>
    rw [config.merge_children]
    rfl
  | cons p rest ih =>
    obtain ⟨t1, x⟩ := p
    rw [merge_children_cons]
    cases htf : take_first t1 theirs with
    | none =>
      simp only
      by_cases h : t1 = t
      · subst h
        rw [take_first_none t1 theirs htf, zip_merge_nil_right]
        have := ih theirs
        rw [take_first_none t1 theirs htf, zip_merge_nil_right] at this
        simp only [tagged, List.filter, decide_True, List.cons_append] at this ⊢
        rw [this]
      · have := ih theirs
        simp only [tagged, List.filter, h, decide_False] at this ⊢
        exact this
    | some r =>
      obtain ⟨y, th1⟩ := r
      simp only
      rw [take_first_some t1 t theirs th1 y htf]
      by_cases h : t1 = t
      · subst h
        rw [if_pos rfl]
        have := ih th1
        simp only [tagged, List.filter, decide_True, List.cons_append, zip_merge] at this ⊢
        rw [this]
      · rw [if_neg h]
        have := ih th1
        simp only [tagged, List.filter, h, decide_False] at this ⊢
        exact this

theorem sorted_tags_nodup (l : List (String × config)) : (sorted_tags l).Nodup := by
  unfold sorted_tags
  exact (List.perm_insertionSort _ _).nodup_iff.mpr (List.nodup_dedup _)

theorem mem_sorted_tags (l : List (String × config)) (t : String) :
    t ∈ sorted_tags l ↔ ∃ p ∈ l, p.1 = t := by
  unfold sorted_tags
  rw [(List.perm_insertionSort _ _).mem_iff, List.mem_dedup, List.mem_map]

theorem tagged_blocks (t : String) (l : List (String × config)) (ts : List String)
    (hn : ts.Nodup) :
    tagged t (ts.flatMap (fun t1 => l.filter (fun p => p.1 = t1))) =
      if t ∈ ts then tagged t l else [] := by
  induction ts with
  | nil => rfl
  | cons t1 rest ih =>
    rw [List.flatMap_cons, tagged_append, ih (List.nodup_cons.mp hn).2]
    have hnot := (List.nodup_cons.mp hn).1
    by_cases h : t = t1
    · subst h
      rw [if_neg hnot]
      simp [tagged, List.filter_filter]
    · have h2 : tagged t (l.filter (fun p => p.1 = t1)) = [] := by
        unfold tagged
        rw [List.filter_filter]
        apply List.filter_eq_nil_iff.mpr
        intro p _
        simp only [Bool.and_eq_true, decide_eq_true_eq, not_and]
        intro h3 h4
        exact h (h3.symm.trans h4)
      rw [h2, List.nil_append]
      by_cases h3 : t ∈ rest
      · simp [h3]
      · simp [h3, h]

/-- Grouping by tag keeps the children of every tag, in their order. -/
theorem by_tag_tagged (t : String) (l : List (String × config)) :
    tagged t (by_tag l) = tagged t l := by
  unfold by_tag
  rw [tagged_blocks t l _ (sorted_tags_nodup l)]
  by_cases h : t ∈ sorted_tags l
  · rw [if_pos h]
  · rw [if_neg h]
    symm
    unfold tagged
    apply List.filter_eq_nil_iff.mpr
    intro p hp hpt
    exact h ((mem_sorted_tags l t).mpr ⟨p, hp, by simpa using hpt⟩)

/-- The children of one tag after `merge_with` depend only on the children of
that tag in the two documents. -/
theorem merge_with_tagged (c d : config) (t : String) :
    tagged t (c.merge_with d).children = zip_merge (tagged t c.children) (tagged t d.children) := by
  cases c with
  | mk v ch =>
    rw [config.merge_with]
    show tagged t ((config.merge_children ch d.children).1 ++
      by_tag (config.merge_children ch d.children).2) = _
    rw [tagged_append, by_tag_tagged, merge_children_tagged]
    rfl

theorem filter_map_rename (g : GENDER) (kind : String) (l : List (String × config)) :
    (List.filter (fun p => decide (p.1 = kind))
        (l.map (fun p => if p.1 = "trait" then (p.1, rename_trait g p.2) else p))).map
        (fun p => p.2) =
      ((l.filter (fun p => decide (p.1 = kind))).map (fun p => p.2)).map
        (fun j => if kind = "trait" then rename_trait g j else j) := by
  induction l with
  | nil => rfl
  | cons p rest ih =>
    obtain ⟨t, x⟩ := p
    by_cases h2 : t = kind
    · subst h2
      by_cases h1 : t = "trait"
      · simp only [List.map_cons, h1, if_true, List.filter_cons, decide_True] at ih ⊢
        rw [ih]
      · simp only [List.map_cons, h1, if_false, List.filter_cons, decide_True, if_true] at ih ⊢
        rw [ih]
    · by_cases h1 : t = "trait"
      · simp only [List.map_cons, h1, if_true, List.filter_cons] at ih ⊢
        have h3 : ¬ "trait" = kind := fun e => h2 (h1.trans e)
        simp only [h3, decide_False, Bool.false_eq_true, if_false]
        exact ih
      · simp only [List.map_cons, h1, if_false, List.filter_cons, h2, decide_False,
          Bool.false_eq_true] at ih ⊢
        exact ih

theorem get_children_rename_traits (g : GENDER) (ledger : config) (kind : String) :
    (rename_traits g ledger).get_children kind =
      (ledger.get_children kind).map (fun j => if kind = "trait" then rename_trait g j else j) :=
  filter_map_rename g kind ledger.children

theorem attr_id_rename_trait (g : GENDER) (j : config) :
    (rename_trait g j).attr "id" = j.attr "id" := by
  unfold rename_trait
  split
  · exact attr_set_attr_ne j "name" "id" _ (by decide)
  · rfl

theorem get_children_tagged (c : config) (t : String) :
    c.get_children t = (tagged t c.children).map (fun p => p.2) := rfl

theorem tagged_cons_eq (t : String) (y : config) (l : List (String × config)) :
    tagged t ((t, y) :: l) = (t, y) :: tagged t l := by
  simp [tagged, List.filter]

theorem tagged_cons_ne (t1 t2 : String) (y : config) (l : List (String × config))
    (h : ¬ t2 = t1) : tagged t1 ((t2, y) :: l) = tagged t1 l := by
  simp [tagged, List.filter, h]

theorem remove_nth_tagged_zero (t t1 : String) (x : config) (rest : List (String × config)) :
    remove_nth_tagged t 0 ((t1, x) :: rest) =
      if t1 = t then rest else (t1, x) :: remove_nth_tagged t 0 rest := rfl

theorem remove_nth_tagged_succ (t t1 : String) (x : config) (n : Nat)
    (rest : List (String × config)) :
    remove_nth_tagged t (n + 1) ((t1, x) :: rest) =
      if t1 = t then (t1, x) :: remove_nth_tagged t n rest
      else (t1, x) :: remove_nth_tagged t (n + 1) rest := rfl

/-! ## Restoring the base type (C7) -/

theorem to_merge_fold_children (c : config) (tags : List String) (acc : config) :
    (tags.foldl (fun acc tag =>
        (c.get_children tag).foldl (fun a child => a.add_child tag child) acc) acc).children =
      acc.children ++ tags.flatMap (fun t1 => c.children.filter (fun p => p.1 = t1)) := by
  have inner : ∀ (tag : String) (l : List (String × config)) (a : config),
      (∀ p ∈ l, p.1 = tag) →
      ((l.map (fun p => p.2)).foldl (fun a child => a.add_child tag child) a).children =
        a.children ++ l := by
    intro tag l
    induction l with
    | nil => intro a _; simp
    | cons p rest ih =>
      intro a hp
      rw [List.map_cons, List.foldl_cons, ih _ (fun q hq => hp q (List.mem_cons_of_mem p hq)),
        children_add_child, List.append_assoc]
      have e : (tag, p.2) = p := by
        rw [← hp p (List.mem_cons_self p rest)]
      rw [e]
      rfl
  induction tags generalizing acc with
  | nil => simp
  | cons tag rest ih =>
    rw [List.foldl_cons, ih, get_children_eq, inner tag _ acc, List.flatMap_cons,
      List.append_assoc]
    intro p hp
    have h := (List.mem_filter.mp hp).2
    exact of_decide_eq_true h

/-- The document `to_merge` holds, under each governed tag, the sections of the
type document with that tag. -/
theorem to_merge_tagged (t : unit_type) (tag : String) (htag : tag ∈ mod_childs) :
    tagged tag (to_merge t).children = tagged tag t.cfg_.children := by
  unfold to_merge
  rw [to_merge_fold_children]
  show tagged tag ([] ++ _) = _
  rw [List.nil_append, tagged_blocks tag _ _ (by decide), if_pos htag]

theorem zip_merge_sections (a b : List (String × config)) :
    (zip_merge a b).map (fun p => p.2) =
      merged_over (a.map (fun p => p.2)) (b.map (fun p => p.2)) := by
  induction a generalizing b with
  | nil => rfl
  | cons p rest ih =>
    obtain ⟨t, x⟩ := p
    cases b with
    | nil => rfl
    | cons q rest2 =>
      obtain ⟨t2, y⟩ := q
      show x.merge_with y :: (zip_merge rest rest2).map (fun p => p.2) = _
      rw [ih]
      rfl

/-- The governed sections after the body of `reset_modifications` are fixed by
the type alone, whatever the unit document held: the sections of the parent of
the movement type paired with those of the type document. -/
theorem reset_to_sections (t : unit_type) (u : unit) (tag : String) (htag : tag ∈ mod_childs) :
    tagged tag (reset_to t u).cfg_.children =
      zip_merge
        (match t.movement_parent with
          | some parent => tagged tag parent.children
          | none => [])
        (tagged tag t.cfg_.children) := by
  have hclear : tagged tag
      (mod_childs.foldl (fun (c : config) tag => c.clear_children tag) u.cfg_).children = [] := by
    unfold tagged
    rw [filter_tag_clear_all, if_pos htag]
  show tagged tag ((match t.movement_parent with
      | some parent => (mod_childs.foldl (fun (c : config) tag => c.clear_children tag) u.cfg_).merge_with parent
      | none => mod_childs.foldl (fun (c : config) tag => c.clear_children tag) u.cfg_).merge_with
        (to_merge t)).children = _
  rw [merge_with_tagged, to_merge_tagged t tag htag]
  congr 1
  cases t.movement_parent with
  | none => exact hclear
  | some parent =>
    simp only
    rw [merge_with_tagged, hclear]
    rfl

/-- The governed sections after the body of `reset_modifications` are the
sections of the base type. -/
theorem reset_to_base_sections (t : unit_type) (u : unit) (tag : String)
    (htag : tag ∈ mod_childs) :
    (reset_to t u).cfg_.get_children tag = base_sections t tag := by
  rw [get_children_tagged, reset_to_sections t u tag htag, zip_merge_sections]
  unfold base_sections
  cases t.movement_parent with
  | none => rfl
  | some parent => rfl

/-- C7: for a unit whose type resolves, `reset_modifications` empties both
terrain caches, takes the maximum hitpoints, the experience threshold, the
maximum movement and the attacks from the type, and leaves in each governed
section (`attacks`, `movement_costs`, `defense`, `resistance`, `abilities`) of
the unit document exactly the sections that the type document `t.cfg_` has
under that tag, merged over those of the parent of the movement type when there
is one; nothing of what the unit document held under these tags is left. -/
theorem reset_modifications_restores (E : Env) (u : unit) (t : unit_type)
    (ht : u.type E = .ok (some t)) :
    ∃ u1, reset_modifications E u = .ok u1 ∧
      u1.movement_costs_ = [] ∧ u1.defense_mods_ = [] ∧
      u1.max_hit_points_ = t.hitpoints ∧ u1.max_experience_ = t.experience_needed ∧
      u1.max_movement_ = t.movement ∧ u1.attacks_ = t.attacks ∧
      ∀ tag ∈ mod_childs, u1.cfg_.get_children tag = base_sections t tag := by
  refine ⟨reset_to t u, ?_, rfl, rfl, rfl, rfl, rfl, rfl, ?_⟩
  · unfold reset_modifications
    rw [ht]
  · intro tag htag
    exact reset_to_base_sections t u tag htag

theorem reset_modifications_restores_witness :
    (∃ u1, reset_modifications knightEnv usedKnight = .ok u1 ∧
      u1.movement_costs_ = [] ∧ u1.defense_mods_ = [] ∧
      u1.max_hit_points_ = 30 ∧ u1.max_experience_ = 40 ∧
      u1.max_movement_ = 5 ∧ u1.attacks_ = [] ∧
      ∀ tag ∈ mod_childs, u1.cfg_.get_children tag = base_sections knightType tag) ∧
    base_sections knightType "movement_costs" =
      [config.mk [("forest", "3"), ("hills", "2")] []] ∧
    base_sections knightType "defense" = [config.mk [("forest", "50")] []] ∧
    base_sections knightType "resistance" = [] ∧
    base_sections knightType "abilities" =
      [config.mk [] [("leadership", config.mk [("id", "leadership")] [])]] :=
  ⟨reset_modifications_restores knightEnv usedKnight knightType rfl,
   by decide, by decide, by decide, by decide⟩

/-! ## No double application (C8) -/

theorem child_eq_tagged (c : config) (t : String) :
    c.child t = ((tagged t c.children).head?).map (fun p => p.2) := by
  unfold config.child config.get_children tagged
  rw [List.head?_map]

theorem child_congr (c d : config) (t : String) (h : same_sections c d) (ht : t ∈ mod_childs) :
    c.child t = d.child t := by
  rw [child_eq_tagged, child_eq_tagged, h t ht]

theorem add_child_congr (c d : config) (t : String) (x : config) (h : same_sections c d) :
    same_sections (c.add_child t x) (d.add_child t x) := by
  intro tag htag
  rw [children_add_child, children_add_child, tagged_append, tagged_append, h tag htag]

theorem replace_first_tagged_other (t1 t : String) (x : config) (l : List (String × config))
    (h : ¬ t1 = t) : replace_first_tagged t x (tagged t1 l) = tagged t1 l := by
  induction l with
  | nil => rfl
  | cons p rest ih =>
    obtain ⟨t2, y⟩ := p
    by_cases h1 : t2 = t1
    · subst h1
      rw [tagged_cons_eq, replace_first_tagged, if_neg h, ih]
    · rw [tagged_cons_ne _ _ _ _ h1, ih]

theorem tagged_replace_first (t1 t : String) (x : config) (l : List (String × config)) :
    tagged t1 (replace_first_tagged t x l) = replace_first_tagged t x (tagged t1 l) := by
  induction l with
  | nil => rfl
  | cons p rest ih =>
    obtain ⟨t2, y⟩ := p
    rw [replace_first_tagged]
    by_cases h : t2 = t
    · rw [if_pos h]
      by_cases h1 : t2 = t1
      · subst h1
        rw [tagged_cons_eq, tagged_cons_eq, replace_first_tagged, if_pos h]
      · rw [tagged_cons_ne _ _ _ _ h1, tagged_cons_ne _ _ _ _ h1]
        have : ¬ t1 = t := fun e => h1 (h.trans e.symm)
        rw [replace_first_tagged_other _ _ _ _ this]
    · rw [if_neg h]
      by_cases h1 : t2 = t1
      · subst h1
        rw [tagged_cons_eq, tagged_cons_eq, replace_first_tagged, if_neg h, ih]
      · rw [tagged_cons_ne _ _ _ _ h1, tagged_cons_ne _ _ _ _ h1, ih]

theorem set_attr_congr (c d : config) (k v : String) (h : same_sections c d) :
    same_sections (c.set_attr k v) (d.set_attr k v) :=
  fun tag htag => h tag htag

theorem set_first_child_congr (c d : config) (t : String) (x : config) (h : same_sections c d) :
    same_sections (c.set_first_child t x) (d.set_first_child t x) := by
  intro tag htag
  show tagged tag (replace_first_tagged t x c.children) =
    tagged tag (replace_first_tagged t x d.children)
  rw [tagged_replace_first, tagged_replace_first, h tag htag]

theorem ensure_child_congr (c d : config) (tag : String) (h : same_sections c d)
    (htag : tag ∈ mod_childs) :
    same_sections (if (c.child tag).isSome then c else c.add_child tag config.empty)
      (if (d.child tag).isSome then d else d.add_child tag config.empty) := by
  rw [child_congr c d tag h htag]
  by_cases hs : (d.child tag).isSome = true
  · rw [if_pos hs, if_pos hs]; exact h
  · rw [if_neg hs, if_neg hs]; exact add_child_congr _ _ _ _ h

theorem merge_section_congr (E : Env) (tag : String) (eff : config) (c d : config)
    (h : same_sections c d) (htag : tag ∈ mod_childs) :
    same_sections (merge_section E tag eff c) (merge_section E tag eff d) := by
  have key : ∀ c1 d1 : config, same_sections c1 d1 →
      same_sections
        (match eff.child tag with
          | some ap => c1.set_first_child tag
              (mod_mdr_merge E ((c1.child tag).getD config.empty) ap
                (!E.string_bool (eff.attr "replace") false))
          | none => c1)
        (match eff.child tag with
          | some ap => d1.set_first_child tag
              (mod_mdr_merge E ((d1.child tag).getD config.empty) ap
                (!E.string_bool (eff.attr "replace") false))
          | none => d1) := by
    intro c1 d1 h1
    cases eff.child tag with
    | none => exact h1
    | some ap =>
      simp only
      rw [child_congr c1 d1 tag h1 htag]
      exact set_first_child_congr _ _ _ _ h1
  exact key _ _ (ensure_child_congr c d tag h htag)

theorem abilities_governed : "abilities" ∈ mod_childs := by decide

theorem has_ability_congr (c d : config) (a : String) (h : same_sections c d) :
    has_ability_by_id c a = has_ability_by_id d a := by
  unfold has_ability_by_id
  rw [child_congr c d "abilities" h abilities_governed]

theorem remove_ability_by_id_congr (c d : config) (a : String) (h : same_sections c d) :
    same_sections (remove_ability_by_id c a) (remove_ability_by_id d a) := by
  unfold remove_ability_by_id
  rw [child_congr c d "abilities" h abilities_governed]
  cases d.child "abilities" with
  | none => exact h
  | some abil => exact set_first_child_congr _ _ _ _ h

theorem new_ability_cfg_congr (eff c d : config) (h : same_sections c d) :
    same_sections (new_ability_cfg eff c) (new_ability_cfg eff d) := by
  have key : ∀ c1 d1 : config, same_sections c1 d1 →
      same_sections
        (match eff.child "abilities" with
          | some ab_effect => c1.set_first_child "abilities"
              (((c1.child "abilities").getD config.empty).append
                (config.mk []
                  (ab_effect.children.filter (fun p => !has_ability_by_id c1 (p.2.attr "id")))))
          | none => c1)
        (match eff.child "abilities" with
          | some ab_effect => d1.set_first_child "abilities"
              (((d1.child "abilities").getD config.empty).append
                (config.mk []
                  (ab_effect.children.filter (fun p => !has_ability_by_id d1 (p.2.attr "id")))))
          | none => d1) := by
    intro c1 d1 h1
    cases eff.child "abilities" with
    | none => exact h1
    | some ab =>
      simp only
      have hf : (fun (p : String × config) => !has_ability_by_id c1 (p.2.attr "id")) =
          (fun p => !has_ability_by_id d1 (p.2.attr "id")) := by
        funext p
        rw [has_ability_congr c1 d1 _ h1]
      rw [hf, child_congr c1 d1 "abilities" h1 abilities_governed]
      exact set_first_child_congr _ _ _ _ h1
  exact key _ _ (ensure_child_congr c d "abilities" h abilities_governed)

theorem remove_ability_cfg_congr (eff c d : config) (h : same_sections c d) :
    same_sections (remove_ability_cfg eff c) (remove_ability_cfg eff d) := by
  unfold remove_ability_cfg
  cases eff.child "abilities" with
  | none => exact h
  | some ab =>
    simp only
    generalize ab.children = l
    induction l generalizing c d with
    | nil => exact h
    | cons p rest ih =>
      rw [List.foldl_cons, List.foldl_cons]
      exact ih _ _ (remove_ability_by_id_congr c d _ h)

/-- Every effect body maps units that agree on the governed state to units that
agree on it. -/
theorem apply_effect_congr (E : Env) (eff : config) (a b : unit) (h : same_governed a b) :
    same_governed (apply_effect E eff a) (apply_effect E eff b) := by
  revert a b
  apply apply_effect_fun_cases
    (fun f => ∀ a b : unit, same_governed a b → same_governed (f a) (f b))
  · intro a b ⟨h1, h2, h3, h4, h5, h6, h7, h8⟩
    refine ⟨h1, h2, h3, h4, h5, h6, h7, ?_⟩
    show same_sections
      (if eff.attr "description" ≠ "" then
        (if eff.attr "portrait" ≠ "" then a.cfg_.set_attr "profile" (eff.attr "portrait")
          else a.cfg_).set_attr "description" (eff.attr "description")
       else (if eff.attr "portrait" ≠ "" then a.cfg_.set_attr "profile" (eff.attr "portrait")
          else a.cfg_))
      (if eff.attr "description" ≠ "" then
        (if eff.attr "portrait" ≠ "" then b.cfg_.set_attr "profile" (eff.attr "portrait")
          else b.cfg_).set_attr "description" (eff.attr "description")
       else (if eff.attr "portrait" ≠ "" then b.cfg_.set_attr "profile" (eff.attr "portrait")
          else b.cfg_))
    by_cases c1 : eff.attr "description" ≠ "" <;> by_cases c2 : eff.attr "portrait" ≠ ""
    · rw [if_pos c1, if_pos c1, if_pos c2, if_pos c2]; exact h8
    · rw [if_pos c1, if_pos c1, if_neg c2, if_neg c2]; exact h8
    · rw [if_neg c1, if_neg c1, if_pos c2, if_pos c2]; exact h8
    · rw [if_neg c1, if_neg c1, if_neg c2, if_neg c2]; exact h8
  · intro a b ⟨h1, h2, h3, h4, h5, h6, h7, h8⟩
    exact ⟨h1, h2, h3, h4, h5, h6, congrArg (fun l => l ++ [E.attack_of_cfg eff]) h7, h8⟩
  · intro a b ⟨h1, h2, h3, h4, h5, h6, h7, h8⟩
    exact ⟨h1, h2, h3, h4, h5, h6,
      congrArg (fun l => List.filter (fun a => !E.attack_matches_filter a eff) l) h7, h8⟩
  · intro a b ⟨h1, h2, h3, h4, h5, h6, h7, h8⟩
    exact ⟨h1, h2, h3, h4, h5, h6,
      congrArg (fun l => List.map (fun a => E.attack_apply_modification a eff) l) h7, h8⟩
  · intro a b ⟨h1, h2, h3, h4, h5, h6, h7, h8⟩
    exact ⟨h1, h2, h3, congrArg (hitpoints_new_max E eff) h4, h5, h6, h7, h8⟩
  · intro a b ⟨h1, h2, h3, h4, h5, h6, h7, h8⟩
    exact ⟨h1, h2, h3, h4, congrArg (movement_new_max E eff) h5, h6, h7, h8⟩
  · intro a b ⟨h1, h2, h3, h4, h5, h6, h7, h8⟩
    exact ⟨h1, h2, h3, h4, h5,
      congrArg (fun x => if eff.attr "increase" ≠ "" then
        E.apply_modifier x (eff.attr "increase") 1 else x) h6, h7, h8⟩
  · intro a b ⟨h1, h2, h3, h4, h5, h6, h7, h8⟩
    exact ⟨h1, h2, h3, h4, h5, h6, h7, set_attr_congr _ _ _ _ h8⟩
  · intro a b ⟨h1, h2, h3, h4, h5, h6, h7, h8⟩
    exact ⟨h1, h2, h3, h4, h5, h6, h7, h8⟩
  · intro a b ⟨h1, h2, h3, h4, h5, h6, h7, h8⟩
    exact ⟨h1, h2, h3, h4, h5, h6, h7, merge_section_congr E _ eff _ _ h8 (by decide)⟩
  · intro a b ⟨h1, h2, h3, h4, h5, h6, h7, h8⟩
    exact ⟨h1, h2, h3, h4, h5, h6, h7, merge_section_congr E _ eff _ _ h8 (by decide)⟩
  · intro a b ⟨h1, h2, h3, h4, h5, h6, h7, h8⟩
    exact ⟨h1, h2, h3, h4, h5, h6, h7, merge_section_congr E _ eff _ _ h8 (by decide)⟩
  · intro a b ⟨h1, h2, h3, h4, h5, h6, h7, h8⟩
    exact ⟨h1, h2, h3, h4, h5, h6, h7, h8⟩
  · intro a b ⟨h1, h2, h3, h4, h5, h6, h7, h8⟩
    exact ⟨h1, h2, h3, h4, h5, h6, h7, new_ability_cfg_congr eff _ _ h8⟩
  · intro a b ⟨h1, h2, h3, h4, h5, h6, h7, h8⟩
    exact ⟨h1, h2, h3, h4, h5, h6, h7, remove_ability_cfg_congr eff _ _ h8⟩
  · intro a b ⟨h1, h2, h3, h4, h5, h6, h7, h8⟩
    exact ⟨h1, h2, h3, h4, h5, h6, h7, h8⟩
  · intro a b h
    exact h

theorem effect_applies_congr (E : Env) (eff : config) (a b : unit) (h : same_governed a b) :
    effect_applies E eff a = effect_applies E eff b := by
  unfold effect_applies unit.type_id
  rw [h.1, h.2.1]

theorem effect_times_congr (eff : config) (a b : unit) (h : same_governed a b) :
    effect_times eff a = effect_times eff b := by
  unfold effect_times
  rw [h.2.2.1]

theorem iterate_unit_congr (E : Env) (eff : config) (n : Nat) (a b : unit)
    (h : same_governed a b) :
    same_governed (iterate_unit (apply_effect E eff) n a)
      (iterate_unit (apply_effect E eff) n b) := by
  induction n generalizing a b with
  | zero => exact h
  | succ n ih => exact ih _ _ (apply_effect_congr E eff a b h)

theorem apply_effects_congr (E : Env) (m1 m2 : config) (a b : unit)
    (hm : m1.get_children "effect" = m2.get_children "effect") (h : same_governed a b) :
    same_governed (apply_effects E m1 a) (apply_effects E m2 b) := by
  unfold apply_effects
  rw [hm]
  generalize m2.get_children "effect" = l
  induction l generalizing a b with
  | nil => exact h
  | cons eff rest ih =>
    rw [List.foldl_cons, List.foldl_cons]
    apply ih
    rw [effect_applies_congr E eff a b h, effect_times_congr eff a b h]
    by_cases c : effect_applies E eff b = true
    · rw [if_pos c, if_pos c]; exact iterate_unit_congr E eff _ a b h
    · rw [if_neg c, if_neg c]; exact h

theorem records_congr (E : Env) (l1 l2 : List (String × config)) (a b : unit)
    (hl : l1.map (fun r => r.2.get_children "effect") =
      l2.map (fun r => r.2.get_children "effect"))
    (h : same_governed a b) :
    same_governed (l1.foldl (fun v r => apply_effects E r.2 v) a)
      (l2.foldl (fun v r => apply_effects E r.2 v) b) := by
  induction l1 generalizing l2 a b with
  | nil =>
    cases l2 with
    | nil => exact h
    | cons r rest => cases hl
  | cons r1 rest1 ih =>
    cases l2 with
    | nil => cases hl
    | cons r2 rest2 =>
      rw [List.map_cons, List.map_cons] at hl
      rw [List.foldl_cons, List.foldl_cons]
      exact ih rest2 _ _ (List.cons.inj hl).2
        (apply_effects_congr E r1.2 r2.2 a b (List.cons.inj hl).1 h)

theorem effects_rename_trait (g : GENDER) (kind : String) (j : config) :
    (if kind = "trait" then rename_trait g j else j).get_children "effect" =
      j.get_children "effect" := by
  by_cases c : kind = "trait"
  · rw [if_pos c]
    unfold rename_trait
    by_cases c1 : j.attr (gender_name_key g) ≠ ""
    · rw [if_pos c1]; rfl
    · rw [if_neg c1]
  · rw [if_neg c]

/-- Renaming the traits of a ledger does not change the effects of its records. -/
theorem ledger_effects_rename (g : GENDER) (ledger : config) :
    (ledger_records (rename_traits g ledger)).map (fun r => r.2.get_children "effect") =
      (ledger_records ledger).map (fun r => r.2.get_children "effect") := by
  unfold ledger_records
  generalize ModificationTypes = kinds
  induction kinds with
  | nil => rfl
  | cons kind rest ih =>
    rw [List.flatMap_cons, List.flatMap_cons, List.map_append, List.map_append, ih,
      get_children_rename_traits, List.map_map, List.map_map, List.map_map]
    congr 1
    apply List.map_congr_left
    intro j _
    exact effects_rename_trait g kind j

theorem note_traits_congr (a b : unit) (h : same_governed a b) :
    same_governed (note_traits a) (note_traits b) :=
  ⟨h.1, h.2.1, h.2.2.1, h.2.2.2.1, h.2.2.2.2.1, h.2.2.2.2.2.1, h.2.2.2.2.2.2.1,
    h.2.2.2.2.2.2.2⟩

theorem finish_modifications_congr (E : Env) (n1 n2 : List String) (a b : unit)
    (h : same_governed a b) :
    same_governed (finish_modifications E n1 a) (finish_modifications E n2 b) :=
  ⟨h.1, h.2.1, h.2.2.1, h.2.2.2.1, h.2.2.2.2.1,
    congrArg (fun x : Int => max 1 ((x * E.exp_accel + 50).tdiv 100)) h.2.2.2.2.2.1,
    h.2.2.2.2.2.2.1, h.2.2.2.2.2.2.2⟩

/-- The ledger pass maps units that agree on the governed state, and whose
ledgers carry the same effects, to units that agree on the governed state. -/
theorem apply_modifications_congr (E : Env) (a b : unit)
    (hl : (ledger_records a.modifications_).map (fun r => r.2.get_children "effect") =
      (ledger_records b.modifications_).map (fun r => r.2.get_children "effect"))
    (h : same_governed a b) :
    same_governed (apply_modifications E a) (apply_modifications E b) := by
  unfold apply_modifications
  apply finish_modifications_congr
  apply records_congr
  · show (ledger_records (rename_traits a.gender_ a.modifications_)).map _ =
      (ledger_records (rename_traits b.gender_ b.modifications_)).map _
    rw [ledger_effects_rename, ledger_effects_rename, hl]
  · exact note_traits_congr a b h

/-- The ledger pass keeps the identity of the unit: type id, gender, variation
and level. -/
theorem apply_modifications_identity (E : Env) (u : unit) :
    (apply_modifications E u).type_ = u.type_ ∧ (apply_modifications E u).gender_ = u.gender_ ∧
    (apply_modifications E u).variation_ = u.variation_ ∧
    (apply_modifications E u).level_ = u.level_ := by
  have hf : ∀ eff v, (fun w : unit => (w.type_, w.gender_, w.variation_, w.level_))
      (apply_effect E eff v) =
      (fun w : unit => (w.type_, w.gender_, w.variation_, w.level_)) v := by
    intro eff v
    apply apply_effect_cases
      (fun w => (w.type_, w.gender_, w.variation_, w.level_) =
        (v.type_, v.gender_, v.variation_, v.level_))
    all_goals intros; rfl
  have key := records_frame (fun w : unit => (w.type_, w.gender_, w.variation_, w.level_)) E hf
    (ledger_records (note_traits u).modifications_) (note_traits u)
  unfold apply_modifications
  have k1 := congrArg (fun p : String × GENDER × String × Int => p.1) key
  have k2 := congrArg (fun p : String × GENDER × String × Int => p.2.1) key
  have k3 := congrArg (fun p : String × GENDER × String × Int => p.2.2.1) key
  have k4 := congrArg (fun p : String × GENDER × String × Int => p.2.2.2) key
  exact ⟨k1, k2, k3, k4⟩

/-- For a unit whose type resolves, the pair `reset_modifications`,
`apply_modifications` run a second time returns and leaves the derived
statistics and the governed sections as the first run left them. -/
theorem reset_and_apply_twice (E : Env) (u : unit) (t : unit_type)
    (ht : u.type E = .ok (some t)) :
    ∃ u1 u2, reset_and_apply E u = .ok u1 ∧ reset_and_apply E u1 = .ok u2 ∧
      u2.max_hit_points_ = u1.max_hit_points_ ∧ u2.max_movement_ = u1.max_movement_ ∧
      u2.max_experience_ = u1.max_experience_ ∧ u2.attacks_ = u1.attacks_ ∧
      ∀ tag ∈ mod_childs, u2.cfg_.get_children tag = u1.cfg_.get_children tag := by
  have hid := apply_modifications_identity E (reset_to t u)
  have hled := apply_modifications_ledger E (reset_to t u)
  generalize hu1 : apply_modifications E (reset_to t u) = u1 at hid hled
  have hty : u1.type E = .ok (some t) := by
    rw [← ht]
    unfold unit.type unit.type_id
    rw [hid.1, hid.2.1, hid.2.2.1]
    rfl
  have h1 : reset_and_apply E u = .ok u1 := by
    unfold reset_and_apply reset_modifications
    rw [ht, ← hu1]
    rfl
  have h2 : reset_and_apply E u1 = .ok (apply_modifications E (reset_to t u1)) := by
    unfold reset_and_apply reset_modifications
    rw [hty]
    rfl
  have hg : same_governed (reset_to t u1) (reset_to t u) :=
    ⟨hid.1, hid.2.1, hid.2.2.2, rfl, rfl, rfl, rfl, fun tag htag => by
      rw [reset_to_sections t u1 tag htag, reset_to_sections t u tag htag]⟩
  have hl : (ledger_records (reset_to t u1).modifications_).map
      (fun r => r.2.get_children "effect") =
      (ledger_records (reset_to t u).modifications_).map
        (fun r => r.2.get_children "effect") := by
    show (ledger_records u1.modifications_).map _ = _
    rw [hled, ledger_effects_rename]
  have hc := apply_modifications_congr E _ _ hl hg
  rw [hu1] at hc
  refine ⟨u1, _, h1, h2, hc.2.2.2.1, hc.2.2.2.2.1, hc.2.2.2.2.2.1, hc.2.2.2.2.2.2.1, ?_⟩
  intro tag htag
  rw [get_children_tagged, get_children_tagged, hc.2.2.2.2.2.2.2 tag htag]

/-- For a unit with a type id that is not registered, `reset_modifications`
throws the error of `type()`, so the pair changes nothing. -/
theorem reset_and_apply_unknown (E : Env) (u : unit) (hid : u.type_id ≠ "")
    (hreg : E.types.lookup u.type_id = none) :
    reset_and_apply E u = .error (.unknown_unit_type u.type_id) := by
  unfold reset_and_apply reset_modifications unit.type
  rw [hreg]
  simp only [if_pos hid]
  rfl

/-- C8: for every unit with a type id (the state every constructor leaves) and
every ledger, when the type id is registered the pair `reset_modifications`,
`apply_modifications` returns both times, and the second run leaves the maximum
hitpoints, the maximum movement, the experience threshold, the attack list and
every governed section of the unit document (`attacks`, `movement_costs`,
`defense`, `resistance`, `abilities`) as the first run left them; when the type
id is not registered the pair throws the error of `type()` before it touches
the unit. -/
theorem no_double_application (E : Env) (u : unit) (hid : u.type_id ≠ "") :
    ((E.types.lookup u.type_id).isSome = true →
      ∃ u1 u2, reset_and_apply E u = .ok u1 ∧ reset_and_apply E u1 = .ok u2 ∧
        u2.max_hit_points_ = u1.max_hit_points_ ∧ u2.max_movement_ = u1.max_movement_ ∧
        u2.max_experience_ = u1.max_experience_ ∧ u2.attacks_ = u1.attacks_ ∧
        ∀ tag ∈ mod_childs, u2.cfg_.get_children tag = u1.cfg_.get_children tag) ∧
    (E.types.lookup u.type_id = none →
      reset_and_apply E u = .error (.unknown_unit_type u.type_id)) := by
  constructor
  · intro hreg
    cases hl : E.types.lookup u.type_id with
    | none => rw [hl] at hreg; cases hreg
    | some t0 =>
      have ht : u.type E = .ok (some (E.variant t0 u.gender_ u.variation_)) := by
        unfold unit.type
        rw [hl]
      exact reset_and_apply_twice E u _ ht
  · intro hreg
    exact reset_and_apply_unknown E u hid hreg

set_option maxRecDepth 100000 in
theorem no_double_application_witness :
    toughKnight.type_id ≠ "" ∧
    (∃ u1 u2, reset_and_apply knightEnv toughKnight = .ok u1 ∧
      reset_and_apply knightEnv u1 = .ok u2 ∧
      u2.max_hit_points_ = u1.max_hit_points_ ∧ u2.max_movement_ = u1.max_movement_ ∧
      u2.max_experience_ = u1.max_experience_ ∧ u2.attacks_ = u1.attacks_ ∧
      ∀ tag ∈ mod_childs, u2.cfg_.get_children tag = u1.cfg_.get_children tag) ∧
    (reset_and_apply knightEnv toughKnight).toOption.map (fun v => v.max_hit_points_) =
      some 35 ∧
    (reset_and_apply knightEnv toughKnight).toOption.map
        (fun v => v.cfg_.get_children "movement_costs") =
      some [config.mk [("forest", "2"), ("hills", "2")] []] :=
  ⟨by decide,
   (no_double_application knightEnv toughKnight (by decide)).1 rfl,
   by decide, by decide⟩

/-! ## The order of the ledger pass (C9) -/

theorem effect_round_no_add (E : Env) (eff : config) (s : St) :
    effect_round E true eff s = .ok { s with u := apply_effect E eff s.u } := by
  unfold effect_round
  simp

theorem effect_rounds_no_add (E : Env) (eff : config) (n : Nat) (s : St) :
    effect_rounds E true eff n s = .ok { s with u := iterate_unit (apply_effect E eff) n s.u } := by
  induction n generalizing s with
  | zero => rfl
  | succ n ih =>
    rw [effect_rounds, effect_round_no_add]
    simp only [Res.andThen]
    rw [ih]
    rfl

/-- With `no_add` set, `add_modification` returns and its effect on the unit is
the effect loop `apply_effects`; nothing else of the state changes. -/
theorem add_modification_no_add (E : Env) (type : String) (mod : config) (s : St) :
    add_modification E type mod true s = .ok { s with u := apply_effects E mod s.u } := by
  unfold add_modification apply_effects
  simp only [Bool.true_eq_false, if_false]
  generalize mod.get_children "effect" = l
  induction l generalizing s with
  | nil => rfl
  | cons eff rest ih =>
    rw [List.foldl_cons, List.foldl_cons]
    simp only [Res.andThen]
    by_cases h : effect_applies E eff s.u = true
    · rw [if_pos h, if_pos h, effect_rounds_no_add]
      exact ih _
    · rw [if_neg h, if_neg h]
      exact ih s

/-- The pass over a list of records through `add_modification` with `no_add` set
returns, and its unit is the pass of the effect loops. -/
theorem records_pass_no_add (E : Env) (l : List (String × config)) (s : St) :
    l.foldl (fun (r : Res) (x : String × config) => r.andThen (add_modification E x.1 x.2 true))
        (Res.ok s) =
      Res.ok { s with u := l.foldl (fun v r => apply_effects E r.2 v) s.u } := by
  induction l generalizing s with
  | nil => rfl
  | cons x rest ih =>
    rw [List.foldl_cons, List.foldl_cons]
    have h1 : (Res.ok s).andThen (add_modification E x.1 x.2 true) =
        Res.ok { s with u := apply_effects E x.2 s.u } := by
      show add_modification E x.1 x.2 true s = _
      exact add_modification_no_add E x.1 x.2 s
    rw [h1, ih]

/-- C9: `apply_modifications` hands the records of the ledger to
`add_modification` with `no_add` set, all `advance` records in ledger order, then
all `trait` records, then all `object` records; every such call returns, and the
ledger keeps its records: for every kind the ids of the records, in order, are
the same after `apply_modifications` as before. -/
theorem apply_modifications_order (E : Env) (u : unit) (rnd game : rng) (ids : Nat) :
    (∀ ledger : config, ledger_records ledger =
      (ledger.get_children "advance").map (fun j => ("advance", j)) ++
      ((ledger.get_children "trait").map (fun j => ("trait", j)) ++
       (ledger.get_children "object").map (fun j => ("object", j)))) ∧
    (∃ u2 : unit,
      (ledger_records (note_traits u).modifications_).foldl
          (fun (r : Res) (x : String × config) => r.andThen (add_modification E x.1 x.2 true))
          (Res.ok ⟨note_traits u, rnd, game, ids⟩) = Res.ok ⟨u2, rnd, game, ids⟩ ∧
      apply_modifications E u =
        finish_modifications E (trait_names u.gender_ (u.modifications_.get_children "trait")) u2) ∧
    (∀ kind : String,
      ((apply_modifications E u).modifications_.get_children kind).map (fun j => j.attr "id") =
        (u.modifications_.get_children kind).map (fun j => j.attr "id")) := by
  refine ⟨?_, ?_, ?_⟩
  · intro ledger
    simp [ledger_records, ModificationTypes]
  · refine ⟨_, records_pass_no_add E _ _, rfl⟩
  · intro kind
    rw [apply_modifications_ledger, get_children_rename_traits, List.map_map]
    apply List.map_congr_left
    intro j _
    simp only [Function.comp]
    split
    · exact attr_id_rename_trait u.gender_ j
    · rfl

/-! ## Unknown unit types (C10) -/

/-- C10: `generate_traits` throws the unknown-unit-type error exactly when the
type id of the unit is not registered, and then the whole state is as before
the call; `type()` throws exactly when the id is non-empty and not registered,
and its error is the unknown-unit-type error. -/
theorem unknown_type_is_an_error (E : Env) (musthaveonly state : Bool) (s : St) (u : unit) :
    ((generate_traits E musthaveonly state s).isOk = false ↔
        E.types.lookup s.u.type_id = none) ∧
    (E.types.lookup s.u.type_id = none →
        generate_traits E musthaveonly state s =
          .thrown (.unknown_unit_type_traits s.u.type_id) s) ∧
    ((∃ e, u.type E = .error e) ↔ (u.type_id ≠ "" ∧ E.types.lookup u.type_id = none)) ∧
    (∀ e, u.type E = .error e → e = .unknown_unit_type u.type_id) := by
  refine ⟨?_, ?_, ?_, ?_⟩
  · unfold generate_traits
    cases E.types.lookup s.u.type_id with
    | none => simp [Res.isOk]
    | some t =>
      simp only
      split <;> simp [Res.isOk]
  · intro h
    unfold generate_traits
    rw [h]
  · unfold unit.type
    cases E.types.lookup u.type_id with
    | none =>
      simp only
      by_cases h : u.type_id = ""
      · simp [h]
      · simp [h]
    | some t => simp
  · intro e
    unfold unit.type
    cases E.types.lookup u.type_id with
    | none =>
      simp only
      by_cases h : u.type_id = ""
      · simp [h]
      · simp only [ne_eq, h, not_false_eq_true, if_true, Except.error.injEq]
        intro h2; exact h2.symm
    | some t => simp

/-! ## The round trip through `write` and `read` (C6) -/

theorem attr_add_child (c : config) (t : String) (x : config) (k : String) :
    (c.add_child t x).attr k = c.attr k := rfl

theorem attr_clear_children (c : config) (t : String) (k : String) :
    (c.clear_children t).attr k = c.attr k := rfl

theorem attr_fold_add_child (l : List attack_type) (c : config) (k : String) :
    (l.foldl (fun c a => c.add_child "attack" a.cfg_) c).attr k = c.attr k := by
  induction l generalizing c with
  | nil => rfl
  | cons a rest ih => rw [List.foldl_cons, ih]; rfl

theorem attr_set_attrs (c : config) (kvs : List (String × String)) (k : String) :
    (set_attrs c kvs).attr k =
      kvs.foldl (fun acc p => if p.1 = k then p.2 else acc) (c.attr k) := by
  unfold set_attrs
  induction kvs generalizing c with
  | nil => rfl
  | cons p rest ih =>
    rw [List.foldl_cons, List.foldl_cons, ih]
    congr 1
    by_cases h : p.1 = k
    · rw [if_pos h, ← h]; exact attr_set_attr_eq c p.1 p.2
    · rw [if_neg h]; exact attr_set_attr_ne c p.1 k p.2 (fun e => h e.symm)

theorem attr_ite_set (b : Prop) [Decidable b] (c : config) (k1 v k : String) :
    (if b then c.set_attr k1 v else c).attr k =
      if k1 = k then (if b then v else c.attr k) else c.attr k := by
  by_cases hb : b
  · rw [if_pos hb]
    by_cases h : k1 = k
    · rw [if_pos h, if_pos hb, ← h]; exact attr_set_attr_eq c k1 v
    · rw [if_neg h]; exact attr_set_attr_ne c k1 k v (fun e => h e.symm)
  · rw [if_neg hb]
    by_cases h : k1 = k
    · rw [if_pos h, if_neg hb]
    · rw [if_neg h]

theorem attr_set_attr (c : config) (k1 v k : String) :
    (c.set_attr k1 v).attr k = if k1 = k then v else c.attr k := by
  by_cases h : k1 = k
  · rw [if_pos h, ← h]; exact attr_set_attr_eq c k1 v
  · rw [if_neg h]; exact attr_set_attr_ne c k1 k v (fun e => h e.symm)

theorem write_attr_hitpoints (E : Env) (u : unit) (doc : config) :
    (u.write E doc).attr "hitpoints" = E.int_to_string u.hit_points_ := by
  unfold unit.write
  simp only [attr_add_child, attr_clear_children, attr_fold_add_child, attr_set_attrs,
    attr_ite_set, attr_set_attr]
  rfl

theorem write_attr_max_hitpoints (E : Env) (u : unit) (doc : config) :
    (u.write E doc).attr "max_hitpoints" = E.int_to_string u.max_hit_points_ := by
  unfold unit.write
  simp only [attr_add_child, attr_clear_children, attr_fold_add_child, attr_set_attrs,
    attr_ite_set, attr_set_attr]
  rfl

theorem write_attr_experience (E : Env) (u : unit) (doc : config) :
    (u.write E doc).attr "experience" = E.int_to_string u.experience_ := by
  unfold unit.write
  simp only [attr_add_child, attr_clear_children, attr_fold_add_child, attr_set_attrs,
    attr_ite_set, attr_set_attr]
  rfl

theorem write_attr_max_experience (E : Env) (u : unit) (doc : config) :
    (u.write E doc).attr "max_experience" = E.int_to_string u.max_experience_ := by
  unfold unit.write
  simp only [attr_add_child, attr_clear_children, attr_fold_add_child, attr_set_attrs,
    attr_ite_set, attr_set_attr]
  rfl

theorem write_attr_side (E : Env) (u : unit) (doc : config) :
    (u.write E doc).attr "side" = E.int_to_string u.side_ := by
  unfold unit.write
  simp only [attr_add_child, attr_clear_children, attr_fold_add_child, attr_set_attrs,
    attr_ite_set, attr_set_attr]
  rfl

theorem write_attr_type (E : Env) (u : unit) (doc : config) :
    (u.write E doc).attr "type" = u.type_id := by
  unfold unit.write
  simp only [attr_add_child, attr_clear_children, attr_fold_add_child, attr_set_attrs,
    attr_ite_set, attr_set_attr]
  rfl

theorem write_attr_gender (E : Env) (u : unit) (doc : config) :
    (u.write E doc).attr "gender" = E.gender_string u.gender_ := by
  unfold unit.write
  simp only [attr_add_child, attr_clear_children, attr_fold_add_child, attr_set_attrs,
    attr_ite_set, attr_set_attr]
  rfl

theorem write_attr_variation (E : Env) (u : unit) (doc : config) :
    (u.write E doc).attr "variation" = u.variation_ := by
  unfold unit.write
  simp only [attr_add_child, attr_clear_children, attr_fold_add_child, attr_set_attrs,
    attr_ite_set, attr_set_attr]
  rfl

theorem write_attr_moves (E : Env) (u : unit) (doc : config) :
    (u.write E doc).attr "moves" = E.int_to_string u.movement_ := by
  unfold unit.write
  simp only [attr_add_child, attr_clear_children, attr_fold_add_child, attr_set_attrs,
    attr_ite_set, attr_set_attr]
  rfl

theorem write_attr_max_moves (E : Env) (u : unit) (doc : config) :
    (u.write E doc).attr "max_moves" = E.int_to_string u.max_movement_ := by
  unfold unit.write
  simp only [attr_add_child, attr_clear_children, attr_fold_add_child, attr_set_attrs,
    attr_ite_set, attr_set_attr]
  rfl

theorem children_set_attrs (c : config) (kvs : List (String × String)) :
    (set_attrs c kvs).children = c.children := by
  unfold set_attrs
  induction kvs generalizing c with
  | nil => rfl
  | cons p rest ih => rw [List.foldl_cons, ih]; rfl

theorem children_ite_set (b : Prop) [Decidable b] (c : config) (k v : String) :
    (if b then c.set_attr k v else c).children = c.children := by
  by_cases hb : b
  · rw [if_pos hb]; rfl
  · rw [if_neg hb]

theorem children_fold_add_child (l : List attack_type) (c : config) :
    (l.foldl (fun c a => c.add_child "attack" a.cfg_) c).children =
      c.children ++ l.map (fun a => ("attack", a.cfg_)) := by
  induction l generalizing c with
  | nil => simp
  | cons a rest ih =>
    rw [List.foldl_cons, ih, children_add_child, List.map_cons, List.append_assoc]
    rfl

theorem children_append (c d : config) : (c.append d).children = c.children ++ d.children := rfl

/-- The children of the document after `write`. -/
theorem write_children (E : Env) (u : unit) (doc : config) :
    (u.write E doc).children =
      ((((((doc.children ++ u.cfg_.children).filter (fun p => p.1 ≠ "variables") ++
            [("variables", u.variables_)]).filter (fun p => p.1 ≠ "status") ++
            [("status", config.mk (smap_assign [] u.states_) [])]).filter
              (fun p => p.1 ≠ "attack") ++
            u.attacks_.map (fun a => ("attack", a.cfg_))).filter
              (fun p => p.1 ≠ "modifications")) ++
        [("modifications", u.modifications_)]) := by
  unfold unit.write
  simp only [children_add_child, children_clear_children, children_set_attr,
    children_fold_add_child, children_set_attrs, children_ite_set, children_append]
  cases (E.types.lookup u.type_id).map (fun t => E.variant t u.gender_ u.variation_) with
  | none => rfl
  | some t =>
    simp only [children_ite_set, children_set_attr, children_append]

theorem filter_attack_map (l : List attack_type) (t : String) :
    (l.map (fun a => (("attack", a.cfg_) : String × config))).filter (fun p => p.1 = t) =
      if t = "attack" then l.map (fun a => ("attack", a.cfg_)) else [] := by
  by_cases h : t = "attack"
  · rw [if_pos h]
    apply List.filter_eq_self.mpr
    intro p hp
    obtain ⟨a, _, rfl⟩ := List.mem_map.mp hp
    simp [h]
  · rw [if_neg h]
    apply List.filter_eq_nil_iff.mpr
    intro p hp
    obtain ⟨a, _, rfl⟩ := List.mem_map.mp hp
    simp
    exact fun e => h e.symm

theorem filter_ne_then_eq (l : List (String × config)) (t t1 : String) :
    (l.filter (fun p => p.1 ≠ t)).filter (fun p => p.1 = t1) =
      if t1 = t then [] else l.filter (fun p => p.1 = t1) := by
  by_cases h : t1 = t
  · rw [if_pos h, h]; exact filter_tag_clear_eq l t
  · rw [if_neg h]; exact filter_tag_clear_ne l t t1 h

theorem write_get_attack (E : Env) (u : unit) (doc : config) :
    (u.write E doc).get_children "attack" = u.attacks_.map (fun a => a.cfg_) := by
  rw [get_children_eq, write_children]
  simp only [List.filter_append, filter_ne_then_eq, filter_attack_map, List.map_append,
    List.filter_cons, List.filter_nil]
  simp

theorem write_get_abilities (E : Env) (u : unit) (doc : config) :
    (u.write E doc).get_children "abilities" =
      doc.get_children "abilities" ++ u.cfg_.get_children "abilities" := by
  rw [get_children_eq, write_children]
  simp only [List.filter_append, filter_ne_then_eq, filter_attack_map, List.map_append,
    List.filter_cons, List.filter_nil]
  simp [config.get_children]

theorem generate_traits_returns (E : Env) (m st : Bool) (s : St)
    (h : (E.types.lookup s.u.type_id).isSome = true) :
    ∃ s1, generate_traits E m st s = .ok s1 := by
  unfold generate_traits
  cases hl : E.types.lookup s.u.type_id with
  | none => rw [hl] at h; cases h
  | some ty =>
    simp only
    cases m
    · exact ⟨_, rfl⟩
    · exact ⟨_, rfl⟩

theorem advance_type_id (t : unit_type) (s : St) : (advance_type t s).u.type_id = t.id := by
  unfold advance_type
  by_cases h : s.u.type_id ≠ t.id
  · rw [if_pos h]; rfl
  · rw [if_neg h]; exact not_not.mp h

/-- The routine `advance_to` returns for a unit whose type resolves, when the id
of the new type is registered. -/
theorem advance_to_returns (E : Env) (t0 : unit_type) (use_traits state : Bool) (s : St)
    (ty : unit_type) (hty : s.u.type E = .ok (some ty))
    (hreg : (E.types.lookup (E.variant t0 s.u.gender_ s.u.variation_).id).isSome = true) :
    ∃ s1, advance_to E t0 use_traits state s = .ok s1 := by
  have hreset : reset_modifications E s.u = .ok (reset_to ty s.u) := by
    unfold reset_modifications
    rw [hty]
  have hty1 : (reset_to ty s.u).type E = .ok (some ty) := hty
  unfold advance_to
  simp only
  split
  · rename_i e he
    rw [hreset] at he
    cases he
  · rename_i u1 hu1
    rw [hreset] at hu1
    cases hu1
    split
    · rename_i e he
      rw [hty1] at he
      cases he
    · rename_i ty2 hty2
      generalize advance_gender E (E.variant t0 s.u.gender_ s.u.variation_) _ = s3
      have h4 : ∃ s5, advance_traits E use_traits state
          (advance_type (E.variant t0 s.u.gender_ s.u.variation_) s3) = .ok s5 := by
        unfold advance_traits
        have hid : (E.types.lookup
            (advance_type (E.variant t0 s.u.gender_ s.u.variation_) s3).u.type_id).isSome = true := by
          rw [advance_type_id]; exact hreg
        split
        · exact generate_traits_returns E _ _ _ hid
        · exact generate_traits_returns E _ _ _ hid
      obtain ⟨s5, h5⟩ := h4
      rw [h5]
      exact ⟨_, rfl⟩

theorem set_underlying_id_type (E : Env) (s : St) :
    (set_underlying_id s).u.type E = s.u.type E := by
  unfold set_underlying_id
  by_cases h : s.u.underlying_id_ = 0
  · rw [if_pos h]; rfl
  · rw [if_neg h]

theorem set_underlying_id_identity (s : St) :
    (set_underlying_id s).u.gender_ = s.u.gender_ ∧
    (set_underlying_id s).u.variation_ = s.u.variation_ := by
  unfold set_underlying_id
  by_cases h : s.u.underlying_id_ = 0
  · rw [if_pos h]; exact ⟨rfl, rfl⟩
  · rw [if_neg h]; exact ⟨rfl, rfl⟩

/-- The first part of `read` returns for a document with a registered type, a
gender and a valid side. -/
theorem read_advance_returns (E : Env) (cfg : config) (use_traits state : Bool) (s : St)
    (t0 : unit_type)
    (h1 : cfg.attr "type" ≠ "")
    (h2 : E.valid_side (if E.lexical_cast_int (cfg.attr "side") 0 ≤ 0 then 1
      else E.lexical_cast_int (cfg.attr "side") 0) = true)
    (h3 : cfg.attr "gender" ≠ "")
    (h4 : E.types.lookup (cfg.attr "type") = some t0)
    (h5 : (E.types.lookup (E.variant
        (E.variant t0 (E.string_gender (cfg.attr "gender")) (cfg.attr "variation"))
        (E.string_gender (cfg.attr "gender")) (cfg.attr "variation")).id).isSome = true) :
    ∃ s4 : St, read_advance E cfg use_traits state s = .ok s4 := by
  unfold read_advance
  rw [if_neg h1]
  simp only
  have h2f : ¬ (E.valid_side (if E.lexical_cast_int (cfg.attr "side") 0 ≤ 0 then 1
      else E.lexical_cast_int (cfg.attr "side") 0) = false) := by
    rw [h2]; exact Bool.noConfusion
  rw [if_neg h2f, if_neg h3]
  simp only
  generalize hs3 : set_underlying_id _ = s3
  have hty : s3.u.type E = .ok (some
      (E.variant t0 (E.string_gender (cfg.attr "gender")) (cfg.attr "variation"))) := by
    rw [← hs3, set_underlying_id_type]
    show (match E.types.lookup (cfg.attr "type") with
      | some t => Except.ok (some (E.variant t (E.string_gender (cfg.attr "gender"))
          (cfg.attr "variation")))
      | none => if cfg.attr "type" ≠ "" then Except.error (game_error.unknown_unit_type
          (cfg.attr "type")) else Except.ok none) = _
    rw [h4]
  have hg : s3.u.gender_ = E.string_gender (cfg.attr "gender") ∧
      s3.u.variation_ = cfg.attr "variation" := by
    rw [← hs3]
    exact set_underlying_id_identity _
  have htt : type_or_throw E s3 = .ok
      (E.variant t0 (E.string_gender (cfg.attr "gender")) (cfg.attr "variation")) := by
    unfold type_or_throw
    rw [hty]
  rw [htt]
  simp only
  obtain ⟨s4, hs4⟩ := advance_to_returns E
    (E.variant t0 (E.string_gender (cfg.attr "gender")) (cfg.attr "variation"))
    use_traits state s3 _ hty (by rw [hg.1, hg.2]; exact h5)
  rw [hs4]
  exact ⟨s4, rfl⟩

/-- The routine `read` is the tail of `read` on the state its first part
returned. -/
theorem read_of_advance (E : Env) (cfg : config) (use_traits state : Bool) (s s4 : St)
    (h : read_advance E cfg use_traits state s = .ok s4) :
    read E cfg use_traits state s =
      .ok (read_finish E cfg state { s4 with u := read_tail E cfg s4.u }) := by
  unfold read
  rw [h]
  rfl

theorem tagged_remove_nth (t t1 : String) (idx : Nat) (l : List (String × config))
    (h : ¬ t1 = t) : tagged t (remove_nth_tagged t1 idx l) = tagged t l := by
  induction l generalizing idx with
  | nil => cases idx <;> rfl
  | cons p rest ih =>
    obtain ⟨t2, x⟩ := p
    by_cases h2 : t2 = t1
    · have h3 : ¬ t2 = t := fun e => h (h2.symm.trans e)
      cases idx with
      | zero => rw [remove_nth_tagged_zero, if_pos h2, tagged_cons_ne _ _ _ _ h3]
      | succ n =>
        rw [remove_nth_tagged_succ, if_pos h2, tagged_cons_ne _ _ _ _ h3,
          tagged_cons_ne _ _ _ _ h3, ih]
    · have key : remove_nth_tagged t1 idx ((t2, x) :: rest) =
          (t2, x) :: remove_nth_tagged t1 idx rest := by
        cases idx with
        | zero => rw [remove_nth_tagged_zero, if_neg h2]
        | succ n => rw [remove_nth_tagged_succ, if_neg h2]
      rw [key]
      by_cases h3 : t2 = t
      · subst h3
        rw [tagged_cons_eq, tagged_cons_eq, ih]
      · rw [tagged_cons_ne _ _ _ _ h3, tagged_cons_ne _ _ _ _ h3, ih]

theorem tagged_clear_ne (t t1 : String) (c : config) (h : ¬ t = t1) :
    tagged t (c.clear_children t1).children = tagged t c.children :=
  filter_tag_clear_ne c.children t1 t h

theorem tagged_clear_eq (t : String) (c : config) :
    tagged t (c.clear_children t).children = [] :=
  filter_tag_clear_eq c.children t

theorem adopt_section_tagged_ne (t tag : String) (cfg own : config) (h : ¬ t = tag) :
    tagged t (adopt_section tag cfg own).children = tagged t own.children := by
  unfold adopt_section
  cases cfg.get_children tag with
  | nil => rfl
  | cons c cs =>
    simp only
    rw [children_add_child, tagged_append, tagged_clear_ne t tag own h,
      tagged_cons_ne _ _ _ _ (fun e => h e.symm)]
    simp [tagged]

theorem adopt_section_tagged_eq (tag : String) (cfg own : config) (c : config)
    (cs : List config) (h : cfg.get_children tag = c :: cs) :
    tagged tag (adopt_section tag cfg own).children =
      [(tag, (c :: cs).foldl (fun t x => t.append x) config.empty)] := by
  unfold adopt_section
  rw [h]
  simp only
  rw [children_add_child, tagged_append, tagged_clear_eq, tagged_cons_eq]
  rfl

/-- The abilities section after the tail of `read` is the one adopted from the
document, when the document has one. -/
theorem read_tail_abilities (E : Env) (cfg : config) (v : unit) (c : config) (cs : List config)
    (h : cfg.get_children "abilities" = c :: cs) (htags : "abilities" ∉ E.all_tag_names) :
    (read_tail E cfg v).cfg_.get_children "abilities" =
      [(c :: cs).foldl (fun t x => t.append x) config.empty] := by
  rw [get_children_tagged]
  unfold read_tail
  simp only
  unfold tagged
  rw [filter_tag_clear_all, if_neg htags]
  have hD : ∀ own : config, tagged "abilities" (adopt_section "resistance" cfg
      (adopt_section "movement_costs" cfg (adopt_section "defense" cfg
        (adopt_section "abilities" cfg own)))).children =
      [("abilities", (c :: cs).foldl (fun t x => t.append x) config.empty)] := by
    intro own
    rw [adopt_section_tagged_ne _ _ _ _ (by decide), adopt_section_tagged_ne _ _ _ _ (by decide),
      adopt_section_tagged_ne _ _ _ _ (by decide), adopt_section_tagged_eq _ _ _ c cs h]
  by_cases hs : (cfg.child "status").isSome = true
  · rw [if_pos hs]
    show List.map (fun p => p.2) (tagged "abilities" (remove_nth_tagged "status" 0 _)) = _
    rw [tagged_remove_nth _ _ _ _ (by decide), hD]
    rfl
  · rw [if_neg hs]
    show List.map (fun p => p.2) (tagged "abilities" _) = _
    rw [hD]
    rfl

/-- The abilities sections after the tail of `read` are those the unit had
before it, when the document has none. -/
theorem read_tail_abilities_none (E : Env) (cfg : config) (v : unit)
    (h : cfg.get_children "abilities" = []) (htags : "abilities" ∉ E.all_tag_names) :
    (read_tail E cfg v).cfg_.get_children "abilities" = v.cfg_.get_children "abilities" := by
  rw [get_children_tagged, get_children_tagged]
  unfold read_tail
  simp only
  unfold tagged
  rw [filter_tag_clear_all, if_neg htags]
  have hA : ∀ own : config, adopt_section "abilities" cfg own = own := by
    intro own
    unfold adopt_section
    rw [h]
  have hC : ∀ c : config, tagged "abilities"
      ((c.clear_children "ai_vars").clear_children "attack").children =
      tagged "abilities" c.children := by
    intro c
    rw [tagged_clear_ne _ _ _ (by decide), tagged_clear_ne _ _ _ (by decide)]
  have hB : ∀ (b : Prop) [Decidable b] (c : config) (k x : String),
      tagged "abilities" (if b then c.set_attr k x else c).children =
        tagged "abilities" c.children := by
    intro b _ c k x
    rw [children_ite_set]
  have hD : ∀ own : config, tagged "abilities" (adopt_section "resistance" cfg
      (adopt_section "movement_costs" cfg (adopt_section "defense" cfg
        (adopt_section "abilities" cfg own)))).children = tagged "abilities" own.children := by
    intro own
    rw [adopt_section_tagged_ne _ _ _ _ (by decide), adopt_section_tagged_ne _ _ _ _ (by decide),
      adopt_section_tagged_ne _ _ _ _ (by decide), hA]
  by_cases hs : (cfg.child "status").isSome = true
  · rw [if_pos hs]
    show List.map (fun p => p.2) (tagged "abilities" (remove_nth_tagged "status" 0 _)) = _
    rw [tagged_remove_nth _ _ _ _ (by decide), hD, hC, hB, hB]
    rfl
  · rw [if_neg hs]
    show List.map (fun p => p.2) (tagged "abilities" _) = _
    rw [hD, hC, hB, hB]
    rfl

theorem read_finish_fields (E : Env) (cfg : config) (state : Bool) (s : St) :
    (read_finish E cfg state s).u.hit_points_ = s.u.hit_points_ ∧
    (read_finish E cfg state s).u.max_hit_points_ = s.u.max_hit_points_ ∧
    (read_finish E cfg state s).u.experience_ = s.u.experience_ ∧
    (read_finish E cfg state s).u.max_experience_ = s.u.max_experience_ ∧
    (read_finish E cfg state s).u.movement_ = s.u.movement_ ∧
    (read_finish E cfg state s).u.max_movement_ = s.u.max_movement_ ∧
    (read_finish E cfg state s).u.attacks_ = s.u.attacks_ ∧
    (read_finish E cfg state s).u.cfg_.children = s.u.cfg_.children := by
  have step2 : ∀ s1 : St, ∀ P : unit → Prop,
      P s1.u → (∀ c : config, c.children = s1.u.cfg_.children → P { s1.u with cfg_ := c }) →
      P (if s1.u.cfg_.attr "upkeep" = "" then
          ({ s1 with u := { s1.u with cfg_ := s1.u.cfg_.set_attr "upkeep" "full" } } : St)
        else s1).u := by
    intro s1 P h0 h1
    by_cases h : s1.u.cfg_.attr "upkeep" = ""
    · rw [if_pos h]; exact h1 _ rfl
    · rw [if_neg h]; exact h0
  unfold read_finish
  simp only
  by_cases hg : E.string_bool (cfg.attr "generate_name") false = true
  · rw [if_pos hg]
    apply step2 _ (fun v => v.hit_points_ = s.u.hit_points_ ∧
      v.max_hit_points_ = s.u.max_hit_points_ ∧ v.experience_ = s.u.experience_ ∧
      v.max_experience_ = s.u.max_experience_ ∧ v.movement_ = s.u.movement_ ∧
      v.max_movement_ = s.u.max_movement_ ∧ v.attacks_ = s.u.attacks_ ∧
      v.cfg_.children = s.u.cfg_.children)
    · exact ⟨rfl, rfl, rfl, rfl, rfl, rfl, rfl, rfl⟩
    · intro c hc
      exact ⟨rfl, rfl, rfl, rfl, rfl, rfl, rfl, hc⟩
  · rw [if_neg hg]
    apply step2 _ (fun v => v.hit_points_ = s.u.hit_points_ ∧
      v.max_hit_points_ = s.u.max_hit_points_ ∧ v.experience_ = s.u.experience_ ∧
      v.max_experience_ = s.u.max_experience_ ∧ v.movement_ = s.u.movement_ ∧
      v.max_movement_ = s.u.max_movement_ ∧ v.attacks_ = s.u.attacks_ ∧
      v.cfg_.children = s.u.cfg_.children)
    · exact ⟨rfl, rfl, rfl, rfl, rfl, rfl, rfl, rfl⟩
    · intro c hc
      exact ⟨rfl, rfl, rfl, rfl, rfl, rfl, rfl, hc⟩

theorem attacks_read_back (E : Env) (l : List attack_type)
    (h : ∀ a ∈ l, E.attack_of_cfg a.cfg_ = a) :
    (l.map (fun a => a.cfg_)).map E.attack_of_cfg = l := by
  induction l with
  | nil => rfl
  | cons a rest ih =>
    rw [List.map_cons, List.map_cons, h a (List.mem_cons_self a rest),
      ih (fun b hb => h b (List.mem_cons_of_mem a hb))]

/-- C6, as amended: let `u` be a unit with a registered type, a side that `read`
accepts, a maximum of at least one hitpoint and one experience point, no
negative movement or maximum movement, and attacks that are each rebuilt from
their own document; let the texts of its side and of its six numbers read back,
and its gender too.  Then `read` returns on the document that `write` produced
from a document without `abilities` section, and the unit read has the
hitpoints, maximum hitpoints, experience, maximum experience, movement and
maximum movement of `u`; its attack list is that of `u` when `u` has an attack,
and otherwise the one `advance_to` derived inside `read`; its abilities are the
one section that appends the `abilities` sections of `u` when `u` has any (the
section of `u` itself when it is a single one in normal form), and otherwise the
sections `advance_to` derived inside `read`. -/
theorem write_read_round_trip (E : Env) (u : unit) (doc : config) (use_traits state : Bool)
    (s : St) (t0 : unit_type)
    (hdoc : doc.get_children "abilities" = [])
    (htype : u.type_id ≠ "")
    (hreg : E.types.lookup u.type_id = some t0)
    (hvar : (E.types.lookup (E.variant (E.variant t0 u.gender_ u.variation_)
      u.gender_ u.variation_).id).isSome = true)
    (hside : E.valid_side (if u.side_ ≤ 0 then 1 else u.side_) = true)
    (hgender : E.gender_string u.gender_ ≠ "" ∧
      E.string_gender (E.gender_string u.gender_) = u.gender_)
    (hnum : ∀ n ∈ [u.side_, u.hit_points_, u.max_hit_points_, u.experience_,
      u.max_experience_, u.movement_, u.max_movement_], faithful_number E n)
    (hmax : 1 ≤ u.max_hit_points_ ∧ 1 ≤ u.max_experience_ ∧ 0 ≤ u.max_movement_ ∧
      0 ≤ u.movement_)
    (hatt : ∀ a ∈ u.attacks_, E.attack_of_cfg a.cfg_ = a)
    (htags : "abilities" ∉ E.all_tag_names) :
    ∃ s4 s1, read_advance E (u.write E doc) use_traits state s = .ok s4 ∧
      read E (u.write E doc) use_traits state s = .ok s1 ∧
      s1.u.hit_points_ = u.hit_points_ ∧ s1.u.max_hit_points_ = u.max_hit_points_ ∧
      s1.u.experience_ = u.experience_ ∧ s1.u.max_experience_ = u.max_experience_ ∧
      s1.u.movement_ = u.movement_ ∧ s1.u.max_movement_ = u.max_movement_ ∧
      s1.u.attacks_ =
        (match u.attacks_ with
          | [] => s4.u.attacks_
          | a :: rest => a :: rest) ∧
      s1.u.cfg_.get_children "abilities" =
        (match u.cfg_.get_children "abilities" with
          | [] => s4.u.cfg_.get_children "abilities"
          | A :: rest => [(A :: rest).foldl (fun t x => t.append x) config.empty]) ∧
      (∀ A : config, u.cfg_.get_children "abilities" = [A] → config.empty.append A = A →
        s1.u.cfg_.get_children "abilities" = u.cfg_.get_children "abilities") := by
  have nside := hnum u.side_ (by simp)
  have nhp := hnum u.hit_points_ (by simp)
  have nmhp := hnum u.max_hit_points_ (by simp)
  have nxp := hnum u.experience_ (by simp)
  have nmxp := hnum u.max_experience_ (by simp)
  have nmv := hnum u.movement_ (by simp)
  have nmmv := hnum u.max_movement_ (by simp)
  obtain ⟨s4, hs4⟩ := read_advance_returns E (u.write E doc) use_traits state s t0
    (by rw [write_attr_type]; exact htype)
    (by rw [write_attr_side, nside.2 0]; exact hside)
    (by rw [write_attr_gender]; exact hgender.1)
    (by rw [write_attr_type]; exact hreg)
    (by rw [write_attr_gender, write_attr_variation, hgender.2]; exact hvar)
  obtain ⟨f1, f2, f3, f4, f5, f6, f7, f8⟩ := read_finish_fields E (u.write E doc) state
    { s4 with u := read_tail E (u.write E doc) s4.u }
  have hab : (read_finish E (u.write E doc) state
      { s4 with u := read_tail E (u.write E doc) s4.u }).u.cfg_.get_children "abilities" =
      (match u.cfg_.get_children "abilities" with
        | [] => s4.u.cfg_.get_children "abilities"
        | A :: rest => [(A :: rest).foldl (fun t x => t.append x) config.empty]) := by
    rw [get_children_tagged, f8, ← get_children_tagged]
    have hw : (u.write E doc).get_children "abilities" = u.cfg_.get_children "abilities" := by
      rw [write_get_abilities, hdoc]
      rfl
    cases hu : u.cfg_.get_children "abilities" with
    | nil =>
      rw [hu] at hw
      exact read_tail_abilities_none E _ _ hw htags
    | cons A rest =>
      rw [hu] at hw
      exact read_tail_abilities E _ _ A rest hw htags
  refine ⟨s4, _, hs4, read_of_advance E _ use_traits state s s4 hs4,
    ?_, ?_, ?_, ?_, ?_, ?_, ?_, hab, ?_⟩
  · rw [f1]
    show (if (u.write E doc).attr "hitpoints" ≠ "" then
        E.lexical_cast_int ((u.write E doc).attr "hitpoints") 0
      else max 1 (E.lexical_cast_int ((u.write E doc).attr "max_hitpoints")
        s4.u.max_hit_points_)) = _
    rw [write_attr_hitpoints, if_pos nhp.1, nhp.2]
  · rw [f2]
    show max 1 (E.lexical_cast_int ((u.write E doc).attr "max_hitpoints")
      s4.u.max_hit_points_) = _
    rw [write_attr_max_hitpoints, nmhp.2]
    exact max_eq_right hmax.1
  · rw [f3]
    show E.lexical_cast_int ((u.write E doc).attr "experience") 0 = _
    rw [write_attr_experience, nxp.2]
  · rw [f4]
    show max 1 (E.lexical_cast_int ((u.write E doc).attr "max_experience")
      s4.u.max_experience_) = _
    rw [write_attr_max_experience, nmxp.2]
    exact max_eq_right hmax.2.1
  · rw [f5]
    show (if (u.write E doc).attr "moves" ≠ "" then
        (if E.lexical_cast_int ((u.write E doc).attr "moves") 0 < 0 then 0
          else E.lexical_cast_int ((u.write E doc).attr "moves") 0)
      else max 0 (E.lexical_cast_int ((u.write E doc).attr "max_moves")
        s4.u.max_movement_)) = _
    rw [write_attr_moves, if_pos nmv.1, nmv.2, if_neg (not_lt.mpr hmax.2.2.2)]
  · rw [f6]
    show max 0 (E.lexical_cast_int ((u.write E doc).attr "max_moves")
      s4.u.max_movement_) = _
    rw [write_attr_max_moves, nmmv.2]
    exact max_eq_right hmax.2.2.1
  · rw [f7]
    show (match (u.write E doc).get_children "attack" with
      | [] => s4.u.attacks_
      | a :: rest => (a :: rest).map E.attack_of_cfg) = _
    rw [write_get_attack]
    have hback := attacks_read_back E u.attacks_ hatt
    cases hu : u.attacks_ with
    | nil => rfl
    | cons a rest =>
      rw [hu] at hback
      exact hback
  · intro A hA hnorm
    rw [hab, hA]
    show [config.empty.append A] = [A]
    rw [hnorm]

theorem knight_numbers_faithful :
    ∀ n ∈ [veteranKnight.side_, veteranKnight.hit_points_, veteranKnight.max_hit_points_,
      veteranKnight.experience_, veteranKnight.max_experience_, veteranKnight.movement_,
      veteranKnight.max_movement_], faithful_number knightEnv n := by
  intro n hn
  simp only [List.mem_cons, List.mem_singleton, List.not_mem_nil, or_false] at hn
  rcases hn with h | h | h | h | h | h | h <;> subst h <;> exact ⟨by decide, fun _ => rfl⟩

theorem spearman_numbers_faithful :
    ∀ n ∈ [recruitedSpearman.side_, recruitedSpearman.hit_points_,
      recruitedSpearman.max_hit_points_, recruitedSpearman.experience_,
      recruitedSpearman.max_experience_, recruitedSpearman.movement_,
      recruitedSpearman.max_movement_], faithful_number spearEnv n := by
  have e : [recruitedSpearman.side_, recruitedSpearman.hit_points_,
      recruitedSpearman.max_hit_points_, recruitedSpearman.experience_,
      recruitedSpearman.max_experience_, recruitedSpearman.movement_,
      recruitedSpearman.max_movement_] = [1, 30, 30, 0, 40, 0, 5] := by decide
  rw [e]
  intro n hn
  simp only [List.mem_cons, List.mem_singleton, List.not_mem_nil, or_false] at hn
  rcases hn with h | h | h | h | h | h | h <;> subst h <;> exact ⟨by decide, fun _ => rfl⟩

set_option maxRecDepth 100000 in
theorem write_read_round_trip_witness :
    (∃ s1, read knightEnv (veteranKnight.write knightEnv config.empty) false false
        ⟨blankUnit, zeroRng, zeroRng, 0⟩ = .ok s1 ∧
      s1.u.hit_points_ = 25 ∧ s1.u.max_hit_points_ = 30 ∧
      s1.u.experience_ = 3 ∧ s1.u.max_experience_ = 40 ∧
      s1.u.movement_ = 2 ∧ s1.u.max_movement_ = 5 ∧
      s1.u.attacks_ = veteranKnight.attacks_ ∧
      s1.u.cfg_.get_children "abilities" = veteranKnight.cfg_.get_children "abilities") ∧
    (∃ s1, read spearEnv (recruitedSpearman.write spearEnv config.empty) false false
        ⟨blankUnit, zeroRng, zeroRng, 0⟩ = .ok s1 ∧
      s1.u.hit_points_ = 30 ∧ s1.u.max_hit_points_ = 30 ∧
      s1.u.experience_ = 0 ∧ s1.u.max_experience_ = 40 ∧
      s1.u.movement_ = 0 ∧ s1.u.max_movement_ = 5 ∧
      s1.u.attacks_ = recruitedSpearman.attacks_ ∧
      s1.u.cfg_.get_children "abilities" =
        recruitedSpearman.cfg_.get_children "abilities") := by
  constructor
  · obtain ⟨s4, s1, _, h1, a, b, c, d, e, f, g, _, i⟩ :=
      write_read_round_trip knightEnv veteranKnight config.empty false false
        ⟨blankUnit, zeroRng, zeroRng, 0⟩ knightType
        rfl (by decide) rfl rfl rfl ⟨by decide, rfl⟩ knight_numbers_faithful
        ⟨by decide, by decide, by decide, by decide⟩
        (fun a ha => by rw [List.mem_singleton.mp ha]; rfl)
        (by decide)
    exact ⟨s1, h1, a, b, c, d, e, f, g,
      i (config.mk [] [("leadership", config.mk [("id", "leadership")] [])]) rfl rfl⟩
  · have hat : recruitedSpearman.attacks_ = [] := by decide
    have hab : recruitedSpearman.cfg_.get_children "abilities" = [] := by decide
    obtain ⟨s4, s1, h4, h1, a, b, c, d, e, f, g, h, _⟩ :=
      write_read_round_trip spearEnv recruitedSpearman config.empty false false
        ⟨blankUnit, zeroRng, zeroRng, 0⟩ sampleType
        rfl (by decide) rfl rfl (by decide) ⟨by decide, by decide⟩ spearman_numbers_faithful
        ⟨by decide, by decide, by decide, by decide⟩
        (fun a ha => by rw [hat] at ha; cases ha)
        (by decide)
    have e4 : (read_advance spearEnv (recruitedSpearman.write spearEnv config.empty) false false
        ⟨blankUnit, zeroRng, zeroRng, 0⟩).state = s4 := by rw [h4]; rfl
    have hat4 : s4.u.attacks_ = [] := by rw [← e4]; decide
    have hab4 : s4.u.cfg_.get_children "abilities" = [] := by rw [← e4]; decide
    rw [hat] at g
    rw [hab] at h
    have e1 : recruitedSpearman.hit_points_ = 30 := by decide
    have e2 : recruitedSpearman.max_hit_points_ = 30 := by decide
    have e3 : recruitedSpearman.experience_ = 0 := by decide
    have e5 : recruitedSpearman.max_experience_ = 40 := by decide
    have e6 : recruitedSpearman.movement_ = 0 := by decide
    have e7 : recruitedSpearman.max_movement_ = 5 := by decide
    exact ⟨s1, h1, a.trans e1, b.trans e2, c.trans e3, d.trans e5, e.trans e6, f.trans e7,
      by rw [hat]; exact g.trans hat4, by rw [hab]; exact h.trans hab4⟩

set_option maxRecDepth 100000 in
/-- C6 as stated fails.  A Spearman that received an object whose `movement`
effect sets the maximum to minus two has a maximum movement of minus two; the
unit read from the document it writes has a maximum movement of zero, and after
a new turn its movement of minus two is read back as zero.  A unit of a type
without hitpoints has a maximum of zero hitpoints, read back as one.  A Spearman
that received a bow and then an advancement that removes every attack has no
attack; `read` applies the ledger kind after kind, the advancement before the
object, and the unit read has the bow.  A unit whose type document has two
`abilities` sections has two, and the unit read has one. -/
theorem round_trip_clamps_movement :
    (anchoredSpearman.max_movement_ = -2 ∧
      ∃ s1, read spearEnv (anchoredSpearman.write spearEnv config.empty) false false
          ⟨blankUnit, zeroRng, zeroRng, 0⟩ = .ok s1 ∧ s1.u.max_movement_ = 0) ∧
    ((new_turn anchoredSpearman).movement_ = -2 ∧
      (read spearEnv ((new_turn anchoredSpearman).write spearEnv config.empty) false false
        ⟨blankUnit, zeroRng, zeroRng, 0⟩).isOk = true ∧
      (read spearEnv ((new_turn anchoredSpearman).write spearEnv config.empty) false false
        ⟨blankUnit, zeroRng, zeroRng, 0⟩).state.u.movement_ = 0) ∧
    (recruitedWisp.max_hit_points_ = 0 ∧
      (read wispEnv (recruitedWisp.write wispEnv config.empty) false false
        ⟨blankUnit, zeroRng, zeroRng, 0⟩).isOk = true ∧
      (read wispEnv (recruitedWisp.write wispEnv config.empty) false false
        ⟨blankUnit, zeroRng, zeroRng, 0⟩).state.u.max_hit_points_ = 1) ∧
    (disarmedSpearman.attacks_ = [] ∧
      (read spearEnv (disarmedSpearman.write spearEnv config.empty) false false
        ⟨blankUnit, zeroRng, zeroRng, 0⟩).isOk = true ∧
      (read spearEnv (disarmedSpearman.write spearEnv config.empty) false false
        ⟨blankUnit, zeroRng, zeroRng, 0⟩).state.u.attacks_.map
          (fun a => a.cfg_.attr "name") = ["bow"]) ∧
    ((recruitedMage.cfg_.get_children "abilities").length = 2 ∧
      (read twinAuraEnv (recruitedMage.write twinAuraEnv config.empty) false false
        ⟨blankUnit, zeroRng, zeroRng, 0⟩).isOk = true ∧
      ((read twinAuraEnv (recruitedMage.write twinAuraEnv config.empty) false false
        ⟨blankUnit, zeroRng, zeroRng, 0⟩).state.u.cfg_.get_children "abilities").length = 1) := by
  refine ⟨⟨by decide, _, Res.eq_ok_state _ (by decide), by decide⟩,
    ⟨by decide, by decide, by decide⟩, ⟨by decide, by decide, by decide⟩,
    ⟨by decide, by decide, by decide⟩, ⟨by decide, by decide, by decide⟩⟩

/-! ## The terrain caches: hits, doubling and the depth guard (C11, C12, C13) -/

theorem movement_cost_aux_cached (E : Env) (cfg : config) (n : Nat) (terrain : String)
    (rc : Int) (cache : List (String × Int)) (v : Int) (h : cache.lookup terrain = some v) :
    movement_cost_aux E cfg (n + 1) terrain rc cache = some (v, cache) := by
  rw [movement_cost_aux]
  simp only [h]

theorem defense_modifier_aux_cached (E : Env) (cfg : config) (n : Nat) (terrain : String)
    (rc : Int) (cache : List (String × Int)) (v : Int) (h : cache.lookup terrain = some v) :
    defense_modifier_aux E cfg (n + 1) terrain rc cache = some (v, cache) := by
  rw [defense_modifier_aux]
  simp only [h]

/-- A cached movement cost is returned as it is, and the unit stays as it was. -/
theorem movement_cost_internal_cached (E : Env) (u : unit) (terrain : String) (rc : Int)
    (v : Int) (h : u.movement_costs_.lookup terrain = some v) :
    movement_cost_internal E u terrain rc = some (v, u) := by
  unfold movement_cost_internal alias_fuel
  rw [movement_cost_aux_cached E u.cfg_ _ terrain rc _ v h]
  rfl

/-- A cached defense modifier is returned as it is, and the unit stays as it was. -/
theorem defense_modifier_cached (E : Env) (u : unit) (terrain : String) (rc : Int)
    (v : Int) (h : u.defense_mods_.lookup terrain = some v) :
    defense_modifier E u terrain rc = some (v, u) := by
  unfold defense_modifier alias_fuel
  rw [defense_modifier_aux_cached E u.cfg_ _ terrain rc _ v h]
  rfl

theorem smap_get_erase (m : List (String × String)) (k : String) :
    smap_get (smap_erase m k) k = "" := by
  unfold smap_get smap_erase
  induction m with
  | nil => rfl
  | cons p rest ih =>
    obtain ⟨k1, v1⟩ := p
    by_cases h : k1 = k
    · simp only [List.filter, h, ne_eq, not_true_eq_false, decide_False]
      exact ih
    · have hk : (k == k1) = false := by
        rw [beq_eq_false_iff_ne]; exact fun e => h e.symm
      simp only [List.filter, h, ne_eq, not_false_eq_true, decide_True, List.lookup, hk]
      exact ih

theorem get_state_set_state (u : unit) (k x : String) : (u.set_state k x).get_state k = x := by
  unfold unit.get_state unit.set_state
  by_cases h : x = ""
  · show smap_get (if x = "" then smap_erase u.states_ k else smap_set u.states_ k x) k = x
    rw [if_pos h, smap_get_erase, h]
  · show smap_get (if x = "" then smap_erase u.states_ k else smap_set u.states_ k x) k = x
    rw [if_neg h, smap_get_set_eq]

/-- The cost lookup does not read the status flags. -/
theorem movement_cost_internal_set_state (E : Env) (u : unit) (k x terrain : String) (rc : Int) :
    movement_cost_internal E (u.set_state k x) terrain rc =
      (movement_cost_internal E u terrain rc).map (fun r => (r.1, r.2.set_state k x)) := by
  unfold movement_cost_internal
  show Option.map _ (movement_cost_aux E u.cfg_ (alias_fuel rc) terrain rc u.movement_costs_) = _
  cases movement_cost_aux E u.cfg_ (alias_fuel rc) terrain rc u.movement_costs_ <;> rfl

theorem not_alias_singleton (front terrain : String) (others : List String)
    (h : ¬ ((front :: others).length ≠ 1 ∨ front ≠ terrain)) : front :: others = [terrain] := by
  rw [not_or, not_not, not_not] at h
  cases others with
  | nil => rw [h.2]
  | cons x xs => simp at h

theorem movement_cost_aux_empty (E : Env) (cfg : config) (n : Nat) (terrain : String) (rc : Int)
    (cache : List (String × Int)) (hcache : cache.lookup terrain = none)
    (hu : E.underlying_mvt_terrain terrain = []) :
    movement_cost_aux E cfg (n + 1) terrain rc cache = none := by
  rw [movement_cost_aux]
  simp only [hcache, hu]

theorem movement_cost_aux_deep (E : Env) (cfg : config) (n : Nat) (terrain : String) (rc : Int)
    (cache : List (String × Int)) (front : String) (others : List String)
    (hcache : cache.lookup terrain = none)
    (hu : E.underlying_mvt_terrain terrain = front :: others)
    (halias : (front :: others).length ≠ 1 ∨ front ≠ terrain) (hrc : rc ≥ 100) :
    movement_cost_aux E cfg (n + 1) terrain rc cache = some (impassable, cache) := by
  rw [movement_cost_aux]
  simp only [hcache, hu]
  rw [if_pos halias, if_pos hrc]

theorem movement_cost_aux_base (E : Env) (cfg : config) (n : Nat) (terrain : String) (rc : Int)
    (cache : List (String × Int)) (hcache : cache.lookup terrain = none)
    (hu : E.underlying_mvt_terrain terrain = [terrain]) :
    movement_cost_aux E cfg (n + 1) terrain rc cache =
      some (movement_base E cfg terrain, cache_insert cache terrain (movement_base E cfg terrain)) := by
  rw [movement_cost_aux]
  simp only [hcache, hu]
  rw [if_neg (by simp)]
  rfl

/-- The five ways through the routine: a cache hit, the failed assertion, the
depth guard, the alias loop and the base terrain. -/
theorem movement_cost_aux_cases (E : Env) (cfg : config) (n : Nat) (terrain : String) (rc : Int)
    (cache : List (String × Int)) :
    (∃ v, cache.lookup terrain = some v ∧
      movement_cost_aux E cfg (n + 1) terrain rc cache = some (v, cache)) ∨
    (cache.lookup terrain = none ∧ E.underlying_mvt_terrain terrain = [] ∧
      movement_cost_aux E cfg (n + 1) terrain rc cache = none) ∨
    (cache.lookup terrain = none ∧ E.underlying_mvt_terrain terrain ≠ [terrain] ∧ rc ≥ 100 ∧
      movement_cost_aux E cfg (n + 1) terrain rc cache = some (impassable, cache)) ∨
    (∃ front others, cache.lookup terrain = none ∧
      E.underlying_mvt_terrain terrain = front :: others ∧ front :: others ≠ [terrain] ∧ rc < 100 ∧
      movement_cost_aux E cfg (n + 1) terrain rc cache =
        (alias_loop (fun i c => movement_cost_aux E cfg n i (rc + 1) c) (front :: others)
          (decide (front = MINUS)) (if front = MINUS then 0 else impassable) cache).map
          (fun r => (r.1, cache_insert r.2 terrain r.1))) ∨
    (cache.lookup terrain = none ∧ E.underlying_mvt_terrain terrain = [terrain] ∧
      movement_cost_aux E cfg (n + 1) terrain rc cache =
        some (movement_base E cfg terrain, cache_insert cache terrain (movement_base E cfg terrain))) := by
  cases hl : cache.lookup terrain with
  | some v => exact Or.inl ⟨v, rfl, movement_cost_aux_cached E cfg n terrain rc cache v hl⟩
  | none =>
    right
    cases hu : E.underlying_mvt_terrain terrain with
    | nil => exact Or.inl ⟨rfl, rfl, movement_cost_aux_empty E cfg n terrain rc cache hl hu⟩
    | cons front others =>
      right
      by_cases halias : (front :: others).length ≠ 1 ∨ front ≠ terrain
      · have hne : front :: others ≠ [terrain] := by
          intro e
          rcases halias with h | h
          · rw [e] at h; exact h rfl
          · exact h (List.cons.inj e).1
        by_cases hrc : rc ≥ 100
        · exact Or.inl ⟨rfl, hne, hrc,
            movement_cost_aux_deep E cfg n terrain rc cache front others hl hu halias hrc⟩
        · exact Or.inr (Or.inl ⟨front, others, rfl, rfl, hne, not_le.mp hrc,
            movement_cost_aux_alias E cfg n terrain rc cache front others hl hu halias hrc⟩)
      · have hs := not_alias_singleton front terrain others halias
        rw [hs] at hu ⊢
        exact Or.inr (Or.inr ⟨rfl, rfl, movement_cost_aux_base E cfg n terrain rc cache hl hu⟩)

theorem defense_modifier_aux_empty (E : Env) (cfg : config) (n : Nat) (terrain : String) (rc : Int)
    (cache : List (String × Int)) (hcache : cache.lookup terrain = none)
    (hu : E.underlying_def_terrain terrain = []) :
    defense_modifier_aux E cfg (n + 1) terrain rc cache = none := by
  rw [defense_modifier_aux]
  simp only [hcache, hu]

theorem defense_modifier_aux_deep (E : Env) (cfg : config) (n : Nat) (terrain : String) (rc : Int)
    (cache : List (String × Int)) (front : String) (others : List String)
    (hcache : cache.lookup terrain = none)
    (hu : E.underlying_def_terrain terrain = front :: others)
    (halias : (front :: others).length ≠ 1 ∨ front ≠ terrain) (hrc : rc ≥ 100) :
    defense_modifier_aux E cfg (n + 1) terrain rc cache = some (100, cache) := by
  rw [defense_modifier_aux]
  simp only [hcache, hu]
  rw [if_pos halias, if_pos hrc]

theorem defense_modifier_aux_base (E : Env) (cfg : config) (n : Nat) (terrain : String) (rc : Int)
    (cache : List (String × Int)) (hcache : cache.lookup terrain = none)
    (hu : E.underlying_def_terrain terrain = [terrain]) :
    defense_modifier_aux E cfg (n + 1) terrain rc cache =
      some (defense_base E cfg terrain, cache_insert cache terrain (defense_base E cfg terrain)) := by
  rw [defense_modifier_aux]
  simp only [hcache, hu]
  rw [if_neg (by simp)]
  rfl

/-- The five ways through the routine: a cache hit, the failed assertion, the
depth guard, the alias loop and the base terrain. -/
theorem defense_modifier_aux_cases (E : Env) (cfg : config) (n : Nat) (terrain : String) (rc : Int)
    (cache : List (String × Int)) :
    (∃ v, cache.lookup terrain = some v ∧
      defense_modifier_aux E cfg (n + 1) terrain rc cache = some (v, cache)) ∨
    (cache.lookup terrain = none ∧ E.underlying_def_terrain terrain = [] ∧
      defense_modifier_aux E cfg (n + 1) terrain rc cache = none) ∨
    (cache.lookup terrain = none ∧ E.underlying_def_terrain terrain ≠ [terrain] ∧ rc ≥ 100 ∧
      defense_modifier_aux E cfg (n + 1) terrain rc cache = some (100, cache)) ∨
    (∃ front others, cache.lookup terrain = none ∧
      E.underlying_def_terrain terrain = front :: others ∧ front :: others ≠ [terrain] ∧ rc < 100 ∧
      defense_modifier_aux E cfg (n + 1) terrain rc cache =
        (alias_loop (fun i c => defense_modifier_aux E cfg n i (rc + 1) c) (front :: others)
          (decide (front = MINUS)) (if front = MINUS then 0 else 100) cache).map
          (fun r => (r.1, cache_insert r.2 terrain r.1))) ∨
    (cache.lookup terrain = none ∧ E.underlying_def_terrain terrain = [terrain] ∧
      defense_modifier_aux E cfg (n + 1) terrain rc cache =
        some (defense_base E cfg terrain, cache_insert cache terrain (defense_base E cfg terrain))) := by
  cases hl : cache.lookup terrain with
  | some v => exact Or.inl ⟨v, rfl, defense_modifier_aux_cached E cfg n terrain rc cache v hl⟩
  | none =>
    right
    cases hu : E.underlying_def_terrain terrain with
    | nil => exact Or.inl ⟨rfl, rfl, defense_modifier_aux_empty E cfg n terrain rc cache hl hu⟩
    | cons front others =>
      right
      by_cases halias : (front :: others).length ≠ 1 ∨ front ≠ terrain
      · have hne : front :: others ≠ [terrain] := by
          intro e
          rcases halias with h | h
          · rw [e] at h; exact h rfl
          · exact h (List.cons.inj e).1
        by_cases hrc : rc ≥ 100
        · exact Or.inl ⟨rfl, hne, hrc,
            defense_modifier_aux_deep E cfg n terrain rc cache front others hl hu halias hrc⟩
        · exact Or.inr (Or.inl ⟨front, others, rfl, rfl, hne, not_le.mp hrc,
            defense_modifier_aux_alias E cfg n terrain rc cache front others hl hu halias hrc⟩)
      · have hs := not_alias_singleton front terrain others halias
        rw [hs] at hu ⊢
        exact Or.inr (Or.inr ⟨rfl, rfl, defense_modifier_aux_base E cfg n terrain rc cache hl hu⟩)

theorem lookup_append_single (c : List (String × Int)) (t k : String) (v : Int) :
    (c ++ [(t, v)]).lookup k =
      match c.lookup k with
      | some w => some w
      | none => if k = t then some v else none := by
  induction c with
  | nil =>
    by_cases h : k = t
    · simp [List.lookup, h]
    · have hk : (k == t) = false := by rw [beq_eq_false_iff_ne]; exact h
      simp [List.lookup, h, hk]
  | cons p rest ih =>
    obtain ⟨k1, v1⟩ := p
    by_cases h : k = k1
    · simp [List.lookup, h]
    · have hk : (k == k1) = false := by rw [beq_eq_false_iff_ne]; exact h
      simp only [List.cons_append, List.lookup, hk]
      exact ih

theorem cache_insert_lookup_self (c : List (String × Int)) (t : String) (v : Int) :
    (cache_insert c t v).lookup t = some ((c.lookup t).getD v) := by
  unfold cache_insert
  cases h : c.lookup t with
  | some w => simp [h]
  | none =>
    simp only [Option.isSome_none, Bool.false_eq_true, if_false]
    rw [lookup_append_single, h]
    simp

theorem cache_insert_lookup_other (c : List (String × Int)) (t k : String) (v : Int)
    (hk : k ≠ t) : (cache_insert c t v).lookup k = c.lookup k := by
  unfold cache_insert
  by_cases h : (c.lookup t).isSome = true
  · rw [if_pos h]
  · rw [if_neg h, lookup_append_single]
    cases c.lookup k with
    | some w => rfl
    | none => simp [hk]

/-- The alias loop keeps the cache entry of a terrain that no resolution of an
underlying terrain touches. -/
theorem alias_loop_frame
    (resolve : String → List (String × Int) → Option (Int × List (String × Int)))
    (k : String) (l : List String)
    (hres : ∀ j ∈ l, j ≠ PLUS → j ≠ MINUS → ∀ c v c1, resolve j c = some (v, c1) →
      c1.lookup k = c.lookup k)
    (revert : Bool) (ret : Int) (c : List (String × Int)) (v : Int) (c1 : List (String × Int))
    (h : alias_loop resolve l revert ret c = some (v, c1)) : c1.lookup k = c.lookup k := by
  induction l generalizing revert ret c with
  | nil =>
    unfold alias_loop at h
    cases h
    rfl
  | cons i rest ih =>
    have hrest : ∀ j ∈ rest, j ≠ PLUS → j ≠ MINUS → ∀ c v c1, resolve j c = some (v, c1) →
        c1.lookup k = c.lookup k := fun j hj => hres j (List.mem_cons_of_mem i hj)
    rw [alias_loop] at h
    by_cases hp : i = PLUS
    · rw [if_pos hp] at h
      exact ih hrest _ _ _ h
    · rw [if_neg hp] at h
      by_cases hm : i = MINUS
      · rw [if_pos hm] at h
        exact ih hrest _ _ _ h
      · rw [if_neg hm] at h
        cases hr : resolve i c with
        | none => rw [hr] at h; cases h
        | some r =>
          obtain ⟨value, c2⟩ := r
          rw [hr] at h
          simp only at h
          have h2 := hres i (List.mem_cons_self i rest) hp hm c value c2 hr
          by_cases h3 : value < ret ∧ revert = false
          · rw [if_pos h3] at h
            rw [ih hrest _ _ _ h, h2]
          · rw [if_neg h3] at h
            by_cases h4 : value > ret ∧ revert = true
            · rw [if_pos h4] at h
              rw [ih hrest _ _ _ h, h2]
            · rw [if_neg h4] at h
              rw [ih hrest _ _ _ h, h2]

/-- In a hierarchical table a resolution touches no cache entry of a terrain
above the resolved one. -/
theorem movement_cost_aux_frame (E : Env) (cfg : config) (rank : String → Nat)
    (hier : hierarchical E.underlying_mvt_terrain rank) :
    ∀ (fuel : Nat) (terrain : String) (rc : Int) (cache : List (String × Int)) (v : Int)
      (c1 : List (String × Int)),
      movement_cost_aux E cfg fuel terrain rc cache = some (v, c1) →
      ∀ k, rank terrain < rank k → c1.lookup k = cache.lookup k := by
  intro fuel
  induction fuel with
  | zero =>
    intro terrain rc cache v c1 h
    rw [movement_cost_aux] at h
    cases h
  | succ n ih =>
    intro terrain rc cache v c1 h k hk
    have hne : k ≠ terrain := fun e => by rw [e] at hk; exact lt_irrefl _ hk
    rcases movement_cost_aux_cases E cfg n terrain rc cache with
      ⟨w, _, hr⟩ | ⟨_, _, hr⟩ | ⟨_, _, _, hr⟩ | ⟨front, others, _, hu, halias, _, hr⟩ | ⟨_, _, hr⟩
    · rw [hr] at h; cases h; rfl
    · rw [hr] at h; cases h
    · rw [hr] at h; cases h; rfl
    · rw [hr] at h
      cases hloop : alias_loop (fun i c => movement_cost_aux E cfg n i (rc + 1) c) (front :: others)
          (decide (front = MINUS)) (if front = MINUS then 0 else impassable) cache with
      | none => rw [hloop] at h; cases h
      | some r =>
        obtain ⟨ret, c2⟩ := r
        rw [hloop] at h
        cases h
        rw [cache_insert_lookup_other _ _ _ _ hne]
        refine alias_loop_frame _ k (front :: others) ?_ _ _ _ _ _ hloop
        intro j hj hp hm c w c3 hres
        have hlt : rank j < rank terrain :=
          hier terrain j (by rw [hu]; exact halias) (by rw [hu]; exact hj) hp hm
        exact ih j (rc + 1) c w c3 hres k (lt_trans hlt hk)
    · rw [hr] at h; cases h
      exact cache_insert_lookup_other _ _ _ _ hne

/-- In a hierarchical table, a resolution below the depth guard leaves the
returned value in the cache under the resolved terrain. -/
theorem movement_cost_aux_memo (E : Env) (cfg : config) (rank : String → Nat)
    (hier : hierarchical E.underlying_mvt_terrain rank)
    (fuel : Nat) (terrain : String) (rc : Int) (cache : List (String × Int)) (v : Int)
    (c1 : List (String × Int)) (hrc : rc < 100)
    (h : movement_cost_aux E cfg fuel terrain rc cache = some (v, c1)) :
    c1.lookup terrain = some v := by
  cases fuel with
  | zero => rw [movement_cost_aux] at h; cases h
  | succ n =>
    rcases movement_cost_aux_cases E cfg n terrain rc cache with
      ⟨w, hw, hr⟩ | ⟨_, _, hr⟩ | ⟨_, _, hge, _⟩ | ⟨front, others, hl, hu, halias, _, hr⟩ |
      ⟨hl, _, hr⟩
    · rw [hr] at h; cases h; exact hw
    · rw [hr] at h; cases h
    · exact absurd hrc (not_lt.mpr hge)
    · rw [hr] at h
      cases hloop : alias_loop (fun i c => movement_cost_aux E cfg n i (rc + 1) c) (front :: others)
          (decide (front = MINUS)) (if front = MINUS then 0 else impassable) cache with
      | none => rw [hloop] at h; cases h
      | some r =>
        obtain ⟨ret, c2⟩ := r
        rw [hloop] at h
        cases h
        have hkeep : c2.lookup terrain = cache.lookup terrain := by
          refine alias_loop_frame _ terrain (front :: others) ?_ _ _ _ _ _ hloop
          intro j hj hp hm c w c3 hres
          exact movement_cost_aux_frame E cfg rank hier n j (rc + 1) c w c3 hres terrain
            (hier terrain j (by rw [hu]; exact halias) (by rw [hu]; exact hj) hp hm)
        rw [cache_insert_lookup_self, hkeep, hl]
        rfl
    · rw [hr] at h; cases h
      rw [cache_insert_lookup_self, hl]
      rfl

/-- More fuel than the depth guard asks for changes nothing. -/
theorem movement_cost_aux_fuel (E : Env) (cfg : config) :
    ∀ (n : Nat) (terrain : String) (rc : Int) (cache : List (String × Int)),
      (100 - rc).toNat + 1 ≤ n →
      movement_cost_aux E cfg (n + 1) terrain rc cache = movement_cost_aux E cfg n terrain rc cache := by
  intro n
  induction n with
  | zero => intro terrain rc cache h; omega
  | succ n ih =>
    intro terrain rc cache h
    rcases movement_cost_aux_cases E cfg n terrain rc cache with
      ⟨w, hw, hr⟩ | ⟨hl, hu, hr⟩ | ⟨hl, hu, hge, hr⟩ | ⟨front, others, hl, hu, halias, hlt, hr⟩ |
      ⟨hl, hu, hr⟩
    · rw [hr, movement_cost_aux_cached E cfg _ terrain rc cache w hw]
    · rw [hr, movement_cost_aux_empty E cfg _ terrain rc cache hl hu]
    · rw [hr]
      cases hu2 : E.underlying_mvt_terrain terrain with
      | nil =>
        have e := movement_cost_aux_empty E cfg n terrain rc cache hl hu2
        rw [hr] at e
        cases e
      | cons front others =>
        rw [hu2] at hu
        exact movement_cost_aux_deep E cfg _ terrain rc cache front others hl hu2
          (alias_condition front terrain others hu) hge
    · rw [hr, movement_cost_aux_alias E cfg _ terrain rc cache front others hl hu
        (alias_condition front terrain others halias) (not_le.mpr hlt)]
      have hf : (fun i c => movement_cost_aux E cfg (n + 1) i (rc + 1) c) =
          (fun i c => movement_cost_aux E cfg n i (rc + 1) c) := by
        funext i c
        exact ih i (rc + 1) c (by omega)
      rw [hf]
    · rw [hr, movement_cost_aux_base E cfg _ terrain rc cache hl hu]

/-- In a hierarchical table a resolution touches no cache entry of a terrain
above the resolved one. -/
theorem defense_modifier_aux_frame (E : Env) (cfg : config) (rank : String → Nat)
    (hier : hierarchical E.underlying_def_terrain rank) :
    ∀ (fuel : Nat) (terrain : String) (rc : Int) (cache : List (String × Int)) (v : Int)
      (c1 : List (String × Int)),
      defense_modifier_aux E cfg fuel terrain rc cache = some (v, c1) →
      ∀ k, rank terrain < rank k → c1.lookup k = cache.lookup k := by
  intro fuel
  induction fuel with
  | zero =>
    intro terrain rc cache v c1 h
    rw [defense_modifier_aux] at h
    cases h
  | succ n ih =>
    intro terrain rc cache v c1 h k hk
    have hne : k ≠ terrain := fun e => by rw [e] at hk; exact lt_irrefl _ hk
    rcases defense_modifier_aux_cases E cfg n terrain rc cache with
      ⟨w, _, hr⟩ | ⟨_, _, hr⟩ | ⟨_, _, _, hr⟩ | ⟨front, others, _, hu, halias, _, hr⟩ | ⟨_, _, hr⟩
    · rw [hr] at h; cases h; rfl
    · rw [hr] at h; cases h
    · rw [hr] at h; cases h; rfl
    · rw [hr] at h
      cases hloop : alias_loop (fun i c => defense_modifier_aux E cfg n i (rc + 1) c) (front :: others)
          (decide (front = MINUS)) (if front = MINUS then 0 else 100) cache with
      | none => rw [hloop] at h; cases h
      | some r =>
        obtain ⟨ret, c2⟩ := r
        rw [hloop] at h
        cases h
        rw [cache_insert_lookup_other _ _ _ _ hne]
        refine alias_loop_frame _ k (front :: others) ?_ _ _ _ _ _ hloop
        intro j hj hp hm c w c3 hres
        have hlt : rank j < rank terrain :=
          hier terrain j (by rw [hu]; exact halias) (by rw [hu]; exact hj) hp hm
        exact ih j (rc + 1) c w c3 hres k (lt_trans hlt hk)
    · rw [hr] at h; cases h
      exact cache_insert_lookup_other _ _ _ _ hne

/-- In a hierarchical table, a resolution below the depth guard leaves the
returned value in the cache under the resolved terrain. -/
theorem defense_modifier_aux_memo (E : Env) (cfg : config) (rank : String → Nat)
    (hier : hierarchical E.underlying_def_terrain rank)
    (fuel : Nat) (terrain : String) (rc : Int) (cache : List (String × Int)) (v : Int)
    (c1 : List (String × Int)) (hrc : rc < 100)
    (h : defense_modifier_aux E cfg fuel terrain rc cache = some (v, c1)) :
    c1.lookup terrain = some v := by
  cases fuel with
  | zero => rw [defense_modifier_aux] at h; cases h
  | succ n =>
    rcases defense_modifier_aux_cases E cfg n terrain rc cache with
      ⟨w, hw, hr⟩ | ⟨_, _, hr⟩ | ⟨_, _, hge, _⟩ | ⟨front, others, hl, hu, halias, _, hr⟩ |
      ⟨hl, _, hr⟩
    · rw [hr] at h; cases h; exact hw
    · rw [hr] at h; cases h
    · exact absurd hrc (not_lt.mpr hge)
    · rw [hr] at h
      cases hloop : alias_loop (fun i c => defense_modifier_aux E cfg n i (rc + 1) c) (front :: others)
          (decide (front = MINUS)) (if front = MINUS then 0 else 100) cache with
      | none => rw [hloop] at h; cases h
      | some r =>
        obtain ⟨ret, c2⟩ := r
        rw [hloop] at h
        cases h
        have hkeep : c2.lookup terrain = cache.lookup terrain := by
          refine alias_loop_frame _ terrain (front :: others) ?_ _ _ _ _ _ hloop
          intro j hj hp hm c w c3 hres
          exact defense_modifier_aux_frame E cfg rank hier n j (rc + 1) c w c3 hres terrain
            (hier terrain j (by rw [hu]; exact halias) (by rw [hu]; exact hj) hp hm)
        rw [cache_insert_lookup_self, hkeep, hl]
        rfl
    · rw [hr] at h; cases h
      rw [cache_insert_lookup_self, hl]
      rfl

/-- More fuel than the depth guard asks for changes nothing. -/
theorem defense_modifier_aux_fuel (E : Env) (cfg : config) :
    ∀ (n : Nat) (terrain : String) (rc : Int) (cache : List (String × Int)),
      (100 - rc).toNat + 1 ≤ n →
      defense_modifier_aux E cfg (n + 1) terrain rc cache = defense_modifier_aux E cfg n terrain rc cache := by
  intro n
  induction n with
  | zero => intro terrain rc cache h; omega
  | succ n ih =>
    intro terrain rc cache h
    rcases defense_modifier_aux_cases E cfg n terrain rc cache with
      ⟨w, hw, hr⟩ | ⟨hl, hu, hr⟩ | ⟨hl, hu, hge, hr⟩ | ⟨front, others, hl, hu, halias, hlt, hr⟩ |
      ⟨hl, hu, hr⟩
    · rw [hr, defense_modifier_aux_cached E cfg _ terrain rc cache w hw]
    · rw [hr, defense_modifier_aux_empty E cfg _ terrain rc cache hl hu]
    · rw [hr]
      cases hu2 : E.underlying_def_terrain terrain with
      | nil =>
        have e := defense_modifier_aux_empty E cfg n terrain rc cache hl hu2
        rw [hr] at e
        cases e
      | cons front others =>
        rw [hu2] at hu
        exact defense_modifier_aux_deep E cfg _ terrain rc cache front others hl hu2
          (alias_condition front terrain others hu) hge
    · rw [hr, defense_modifier_aux_alias E cfg _ terrain rc cache front others hl hu
        (alias_condition front terrain others halias) (not_le.mpr hlt)]
      have hf : (fun i c => defense_modifier_aux E cfg (n + 1) i (rc + 1) c) =
          (fun i c => defense_modifier_aux E cfg n i (rc + 1) c) := by
        funext i c
        exact ih i (rc + 1) c (by omega)
      rw [hf]
    · rw [hr, defense_modifier_aux_base E cfg _ terrain rc cache hl hu]

theorem movement_cost_internal_unit (E : Env) (u : unit) (terrain : String) (rc : Int) (v : Int)
    (u1 : unit) (h : movement_cost_internal E u terrain rc = some (v, u1)) :
    u1 = { u with movement_costs_ := u1.movement_costs_ } ∧
    movement_cost_aux E u.cfg_ (alias_fuel rc) terrain rc u.movement_costs_ =
      some (v, u1.movement_costs_) := by
  unfold movement_cost_internal at h
  cases hr : movement_cost_aux E u.cfg_ (alias_fuel rc) terrain rc u.movement_costs_ with
  | none => rw [hr] at h; cases h
  | some r =>
    rw [hr] at h
    cases h
    exact ⟨rfl, rfl⟩

theorem defense_modifier_unit (E : Env) (u : unit) (terrain : String) (rc : Int) (v : Int)
    (u1 : unit) (h : defense_modifier E u terrain rc = some (v, u1)) :
    u1 = { u with defense_mods_ := u1.defense_mods_ } ∧
    defense_modifier_aux E u.cfg_ (alias_fuel rc) terrain rc u.defense_mods_ =
      some (v, u1.defense_mods_) := by
  unfold defense_modifier at h
  cases hr : defense_modifier_aux E u.cfg_ (alias_fuel rc) terrain rc u.defense_mods_ with
  | none => rw [hr] at h; cases h
  | some r =>
    rw [hr] at h
    cases h
    exact ⟨rfl, rfl⟩

/-- C12, as amended: when the alias definitions are hierarchical (not cyclic),
after `movement_cost_internal(terrain, 0)` (resp. `defense_modifier(terrain, 0)`)
returns `v` the rest of the unit is unchanged, the cache maps the terrain to `v`,
and the call repeated at once returns `v` and the same unit.  For every table, a
cached entry is returned as it is, whatever the alias table, the document of the
unit and the depth are. -/
theorem memoization_hierarchical (E : Env) (u : unit) (terrain : String)
    (rank_mvt rank_def : String → Nat)
    (hm : hierarchical E.underlying_mvt_terrain rank_mvt)
    (hd : hierarchical E.underlying_def_terrain rank_def) :
    (∀ (v : Int) (u1 : unit), movement_cost_internal E u terrain 0 = some (v, u1) →
      u1 = { u with movement_costs_ := u1.movement_costs_ } ∧
      u1.movement_costs_.lookup terrain = some v ∧
      movement_cost_internal E u1 terrain 0 = some (v, u1)) ∧
    (∀ (v : Int) (u1 : unit), defense_modifier E u terrain 0 = some (v, u1) →
      u1 = { u with defense_mods_ := u1.defense_mods_ } ∧
      u1.defense_mods_.lookup terrain = some v ∧
      defense_modifier E u1 terrain 0 = some (v, u1)) ∧
    (∀ (E2 : Env) (doc : config) (rc w : Int), u.movement_costs_.lookup terrain = some w →
      movement_cost_internal E2 { u with cfg_ := doc } terrain rc =
        some (w, { u with cfg_ := doc })) ∧
    (∀ (E2 : Env) (doc : config) (rc w : Int), u.defense_mods_.lookup terrain = some w →
      defense_modifier E2 { u with cfg_ := doc } terrain rc =
        some (w, { u with cfg_ := doc })) := by
  refine ⟨?_, ?_, ?_, ?_⟩
  · intro v u1 h
    obtain ⟨h1, h2⟩ := movement_cost_internal_unit E u terrain 0 v u1 h
    have h3 := movement_cost_aux_memo E u.cfg_ rank_mvt hm _ terrain 0 _ v _ (by decide) h2
    exact ⟨h1, h3, movement_cost_internal_cached E u1 terrain 0 v h3⟩
  · intro v u1 h
    obtain ⟨h1, h2⟩ := defense_modifier_unit E u terrain 0 v u1 h
    have h3 := defense_modifier_aux_memo E u.cfg_ rank_def hd _ terrain 0 _ v _ (by decide) h2
    exact ⟨h1, h3, defense_modifier_cached E u1 terrain 0 v h3⟩
  · intro E2 doc rc w hw
    exact movement_cost_internal_cached E2 _ terrain rc w hw
  · intro E2 doc rc w hw
    exact defense_modifier_cached E2 _ terrain rc w hw

theorem aliasEnv_hierarchical :
    hierarchical aliasEnv.underlying_mvt_terrain (fun t => if t = "Alias" then 1 else 0) ∧
    hierarchical aliasEnv.underlying_def_terrain (fun t => if t = "Alias" then 1 else 0) := by
  have key : hierarchical (fun t => if t = "Alias" then ["A", "-", "B", "C"] else [t])
      (fun t => if t = "Alias" then 1 else 0) := by
    intro t i hne hi hp hm
    by_cases ht : t = "Alias"
    · simp only [ht, if_true] at hi ⊢
      have hi2 : i ≠ "Alias" := by
        intro e
        rw [e] at hi
        revert hi
        decide
      simp [hi2]
    · simp only [ht, if_false] at hne
      exact absurd rfl hne
  exact ⟨key, key⟩

theorem memoization_hierarchical_witness :
    (∀ (v : Int) (u1 : unit), movement_cost_internal aliasEnv costUnit "Alias" 0 = some (v, u1) →
      u1 = { costUnit with movement_costs_ := u1.movement_costs_ } ∧
      u1.movement_costs_.lookup "Alias" = some v ∧
      movement_cost_internal aliasEnv u1 "Alias" 0 = some (v, u1)) ∧
    (movement_cost_internal aliasEnv costUnit "Alias" 0).map (fun r => r.1) = some 5 :=
  ⟨(memoization_hierarchical aliasEnv costUnit "Alias" _ _
      aliasEnv_hierarchical.1 aliasEnv_hierarchical.2).1, by decide⟩

set_option maxRecDepth 100000 in
/-- C12 as stated fails for a cyclic alias: with `A` standing for `A` and `D`,
and `D` for `B` (cost 2), `movement_cost_internal(A, 0)` returns 2 while the
cache entry of `A`, written by the call at depth 99, is the sentinel 10000000;
the call repeated at once returns 10000000. -/
theorem cyclic_alias_defeats_memo :
    ∃ u1 : unit, movement_cost_internal cycleEnv cycleUnit "A" 0 = some (2, u1) ∧
      u1.movement_costs_.lookup "A" = some 10000000 ∧
      movement_cost_internal cycleEnv u1 "A" 0 = some (10000000, u1) := by
  have h : (movement_cost_internal cycleEnv cycleUnit "A" 0).map
      (fun r => (r.1, r.2.movement_costs_)) =
      some (2, [("A", 10000000), ("B", 2), ("D", 2)]) := by decide
  cases hr : movement_cost_internal cycleEnv cycleUnit "A" 0 with
  | none => rw [hr] at h; cases h
  | some r =>
    obtain ⟨v, u1⟩ := r
    rw [hr] at h
    simp only [Option.map_some', Option.some.injEq, Prod.mk.injEq] at h
    have hl : u1.movement_costs_.lookup "A" = some 10000000 := by rw [h.2]; rfl
    rw [h.1]
    exact ⟨u1, rfl, hl, movement_cost_internal_cached cycleEnv u1 "A" 0 _ hl⟩

/-- C13: both routines return for every alias table whose lists are not empty
(the assertion of the source), cyclic or not, and fuel beyond the bound of the
depth guard changes no result; an uncached alias met at depth 100 or more gives
the sentinel (10000000, resp. 100) and leaves the unit, cache included, as it
was. -/
theorem terrain_resolution_total (E : Env) (u : unit) (terrain : String) (rc : Int)
    (hm : ∀ t, E.underlying_mvt_terrain t ≠ [])
    (hd : ∀ t, E.underlying_def_terrain t ≠ []) :
    (movement_cost_internal E u terrain rc).isSome = true ∧
    (defense_modifier E u terrain rc).isSome = true ∧
    (∀ n : Nat, movement_cost_aux E u.cfg_ (alias_fuel rc + n) terrain rc u.movement_costs_ =
      movement_cost_aux E u.cfg_ (alias_fuel rc) terrain rc u.movement_costs_) ∧
    (∀ n : Nat, defense_modifier_aux E u.cfg_ (alias_fuel rc + n) terrain rc u.defense_mods_ =
      defense_modifier_aux E u.cfg_ (alias_fuel rc) terrain rc u.defense_mods_) ∧
    (rc ≥ 100 → u.movement_costs_.lookup terrain = none →
      E.underlying_mvt_terrain terrain ≠ [terrain] →
      movement_cost_internal E u terrain rc = some (10000000, u)) ∧
    (rc ≥ 100 → u.defense_mods_.lookup terrain = none →
      E.underlying_def_terrain terrain ≠ [terrain] →
      defense_modifier E u terrain rc = some (100, u)) := by
  refine ⟨?_, ?_, ?_, ?_, ?_, ?_⟩
  · unfold movement_cost_internal
    rw [Option.isSome_map']
    exact movement_cost_aux_isSome E u.cfg_ hm _ _ _ _ (le_refl _)
  · unfold defense_modifier
    rw [Option.isSome_map']
    exact defense_modifier_aux_isSome E u.cfg_ hd _ _ _ _ (le_refl _)
  · intro n
    induction n with
    | zero => rfl
    | succ n ih =>
      rw [← ih, ← Nat.add_assoc]
      exact movement_cost_aux_fuel E u.cfg_ _ terrain rc _ (by unfold alias_fuel; omega)
  · intro n
    induction n with
    | zero => rfl
    | succ n ih =>
      rw [← ih, ← Nat.add_assoc]
      exact defense_modifier_aux_fuel E u.cfg_ _ terrain rc _ (by unfold alias_fuel; omega)
  · intro hrc hl hu
    unfold movement_cost_internal alias_fuel
    rcases movement_cost_aux_cases E u.cfg_ (100 - rc).toNat terrain rc u.movement_costs_ with
      ⟨w, hw, _⟩ | ⟨_, he, _⟩ | ⟨_, _, _, hr⟩ | ⟨_, _, _, _, _, hlt, _⟩ | ⟨_, hb, _⟩
    · rw [hl] at hw; cases hw
    · exact absurd he (hm terrain)
    · rw [hr]; rfl
    · exact absurd hrc (not_le.mpr hlt)
    · exact absurd hb hu
  · intro hrc hl hu
    unfold defense_modifier alias_fuel
    rcases defense_modifier_aux_cases E u.cfg_ (100 - rc).toNat terrain rc u.defense_mods_ with
      ⟨w, hw, _⟩ | ⟨_, he, _⟩ | ⟨_, _, _, hr⟩ | ⟨_, _, _, _, _, hlt, _⟩ | ⟨_, hb, _⟩
    · rw [hl] at hw; cases hw
    · exact absurd he (hd terrain)
    · rw [hr]; rfl
    · exact absurd hrc (not_le.mpr hlt)
    · exact absurd hb hu

theorem cycleEnv_nonempty :
    (∀ t, cycleEnv.underlying_mvt_terrain t ≠ []) ∧
    (∀ t, cycleEnv.underlying_def_terrain t ≠ []) := by
  have key : ∀ t : String,
      (if t = "A" then ["A", "D"] else if t = "D" then ["B"] else [t]) ≠ [] := by
    intro t
    by_cases h1 : t = "A"
    · rw [if_pos h1]; simp
    · rw [if_neg h1]
      by_cases h2 : t = "D"
      · rw [if_pos h2]; simp
      · rw [if_neg h2]; simp
  exact ⟨key, key⟩

theorem terrain_resolution_total_witness :
    ((movement_cost_internal cycleEnv cycleUnit "A" 0).isSome = true ∧
      (defense_modifier cycleEnv cycleUnit "A" 0).isSome = true) ∧
    movement_cost_internal cycleEnv cycleUnit "A" 100 = some (10000000, cycleUnit) ∧
    defense_modifier cycleEnv cycleUnit "A" 100 = some (100, cycleUnit) :=
  ⟨⟨(terrain_resolution_total cycleEnv cycleUnit "A" 0
      cycleEnv_nonempty.1 cycleEnv_nonempty.2).1,
    (terrain_resolution_total cycleEnv cycleUnit "A" 0
      cycleEnv_nonempty.1 cycleEnv_nonempty.2).2.1⟩,
   (terrain_resolution_total cycleEnv cycleUnit "A" 100
      cycleEnv_nonempty.1 cycleEnv_nonempty.2).2.2.2.2.1 (by decide) rfl (by decide),
   (terrain_resolution_total cycleEnv cycleUnit "A" 100
      cycleEnv_nonempty.1 cycleEnv_nonempty.2).2.2.2.2.2 (by decide) rfl (by decide)⟩

/-! ### The doubling of the `slowed` status (C11) -/

/-- The routine `movement_cost` is `movement_cost_internal(terrain, 0)` with the
value doubled exactly when the `slowed` status reads true. -/
theorem movement_cost_eq (E : Env) (u : unit) (terrain : String) :
    movement_cost E u terrain =
      (movement_cost_internal E u terrain 0).map
        (fun r => (if E.string_bool (u.get_state "slowed") false = true then 2 * r.1 else r.1,
          r.2)) := by
  unfold movement_cost
  congr 1
  funext r
  by_cases hs : E.string_bool (u.get_state "slowed") false = true
  · rw [if_pos hs, if_pos hs, mul_comm]
  · rw [if_neg hs, if_neg hs]

/-- A cached cost is returned doubled or plain according to the status, and the
unit stays as it was. -/
theorem movement_cost_cached (E : Env) (u : unit) (terrain : String) (w : Int)
    (hw : u.movement_costs_.lookup terrain = some w) :
    movement_cost E u terrain =
      some (if E.string_bool (u.get_state "slowed") false = true then 2 * w else w, u) := by
  rw [movement_cost_eq, movement_cost_internal_cached E u terrain 0 w hw]
  rfl

/-- After the status is set or cleared the lookup gives what it would have given
before, doubled or not according to the new status. -/
theorem movement_cost_set_slowed (E : Env) (u : unit) (terrain x : String) :
    movement_cost E (u.set_state "slowed" x) terrain =
      (movement_cost_internal E u terrain 0).map
        (fun r => (if E.string_bool x false = true then 2 * r.1 else r.1,
          r.2.set_state "slowed" x)) := by
  unfold movement_cost
  rw [movement_cost_internal_set_state, get_state_set_state, Option.map_map]
  congr 1
  funext r
  by_cases hs : E.string_bool x false = true
  · simp only [Function.comp, if_pos hs, mul_comm]
  · simp only [Function.comp, if_neg hs]

/-- In a hierarchical table without empty lists the lookup returns, and the
value it leaves in the cache under the terrain is the value it returns. -/
theorem movement_cost_internal_stores (E : Env) (u : unit) (terrain : String)
    (rank : String → Nat) (hier : hierarchical E.underlying_mvt_terrain rank)
    (hne : ∀ t, E.underlying_mvt_terrain t ≠ []) :
    ∃ (w : Int) (u1 : unit), movement_cost_internal E u terrain 0 = some (w, u1) ∧
      u1 = { u with movement_costs_ := u1.movement_costs_ } ∧
      u1.movement_costs_.lookup terrain = some w := by
  have hs := movement_cost_aux_isSome E u.cfg_ hne (alias_fuel 0) terrain 0 u.movement_costs_
    (le_refl _)
  cases hr : movement_cost_aux E u.cfg_ (alias_fuel 0) terrain 0 u.movement_costs_ with
  | none => rw [hr] at hs; cases hs
  | some r =>
    obtain ⟨w, c1⟩ := r
    refine ⟨w, { u with movement_costs_ := c1 }, ?_, rfl, ?_⟩
    · unfold movement_cost_internal
      rw [hr]
      rfl
    · exact movement_cost_aux_memo E u.cfg_ rank hier _ terrain 0 _ w c1 (by decide) hr

/-- C11, as amended: `movement_cost` is `movement_cost_internal(terrain, 0)`,
doubled exactly when the `slowed` status reads true; a cached cost is returned
doubled or plain according to the status; setting or clearing the status leaves
the cache alone.  When the alias definitions are hierarchical (not cyclic) the
lookup returns and stores under the terrain the undoubled value `w`, whatever
the status is, so the next lookup after the status is set or cleared gives `w`
doubled or not according to the new status. -/
theorem movement_cost_doubles_when_slowed (E : Env) (u : unit) (terrain : String) :
    movement_cost E u terrain =
      (movement_cost_internal E u terrain 0).map
        (fun r => (if E.string_bool (u.get_state "slowed") false = true then 2 * r.1 else r.1,
          r.2)) ∧
    (∀ w : Int, u.movement_costs_.lookup terrain = some w →
      movement_cost E u terrain =
        some (if E.string_bool (u.get_state "slowed") false = true then 2 * w else w, u)) ∧
    (∀ x : String,
      (u.set_state "slowed" x).movement_costs_ = u.movement_costs_ ∧
      movement_cost E (u.set_state "slowed" x) terrain =
        (movement_cost_internal E u terrain 0).map
          (fun r => (if E.string_bool x false = true then 2 * r.1 else r.1,
            r.2.set_state "slowed" x))) ∧
    (∀ rank : String → Nat, hierarchical E.underlying_mvt_terrain rank →
      (∀ t, E.underlying_mvt_terrain t ≠ []) →
      ∃ (w : Int) (u1 : unit),
        movement_cost_internal E u terrain 0 = some (w, u1) ∧
        movement_cost E u terrain =
          some (if E.string_bool (u.get_state "slowed") false = true then 2 * w else w, u1) ∧
        u1 = { u with movement_costs_ := u1.movement_costs_ } ∧
        u1.movement_costs_.lookup terrain = some w ∧
        ∀ x : String, movement_cost E (u1.set_state "slowed" x) terrain =
          some (if E.string_bool x false = true then 2 * w else w,
            u1.set_state "slowed" x)) := by
  refine ⟨movement_cost_eq E u terrain, movement_cost_cached E u terrain,
    fun x => ⟨rfl, movement_cost_set_slowed E u terrain x⟩, ?_⟩
  intro rank hier hne
  obtain ⟨w, u1, h1, h2, h3⟩ := movement_cost_internal_stores E u terrain rank hier hne
  refine ⟨w, u1, h1, ?_, h2, h3, ?_⟩
  · rw [movement_cost_eq, h1]
    rfl
  · intro x
    rw [movement_cost_set_slowed, movement_cost_internal_cached E u1 terrain 0 w h3]
    rfl

theorem aliasEnv_nonempty : ∀ t, aliasEnv.underlying_mvt_terrain t ≠ [] := by
  intro t
  show (if t = "Alias" then ["A", "-", "B", "C"] else [t]) ≠ []
  by_cases h : t = "Alias"
  · rw [if_pos h]; simp
  · rw [if_neg h]; simp

set_option maxRecDepth 100000 in
theorem movement_cost_doubles_when_slowed_witness :
    (∃ (w : Int) (u1 : unit),
      movement_cost_internal aliasEnv (costUnit.set_state "slowed" "yes") "Alias" 0 =
        some (w, u1) ∧
      movement_cost aliasEnv (costUnit.set_state "slowed" "yes") "Alias" =
        some (if aliasEnv.string_bool ((costUnit.set_state "slowed" "yes").get_state "slowed")
          false = true then 2 * w else w, u1) ∧
      u1 = { costUnit.set_state "slowed" "yes" with movement_costs_ := u1.movement_costs_ } ∧
      u1.movement_costs_.lookup "Alias" = some w ∧
      ∀ x : String, movement_cost aliasEnv (u1.set_state "slowed" x) "Alias" =
        some (if aliasEnv.string_bool x false = true then 2 * w else w,
          u1.set_state "slowed" x)) ∧
    (movement_cost aliasEnv (costUnit.set_state "slowed" "yes") "Alias").map (fun r => r.1) =
      some 10 ∧
    (movement_cost aliasEnv costUnit "Alias").map (fun r => r.1) = some 5 :=
  ⟨(movement_cost_doubles_when_slowed aliasEnv (costUnit.set_state "slowed" "yes")
      "Alias").2.2.2 _ aliasEnv_hierarchical.1 aliasEnv_nonempty,
   by decide, by decide⟩

set_option maxRecDepth 100000 in
/-- C11 as stated fails for a cyclic alias: with `A` standing for `A` and `D`,
and `D` for `B` (cost 2), the lookup of `A` by a slowed unit returns 4, twice the
undoubled cost 2, but the value it leaves in the cache under `A` is the sentinel
10000000, written by the call at depth 99; after the status is cleared the next
lookup returns 10000000, not 2. -/
theorem cyclic_alias_caches_sentinel :
    ∃ u1 : unit, movement_cost cycleEnv (cycleUnit.set_state "slowed" "yes") "A" =
        some (4, u1) ∧
      u1.movement_costs_.lookup "A" = some 10000000 ∧
      movement_cost cycleEnv (u1.set_state "slowed" "") "A" =
        some (10000000, u1.set_state "slowed" "") := by
  have h : (movement_cost cycleEnv (cycleUnit.set_state "slowed" "yes") "A").map
      (fun r => (r.1, r.2.movement_costs_)) =
      some (4, [("A", 10000000), ("B", 2), ("D", 2)]) := by decide
  cases hr : movement_cost cycleEnv (cycleUnit.set_state "slowed" "yes") "A" with
  | none => rw [hr] at h; cases h
  | some r =>
    obtain ⟨v, u1⟩ := r
    rw [hr] at h
    simp only [Option.map_some', Option.some.injEq, Prod.mk.injEq] at h
    have hl : u1.movement_costs_.lookup "A" = some 10000000 := by rw [h.2]; rfl
    have hl2 : (u1.set_state "slowed" "").movement_costs_.lookup "A" = some 10000000 := hl
    rw [h.1]
    refine ⟨u1, rfl, hl, ?_⟩
    rw [movement_cost_cached cycleEnv _ "A" _ hl2, get_state_set_state]
    rfl

/-! ## Trait generation: the mandatory pass, the leader pass and the random fill
(C14, C15, C16) -/

theorem perm_eraseIdx {α : Type} (l : List α) (n : Nat) (x : α) (h : l.get? n = some x) :
    (x :: l.eraseIdx n).Perm l := by
  induction l generalizing n with
  | nil => cases h
  | cons a t ih =>
    cases n with
    | zero =>
      simp only [List.get?_cons_zero, Option.some.injEq] at h
      rw [h]
      exact List.Perm.refl _
    | succ n =>
      simp only [List.get?_cons_succ] at h
      simp only [List.eraseIdx_cons_succ]
      exact (List.Perm.swap a x _).trans ((ih n h).cons a)

theorem length_eraseIdx_of_get {α : Type} (l : List α) (n : Nat) (x : α)
    (h : l.get? n = some x) : (l.eraseIdx n).length + 1 = l.length := by
  have := (perm_eraseIdx l n x h).length_eq
  simpa using this

theorem get_lt_length {α : Type} (l : List α) (n : Nat) (x : α) (h : l.get? n = some x) :
    n < l.length := by
  by_contra hn
  rw [List.get?_eq_none.mpr (not_lt.mp hn)] at h
  cases h

theorem get_of_lt {α : Type} (l : List α) (n : Nat) (h : n < l.length) :
    ∃ x, l.get? n = some x := by
  cases hg : l.get? n with
  | some x => exact ⟨x, rfl⟩
  | none => exact absurd h (not_lt.mpr (List.get?_eq_none.mp hg))

theorem drop_of_get {α : Type} (l : List α) (n : Nat) (x : α) (h : l.get? n = some x) :
    l.drop n = x :: l.drop (n + 1) := by
  induction l generalizing n with
  | nil => cases h
  | cons a t ih =>
    cases n with
    | zero =>
      simp only [List.get?_cons_zero, Option.some.injEq] at h
      rw [h]
      rfl
    | succ n =>
      simp only [List.get?_cons_succ] at h
      simp only [List.drop_succ_cons]
      exact ih n h

theorem drop_eraseIdx {α : Type} (l : List α) (n : Nat) :
    (l.eraseIdx n).drop n = l.drop (n + 1) := by
  induction l generalizing n with
  | nil => simp
  | cons a t ih =>
    cases n with
    | zero => rfl
    | succ n =>
      simp only [List.eraseIdx_cons_succ, List.drop_succ_cons]
      exact ih n

theorem take_eraseIdx {α : Type} (l : List α) (n : Nat) :
    (l.eraseIdx n).take n = l.take n := by
  induction l generalizing n with
  | nil => simp
  | cons a t ih =>
    cases n with
    | zero => rfl
    | succ n =>
      simp only [List.eraseIdx_cons_succ, List.take_succ_cons]
      rw [ih n]

theorem take_succ_of_get {α : Type} (l : List α) (n : Nat) (x : α) (h : l.get? n = some x) :
    l.take (n + 1) = l.take n ++ [x] := by
  induction l generalizing n with
  | nil => cases h
  | cons a t ih =>
    cases n with
    | zero =>
      simp only [List.get?_cons_zero, Option.some.injEq] at h
      rw [h]
      rfl
    | succ n =>
      simp only [List.get?_cons_succ] at h
      simp only [List.take_succ_cons, List.cons_append]
      rw [ih n h]

/-- The test of the mandatory pass is the test for the availability `musthave`. -/
theorem musthave_test (c : config) :
    (c.attr "availability" ≠ "" ∧ c.attr "availability" = "musthave") ↔ is_musthave c = true := by
  unfold is_musthave
  rw [decide_eq_true_iff]
  constructor
  · exact fun h => h.2
  · intro h
    refine ⟨?_, h⟩
    rw [h]
    decide

/-- The mandatory pass splits the candidates it is given: the mandatory ones
become traits, in order, the others stay candidates, in order, and the count
grows by the number of traits granted. -/
theorem musthave_loop_spec (k m : Nat) (cands traits : List config) (t : Nat)
    (h : m + k = cands.length) :
    musthave_loop k m cands traits t =
      (cands.take m ++ (cands.drop m).filter (fun c => !is_musthave c),
       traits ++ (cands.drop m).filter is_musthave,
       t + ((cands.drop m).filter is_musthave).length) := by
  induction k generalizing m cands traits t with
  | zero =>
    rw [musthave_loop]
    have hm : cands.length ≤ m := by omega
    rw [List.drop_eq_nil_of_le hm, List.take_of_length_le hm]
    simp
  | succ k ih =>
    obtain ⟨c, hc⟩ := get_of_lt cands m (by omega)
    rw [musthave_loop]
    simp only [hc]
    rw [drop_of_get cands m c hc]
    by_cases hmh : c.attr "availability" ≠ "" ∧ c.attr "availability" = "musthave"
    · have hb := (musthave_test c).mp hmh
      rw [if_pos hmh, ih m (cands.eraseIdx m) (traits ++ [c]) (t + 1)
        (by have := length_eraseIdx_of_get cands m c hc; omega),
        drop_eraseIdx, take_eraseIdx]
      simp only [List.filter_cons, hb, Bool.not_true, Bool.false_eq_true, if_false, if_true,
        List.append_assoc, List.singleton_append, List.length_cons]
      refine Prod.ext rfl (Prod.ext rfl ?_)
      show t + 1 + _ = t + (_ + 1)
      omega
    · have hb : is_musthave c = false := by
        cases hx : is_musthave c with
        | false => rfl
        | true => exact absurd ((musthave_test c).mpr hx) hmh
      rw [if_neg hmh, ih (m + 1) cands traits t (by omega), take_succ_of_get cands m c hc]
      simp only [List.filter_cons, hb, Bool.not_false, Bool.false_eq_true, if_false, if_true,
        List.append_assoc, List.singleton_append]

/-- The random fill draws `min k c` candidates out of `c`, each entry once: the
traits grow by the candidates drawn, and the candidates drawn together with
those left over are the candidates it was given. -/
theorem random_fill_spec (state : Bool) (k : Nat) (cands traits : List config) (rnd game : rng) :
    ∃ drawn : List config,
      (random_fill state k cands traits rnd game).2.1 = traits ++ drawn ∧
      drawn.length = min k cands.length ∧
      (drawn ++ (random_fill state k cands traits rnd game).1).Perm cands := by
  induction k generalizing cands traits rnd game with
  | zero =>
    refine ⟨[], ?_, ?_, ?_⟩
    · rw [random_fill]; simp
    · simp
    · rw [random_fill]; exact List.Perm.refl _
  | succ k ih =>
    cases cands with
    | nil =>
      refine ⟨[], ?_, ?_, ?_⟩
      · rw [random_fill]; simp
      · simp
      · rw [random_fill]; exact List.Perm.refl _
    | cons c0 cs =>
      rw [random_fill]
      generalize hnum : (if state = true then game.get_random else rnd.get_random).1 %
        (c0 :: cs).length = num
      have hlt : num < (c0 :: cs).length := by
        rw [← hnum]
        exact Nat.mod_lt _ (by simp)
      obtain ⟨x, hx⟩ := get_of_lt (c0 :: cs) num hlt
      rw [hx]
      simp only [Option.getD_some]
      obtain ⟨drawn, h1, h2, h3⟩ := ih ((c0 :: cs).eraseIdx num) (traits ++ [x])
        (if state = true then rnd else (if state = true then game.get_random
          else rnd.get_random).2)
        (if state = true then (if state = true then game.get_random
          else rnd.get_random).2 else game)
      refine ⟨x :: drawn, ?_, ?_, ?_⟩
      · rw [h1]; simp
      · rw [List.length_cons, h2]
        have := length_eraseIdx_of_get (c0 :: cs) num x hx
        omega
      · exact ((h3.cons x).trans (perm_eraseIdx (c0 :: cs) num x hx))

/-- The leader pass erases every candidate: its test holds for every
availability. -/
theorem leader_loop_erases_all (k : Nat) (cands : List config) (h : cands.length ≤ k) :
    leader_loop k 0 cands = [] := by
  induction k generalizing cands with
  | zero =>
    rw [leader_loop]
    exact List.length_eq_zero.mp (Nat.le_zero.mp h)
  | succ k ih =>
    cases cands with
    | nil => rw [leader_loop]; rfl
    | cons c cs =>
      rw [leader_loop]
      simp only [List.get?_cons_zero]
      have ht : c.attr "availability" ≠ "" ∨ c.attr "availability" ≠ "any" := by
        by_cases he : c.attr "availability" = ""
        · right; rw [he]; decide
        · left; exact he
      rw [if_pos ht]
      exact ih cs (by simpa using h)

theorem mem_eraseIdx_of_ne {α : Type} (l : List α) (n : Nat) (d c : α)
    (hd : l.get? n = some d) (hne : c ≠ d) (hc : c ∈ l) : c ∈ l.eraseIdx n := by
  have hm : c ∈ d :: l.eraseIdx n := (perm_eraseIdx l n d hd).mem_iff.mpr hc
  rcases List.mem_cons.mp hm with h | h
  · exact absurd h hne
  · exact h

/-- The scan for a held trait erases only candidates with the id of that
trait. -/
theorem erase_held_loop_keeps (id : String) (c : config) (hid : c.attr "id" ≠ id)
    (fuel n m : Nat) (cands : List config) (hc : c ∈ cands) :
    c ∈ erase_held_loop id fuel n m cands := by
  induction fuel generalizing n m cands with
  | zero => rw [erase_held_loop]; exact hc
  | succ fuel ih =>
    rw [erase_held_loop]
    by_cases hn : n < cands.length
    · rw [if_pos hn]
      cases hg : cands.get? m with
      | none => exact hc
      | some d =>
        simp only
        by_cases hd : d.attr "id" = id
        · rw [if_pos hd]
          exact ih _ _ _ (mem_eraseIdx_of_ne cands m d c hg
            (fun e => hid (by rw [e]; exact hd)) hc)
        · rw [if_neg hd]
          exact ih _ _ _ hc
    · rw [if_neg hn]; exact hc

theorem erase_held_keeps (held : List config) (c : config)
    (hid : ∀ j ∈ held, j.attr "id" ≠ c.attr "id") (cands : List config) (hc : c ∈ cands) :
    c ∈ erase_held held cands := by
  unfold erase_held
  induction held generalizing cands with
  | nil => exact hc
  | cons j rest ih =>
    rw [List.foldl_cons]
    apply ih (fun j2 hj2 => hid j2 (List.mem_cons_of_mem j hj2))
    exact erase_held_loop_keeps _ c (fun e => hid j (List.mem_cons_self j rest) e.symm) _ _ _ _ hc

theorem get_children_fold_add (tag : String) (l : List config) (ledger : config) :
    (l.foldl (fun m j => m.add_child tag j) ledger).get_children tag =
      ledger.get_children tag ++ l := by
  induction l generalizing ledger with
  | nil => simp
  | cons j rest ih =>
    rw [List.foldl_cons, ih, get_children_tagged, get_children_tagged, children_add_child,
      tagged_append, tagged_cons_eq, List.map_append]
    simp [tagged]

/-- The result of `generate_traits` with `musthaveonly` set, for a registered
type: the mandatory traits are added to the ledger and nothing else changes. -/
theorem generate_traits_mandatory (E : Env) (state : Bool) (s : St) (type : unit_type)
    (hty : E.types.lookup s.u.type_id = some type) :
    generate_traits E true state s =
      .ok { s with u := { s.u with modifications_ :=
        (List.foldl (fun m j => m.add_child "trait" j) s.u.modifications_
          (traits_granted type s.u)) } } := by
  unfold generate_traits traits_granted
  rw [hty]
  simp only [if_true]
  rw [musthave_loop_spec _ 0 _ [] _ (by simp)]
  simp only [List.drop_zero, List.nil_append]

/-- The result of `generate_traits` without `musthaveonly`, for a registered
type: the ledger receives the traits of the random fill, which is started with
the mandatory traits, the count `t` and the candidates of the leader pass. -/
theorem generate_traits_full (E : Env) (state : Bool) (s : St) (type : unit_type)
    (hty : E.types.lookup s.u.type_id = some type) :
    ∃ s1 : St, generate_traits E false state s = .ok s1 ∧
      s1.u.modifications_ =
        List.foldl (fun m j => m.add_child "trait" j) s.u.modifications_
          (random_fill state (type.num_traits - traits_counted type s.u)
            (if s.u.can_recruit E = true then
              leader_loop (traits_remaining type s.u).length 0 (traits_remaining type s.u)
            else traits_remaining type s.u)
            (traits_granted type s.u) s.rnd s.game).2.1 := by
  unfold generate_traits traits_counted traits_granted traits_remaining
  rw [hty]
  simp only [Bool.false_eq_true, if_false]
  rw [musthave_loop_spec _ 0 _ [] _ (by simp)]
  simp only [List.drop_zero, List.nil_append, List.take_zero]
  exact ⟨_, rfl, rfl⟩

/-- C14 fails on the code: the leader pass erases every candidate, whatever its
availability is, so a leader never draws a random trait: a Captain that can
recruit ends without trait, while the same unit without `canrecruit` draws the
trait with availability `any`. -/
theorem leader_gets_no_random_trait :
    (∀ cands : List config, leader_loop cands.length 0 cands = []) ∧
    captainUnit.can_recruit captainEnv = true ∧
    (generate_traits captainEnv false false ⟨captainUnit, zeroRng, zeroRng, 0⟩).isOk = true ∧
    (generate_traits captainEnv false false
      ⟨captainUnit, zeroRng, zeroRng, 0⟩).state.u.modifications_.get_children "trait" = [] ∧
    (generate_traits captainEnv false false
      ⟨recruitUnit, zeroRng, zeroRng, 0⟩).state.u.modifications_.get_children "trait"
        = [quickTrait] := by
  refine ⟨fun cands => leader_loop_erases_all _ cands (le_refl _), ?_, ?_, ?_, ?_⟩ <;> decide

/-- For a unit that cannot recruit, `generate_traits(false)` returns and appends
to the ledger the mandatory traits and then the traits drawn; the number drawn
is the smaller of the rounds left by the count `t` and the number of candidates
the first two passes left, and the traits drawn and the candidates left over are
together those candidates. -/
theorem generate_traits_draws (E : Env) (state : Bool) (s : St) (type : unit_type)
    (hty : E.types.lookup s.u.type_id = some type) (hrec : s.u.can_recruit E = false) :
    ∃ (s1 : St) (drawn leftover : List config),
      generate_traits E false state s = .ok s1 ∧
      s1.u.modifications_.get_children "trait" =
        s.u.modifications_.get_children "trait" ++ traits_granted type s.u ++ drawn ∧
      drawn.length =
        min (type.num_traits - traits_counted type s.u) (traits_remaining type s.u).length ∧
      (drawn ++ leftover).Perm (traits_remaining type s.u) := by
  obtain ⟨s1, h1, h2⟩ := generate_traits_full E state s type hty
  rw [hrec] at h2
  simp only [Bool.false_eq_true, if_false] at h2
  obtain ⟨drawn, d1, d2, d3⟩ := random_fill_spec state
    (type.num_traits - traits_counted type s.u) (traits_remaining type s.u)
    (traits_granted type s.u) s.rnd s.game
  refine ⟨s1, drawn, _, h1, ?_, d2, d3⟩
  rw [h2, get_children_fold_add, d1, List.append_assoc]

theorem split_at_get (l : List config) (m : Nat) (c : config) (h : l.get? m = some c) :
    l.drop m = c :: l.drop (m + 1) ∧ l.eraseIdx m = l.take m ++ l.drop (m + 1) ∧
    l.take (m + 1) = l.take m ++ [c] := by
  induction l generalizing m with
  | nil => cases h
  | cons a rest ih =>
    cases m with
    | zero =>
      have e : a = c := by simpa using h
      subst e
      exact ⟨rfl, rfl, rfl⟩
    | succ k =>
      have hk : rest.get? k = some c := by simpa using h
      obtain ⟨h1, h2, h3⟩ := ih k hk
      refine ⟨?_, ?_, ?_⟩
      · show rest.drop k = c :: rest.drop (k + 1)
        exact h1
      · show a :: rest.eraseIdx k = a :: (rest.take k ++ rest.drop (k + 1))
        rw [h2]
      · show a :: rest.take (k + 1) = a :: (rest.take k ++ [c])
        rw [h3]

/-- The scan for one held id changes nothing when no candidate from the cursor
on has that id. -/
theorem erase_held_loop_clean (id : String) :
    ∀ (fuel n m : Nat) (cands : List config),
      (∀ c ∈ cands.drop m, c.attr "id" ≠ id) →
      erase_held_loop id fuel n m cands = cands := by
  intro fuel
  induction fuel with
  | zero => intro n m cands _; rw [erase_held_loop]
  | succ k ih =>
    intro n m cands h
    rw [erase_held_loop]
    by_cases hn : n < cands.length
    · rw [if_pos hn]
      cases hg : cands.get? m with
      | none => rfl
      | some c =>
        obtain ⟨h1, _, _⟩ := split_at_get cands m c hg
        simp only
        rw [if_neg (h c (by rw [h1]; exact List.mem_cons_self _ _))]
        exact ih _ _ _ (fun d hd => h d (by rw [h1]; exact List.mem_cons_of_mem _ hd))
    · rw [if_neg hn]

/-- When the ids of the candidates from the cursor on are pairwise distinct, the
scan for one held id drops exactly the candidate with that id. -/
theorem erase_held_loop_filter (id : String) :
    ∀ (fuel m : Nat) (cands : List config),
      cands.length ≤ fuel + m →
      ((cands.drop m).map (fun c => c.attr "id")).Nodup →
      erase_held_loop id fuel m m cands =
        cands.take m ++ (cands.drop m).filter (fun c => decide (c.attr "id" ≠ id)) := by
  intro fuel
  induction fuel with
  | zero =>
    intro m cands hlen _
    rw [erase_held_loop, List.drop_eq_nil_of_le (by omega), List.take_of_length_le (by omega)]
    simp
  | succ k ih =>
    intro m cands hlen hnd
    rw [erase_held_loop]
    by_cases hn : m < cands.length
    · rw [if_pos hn]
      cases hg : cands.get? m with
      | none =>
        have := List.get?_eq_none.mp hg
        omega
      | some c =>
        obtain ⟨h1, h2, h3⟩ := split_at_get cands m c hg
        simp only
        rw [h1] at hnd ⊢
        rw [List.map_cons, List.nodup_cons] at hnd
        by_cases hc : c.attr "id" = id
        · rw [if_pos hc]
          have hrest : ∀ d ∈ cands.drop (m + 1), d.attr "id" ≠ id := by
            intro d hd e
            apply hnd.1
            rw [hc, ← e]
            exact List.mem_map_of_mem _ hd
          have hlenT : (cands.take m).length = m := by
            rw [List.length_take]; omega
          have hdrop : (cands.eraseIdx m).drop m = cands.drop (m + 1) := by
            rw [h2]
            have := List.drop_left (cands.take m) (cands.drop (m + 1))
            rw [hlenT] at this
            exact this
          rw [erase_held_loop_clean id k (m + 1) m _ (by rw [hdrop]; exact hrest), h2]
          congr 1
          rw [List.filter_cons, if_neg (by simp [hc])]
          symm
          apply List.filter_eq_self.mpr
          intro d hd
          simpa using hrest d hd
        · rw [if_neg hc, ih (m + 1) cands (by omega) hnd.2, h3, List.append_assoc]
          congr 1
          rw [List.filter_cons, if_pos (by simp [hc])]
          rfl
    · rw [if_neg hn, List.drop_eq_nil_of_le (by omega), List.take_of_length_le (by omega)]
      simp

/-- When no two candidates share an id, the first pass of `generate_traits`
drops exactly the candidates whose id a held trait has. -/
theorem erase_held_filter (held cands : List config)
    (hn : (cands.map (fun c => c.attr "id")).Nodup) :
    erase_held held cands =
      cands.filter (fun c => decide (c.attr "id" ∉ held.map (fun j => j.attr "id"))) := by
  unfold erase_held
  induction held generalizing cands with
  | nil => simp
  | cons j rest ih =>
    rw [List.foldl_cons, erase_held_loop_filter (j.attr "id") cands.length 0 cands (by omega)
      (by rw [List.drop_zero]; exact hn)]
    rw [List.take_zero, List.nil_append, List.drop_zero, ih _
      (List.Nodup.sublist ((List.filter_sublist cands).map _) hn), List.filter_filter]
    apply List.filter_congr
    intro c _
    simp only [List.map_cons, List.mem_cons, not_or, ne_eq, Bool.decide_and, Bool.and_comm]

/-- When no two candidates of the type share an id, the random fill draws as
many traits as the specification says, with `t` and `c` as the specification
words them: `generate_traits(false)` returns
for a unit that cannot recruit, appends the mandatory traits not yet held and
then the traits drawn, draws `min(N - t, c)` traits with the truncated
subtraction of the loop bound, and draws no candidate entry twice. -/
theorem random_fill_draws_distinct (E : Env) (state : Bool) (s : St) (type : unit_type)
    (hty : E.types.lookup s.u.type_id = some type) (hrec : s.u.can_recruit E = false)
    (hn : (type.possible_traits.map (fun c => c.attr "id")).Nodup) :
    ∃ (s1 : St) (drawn leftover : List config),
      generate_traits E false state s = .ok s1 ∧
      s1.u.modifications_.get_children "trait" =
        s.u.modifications_.get_children "trait" ++
          (unheld_candidates type s.u).filter is_musthave ++ drawn ∧
      drawn.length =
        min (type.num_traits - ((s.u.modifications_.get_children "trait").length +
            ((unheld_candidates type s.u).filter is_musthave).length))
          (open_candidates type s.u).length ∧
      (drawn ++ leftover).Perm (open_candidates type s.u) := by
  have he : erase_held (s.u.modifications_.get_children "trait") type.possible_traits =
      unheld_candidates type s.u := erase_held_filter _ _ hn
  have hg : traits_granted type s.u = (unheld_candidates type s.u).filter is_musthave := by
    unfold traits_granted
    rw [he]
  have hr : traits_remaining type s.u = open_candidates type s.u := by
    unfold traits_remaining open_candidates
    rw [he]
  have hc : traits_counted type s.u = (s.u.modifications_.get_children "trait").length +
      ((unheld_candidates type s.u).filter is_musthave).length := by
    unfold traits_counted
    rw [hg]
  obtain ⟨s1, drawn, leftover, h1, h2, h3, h4⟩ := generate_traits_draws E state s type hty hrec
  rw [hg] at h2
  rw [hc, hr] at h3
  rw [hr] at h4
  exact ⟨s1, drawn, leftover, h1, h2, h3, h4⟩

set_option maxRecDepth 100000 in
/-- C15 fails on the code: for a pool that lists the trait `quick` twice and a
unit that holds `quick`, no candidate remains once the held traits are removed
(`c = 0`), so the claim has `generate_traits(false)` draw `min(2 - 1, 0) = 0`
traits; the scan that removes held traits stops one round early after its
erasure, the second `quick` stays in the pool, and the random fill draws it: the
ledger ends with `quick` twice.  For every pool without repeated ids the call
draws `min(N - t, c)` traits, none of them twice, and appends them after the
mandatory ones; the Scout is such a pool. -/
theorem random_fill_draws_held_trait :
    quickRunner.can_recruit twinQuickEnv = false ∧
    open_candidates twinQuickType quickRunner = [] ∧
    erase_held (quickRunner.modifications_.get_children "trait")
      twinQuickType.possible_traits = [quickTrait] ∧
    (generate_traits twinQuickEnv false false ⟨quickRunner, zeroRng, zeroRng, 0⟩).isOk = true ∧
    ((generate_traits twinQuickEnv false false
        ⟨quickRunner, zeroRng, zeroRng, 0⟩).state.u.modifications_.get_children
          "trait").map (fun j => j.attr "id") = ["quick", "quick"] ∧
    (∀ (E : Env) (state : Bool) (s : St) (type : unit_type),
      E.types.lookup s.u.type_id = some type → s.u.can_recruit E = false →
      (type.possible_traits.map (fun c => c.attr "id")).Nodup →
      ∃ (s1 : St) (drawn leftover : List config),
        generate_traits E false state s = .ok s1 ∧
        s1.u.modifications_.get_children "trait" =
          s.u.modifications_.get_children "trait" ++
            (unheld_candidates type s.u).filter is_musthave ++ drawn ∧
        drawn.length =
          min (type.num_traits - ((s.u.modifications_.get_children "trait").length +
              ((unheld_candidates type s.u).filter is_musthave).length))
            (open_candidates type s.u).length ∧
        (drawn ++ leftover).Perm (open_candidates type s.u)) ∧
    (open_candidates scoutType freshScout).length = 2 ∧
    ((generate_traits scoutEnv false false
        ⟨freshScout, zeroRng, zeroRng, 0⟩).state.u.modifications_.get_children
          "trait").map (fun j => j.attr "id") = ["loyal", "quick"] := by
  refine ⟨by decide, by decide, by decide, by decide, by decide, ?_, by decide, by decide⟩
  intro E state s type hty hrec hn
  exact random_fill_draws_distinct E state s type hty hrec hn

/-- C16: for a registered type, every candidate with availability `musthave`
whose id no trait of the ledger has is in the ledger after `generate_traits`,
with or without `musthaveonly` and whatever the trait count of the type is; with
`musthaveonly` the call adds exactly the mandatory traits, leaves both random
streams as they were, and gives the same unit for every pair of streams. -/
theorem mandatory_traits_without_randomness (E : Env) (musthaveonly state : Bool) (s : St)
    (type : unit_type) (hty : E.types.lookup s.u.type_id = some type) :
    (∃ s1 : St, generate_traits E musthaveonly state s = .ok s1 ∧
      ∀ c ∈ type.possible_traits, c.attr "availability" = "musthave" →
        (∀ j ∈ s.u.modifications_.get_children "trait", j.attr "id" ≠ c.attr "id") →
        c ∈ s1.u.modifications_.get_children "trait") ∧
    (∃ u1 : unit,
      u1.modifications_.get_children "trait" =
        s.u.modifications_.get_children "trait" ++ traits_granted type s.u ∧
      ∀ (rnd2 game2 : rng) (state2 : Bool),
        generate_traits E true state2 ⟨s.u, rnd2, game2, s.ids⟩ =
          .ok ⟨u1, rnd2, game2, s.ids⟩) := by
  constructor
  · obtain ⟨s1, h1⟩ := generate_traits_returns E musthaveonly state s (by rw [hty]; rfl)
    refine ⟨s1, h1, ?_⟩
    intro c hc hmh hid
    have hg : c ∈ traits_granted type s.u := by
      unfold traits_granted
      rw [List.mem_filter]
      refine ⟨erase_held_keeps _ c hid _ hc, ?_⟩
      unfold is_musthave
      rw [decide_eq_true_iff]
      exact hmh
    cases musthaveonly with
    | true =>
      rw [generate_traits_mandatory E state s type hty] at h1
      cases h1
      show c ∈ (List.foldl (fun m j => m.add_child "trait" j) s.u.modifications_
        (traits_granted type s.u)).get_children "trait"
      rw [get_children_fold_add]
      exact List.mem_append_right _ hg
    | false =>
      obtain ⟨s2, h2, h3⟩ := generate_traits_full E state s type hty
      rw [h2] at h1
      cases h1
      rw [h3, get_children_fold_add]
      obtain ⟨drawn, d1, _, _⟩ := random_fill_spec state
        (type.num_traits - traits_counted type s.u)
        (if s.u.can_recruit E = true then
          leader_loop (traits_remaining type s.u).length 0 (traits_remaining type s.u)
        else traits_remaining type s.u)
        (traits_granted type s.u) s.rnd s.game
      rw [d1]
      exact List.mem_append_right _ (List.mem_append_left _ hg)
  · refine ⟨{ s.u with modifications_ :=
        (List.foldl (fun m j => m.add_child "trait" j) s.u.modifications_
          (traits_granted type s.u)) }, ?_, ?_⟩
    · show (List.foldl (fun m j => m.add_child "trait" j) s.u.modifications_
        (traits_granted type s.u)).get_children "trait" = _
      rw [get_children_fold_add]
    · intro rnd2 game2 state2
      exact generate_traits_mandatory E state2 ⟨s.u, rnd2, game2, s.ids⟩ type hty

theorem mandatory_traits_without_randomness_witness :
    (∃ s1 : St, generate_traits twinTraitEnv true false ⟨ghoulUnit, zeroRng, zeroRng, 0⟩ = .ok s1 ∧
      ∀ c ∈ twinTraitType.possible_traits, c.attr "availability" = "musthave" →
        (∀ j ∈ ghoulUnit.modifications_.get_children "trait", j.attr "id" ≠ c.attr "id") →
        c ∈ s1.u.modifications_.get_children "trait") ∧
    (traits_granted twinTraitType ghoulUnit).map (fun j => j.attr "id") = ["strong"] :=
  ⟨(mandatory_traits_without_randomness twinTraitEnv true false
      ⟨ghoulUnit, zeroRng, zeroRng, 0⟩ twinTraitType rfl).1, by decide⟩

/-! ## The registry of cached units and the depth of the concealment check
(C17, C18) -/

theorem nat_lookup_append {β : Type} (h : List (Nat × β)) (a b : Nat) (x : β) :
    (h ++ [(b, x)]).lookup a =
      match h.lookup a with
      | some w => some w
      | none => if a = b then some x else none := by
  induction h with
  | nil =>
    by_cases hab : a = b
    · simp [List.lookup, hab]
    · have hk : (a == b) = false := by rw [beq_eq_false_iff_ne]; exact hab
      simp [List.lookup, hab, hk]
  | cons p rest ih =>
    obtain ⟨k1, v1⟩ := p
    by_cases hk1 : a = k1
    · simp [List.lookup, hk1]
    · have hk : (a == k1) = false := by rw [beq_eq_false_iff_ne]; exact hk1
      simp only [List.cons_append, List.lookup, hk]
      exact ih

theorem nat_lookup_filter_ne {β : Type} (h : List (Nat × β)) (a self : Nat) :
    (h.filter (fun p => p.1 ≠ self)).lookup a = if a = self then none else h.lookup a := by
  induction h with
  | nil => by_cases hs : a = self <;> simp [hs]
  | cons p rest ih =>
    obtain ⟨k1, v1⟩ := p
    by_cases hk : k1 = self
    · simp only [List.filter, hk, ne_eq, not_true_eq_false, decide_False]
      rw [ih]
      by_cases hs : a = self
      · rw [if_pos hs, if_pos hs]
      · rw [if_neg hs, if_neg hs]
        have hb : (a == self) = false := by rw [beq_eq_false_iff_ne]; exact hs
        simp only [List.lookup, hb]
    · simp only [List.filter, hk, ne_eq, not_false_eq_true, decide_True]
      by_cases hak : a = k1
      · have hs : ¬ a = self := fun e => hk (hak.symm.trans e)
        rw [if_neg hs]
        simp [List.lookup, hak]
      · have hb : (a == k1) = false := by rw [beq_eq_false_iff_ne]; exact hak
        simp only [List.lookup, hb]
        exact ih

/-- The cache write keeps the invariant of the registry. -/
theorem write_visibility_invariant (W : world) (self : Nat) (u1 : unit) (loc : location)
    (b : Bool) (hu : W.heap.lookup self = some u1) (hinv : registry_invariant W) :
    registry_invariant (write_visibility W self u1 loc b) := by
  obtain ⟨hnd, hiff⟩ := hinv
  have hnew : u1.invisibility_cache_.filter (fun p => p.1 ≠ loc) ++ [(loc, b)] ≠ [] := by simp
  have hself : (write_visibility W self u1 loc b).heap.lookup self =
      some { u1 with invisibility_cache_ :=
        u1.invisibility_cache_.filter (fun p => p.1 ≠ loc) ++ [(loc, b)] } :=
    heap_set_lookup_self W.heap self u1 _ hu
  have hother : ∀ a, a ≠ self →
      (write_visibility W self u1 loc b).heap.lookup a = W.heap.lookup a :=
    fun a ha => heap_set_lookup_other W.heap self a _ ha
  have hreg : (write_visibility W self u1 loc b).units_with_cache =
      if u1.invisibility_cache_.isEmpty then W.units_with_cache ++ [self]
      else W.units_with_cache := rfl
  by_cases he : u1.invisibility_cache_.isEmpty = true
  · have hnot : self ∉ W.units_with_cache := by
      intro hm
      obtain ⟨u, hl, hne⟩ := (hiff self).mp hm
      rw [hu] at hl
      cases hl
      exact hne (List.isEmpty_iff.mp he)
    rw [if_pos he] at hreg
    constructor
    · rw [hreg]
      exact List.Nodup.append hnd (List.nodup_singleton self) (by
        intro a ha hb
        rw [List.mem_singleton] at hb
        exact hnot (hb ▸ ha))
    · intro a
      rw [hreg]
      by_cases ha : a = self
      · rw [ha, hself]
        exact ⟨fun _ => ⟨_, rfl, hnew⟩, fun _ => by simp⟩
      · rw [hother a ha, ← hiff a]
        simp [ha]
  · rw [if_neg he] at hreg
    have hin : self ∈ W.units_with_cache := by
      apply (hiff self).mpr
      refine ⟨u1, hu, ?_⟩
      intro hnil
      exact he (List.isEmpty_iff.mpr hnil)
    constructor
    · rw [hreg]; exact hnd
    · intro a
      rw [hreg]
      by_cases ha : a = self
      · rw [ha, hself]
        exact ⟨fun _ => ⟨_, rfl, hnew⟩, fun _ => hin⟩
      · rw [hother a ha]
        exact hiff a

/-- The all-seeing check keeps the invariant of the registry and leaves its
verdict in the cache of the unit, under the location. -/
theorem invisible_all_invariant (E : Env) (units : List (location × Nat)) (teams : List team)
    (a : Nat) (l : location) (W W1 : world) (b : Bool)
    (h : invisible_all E units teams a l W = some (b, W1)) (hinv : registry_invariant W) :
    registry_invariant W1 ∧
    ∃ u1, W1.heap.lookup a = some u1 ∧ u1.invisibility_cache_.lookup l = some b := by
  unfold invisible_all at h
  cases hv : W.heap.lookup a with
  | none =>
    unfold invisible_body at h
    simp only [hv] at h
    cases h
  | some v =>
    rw [invisible_body_all E _ units teams a l W v hv] at h
    cases hc : v.invisibility_cache_.lookup l with
    | some c =>
      rw [hc] at h
      simp only [Option.some.injEq, Prod.mk.injEq] at h
      rw [← h.1, ← h.2]
      exact ⟨hinv, v, hv, hc⟩
    | none =>
      rw [hc] at h
      simp only at h
      cases hb : (if hidden_and_hides E v l then spot_all E teams v.side_ l units W
          else some false) with
      | none => rw [hb] at h; cases h
      | some b2 =>
        rw [hb] at h
        simp only [Option.map_some', Option.some.injEq, Prod.mk.injEq] at h
        rw [← h.1, ← h.2]
        refine ⟨write_visibility_invariant W a v l b2 hv hinv, _,
          heap_set_lookup_self W.heap a v _ hv, ?_⟩
        exact lookup_filter_append_self v.invisibility_cache_ l b2

/-- The loop over the unit map keeps the invariant of the registry. -/
theorem spot_loop_invariant (E : Env) (units : List (location × Nat)) (teams : List team)
    (side : Int) (loc : location) (see_all : Bool) (us : List (location × Nat)) (W W1 : world)
    (b : Bool)
    (h : spot_loop E (invisible_all E units teams) teams side loc see_all us W = some (b, W1))
    (hinv : registry_invariant W) : registry_invariant W1 := by
  induction us generalizing W with
  | nil =>
    rw [spot_loop] at h
    cases h
    exact hinv
  | cons p rest ih =>
    obtain ⟨l, a⟩ := p
    rw [spot_loop] at h
    cases ht : team_of teams side with
    | none => rw [ht] at h; cases h
    | some tm =>
      cases hv : W.heap.lookup a with
      | none => rw [ht, hv] at h; cases h
      | some v =>
        rw [ht, hv] at h
        simp only at h
        by_cases hadj : (tm.is_enemy v.side_ && E.tiles_adjacent loc l) = true
        · rw [if_pos hadj] at h
          by_cases hs : see_all = true
          · rw [if_pos hs] at h
            cases h
            exact hinv
          · rw [if_neg hs] at h
            by_cases hf : tm.fogged l = true
            · rw [if_pos hf] at h
              exact ih W h hinv
            · rw [if_neg hf] at h
              cases hr : invisible_all E units teams a l W with
              | none => rw [hr] at h; cases h
              | some r =>
                obtain ⟨inv, W2⟩ := r
                rw [hr] at h
                simp only at h
                have hinv2 := (invisible_all_invariant E units teams a l W W2 inv hr hinv).1
                by_cases hi : inv = true
                · rw [if_pos hi] at h
                  exact ih W2 h hinv2
                · rw [if_neg hi] at h
                  cases h
                  exact hinv2
        · rw [if_neg hadj] at h
          exact ih W h hinv

/-- The routine `invisible` keeps the invariant of the registry, and with
`see_all` set its verdict is in the cache of the unit, under the location. -/
theorem invisible_invariant (E : Env) (W W1 : world) (self : Nat) (loc : location)
    (units : List (location × Nat)) (teams : List team) (see_all : Bool) (b : Bool)
    (h : invisible E W self loc units teams see_all = some (b, W1))
    (hinv : registry_invariant W) :
    registry_invariant W1 ∧
    (see_all = true →
      ∃ u1, W1.heap.lookup self = some u1 ∧ u1.invisibility_cache_.lookup loc = some b) := by
  cases see_all with
  | true =>
    have h2 : invisible_all E units teams self loc W = some (b, W1) := by
      unfold invisible_all
      cases hv : W.heap.lookup self with
      | none =>
        unfold invisible invisible_body at h
        simp only [hv] at h
        cases h
      | some v =>
        unfold invisible at h
        rw [invisible_body_all E _ units teams self loc W v hv] at h
        rw [invisible_body_all E _ units teams self loc W v hv]
        exact h
    obtain ⟨h3, h4⟩ := invisible_all_invariant E units teams self loc W W1 b h2 hinv
    exact ⟨h3, fun _ => h4⟩
  | false =>
    refine ⟨?_, fun hf => by cases hf⟩
    unfold invisible invisible_body at h
    cases hv : W.heap.lookup self with
    | none => simp only [hv] at h; cases h
    | some u =>
      simp only [hv, Bool.false_eq_true, if_false] at h
      by_cases hh : (E.string_bool (u.get_state "hidden") false &&
          E.get_ability_bool u.cfg_ "hides" loc) = true
      · rw [if_pos hh] at h
        cases hr : spot_loop E (invisible_all E units teams) teams u.side_ loc false units W with
        | none => rw [hr] at h; cases h
        | some r =>
          obtain ⟨b2, W2⟩ := r
          rw [hr] at h
          simp only [Option.some.injEq, Prod.mk.injEq] at h
          rw [← h.2]
          exact spot_loop_invariant E units teams u.side_ loc false units W W2 b2 hr hinv
      · rw [if_neg hh] at h
        simp only [Option.some.injEq, Prod.mk.injEq] at h
        rw [← h.2]
        exact hinv

/-- After `ambush` the cache of the unit is empty, the unit is not listed, and
the invariant of the registry holds. -/
theorem ambush_invariant (W : world) (self : Nat) (hinv : registry_invariant W) :
    registry_invariant (ambush W self) ∧ self ∉ (ambush W self).units_with_cache ∧
    ∀ u1, (ambush W self).heap.lookup self = some u1 → u1.invisibility_cache_ = [] := by
  obtain ⟨hnd, hiff⟩ := hinv
  have hreg : (ambush W self).units_with_cache = W.units_with_cache.erase self := rfl
  have hself : ∀ u1, (ambush W self).heap.lookup self = some u1 →
      u1.invisibility_cache_ = [] := by
    intro u1 h1
    unfold ambush at h1
    cases hv : W.heap.lookup self with
    | none => simp only [hv] at h1; cases h1
    | some u =>
      simp only [hv] at h1
      rw [heap_set_lookup_self W.heap self u _ hv] at h1
      cases h1
      rfl
  have hother : ∀ a, a ≠ self → (ambush W self).heap.lookup a = W.heap.lookup a := by
    intro a ha
    unfold ambush
    cases hv : W.heap.lookup self with
    | none => rfl
    | some u => exact heap_set_lookup_other W.heap self a _ ha
  have hnot : self ∉ (ambush W self).units_with_cache := by
    rw [hreg]
    exact fun hm => ((List.Nodup.mem_erase_iff hnd).mp hm).1 rfl
  refine ⟨⟨?_, ?_⟩, hnot, hself⟩
  · rw [hreg]; exact hnd.erase self
  · intro a
    by_cases ha : a = self
    · rw [ha]
      constructor
      · exact fun hm => absurd hm hnot
      · rintro ⟨u1, h1, h2⟩
        exact absurd (hself u1 h1) h2
    · rw [hreg, List.Nodup.mem_erase_iff hnd, hother a ha, ← hiff a]
      exact ⟨fun h => h.2, fun h => ⟨ha, h⟩⟩

theorem clear_fold_lookup (reg : List Nat) (h : List (Nat × unit)) (a : Nat) :
    (reg.foldl
      (fun h a =>
        match h.lookup a with
        | some u => heap_set h a (clear_visibility_cache u)
        | none => h) h).lookup a =
      if a ∈ reg then (h.lookup a).map clear_visibility_cache else h.lookup a := by
  induction reg generalizing h with
  | nil => simp
  | cons r rest ih =>
    rw [List.foldl_cons, ih]
    have hstep : (match h.lookup r with
        | some u => heap_set h r (clear_visibility_cache u)
        | none => h).lookup a =
        if a = r then (h.lookup a).map clear_visibility_cache else h.lookup a := by
      by_cases har : a = r
      · rw [if_pos har, har]
        cases hv : h.lookup r with
        | none => simp only; rw [hv]; rfl
        | some u =>
          simp only
          rw [heap_set_lookup_self h r u _ hv]
          rfl
      · rw [if_neg har]
        cases hv : h.lookup r with
        | none => rfl
        | some u => exact heap_set_lookup_other h r a _ har
    rw [hstep]
    by_cases har : a = r
    · rw [if_pos har]
      have hm : a ∈ r :: rest := by rw [har]; exact List.mem_cons_self r rest
      rw [if_pos hm]
      by_cases hr : a ∈ rest
      · rw [if_pos hr, Option.map_map]
        cases h.lookup a <;> rfl
      · rw [if_neg hr]
    · rw [if_neg har]
      by_cases hr : a ∈ rest
      · rw [if_pos hr, if_pos (List.mem_cons_of_mem r hr)]
      · rw [if_neg hr, if_neg (by
          intro hm
          rcases List.mem_cons.mp hm with h1 | h1
          · exact har h1
          · exact hr h1)]

/-- After `clear_status_caches` the registry is empty, every cache is empty, and
the invariant of the registry holds. -/
theorem clear_status_caches_invariant (W : world) (hinv : registry_invariant W) :
    registry_invariant (clear_status_caches W) ∧ (clear_status_caches W).units_with_cache = [] ∧
    ∀ a u1, (clear_status_caches W).heap.lookup a = some u1 → u1.invisibility_cache_ = [] := by
  obtain ⟨hnd, hiff⟩ := hinv
  have hall : ∀ a u1, (clear_status_caches W).heap.lookup a = some u1 →
      u1.invisibility_cache_ = [] := by
    intro a u1 h1
    unfold clear_status_caches at h1
    simp only at h1
    rw [clear_fold_lookup] at h1
    by_cases ha : a ∈ W.units_with_cache
    · rw [if_pos ha] at h1
      cases hv : W.heap.lookup a with
      | none => rw [hv] at h1; cases h1
      | some u =>
        rw [hv] at h1
        cases h1
        rfl
    · rw [if_neg ha] at h1
      by_contra hne
      exact ha ((hiff a).mpr ⟨u1, h1, hne⟩)
  refine ⟨⟨List.nodup_nil, ?_⟩, rfl, hall⟩
  intro a
  constructor
  · intro hm
    cases hm
  · rintro ⟨u1, h1, h2⟩
    exact absurd (hall a u1 h1) h2

/-- The copy of a unit, built at a free address, has an empty cache and is not
listed, and the invariant of the registry holds. -/
theorem copy_construct_invariant (W : world) (src dst : Nat) (o : unit)
    (hsrc : W.heap.lookup src = some o) (hfree : W.heap.lookup dst = none)
    (hinv : registry_invariant W) :
    registry_invariant (copy_construct W src dst) ∧
    (copy_construct W src dst).heap.lookup dst = some { o with invisibility_cache_ := [] } ∧
    dst ∉ (copy_construct W src dst).units_with_cache := by
  obtain ⟨hnd, hiff⟩ := hinv
  have hnot : dst ∉ W.units_with_cache := by
    intro hm
    obtain ⟨u, hl, _⟩ := (hiff dst).mp hm
    rw [hfree] at hl
    cases hl
  have hw : copy_construct W src dst =
      { W with heap := W.heap ++ [(dst, { o with invisibility_cache_ := [] })] } := by
    unfold copy_construct
    rw [hsrc]
  have hdst : (copy_construct W src dst).heap.lookup dst =
      some { o with invisibility_cache_ := [] } := by
    rw [hw]
    show (W.heap ++ [(dst, _)]).lookup dst = _
    rw [nat_lookup_append, hfree]
    simp
  have hother : ∀ a, a ≠ dst → (copy_construct W src dst).heap.lookup a = W.heap.lookup a := by
    intro a ha
    rw [hw]
    show (W.heap ++ [(dst, _)]).lookup a = _
    rw [nat_lookup_append]
    cases W.heap.lookup a with
    | none => simp [ha]
    | some w => rfl
  have hreg : (copy_construct W src dst).units_with_cache = W.units_with_cache := by
    rw [hw]
  refine ⟨⟨by rw [hreg]; exact hnd, ?_⟩, hdst, by rw [hreg]; exact hnot⟩
  intro a
  rw [hreg]
  by_cases ha : a = dst
  · rw [ha, hdst]
    constructor
    · exact fun hm => absurd hm hnot
    · rintro ⟨u1, h1, h2⟩
      cases h1
      exact absurd rfl h2
  · rw [hother a ha]
    exact hiff a

/-- After the destructor the unit is not listed and not alive, and the
invariant of the registry holds. -/
theorem destroy_invariant (W : world) (self : Nat) (hinv : registry_invariant W) :
    registry_invariant (destroy W self) ∧ self ∉ (destroy W self).units_with_cache ∧
    (destroy W self).heap.lookup self = none := by
  obtain ⟨hnd, hiff⟩ := hinv
  have hreg : (destroy W self).units_with_cache = W.units_with_cache.erase self := rfl
  have hheap : ∀ a, (destroy W self).heap.lookup a =
      if a = self then none else W.heap.lookup a :=
    fun a => nat_lookup_filter_ne W.heap a self
  have hnot : self ∉ (destroy W self).units_with_cache := by
    rw [hreg]
    exact fun hm => ((List.Nodup.mem_erase_iff hnd).mp hm).1 rfl
  refine ⟨⟨by rw [hreg]; exact hnd.erase self, ?_⟩, hnot, by rw [hheap, if_pos rfl]⟩
  intro a
  by_cases ha : a = self
  · rw [ha, hheap, if_pos rfl]
    constructor
    · exact fun hm => absurd hm hnot
    · rintro ⟨u1, h1, _⟩
      cases h1
  · rw [hreg, List.Nodup.mem_erase_iff hnd, hheap, if_neg ha, ← hiff a]
    exact ⟨fun h => h.2, fun h => ⟨ha, h⟩⟩

/-- The routine `invisible` returns when the unit exists, its side indexes a team
and every unit of the map exists with a side that indexes a team. -/
theorem invisible_returns (E : Env) (W : world) (self : Nat) (loc : location)
    (units : List (location × Nat)) (teams : List team) (u : unit) (tm : team)
    (hself : W.heap.lookup self = some u)
    (hteam : team_of teams u.side_ = some tm)
    (halive : board_alive W units teams) (see_all : Bool) :
    (invisible E W self loc units teams see_all).isSome = true := by
  cases see_all with
  | true =>
    have hv := verdict_alive E units teams W halive self loc u hself (by rw [hteam]; rfl)
    rw [← invisible_true_value] at hv
    rw [Option.isSome_map'] at hv
    exact hv
  | false =>
    unfold invisible invisible_body
    simp only [hself, Bool.false_eq_true, if_false]
    by_cases hh : (E.string_bool (u.get_state "hidden") false &&
        E.get_ability_bool u.cfg_ "hides" loc) = true
    · rw [if_pos hh]
      obtain ⟨W2, hloop⟩ := spot_loop_observer E units teams u.side_ loc tm hteam W halive
        units W (fun _ hp => hp) (same_board_refl W) (fun _ _ => rfl)
      rw [hloop]
      rfl
    · rw [if_neg hh]
      rfl

/-- C17: the invariant of the registry (a unit is listed exactly when its
invisibility cache is not empty, and at most once) is kept by `invisible`, which
leaves the verdict of a `see_all` call in the cache under the location, by
`ambush`, which empties the cache and unlists the unit, by
`clear_status_caches`, which empties every cache and the registry, by copy
construction, whose copy has an empty cache and is not listed, and by
destruction, which unlists the unit; `invisible` returns when the unit and the
units of the map exist with sides that index a team. -/
theorem registry_invariant_preserved (W : world) (hinv : registry_invariant W) :
    (∀ (E : Env) (self : Nat) (loc : location) (units : List (location × Nat))
        (teams : List team) (see_all b : Bool) (W1 : world),
      invisible E W self loc units teams see_all = some (b, W1) →
      registry_invariant W1 ∧
      (see_all = true →
        ∃ u1, W1.heap.lookup self = some u1 ∧ u1.invisibility_cache_.lookup loc = some b)) ∧
    (∀ self : Nat,
      registry_invariant (ambush W self) ∧ self ∉ (ambush W self).units_with_cache ∧
      ∀ u1, (ambush W self).heap.lookup self = some u1 → u1.invisibility_cache_ = []) ∧
    (registry_invariant (clear_status_caches W) ∧
      (clear_status_caches W).units_with_cache = [] ∧
      ∀ a u1, (clear_status_caches W).heap.lookup a = some u1 → u1.invisibility_cache_ = []) ∧
    (∀ (src dst : Nat) (o : unit), W.heap.lookup src = some o → W.heap.lookup dst = none →
      registry_invariant (copy_construct W src dst) ∧
      (copy_construct W src dst).heap.lookup dst = some { o with invisibility_cache_ := [] } ∧
      dst ∉ (copy_construct W src dst).units_with_cache) ∧
    (∀ self : Nat,
      registry_invariant (destroy W self) ∧ self ∉ (destroy W self).units_with_cache ∧
      (destroy W self).heap.lookup self = none) ∧
    (∀ (E : Env) (self : Nat) (loc : location) (units : List (location × Nat))
        (teams : List team) (see_all : Bool) (u : unit) (tm : team),
      W.heap.lookup self = some u → team_of teams u.side_ = some tm →
      board_alive W units teams →
      (invisible E W self loc units teams see_all).isSome = true) :=
  ⟨fun E self loc units teams see_all b W1 h =>
      invisible_invariant E W W1 self loc units teams see_all b h hinv,
    fun self => ambush_invariant W self hinv,
    clear_status_caches_invariant W hinv,
    fun src dst o hsrc hfree => copy_construct_invariant W src dst o hsrc hfree hinv,
    fun self => destroy_invariant W self hinv,
    fun E self loc units teams see_all u tm hself hteam halive =>
      invisible_returns E W self loc units teams u tm hself hteam halive see_all⟩

theorem lookup_mem {β : Type} (h : List (Nat × β)) (a : Nat) (x : β)
    (hl : h.lookup a = some x) : (a, x) ∈ h := by
  induction h with
  | nil => cases hl
  | cons p rest ih =>
    obtain ⟨k, v⟩ := p
    by_cases hk : a = k
    · simp only [List.lookup, hk, beq_self_eq_true, Option.some.injEq] at hl
      rw [hk, hl]
      exact List.mem_cons_self _ _
    · have hb : (a == k) = false := by rw [beq_eq_false_iff_ne]; exact hk
      simp only [List.lookup, hb] at hl
      exact List.mem_cons_of_mem _ (ih hl)

/-- A world without registered unit in which every cache is empty satisfies the
invariant of the registry. -/
theorem fresh_world_invariant (W : world) (h1 : W.units_with_cache = [])
    (h2 : ∀ p ∈ W.heap, p.2.invisibility_cache_ = []) : registry_invariant W := by
  constructor
  · rw [h1]; exact List.nodup_nil
  · intro a
    rw [h1]
    constructor
    · intro hm; cases hm
    · rintro ⟨u, hl, hne⟩
      exact absurd (h2 (a, u) (lookup_mem W.heap a u hl)) hne

theorem registry_invariant_preserved_witness :
    (registry_invariant (ambush duelWorld 0) ∧
      registry_invariant (clear_status_caches duelWorld) ∧
      registry_invariant (copy_construct duelWorld 0 2) ∧
      registry_invariant (destroy duelWorld 1)) ∧
    (invisible sampleEnv duelWorld 0 ⟨1, 1⟩ duelUnits twoTeams true).map
      (fun r => (r.1, r.2.units_with_cache)) = some (false, [0]) :=
  ⟨⟨((registry_invariant_preserved duelWorld
        (fresh_world_invariant duelWorld rfl (by decide))).2.1 0).1,
    (registry_invariant_preserved duelWorld
        (fresh_world_invariant duelWorld rfl (by decide))).2.2.1.1,
    ((registry_invariant_preserved duelWorld
        (fresh_world_invariant duelWorld rfl (by decide))).2.2.2.1 0 2 hiderUnit rfl rfl).1,
    ((registry_invariant_preserved duelWorld
        (fresh_world_invariant duelWorld rfl (by decide))).2.2.2.2.1 1).1⟩,
   by decide⟩

/-- A call with `see_all` set never reaches its nested call: its result is that
of the all-seeing check, whatever routine stands for the nested call. -/
theorem invisible_body_true (E : Env)
    (recurse : Nat → location → world → Option (Bool × world))
    (units : List (location × Nat)) (teams : List team) (a : Nat) (l : location) (W : world) :
    invisible_body E recurse W a l units teams true = invisible_all E units teams a l W := by
  unfold invisible_all
  cases hv : W.heap.lookup a with
  | none =>
    unfold invisible_body
    simp only [hv]
  | some v =>
    rw [invisible_body_all E recurse units teams a l W v hv,
      invisible_body_all E _ units teams a l W v hv]

theorem invisible_fuel_true (E : Env) (units : List (location × Nat)) (teams : List team)
    (n : Nat) (W : world) (a : Nat) (l : location) :
    invisible_fuel E units teams (n + 1) W a l true = invisible_all E units teams a l W := by
  rw [invisible_fuel]
  exact invisible_body_true E _ units teams a l W

theorem invisible_fuel_two (E : Env) (units : List (location × Nat)) (teams : List team)
    (n : Nat) (W : world) (self : Nat) (loc : location) (see_all : Bool) :
    invisible_fuel E units teams (n + 2) W self loc see_all =
      invisible E W self loc units teams see_all := by
  rw [invisible_fuel]
  have hf : (fun a l W1 => invisible_fuel E units teams (n + 1) W1 a l true) =
      invisible_all E units teams := by
    funext a l W1
    exact invisible_fuel_true E units teams n W1 a l
  rw [hf]
  rfl

/-- C18: on a board whose units are alive `invisible` returns, with `see_all`
set or not, also for mutually adjacent hidden enemies; the nested calls are calls
with `see_all` set, and such a call never reaches a nested call of its own, so a
nesting of two calls suffices: more fuel changes nothing. -/
theorem invisible_recursion_depth (E : Env) (W : world) (self : Nat) (loc : location)
    (units : List (location × Nat)) (teams : List team) (u : unit) (tm : team)
    (hself : W.heap.lookup self = some u)
    (hteam : team_of teams u.side_ = some tm)
    (halive : board_alive W units teams) :
    (∀ see_all : Bool, (invisible E W self loc units teams see_all).isSome = true) ∧
    (∀ (n : Nat) (see_all : Bool),
      invisible_fuel E units teams (n + 2) W self loc see_all =
        invisible E W self loc units teams see_all) ∧
    (∀ (n : Nat) (W1 : world) (a : Nat) (l : location),
      invisible_fuel E units teams (n + 1) W1 a l true = invisible_all E units teams a l W1) ∧
    (∀ (recurse : Nat → location → world → Option (Bool × world)) (W1 : world) (a : Nat)
        (l : location),
      invisible_body E recurse W1 a l units teams true = invisible_all E units teams a l W1) := by
  refine ⟨?_, fun n see_all => invisible_fuel_two E units teams n W self loc see_all,
    fun n W1 a l => invisible_fuel_true E units teams n W1 a l,
    fun recurse W1 a l => invisible_body_true E recurse units teams a l W1⟩
  exact invisible_returns E W self loc units teams u tm hself hteam halive

theorem invisible_recursion_depth_witness :
    ((invisible sampleEnv ambushWorld 0 ⟨1, 1⟩ duelUnits twoTeams false).isSome = true ∧
      (invisible sampleEnv ambushWorld 1 ⟨1, 2⟩ duelUnits twoTeams false).isSome = true) ∧
    (invisible sampleEnv ambushWorld 0 ⟨1, 1⟩ duelUnits twoTeams false).map (fun r => r.1) =
      some false :=
  ⟨⟨(invisible_recursion_depth sampleEnv ambushWorld 0 ⟨1, 1⟩ duelUnits twoTeams hiderUnit
        ⟨fun side => decide (side = 2), fun _ => false⟩ rfl rfl (by decide)).1 false,
    (invisible_recursion_depth sampleEnv ambushWorld 1 ⟨1, 2⟩ duelUnits twoTeams rivalUnit
        ⟨fun side => decide (side = 1), fun _ => false⟩ rfl rfl (by decide)).1 false⟩,
   by decide⟩

/-! ## Two effects from end to end: `hitpoints` and `movement_costs` (C19, C20) -/

theorem effect_round_plain (E : Env) (no_add : Bool) (eff : config) (s : St)
    (h1 : eff.attr "apply_to" ≠ "variation") (h2 : eff.attr "apply_to" ≠ "type") :
    effect_round E no_add eff s = .ok { s with u := apply_effect E eff s.u } := by
  unfold effect_round
  rw [if_neg (fun h => h1 h.1), if_neg (fun h => h2 h.1)]

/-- A record with a single effect, without filter and without repetition, whose
kind does not re-resolve the type: `add_modification` returns, the record is
entered into the ledger unless `no_add` is set, and the body of the effect runs
once on the unit, which differs from the unit before at most in its ledger. -/
theorem add_modification_single (E : Env) (kind : String) (mod : config) (no_add : Bool)
    (s : St) (eff : config) (hget : mod.get_children "effect" = [eff])
    (h1 : eff.attr "apply_to" ≠ "variation") (h2 : eff.attr "apply_to" ≠ "type")
    (ha : eff.attr "unit_type" = "") (hg : eff.attr "unit_gender" = "")
    (ht : eff.attr "times" ≠ "per level") :
    ∃ ledger : config,
      ledger = (if no_add = false then s.u.modifications_.add_child kind mod
        else s.u.modifications_) ∧
      add_modification E kind mod no_add s =
        .ok { s with u := apply_effect E eff { s.u with modifications_ := ledger } } := by
  have happ : ∀ v : unit, effect_applies E eff v = true := by
    intro v
    unfold effect_applies
    rw [ha, hg]
    rfl
  have htimes : ∀ v : unit, effect_times eff v = 1 := by
    intro v
    unfold effect_times
    rw [if_neg ht]
  refine ⟨_, rfl, ?_⟩
  unfold add_modification
  rw [hget]
  simp only [List.foldl_cons, List.foldl_nil, Res.andThen, happ, htimes, if_true]
  rw [effect_rounds, effect_round_plain E no_add eff _ h1 h2]
  simp only [Res.andThen]
  rw [effect_rounds]
  cases no_add <;> rfl

theorem hitpoints_scenario_max (E : Env) (hmod : E.apply_modifier 30 "+20%" 0 = 36) :
    hitpoints_new_max E (config.mk [("apply_to", "hitpoints"), ("increase_total", "+20%")] [])
      30 = 36 := by
  unfold hitpoints_new_max
  have e1 : (config.mk [("apply_to", "hitpoints"), ("increase_total", "+20%")] []).attr
      "set_total" = "" := rfl
  have e2 : (config.mk [("apply_to", "hitpoints"), ("increase_total", "+20%")] []).attr
      "increase_total" = "+20%" := rfl
  have hne : ("+20%" : String) ≠ "" := by decide
  simp only [e1, e2, ne_eq, not_true_eq_false, if_false, hne, not_false_eq_true, if_true, hmod]
  rfl

theorem hitpoints_scenario_hp (E : Env) (hmod : E.apply_modifier 30 "+20%" 0 = 36) (hp : Int)
    (hhp : 1 ≤ hp) :
    hitpoints_new_hp E (config.mk [("apply_to", "hitpoints"), ("increase_total", "+20%")] [])
      hp 30 = min hp 36 := by
  unfold hitpoints_new_hp
  rw [hitpoints_scenario_max E hmod]
  have e1 : (config.mk [("apply_to", "hitpoints"), ("increase_total", "+20%")] []).attr
      "set" = "" := rfl
  have e2 : (config.mk [("apply_to", "hitpoints"), ("increase_total", "+20%")] []).attr
      "heal_full" = "" := rfl
  have e3 : (config.mk [("apply_to", "hitpoints"), ("increase_total", "+20%")] []).attr
      "increase" = "" := rfl
  have e4 : (config.mk [("apply_to", "hitpoints"), ("increase_total", "+20%")] []).attr
      "violate_maximum" = "" := rfl
  simp only [e1, e2, e3, e4, ne_eq, not_true_eq_false, if_false, false_and, and_true]
  by_cases h : hp > 36
  · rw [if_pos h, if_neg (by decide), min_eq_right (le_of_lt h)]
  · rw [if_neg h, if_neg (by omega), min_eq_left (not_lt.mp h)]

/-- C19: for a unit with 30 maximum hitpoints and at least one hitpoint, and a
modifier routine that takes 30 by `+20%` to the percentage increment of the
specification, `add_modification` of a record whose single effect is
`apply_to=hitpoints`, `increase_total=+20%` returns, with 36 maximum hitpoints
and the hitpoints it had, capped at 36. -/
theorem hitpoints_increase_total_scenario (E : Env) (kind : String)
    (vals : List (String × String)) (no_add : Bool) (s : St)
    (hspec : E.apply_modifier 30 "+20%" 0 = percent_increment 30 20)
    (hmax : s.u.max_hit_points_ = 30) (hhp : 1 ≤ s.u.hit_points_) :
    ∃ s1 : St,
      add_modification E kind
        (config.mk vals
          [("effect", config.mk [("apply_to", "hitpoints"), ("increase_total", "+20%")] [])])
        no_add s = .ok s1 ∧
      s1.u.max_hit_points_ = 36 ∧ s1.u.hit_points_ = min s.u.hit_points_ 36 := by
  obtain ⟨ledger, _, hadd⟩ := add_modification_single E kind
    (config.mk vals
      [("effect", config.mk [("apply_to", "hitpoints"), ("increase_total", "+20%")] [])])
    no_add s
    (config.mk [("apply_to", "hitpoints"), ("increase_total", "+20%")] []) rfl
    (by decide) (by decide) rfl rfl (by decide)
  have hmod : E.apply_modifier 30 "+20%" 0 = 36 := by rw [hspec]; decide
  refine ⟨_, hadd, ?_, ?_⟩
  · rw [apply_effect_hitpoints_eq E _ _ (by rfl)]
    show hitpoints_new_max E _ s.u.max_hit_points_ = 36
    rw [hmax]
    exact hitpoints_scenario_max E hmod
  · rw [apply_effect_hitpoints_eq E _ _ (by rfl)]
    show hitpoints_new_hp E _ s.u.hit_points_ s.u.max_hit_points_ = _
    rw [hmax]
    exact hitpoints_scenario_hp E hmod _ hhp

theorem hitpoints_increase_total_scenario_witness :
    ∃ s1 : St,
      add_modification spearEnv "trait"
        (config.mk [("id", "resilient")]
          [("effect", config.mk [("apply_to", "hitpoints"), ("increase_total", "+20%")] [])])
        false ⟨plainUnit, zeroRng, zeroRng, 0⟩ = .ok s1 ∧
      s1.u.max_hit_points_ = 36 ∧ s1.u.hit_points_ = min plainUnit.hit_points_ 36 :=
  hitpoints_increase_total_scenario spearEnv "trait" [("id", "resilient")] false
    ⟨plainUnit, zeroRng, zeroRng, 0⟩ (by decide) rfl (by decide)

/-- A field that no effect body, neither the trait loop nor the closing step
writes is left alone by `apply_modifications`. -/
theorem apply_modifications_frame {α : Type} (f : unit → α) (E : Env)
    (hf : ∀ eff u, f (apply_effect E eff u) = f u)
    (hn : ∀ u, f (note_traits u) = f u)
    (hfin : ∀ n u, f (finish_modifications E n u) = f u) (u : unit) :
    f (apply_modifications E u) = f u := by
  unfold apply_modifications
  rw [hfin, records_frame f E hf, hn]

theorem apply_effect_attacks_left (E : Env) (eff : config) (u : unit) :
    (apply_effect E eff u).attacks_left_ = u.attacks_left_ ∧
    (apply_effect E eff u).max_attacks_ = u.max_attacks_ := by
  apply apply_effect_cases (fun v => v.attacks_left_ = u.attacks_left_ ∧
    v.max_attacks_ = u.max_attacks_) <;> intros <;> exact ⟨rfl, rfl⟩

theorem apply_modifications_attacks (E : Env) (u : unit) :
    (apply_modifications E u).attacks_left_ = u.attacks_left_ ∧
    (apply_modifications E u).max_attacks_ = u.max_attacks_ :=
  ⟨apply_modifications_frame (fun v => v.attacks_left_) E
      (fun eff v => (apply_effect_attacks_left E eff v).1) (fun _ => rfl) (fun _ _ => rfl) u,
   apply_modifications_frame (fun v => v.max_attacks_) E
      (fun eff v => (apply_effect_attacks_left E eff v).2) (fun _ => rfl) (fun _ _ => rfl) u⟩

/-- The state in which `advance_to` applies the ledger: the attacks left are
those the unit had, the attacks per turn are those of the new type. -/
theorem advance_to_attacks_stage (E : Env) (t0 : unit_type) (use_traits state : Bool)
    (s s1 : St) (h : advance_to E t0 use_traits state s = .ok s1) :
    ∃ v : unit,
      v.attacks_left_ = s.u.attacks_left_ ∧
      v.max_attacks_ = (E.variant t0 s.u.gender_ s.u.variation_).max_attacks ∧
      s1.u = advance_finish E
        (decide (s.u.type_id ≠ (E.variant t0 s.u.gender_ s.u.variation_).id)) v := by
  unfold advance_to at h
  simp only at h
  split at h
  · cases h
  · rename_i u1 hreset
    split at h
    · cases h
    · rename_i ty hty
      have hres : u1.type_ = s.u.type_ ∧ u1.attacks_left_ = s.u.attacks_left_ := by
        unfold reset_modifications at hreset
        split at hreset
        · cases hreset
        · cases hreset; exact ⟨rfl, rfl⟩
        · cases hreset; exact ⟨rfl, rfl⟩
      obtain ⟨c, hc⟩ := advance_gender_unit E (E.variant t0 s.u.gender_ s.u.variation_)
        { s with u := advance_prepare E (E.variant t0 s.u.gender_ s.u.variation_) ty u1 }
      generalize advance_gender E (E.variant t0 s.u.gender_ s.u.variation_) _ = s3 at h hc
      have h3type : s3.u.type_id = s.u.type_id := by
        show s3.u.type_ = s.u.type_
        rw [hc]; exact hres.1
      rw [h3type] at h
      cases h4 : advance_traits E use_traits state
          (advance_type (E.variant t0 s.u.gender_ s.u.variation_) s3) with
      | thrown e s5 => rw [h4] at h; cases h
      | ok s5 =>
        rw [h4] at h
        simp only [Res.andThen] at h
        cases h
        have h5 : ∃ c l, s5.u = { (advance_type (E.variant t0 s.u.gender_ s.u.variation_) s3).u
            with cfg_ := c, modifications_ := l } := by
          unfold advance_traits at h4
          split at h4
          · exact generate_traits_ok_unit E _ _ _ _ h4
          · exact generate_traits_ok_unit E _ _ _ _ h4
        obtain ⟨c5, l5, h5⟩ := h5
        refine ⟨s5.u, ?_, ?_, rfl⟩
        · rw [h5]
          show (advance_type (E.variant t0 s.u.gender_ s.u.variation_) s3).u.attacks_left_ = _
          unfold advance_type
          split
          · show s3.u.attacks_left_ = _; rw [hc]; exact hres.2
          · rw [hc]; exact hres.2
        · rw [h5]
          show (advance_type (E.variant t0 s.u.gender_ s.u.variation_) s3).u.max_attacks_ = _
          unfold advance_type
          split
          · show s3.u.max_attacks_ = _; rw [hc]; rfl
          · rw [hc]; rfl

theorem advance_finish_attacks (E : Env) (dh : Bool) (v : unit) :
    (advance_finish E dh v).attacks_left_ = v.attacks_left_ ∧
    (advance_finish E dh v).max_attacks_ = v.max_attacks_ := by
  have ha := apply_modifications_attacks E v
  unfold advance_finish
  generalize apply_modifications E v = w at ha
  cases dh <;> exact ha

/-- C22, as amended: when `advance_to(t)` returns, the attacks per turn are
those of the new type and the attacks left are the ones the unit had before, so
that they lie between 0 and the attacks per turn exactly when the old count does;
after `new_turn` the attacks left are the attacks per turn, which `new_turn`
leaves as they were. -/
theorem attacks_after_advance_and_turn (E : Env) (t0 : unit_type) (use_traits state : Bool)
    (s s1 : St) (h : advance_to E t0 use_traits state s = .ok s1) :
    s1.u.max_attacks_ = (E.variant t0 s.u.gender_ s.u.variation_).max_attacks ∧
    s1.u.attacks_left_ = s.u.attacks_left_ ∧
    ((0 ≤ s1.u.attacks_left_ ∧ s1.u.attacks_left_ ≤ s1.u.max_attacks_) ↔
      (0 ≤ s.u.attacks_left_ ∧
        s.u.attacks_left_ ≤ (E.variant t0 s.u.gender_ s.u.variation_).max_attacks)) ∧
    (∀ u : unit, (new_turn u).attacks_left_ = (new_turn u).max_attacks_ ∧
      (new_turn u).max_attacks_ = u.max_attacks_) := by
  obtain ⟨v, hv1, hv2, hs1⟩ := advance_to_attacks_stage E t0 use_traits state s s1 h
  obtain ⟨f1, f2⟩ := advance_finish_attacks E
    (decide (s.u.type_id ≠ (E.variant t0 s.u.gender_ s.u.variation_).id)) v
  have e1 : s1.u.max_attacks_ = (E.variant t0 s.u.gender_ s.u.variation_).max_attacks := by
    rw [hs1, f2, hv2]
  have e2 : s1.u.attacks_left_ = s.u.attacks_left_ := by rw [hs1, f1, hv1]
  refine ⟨e1, e2, by rw [e1, e2], ?_⟩
  intro u
  unfold new_turn
  simp only
  split <;> exact ⟨rfl, rfl⟩

theorem attacks_after_advance_and_turn_witness :
    (advance_to spearEnv sampleType false false ⟨plainUnit, zeroRng, zeroRng, 0⟩).isOk = true ∧
    (advance_to spearEnv sampleType false false
      ⟨plainUnit, zeroRng, zeroRng, 0⟩).state.u.max_attacks_ = 1 ∧
    (advance_to spearEnv sampleType false false
      ⟨plainUnit, zeroRng, zeroRng, 0⟩).state.u.attacks_left_ = 0 :=
  ⟨by decide,
   (attacks_after_advance_and_turn spearEnv sampleType false false
      ⟨plainUnit, zeroRng, zeroRng, 0⟩ _ (Res.eq_ok_state _ (by decide))).1,
   (attacks_after_advance_and_turn spearEnv sampleType false false
      ⟨plainUnit, zeroRng, zeroRng, 0⟩ _ (Res.eq_ok_state _ (by decide))).2.1⟩

/-- C22 as stated fails: a Spearman with three attacks left that advances to
the Spearman type, which has one attack per turn, keeps its three attacks left. -/
theorem advance_keeps_attacks_left :
    (advance_to spearEnv sampleType false false ⟨eagerUnit, zeroRng, zeroRng, 0⟩).isOk = true ∧
    (advance_to spearEnv sampleType false false
      ⟨eagerUnit, zeroRng, zeroRng, 0⟩).state.u.attacks_left_ = 3 ∧
    (advance_to spearEnv sampleType false false
      ⟨eagerUnit, zeroRng, zeroRng, 0⟩).state.u.max_attacks_ = 1 := by
  refine ⟨by decide, by decide, by decide⟩

/-- C29, as amended: `heal` leaves at least one hitpoint and never more than
the largest of the old hitpoints, the maximum and one; below the maximum the
result is `max(1, min(max_hitpoints, old + amount))`, at or above the maximum
the hitpoints stay, apart from the floor of one; nothing else changes. -/
theorem heal_bounds (u : unit) (amount : Int) :
    1 ≤ (heal u amount).hit_points_ ∧
    (heal u amount).hit_points_ ≤ max (max u.hit_points_ u.max_hitpoints) 1 ∧
    (u.hit_points_ < u.max_hitpoints →
      (heal u amount).hit_points_ = max 1 (min u.max_hitpoints (u.hit_points_ + amount))) ∧
    (u.max_hitpoints ≤ u.hit_points_ → (heal u amount).hit_points_ = max 1 u.hit_points_) ∧
    heal u amount = { u with hit_points_ := (heal u amount).hit_points_ } := by
  have e : (heal u amount).hit_points_ =
      (if (if u.hit_points_ < u.max_hit_points_ then
            (if u.hit_points_ + amount > u.max_hit_points_ then u.max_hit_points_
             else u.hit_points_ + amount)
          else u.hit_points_) < 1 then 1
       else (if u.hit_points_ < u.max_hit_points_ then
            (if u.hit_points_ + amount > u.max_hit_points_ then u.max_hit_points_
             else u.hit_points_ + amount)
          else u.hit_points_)) := rfl
  refine ⟨?_, ?_, ?_, ?_, rfl⟩
  · rw [e]
    split_ifs <;> omega
  · rw [e]
    show _ ≤ max (max u.hit_points_ u.max_hit_points_) 1
    simp only [max_def]
    split_ifs <;> omega
  · intro hlt
    rw [e]
    show _ = max 1 (min u.max_hit_points_ (u.hit_points_ + amount))
    have hlt1 : u.hit_points_ < u.max_hit_points_ := hlt
    simp only [max_def, min_def]
    split_ifs <;> omega
  · intro hge
    rw [e]
    have hge1 : u.max_hit_points_ ≤ u.hit_points_ := hge
    simp only [max_def]
    split_ifs <;> omega

/-- C29 as stated fails: a unit with no hitpoints out of none, the state the
constructors start from, has one hitpoint after `heal`, more than both its old
hitpoints and its maximum. -/
theorem heal_floor_exceeds_both :
    blankUnit.hit_points_ = 0 ∧ blankUnit.max_hitpoints = 0 ∧
    (heal blankUnit 5).hit_points_ = 1 := by
  refine ⟨rfl, rfl, by decide⟩

/-! ## The forms of a numeric delta and the repetition of an effect (C23, C24) -/

theorem apply_effect_movement_eq (E : Env) (eff : config) (u : unit)
    (h : eff.attr "apply_to" = "movement") :
    apply_effect E eff u = effect_movement E eff u := by
  unfold apply_effect
  rw [h]
  rfl

theorem apply_effect_max_experience_eq (E : Env) (eff : config) (u : unit)
    (h : eff.attr "apply_to" = "max_experience") :
    apply_effect E eff u = effect_max_experience E eff u := by
  unfold apply_effect
  rw [h]
  rfl

/-- C23, as amended: the increments of the `hitpoints`, `movement` and
`max_experience` effects all go through `apply_modifier`; the `set_total` of a
`hitpoints` effect is a percentage of the maximum when it ends in a percent sign
and an absolute number otherwise; the `set` of a `movement` effect is read by
`atoi` whatever its form; a `max_experience` effect without `increase` changes
nothing. -/
theorem numeric_delta_forms (E : Env) (eff : config) (u : unit) :
    (eff.attr "apply_to" = "hitpoints" → eff.attr "set_total" ≠ "" →
      eff.attr "increase_total" = "" →
      (apply_effect E eff u).max_hit_points_ =
        max 1 (if ends_percent (eff.attr "set_total") = true then
            (E.lexical_cast_int (eff.attr "set_total") 0 * u.max_hit_points_).tdiv 100
          else E.lexical_cast_int (eff.attr "set_total") 0)) ∧
    (eff.attr "apply_to" = "movement" → eff.attr "set" ≠ "" →
      (apply_effect E eff u).max_movement_ = E.atoi (eff.attr "set")) ∧
    (eff.attr "apply_to" = "hitpoints" → eff.attr "set_total" = "" →
      eff.attr "increase_total" ≠ "" →
      (apply_effect E eff u).max_hit_points_ =
        max 1 (E.apply_modifier u.max_hit_points_ (eff.attr "increase_total") 0)) ∧
    (eff.attr "apply_to" = "movement" → eff.attr "set" = "" → eff.attr "increase" ≠ "" →
      (apply_effect E eff u).max_movement_ =
        E.apply_modifier u.max_movement_ (eff.attr "increase") 1) ∧
    (eff.attr "apply_to" = "max_experience" → eff.attr "increase" ≠ "" →
      (apply_effect E eff u).max_experience_ =
        E.apply_modifier u.max_experience_ (eff.attr "increase") 1) ∧
    (eff.attr "apply_to" = "max_experience" → eff.attr "increase" = "" →
      apply_effect E eff u = u) := by
  refine ⟨?_, ?_, ?_, ?_, ?_, ?_⟩
  · intro h hs hi
    rw [apply_effect_hitpoints_eq E eff u h]
    show hitpoints_new_max E eff u.max_hit_points_ = _
    unfold hitpoints_new_max
    simp only [hi, ne_eq, not_true_eq_false, if_false, hs, not_false_eq_true, if_true]
    rw [max_def]
    by_cases hp : ends_percent (eff.attr "set_total") = true
    · simp only [hp, if_true]
      split_ifs <;> omega
    · simp only [hp, if_false]
      split_ifs <;> omega
  · intro h hs
    rw [apply_effect_movement_eq E eff u h]
    show movement_new_max E eff u.max_movement_ = _
    unfold movement_new_max
    simp only [hs, ne_eq, not_false_eq_true, if_true]
  · intro h hs hi
    rw [apply_effect_hitpoints_eq E eff u h]
    show hitpoints_new_max E eff u.max_hit_points_ = _
    unfold hitpoints_new_max
    simp only [hs, ne_eq, not_true_eq_false, if_false, hi, not_false_eq_true, if_true]
    rw [max_def]
    split_ifs <;> omega
  · intro h hs hi
    rw [apply_effect_movement_eq E eff u h]
    show movement_new_max E eff u.max_movement_ = _
    unfold movement_new_max
    simp only [hs, ne_eq, not_true_eq_false, if_false, hi, not_false_eq_true, if_true]
  · intro h hi
    rw [apply_effect_max_experience_eq E eff u h]
    show (if eff.attr "increase" ≠ "" then _ else _) = _
    rw [if_pos hi]
  · intro h hi
    rw [apply_effect_max_experience_eq E eff u h]
    unfold effect_max_experience
    simp only [hi, ne_eq, not_true_eq_false, if_false]

/-- C23 as stated fails: a `movement` effect with `set=50%` on a unit with ten
moves sets the maximum movement to 50, not to 5, while a `hitpoints` effect with
`set_total=50%` on 30 maximum hitpoints gives 15. -/
theorem movement_set_ignores_percent :
    (apply_effect sampleEnv (config.mk [("apply_to", "movement"), ("set", "50%")] [])
      swiftUnit).max_movement_ = 50 ∧
    (apply_effect sampleEnv (config.mk [("apply_to", "movement"), ("set", "50")] [])
      swiftUnit).max_movement_ = 50 ∧
    (apply_effect sampleEnv (config.mk [("apply_to", "hitpoints"), ("set_total", "50%")] [])
      plainUnit).max_hit_points_ = 15 := by
  refine ⟨by decide, by decide, by decide⟩

/-- The loop of a record with a single effect that passes the filters: the
record is entered into the ledger unless `no_add` is set, then the rounds of the
effect run. -/
theorem add_modification_rounds (E : Env) (kind : String) (mod : config) (no_add : Bool)
    (s : St) (eff : config) (hget : mod.get_children "effect" = [eff])
    (happ : effect_applies E eff s.u = true) :
    add_modification E kind mod no_add s =
      effect_rounds E no_add eff (effect_times eff s.u)
        { s with u := { s.u with modifications_ :=
            (if no_add = false then s.u.modifications_.add_child kind mod
             else s.u.modifications_) } } := by
  unfold add_modification
  rw [hget]
  cases no_add
  · have happ1 : effect_applies E eff
        ({ s.u with modifications_ := s.u.modifications_.add_child kind mod } : unit) = true :=
      happ
    simp only [List.foldl_cons, List.foldl_nil, Res.andThen, if_true, happ1]
    rfl
  · simp only [List.foldl_cons, List.foldl_nil, Res.andThen, Bool.true_eq_false, if_false, happ,
      if_true]

theorem effect_rounds_plain (E : Env) (no_add : Bool) (eff : config)
    (h1 : eff.attr "apply_to" ≠ "variation") (h2 : eff.attr "apply_to" ≠ "type")
    (n : Nat) (s : St) :
    effect_rounds E no_add eff n s =
      .ok { s with u := iterate_unit (apply_effect E eff) n s.u } := by
  induction n generalizing s with
  | zero => rfl
  | succ n ih =>
    rw [effect_rounds, effect_round_plain E no_add eff s h1 h2]
    simp only [Res.andThen]
    rw [ih]
    rfl

theorem iterate_unit_idempotent (f : unit → unit) (hf : ∀ v, f (f v) = f v) (n : Nat)
    (v : unit) : iterate_unit f (n + 1) v = f v := by
  induction n generalizing v with
  | zero => rfl
  | succ n ih =>
    rw [iterate_unit, ih, hf]

theorem set_style_max (E : Env) (eff : config) (hs : set_style eff) (m : Int) :
    hitpoints_new_max E eff m =
      (if (if eff.attr "set_total" ≠ "" then
            (if ends_percent (eff.attr "set_total") = true then
              (E.lexical_cast_int (eff.attr "set_total") 0 * m).tdiv 100
             else E.lexical_cast_int (eff.attr "set_total") 0)
          else m) < 1 then 1
       else (if eff.attr "set_total" ≠ "" then
            (if ends_percent (eff.attr "set_total") = true then
              (E.lexical_cast_int (eff.attr "set_total") 0 * m).tdiv 100
             else E.lexical_cast_int (eff.attr "set_total") 0)
          else m)) := by
  unfold hitpoints_new_max
  simp only [hs.2.2.1, ne_eq, not_true_eq_false, if_false]

theorem set_style_hp (E : Env) (eff : config) (hs : set_style eff) (hp m : Int) :
    hitpoints_new_hp E eff hp m =
      (if (if (if eff.attr "set" ≠ "" then
                (if ends_percent (eff.attr "set") = true then
                  (E.lexical_cast_int (eff.attr "set") 0 * m).tdiv 100
                 else E.lexical_cast_int (eff.attr "set") 0)
              else hp) > hitpoints_new_max E eff m then hitpoints_new_max E eff m
           else (if eff.attr "set" ≠ "" then
                (if ends_percent (eff.attr "set") = true then
                  (E.lexical_cast_int (eff.attr "set") 0 * m).tdiv 100
                 else E.lexical_cast_int (eff.attr "set") 0)
              else hp)) < 1 then 1
       else (if (if eff.attr "set" ≠ "" then
                (if ends_percent (eff.attr "set") = true then
                  (E.lexical_cast_int (eff.attr "set") 0 * m).tdiv 100
                 else E.lexical_cast_int (eff.attr "set") 0)
              else hp) > hitpoints_new_max E eff m then hitpoints_new_max E eff m
           else (if eff.attr "set" ≠ "" then
                (if ends_percent (eff.attr "set") = true then
                  (E.lexical_cast_int (eff.attr "set") 0 * m).tdiv 100
                 else E.lexical_cast_int (eff.attr "set") 0)
              else hp))) := by
  unfold hitpoints_new_hp
  simp only [hs.2.1, hs.2.2.2.1, hs.2.2.2.2, ne_eq, not_true_eq_false, if_false, false_and,
    and_true]

/-- A `hitpoints` effect that uses only `set` and `set_total` in the forms of
`absolute_total` gives, applied to its own result, that result again. -/
theorem set_style_idempotent (E : Env) (eff : config) (hs : set_style eff)
    (ha : absolute_total eff) (v : unit) :
    apply_effect E eff (apply_effect E eff v) = apply_effect E eff v := by
  rw [apply_effect_hitpoints_eq E eff _ hs.1, apply_effect_hitpoints_eq E eff _ hs.1]
  have hmax : ∀ m, hitpoints_new_max E eff (hitpoints_new_max E eff m) =
      hitpoints_new_max E eff m := by
    intro m
    rw [set_style_max E eff hs (hitpoints_new_max E eff m), set_style_max E eff hs m]
    rcases ha with h0 | ⟨hp, _⟩
    · simp only [h0, ne_eq, not_true_eq_false, if_false]
      split_ifs <;> omega
    · simp only [hp, Bool.false_eq_true, if_false]
      split_ifs <;> omega
  have hhp : ∀ hp m, hitpoints_new_hp E eff (hitpoints_new_hp E eff hp m)
      (hitpoints_new_max E eff m) = hitpoints_new_hp E eff hp m := by
    intro hp m
    rw [set_style_hp E eff hs (hitpoints_new_hp E eff hp m) (hitpoints_new_max E eff m),
      set_style_hp E eff hs hp m, hmax m]
    have hpos := hitpoints_new_max_pos E eff m
    generalize hM : hitpoints_new_max E eff m = M at hpos
    rcases ha with h0 | ⟨hp1, h1 | h1⟩
    · have hM1 : M = if m < 1 then 1 else m := by
        rw [← hM, set_style_max E eff hs m]
        simp only [h0, ne_eq, not_true_eq_false, if_false]
      by_cases hset : eff.attr "set" = ""
      · simp only [hset, ne_eq, not_true_eq_false, if_false]
        split_ifs <;> omega
      · by_cases hpc : ends_percent (eff.attr "set") = true
        · simp only [hset, ne_eq, not_false_eq_true, if_true, hpc]
          by_cases hm : m < 1
          · rw [if_pos hm] at hM1
            subst hM1
            generalize (E.lexical_cast_int (eff.attr "set") 0 * m).tdiv 100 = q1
            generalize (E.lexical_cast_int (eff.attr "set") 0 * 1).tdiv 100 = q2
            split_ifs <;> omega
          · rw [if_neg hm] at hM1
            subst hM1
            generalize (E.lexical_cast_int (eff.attr "set") 0 * M).tdiv 100 = q1
            split_ifs <;> omega
        · simp only [hset, ne_eq, not_false_eq_true, if_true, hpc, Bool.false_eq_true, if_false]
    · simp only [h1, ne_eq, not_true_eq_false, if_false]
      split_ifs <;> omega
    · by_cases hset : eff.attr "set" = ""
      · simp only [hset, ne_eq, not_true_eq_false, if_false]
        split_ifs <;> omega
      · simp only [hset, ne_eq, not_false_eq_true, if_true, h1, Bool.false_eq_true, if_false]
  unfold effect_hitpoints
  simp only [hmax, hhp]

/-- C24, as amended: a record with a single effect that passes the filters runs
the rounds of the effect as often as the level of the unit says when the effect
has `times=per level`, and once otherwise; for an effect that does not
re-resolve the type that is the repeated body; and a `hitpoints` effect that
uses only `set` and `set_total`, with `set_total` absent or absolute and, next to
a `set_total`, `set` absent or absolute, gives after any positive number of
repetitions the unit a single application gives. -/
theorem per_level_repetition (E : Env) (kind : String) (mod : config) (no_add : Bool)
    (s : St) (eff : config) (L : Nat) (hget : mod.get_children "effect" = [eff])
    (happ : effect_applies E eff s.u = true) (hL : s.u.level_ = (L : Int)) :
    add_modification E kind mod no_add s =
      effect_rounds E no_add eff (if eff.attr "times" = "per level" then L else 1)
        { s with u := { s.u with modifications_ :=
            (if no_add = false then s.u.modifications_.add_child kind mod
             else s.u.modifications_) } } ∧
    (eff.attr "apply_to" ≠ "variation" → eff.attr "apply_to" ≠ "type" →
      add_modification E kind mod no_add s =
        .ok { s with u := (iterate_unit (apply_effect E eff)
          (if eff.attr "times" = "per level" then L else 1)
          { s.u with modifications_ :=
            (if no_add = false then s.u.modifications_.add_child kind mod
             else s.u.modifications_) }) }) ∧
    (set_style eff → absolute_total eff →
      ∀ (n : Nat) (v : unit),
        iterate_unit (apply_effect E eff) (n + 1) v = apply_effect E eff v) := by
  have ht : effect_times eff s.u = if eff.attr "times" = "per level" then L else 1 := by
    unfold effect_times
    rw [hL]
    rfl
  have hr := add_modification_rounds E kind mod no_add s eff hget happ
  rw [ht] at hr
  refine ⟨hr, ?_, ?_⟩
  · intro h1 h2
    rw [hr, effect_rounds_plain E no_add eff h1 h2]
  · intro hs ha n v
    exact iterate_unit_idempotent _ (set_style_idempotent E eff hs ha) n v

theorem per_level_repetition_witness :
    (add_modification sampleEnv "object"
        (config.mk [] [("effect", halfOfSixtyEffect)]) true
        ⟨veteranSpearman, zeroRng, zeroRng, 0⟩ =
      effect_rounds sampleEnv true halfOfSixtyEffect
        (if halfOfSixtyEffect.attr "times" = "per level" then 2 else 1)
        { (⟨veteranSpearman, zeroRng, zeroRng, 0⟩ : St) with
          u := { veteranSpearman with modifications_ :=
            (if true = false then
              veteranSpearman.modifications_.add_child "object"
                (config.mk [] [("effect", halfOfSixtyEffect)])
             else veteranSpearman.modifications_) } }) ∧
    (add_modification sampleEnv "object"
        (config.mk [] [("effect", halfOfSixtyEffect)]) true
        ⟨veteranSpearman, zeroRng, zeroRng, 0⟩).state.u.max_hit_points_ = 60 ∧
    (set_style steadyEffect ∧ absolute_total steadyEffect ∧
      iterate_unit (apply_effect sampleEnv steadyEffect) (1 + 1) veteranSpearman =
        apply_effect sampleEnv steadyEffect veteranSpearman) :=
  ⟨(per_level_repetition sampleEnv "object" (config.mk [] [("effect", halfOfSixtyEffect)]) true
      ⟨veteranSpearman, zeroRng, zeroRng, 0⟩ halfOfSixtyEffect 2 rfl (by decide) rfl).1,
   by decide,
   ⟨rfl, rfl, rfl, rfl, rfl⟩, Or.inr ⟨rfl, Or.inr rfl⟩,
   (per_level_repetition sampleEnv "object" (config.mk [] [("effect", steadyEffect)]) true
      ⟨veteranSpearman, zeroRng, zeroRng, 0⟩ steadyEffect 2 rfl (by decide) rfl).2.2
      ⟨rfl, rfl, rfl, rfl, rfl⟩ (Or.inr ⟨rfl, Or.inr rfl⟩) 1 veteranSpearman⟩

/-- C24 as stated fails for the percentage forms: with `set_total=50%` a unit
of level 2 with 40 maximum hitpoints ends at 10 where a single application gives
20; with `set=50%` next to `set_total=60` the same unit ends with 30 hitpoints
where a single application gives 20. -/
theorem percentage_set_repeats :
    ((add_modification sampleEnv "object" (config.mk [] [("effect", halvingEffect)]) true
        ⟨veteranSpearman, zeroRng, zeroRng, 0⟩).state.u.max_hit_points_ = 10 ∧
      (apply_effect sampleEnv halvingEffect veteranSpearman).max_hit_points_ = 20) ∧
    ((add_modification sampleEnv "object" (config.mk [] [("effect", halfOfSixtyEffect)]) true
        ⟨veteranSpearman, zeroRng, zeroRng, 0⟩).state.u.hit_points_ = 30 ∧
      (apply_effect sampleEnv halfOfSixtyEffect veteranSpearman).hit_points_ = 20) := by
  refine ⟨⟨by decide, by decide⟩, by decide, by decide⟩

/-! ## The alias fold on the `revert` flag (C21) -/

/-- The state of the fold on the flag that belongs to a state of the fold on
the mode. -/
theorem revert_step_of_mode
    (resolve : String → List (String × Int) → Option (Int × List (String × Int)))
    (st : Option alias_state) (token : String) :
    revert_fold_step resolve
        (st.map (fun a => ⟨decide (a.mode = alias_mode.decreasing), a.value, a.cache⟩)) token =
      (alias_fold_step resolve st token).map
        (fun a => ⟨decide (a.mode = alias_mode.decreasing), a.value, a.cache⟩) := by
  cases st with
  | none => rfl
  | some a =>
    obtain ⟨mode, value, cache⟩ := a
    unfold revert_fold_step alias_fold_step
    simp only [Option.map_some']
    by_cases hp : token = PLUS
    · rw [if_pos hp, if_pos hp]
      rfl
    · rw [if_neg hp, if_neg hp]
      by_cases hm : token = MINUS
      · rw [if_pos hm, if_pos hm]
        rfl
      · rw [if_neg hm, if_neg hm]
        cases hr : resolve token cache with
        | none => rfl
        | some r =>
          obtain ⟨v, c⟩ := r
          cases mode with
          | increasing =>
            simp only [Option.map_some']
            have e : min value v = if v < value then v else value := by
              rw [min_def]; split_ifs <;> omega
            show some (revert_state.mk false (min value v) c) = _
            rw [e]
            rfl
          | decreasing =>
            simp only [Option.map_some']
            have e : max value v = if v > value then v else value := by
              rw [max_def]; split_ifs <;> omega
            show some (revert_state.mk true (max value v) c) = _
            rw [e]
            rfl

theorem revert_foldl_of_mode
    (resolve : String → List (String × Int) → Option (Int × List (String × Int)))
    (tokens : List String) (st : Option alias_state) :
    tokens.foldl (revert_fold_step resolve)
        (st.map (fun a => ⟨decide (a.mode = alias_mode.decreasing), a.value, a.cache⟩)) =
      (tokens.foldl (alias_fold_step resolve) st).map
        (fun a => ⟨decide (a.mode = alias_mode.decreasing), a.value, a.cache⟩) := by
  induction tokens generalizing st with
  | nil => rfl
  | cons t rest ih =>
    rw [List.foldl_cons, List.foldl_cons, revert_step_of_mode, ih]

/-- The fold on the flag gives the value of the fold on the mode. -/
theorem revert_fold_value
    (resolve : String → List (String × Int) → Option (Int × List (String × Int)))
    (sentinel : Int) (tokens : List String) (cache : List (String × Int)) :
    (revert_fold resolve sentinel tokens cache).map (fun a => a.ret) =
      (alias_fold resolve sentinel tokens cache).map (fun a => a.value) := by
  have h := revert_foldl_of_mode resolve tokens
    (some
      { mode := if tokens.head? = some MINUS then alias_mode.decreasing else alias_mode.increasing
        value := if tokens.head? = some MINUS then 0 else sentinel
        cache := cache })
  have e : revert_fold resolve sentinel tokens cache =
      tokens.foldl (revert_fold_step resolve)
        ((some
          { mode := if tokens.head? = some MINUS then alias_mode.decreasing
              else alias_mode.increasing
            value := if tokens.head? = some MINUS then 0 else sentinel
            cache := cache } : Option alias_state).map
          (fun a => ⟨decide (a.mode = alias_mode.decreasing), a.value, a.cache⟩)) := by
    unfold revert_fold
    by_cases hm : tokens.head? = some MINUS
    · simp only [hm, if_true, Option.map_some', decide_True]
    · simp only [hm, if_false, Option.map_some', decide_False]
      rfl
  rw [e, h]
  unfold alias_fold
  cases List.foldl (alias_fold_step resolve) _ tokens <;> rfl

/-- C21, as amended: for an alias that is not cached and is resolved below
depth 100, `movement_cost_internal` and `defense_modifier` return the `ret` of
the fold in which `revert` starts as "the first token is MINUS", a MINUS token
turns `revert` on and a PLUS token turns it off, and the resolved value of every
other entry gives `ret = min(ret, val)` when `revert` is off and
`ret = max(ret, val)` when it is on; they do return when no terrain has an empty
underlying list. -/
theorem alias_fold_sets_revert (E : Env) (u : unit) (terrain : String) (rc : Int)
    (front : String) (others : List String) (halias : front :: others ≠ [terrain])
    (hrc : rc < 100) :
    (u.movement_costs_.lookup terrain = none →
      E.underlying_mvt_terrain terrain = front :: others →
      (movement_cost_internal E u terrain rc).map (fun r => r.1) =
        (revert_fold (resolve_movement E u (rc + 1)) 10000000 (front :: others)
          u.movement_costs_).map (fun a => a.ret) ∧
      ((∀ t, E.underlying_mvt_terrain t ≠ []) →
        (movement_cost_internal E u terrain rc).isSome = true)) ∧
    (u.defense_mods_.lookup terrain = none →
      E.underlying_def_terrain terrain = front :: others →
      (defense_modifier E u terrain rc).map (fun r => r.1) =
        (revert_fold (resolve_defense E u (rc + 1)) 100 (front :: others)
          u.defense_mods_).map (fun a => a.ret) ∧
      ((∀ t, E.underlying_def_terrain t ≠ []) →
        (defense_modifier E u terrain rc).isSome = true)) := by
  refine ⟨fun hcache hu => ⟨?_, fun hne => ?_⟩, fun hcache hu => ⟨?_, fun hne => ?_⟩⟩
  · rw [revert_fold_value]
    exact movement_alias_fold E u terrain rc front others hcache hu halias hrc
  · unfold movement_cost_internal
    rw [Option.isSome_map']
    exact movement_cost_aux_isSome E u.cfg_ hne _ _ _ _ (le_refl _)
  · rw [revert_fold_value]
    exact defense_alias_fold E u terrain rc front others hcache hu halias hrc
  · unfold defense_modifier
    rw [Option.isSome_map']
    exact defense_modifier_aux_isSome E u.cfg_ hne _ _ _ _ (le_refl _)

theorem alias_fold_sets_revert_witness :
    ((movement_cost_internal flipEnv costUnit "Mix" 0).map (fun r => r.1) = some 2 ∧
      (revert_fold (resolve_movement flipEnv costUnit (0 + 1)) 10000000 ["A", "+", "B"]
        costUnit.movement_costs_).map (fun a => a.ret) = some 2) ∧
    ((defense_modifier flipEnv costUnit "Mix" 0).map (fun r => r.1) = some 40 ∧
      (revert_fold (resolve_defense flipEnv costUnit (0 + 1)) 100 ["A", "+", "B"]
        costUnit.defense_mods_).map (fun a => a.ret) = some 40) := by
  have h := alias_fold_sets_revert flipEnv costUnit "Mix" 0 "A" ["+", "B"]
    (by decide) (by decide)
  have hm := (h.1 (by decide) (by decide)).1
  have hd := (h.2 (by decide) (by decide)).1
  have vm : (movement_cost_internal flipEnv costUnit "Mix" 0).map (fun r => r.1) = some 2 := by
    decide
  have vd : (defense_modifier flipEnv costUnit "Mix" 0).map (fun r => r.1) = some 40 := by
    decide
  exact ⟨⟨vm, by rw [← hm]; exact vm⟩, ⟨vd, by rw [← hd]; exact vd⟩⟩

/-- C21 as stated fails: for the alias `Mix`, which stands for `A` (cost 2),
PLUS and `B` (cost 5), `movement_cost_internal` returns 2, while the fold in
which every operator token flips `revert` turns to the maximum at the PLUS token
and gives 5; and a unit whose cache holds 9 for `Mix` gets 9, whatever the fold
gives. -/
theorem flipping_fold_differs :
    (movement_cost_internal flipEnv costUnit "Mix" 0).map (fun r => r.1) = some 2 ∧
    (flip_fold (resolve_movement flipEnv costUnit (0 + 1)) 10000000 ["A", "+", "B"]
      costUnit.movement_costs_).map (fun a => a.ret) = some 5 ∧
    (movement_cost_internal flipEnv staleUnit "Mix" 0).map (fun r => r.1) = some 9 ∧
    (revert_fold (resolve_movement flipEnv staleUnit (0 + 1)) 10000000 ["A", "+", "B"]
      staleUnit.movement_costs_).map (fun a => a.ret) = some 2 := by
  refine ⟨by decide, by decide, by decide, by decide⟩

/-! ## The type clause and the negation law of the filter engine (C26, C30) -/

/-- The routine `internal_matches_filter` returns false when the type clause
fails. -/
theorem type_clause_rejects (E : Env) (W : world) (units : List (location × Nat))
    (cfg : config) (self : Nat) (u : unit) (loc : location) (flat : Bool)
    (hu : W.heap.lookup self = some u)
    (h : csv_type_matches E (cfg.attr "type") u.type_id = false) :
    internal_matches_filter E W units cfg self loc flat = some false := by
  have hf : flat_head E W units cfg self u loc flat = some false := by
    unfold flat_head
    by_cases c1 : cfg.attr "description" ≠ "" ∧ cfg.attr "description" ≠ u.name_
    · rw [if_pos c1]
    rw [if_neg c1]
    by_cases c2 : cfg.attr "id" ≠ "" ∧ cfg.attr "id" ≠ u.id_
    · rw [if_pos c2]
    rw [if_neg c2]
    by_cases c3 : cfg.attr "speaker" ≠ "" ∧ cfg.attr "speaker" ≠ u.id_
    · rw [if_pos c3]
    rw [if_neg c3]
    by_cases c4 : cfg.has_child "filter_location" ∧
      E.terrain_filter_match ((cfg.child "filter_location").getD config.empty) loc flat = false
    · rw [if_pos c4]
    rw [if_neg c4]
    by_cases c5 : (cfg.attr "x" ≠ "" ∨ cfg.attr "y" ≠ "") ∧
      (if cfg.attr "x" = "recall" ∧ cfg.attr "y" = "recall" then E.on_board loc
       else !E.matches_range loc (cfg.attr "x") (cfg.attr "y")) = true
    · rw [if_pos c5]
    rw [if_neg c5, if_pos h]
  unfold internal_matches_filter
  rw [hu]
  simp only [hf]

/-- C26, as amended: when every word of `split(type)` occurs in the text of the
filter, the type clause passes exactly when the text is empty, or it is the type
id of the unit as a whole, or it holds a comma and the type id is a word of
`split(type)`.  The clause is the one `internal_matches_filter` tests: that
routine returns false when the clause fails. -/
theorem type_clause_membership (E : Env) (type this_type : String)
    (hsub : ∀ w ∈ E.split type, w.data <:+: type.data) :
    (csv_type_matches E type this_type = true ↔
      (type = "" ∨ type = this_type ∨
        (type.data.contains ',' = true ∧ this_type ∈ E.split type))) ∧
    (∀ (W : world) (units : List (location × Nat)) (cfg : config) (self : Nat) (u : unit)
        (loc : location) (flat : Bool),
      W.heap.lookup self = some u → cfg.attr "type" = type → u.type_id = this_type →
      csv_type_matches E type this_type = false →
      internal_matches_filter E W units cfg self loc flat = some false) := by
  constructor
  · unfold csv_type_matches
    by_cases h1 : type = ""
    · rw [if_neg (fun h => h.1 h1)]
      exact ⟨fun _ => Or.inl h1, fun _ => rfl⟩
    · by_cases h2 : type = this_type
      · rw [if_neg (fun h => h.2 h2)]
        exact ⟨fun _ => Or.inr (Or.inl h2), fun _ => rfl⟩
      · rw [if_pos ⟨h1, h2⟩]
        by_cases h3 : type.data.contains ',' = true ∧ this_type.data <:+: type.data
        · rw [if_pos h3, decide_eq_true_iff]
          exact ⟨fun hm => Or.inr (Or.inr ⟨h3.1, hm⟩), fun h => by
            rcases h with h | h | h
            · exact absurd h h1
            · exact absurd h h2
            · exact h.2⟩
        · rw [if_neg h3]
          constructor
          · intro hf; cases hf
          · intro h
            rcases h with h | h | h
            · exact absurd h h1
            · exact absurd h h2
            · exact absurd ⟨h.1, hsub this_type h.2⟩ h3
  · intro W units cfg self u loc flat hu ht hid hf
    rw [← ht, ← hid] at hf
    exact type_clause_rejects E W units cfg self u loc flat hu hf

theorem type_clause_membership_witness :
    (∀ w ∈ sampleEnv.split "Spearman,Knight", w.data <:+: "Spearman,Knight".data) ∧
    (csv_type_matches sampleEnv "Spearman,Knight" "Knight" = true ↔
      ("Spearman,Knight" = "" ∨ "Spearman,Knight" = "Knight" ∨
        ("Spearman,Knight".data.contains ',' = true ∧
          "Knight" ∈ sampleEnv.split "Spearman,Knight"))) ∧
    csv_type_matches sampleEnv "Spearman,Knight" "Knight" = true :=
  ⟨by decide,
   (type_clause_membership sampleEnv "Spearman,Knight" "Knight" (by decide)).1,
   by decide⟩

/-- C26 as stated fails: the text `a,b` passes for the type id `a,b` by the
equality test although `a,b` is no word of `split(a,b)`; and with a split that
strips blanks the text `Spearman `, which holds no comma, fails for the type id
`Spearman` although that is the only word of the split. -/
theorem equality_test_is_not_membership :
    (csv_type_matches sampleEnv "a,b" "a,b" = true ∧ "a,b" ∉ sampleEnv.split "a,b") ∧
    (csv_type_matches sampleEnv "Spearman " "Spearman" = false ∧
      "Spearman" ∈ sampleEnv.split "Spearman ") := by
  refine ⟨⟨by decide, by decide⟩, by decide, by decide⟩

theorem get_children_of_connectives (vals : List (String × String))
    (ch : List (String × config))
    (htags : ∀ p ∈ ch, p.1 = "and" ∨ p.1 = "or" ∨ p.1 = "not") (t : String)
    (h1 : t ≠ "and") (h2 : t ≠ "or") (h3 : t ≠ "not") :
    (config.mk vals ch).get_children t = [] := by
  rw [get_children_eq]
  show (ch.filter (fun p => p.1 = t)).map _ = []
  rw [List.map_eq_nil_iff, List.filter_eq_nil_iff]
  intro p hp hpt
  have e : p.1 = t := by simpa using hpt
  rcases htags p hp with h | h | h
  · exact h1 (e ▸ h)
  · exact h2 (e ▸ h)
  · exact h3 (e ▸ h)

theorem adjacent_clauses_of_connectives (E : Env) (W : world) (units : List (location × Nat))
    (ch : List (String × config)) (u : unit) (loc : location) (flat : Bool)
    (htags : ∀ p ∈ ch, p.1 = "and" ∨ p.1 = "or" ∨ p.1 = "not") :
    adjacent_clauses E W units ch u loc flat = some true := by
  induction ch with
  | nil => rw [adjacent_clauses]
  | cons p rest ih =>
    obtain ⟨tag, i⟩ := p
    rw [adjacent_clauses]
    have hne : ¬ tag = "filter_adjacent" := by
      intro e
      have ht : tag = "and" ∨ tag = "or" ∨ tag = "not" := htags (tag, i) (List.mem_cons_self _ _)
      rw [e] at ht
      exact absurd ht (by decide)
    rw [if_neg hne]
    exact ih (fun p hp => htags p (List.mem_cons_of_mem _ hp))

/-- The flat clauses of a filter without attribute whose children are all
connectives pass. -/
theorem flat_head_of_connectives (E : Env) (W : world) (units : List (location × Nat))
    (ch : List (String × config)) (self : Nat) (u : unit) (loc : location) (flat : Bool)
    (htags : ∀ p ∈ ch, p.1 = "and" ∨ p.1 = "or" ∨ p.1 = "not") :
    flat_head E W units (config.mk [] ch) self u loc flat = some true := by
  have hattr : ∀ k, (config.mk [] ch).attr k = "" := fun _ => rfl
  have hloc : (config.mk [] ch).has_child "filter_location" = false := by
    unfold config.has_child config.child
    rw [get_children_of_connectives [] ch htags _ (by decide) (by decide) (by decide)]
    rfl
  have hwml : (config.mk [] ch).get_children "filter_wml" = [] :=
    get_children_of_connectives [] ch htags _ (by decide) (by decide) (by decide)
  have hvis : (config.mk [] ch).get_children "filter_vision" = [] :=
    get_children_of_connectives [] ch htags _ (by decide) (by decide) (by decide)
  have hcsv : ∀ x, csv_type_matches E "" x = true := fun _ => rfl
  have hab : ∀ x, ability_clause E "" x = true := fun _ => rfl
  have hside : ∀ x, side_clause E "" x = true := fun _ => rfl
  unfold flat_head
  simp only [hattr, hloc, hwml, hvis, hcsv, hab, hside, ne_eq, not_true_eq_false, false_and,
    and_false, if_false, false_or, Bool.false_eq_true, List.any_nil, List.foldl_nil,
    Bool.true_eq_false]

/-- A filter without attribute whose children are all connectives is decided by
the loop over its children, started from `true`. -/
theorem matches_filter_of_connectives (E : Env) (W : world) (units : List (location × Nat))
    (ch : List (String × config)) (self : Nat) (u : unit) (loc : location) (flat : Bool)
    (hu : W.heap.lookup self = some u)
    (htags : ∀ p ∈ ch, p.1 = "and" ∨ p.1 = "or" ∨ p.1 = "not") :
    matches_filter E W units (config.mk [] ch) self loc flat =
      connectives E W units ch self loc flat true := by
  rw [matches_filter]
  simp only [hu, flat_head_of_connectives E W units ch self u loc flat htags,
    adjacent_clauses_of_connectives E W units ch u loc flat htags]
  rfl

theorem matches_filter_not (E : Env) (W : world) (units : List (location × Nat))
    (f : config) (self : Nat) (u : unit) (loc : location) (flat : Bool)
    (hu : W.heap.lookup self = some u) :
    matches_filter E W units (config.mk [] [("not", f)]) self loc flat =
      (matches_filter E W units f self loc flat).map (fun b => !b) := by
  rw [matches_filter_of_connectives E W units _ self u loc flat hu
    (fun p hp => by
      rw [List.mem_singleton] at hp
      rw [hp]
      exact Or.inr (Or.inr rfl))]
  rw [connectives]
  simp only [if_true]
  rw [if_neg (by decide), if_neg (by decide)]
  cases matches_filter E W units f self loc flat with
  | none => rfl
  | some b => simp only [Option.map_some']; rw [connectives]

theorem connective_only_tags (ch : List (String × config))
    (h : connective_only_list ch = true) :
    ∀ p ∈ ch, p.1 = "and" ∨ p.1 = "or" ∨ p.1 = "not" := by
  induction ch with
  | nil => intro p hp; cases hp
  | cons q rest ih =>
    obtain ⟨t, f⟩ := q
    rw [connective_only_list] at h
    simp only [Bool.and_eq_true, Bool.or_eq_true, decide_eq_true_eq] at h
    intro p hp
    rcases List.mem_cons.mp hp with e | e
    · rw [e]
      rcases h.1.1 with (h1 | h1) | h1
      · exact Or.inl h1
      · exact Or.inr (Or.inl h1)
      · exact Or.inr (Or.inr h1)
    · exact ih h.2 p e

mutual
/-- A filter tree built from the connectives alone is decided for every unit
that exists. -/
theorem connective_only_returns (E : Env) (W : world) (units : List (location × Nat))
    (self : Nat) (u : unit) (loc : location) (flat : Bool)
    (hu : W.heap.lookup self = some u) :
    ∀ f : config, connective_only f = true →
      (matches_filter E W units f self loc flat).isSome = true
  | config.mk vals ch, h => by
    rw [connective_only] at h
    simp only [Bool.and_eq_true, List.isEmpty_iff] at h
    rw [h.1, matches_filter_of_connectives E W units ch self u loc flat hu
      (connective_only_tags ch h.2)]
    exact connective_list_returns E W units self u loc flat hu ch true h.2
/-- The loop over a child list of connective nodes returns. -/
theorem connective_list_returns (E : Env) (W : world) (units : List (location × Nat))
    (self : Nat) (u : unit) (loc : location) (flat : Bool)
    (hu : W.heap.lookup self = some u) :
    ∀ (ch : List (String × config)) (m : Bool), connective_only_list ch = true →
      (connectives E W units ch self loc flat m).isSome = true
  | [], m, _ => by rw [connectives]; rfl
  | (t, f) :: rest, m, h => by
    rw [connective_only_list] at h
    simp only [Bool.and_eq_true] at h
    have hf := connective_only_returns E W units self u loc flat hu f h.1.2
    have hrest := fun m => connective_list_returns E W units self u loc flat hu rest m h.2
    rw [connectives]
    cases hm : matches_filter E W units f self loc flat with
    | none => rw [hm] at hf; cases hf
    | some b =>
      simp only
      split_ifs <;> exact hrest _
end

/-- C30: for a unit that exists, the filter without clause matches; a filter
whose only content is a `not` child matches exactly when the child does not; a
doubly negated filter matches exactly when the filter does; and the evaluation,
a recursion on the filter tree, returns for every tree built from the
connectives alone. -/
theorem filter_negation_law (E : Env) (W : world) (units : List (location × Nat))
    (self : Nat) (u : unit) (loc : location) (flat : Bool)
    (hu : W.heap.lookup self = some u) :
    matches_filter E W units (config.mk [] []) self loc flat = some true ∧
    (∀ f : config,
      matches_filter E W units (config.mk [] [("not", f)]) self loc flat =
        (matches_filter E W units f self loc flat).map (fun b => !b)) ∧
    (∀ f : config,
      matches_filter E W units (config.mk [] [("not", config.mk [] [("not", f)])]) self loc flat =
        matches_filter E W units f self loc flat) ∧
    (∀ f : config, connective_only f = true →
      (matches_filter E W units f self loc flat).isSome = true) := by
  refine ⟨?_, fun f => matches_filter_not E W units f self u loc flat hu, fun f => ?_,
    fun f hf => connective_only_returns E W units self u loc flat hu f hf⟩
  · rw [matches_filter_of_connectives E W units [] self u loc flat hu
      (fun p hp => by cases hp), connectives]
  · rw [matches_filter_not E W units _ self u loc flat hu,
      matches_filter_not E W units f self u loc flat hu]
    cases matches_filter E W units f self loc flat with
    | none => rfl
    | some b => simp only [Option.map_some', Bool.not_not]

theorem filter_negation_law_witness :
    (matches_filter sampleEnv duelWorld duelUnits
      (config.mk [] [("or", config.mk [] [("not", config.mk [] [])]), ("and", config.mk [] [])])
      0 ⟨1, 1⟩ false).isSome = true ∧
    matches_filter sampleEnv duelWorld duelUnits (config.mk [] []) 0 ⟨1, 1⟩ false = some true ∧
    matches_filter sampleEnv duelWorld duelUnits
      (config.mk [] [("not", config.mk [("side", "2")] [])]) 0 ⟨1, 1⟩ false = some true ∧
    matches_filter sampleEnv duelWorld duelUnits
      (config.mk [] [("not", config.mk [] [("not", config.mk [("side", "2")] [])])])
      0 ⟨1, 1⟩ false = some false := by
  have h := filter_negation_law sampleEnv duelWorld duelUnits 0 hiderUnit ⟨1, 1⟩ false rfl
  have hv : matches_filter sampleEnv duelWorld duelUnits (config.mk [("side", "2")] [])
      0 ⟨1, 1⟩ false = some false := by decide
  refine ⟨h.2.2.2 _ (by decide), h.1, ?_, ?_⟩
  · rw [h.2.1, hv]; rfl
  · rw [h.2.2.1, hv]

/-! ## The generator behind the gender roll of `advance_to` (C25) -/

/-- The gender step of `advance_to` never draws from the generator of the game
state. -/
theorem advance_gender_game (E : Env) (t : unit_type) (s : St) :
    (advance_gender E t s).game = s.game := by
  unfold advance_gender
  split
  · unfold generate_gender
    simp only
    split
    · rfl
    · rfl
  · rfl

/-- C25 fails on the code: `advance_to` called with a game state rolls the
gender from the process-wide generator.  Two runs on the same unit with the same
generator of the game state, the first with a process-wide generator that
delivers 0 and the second with one that delivers 1, both return; the first
leaves the gender `male`, the second `female`; the process-wide generator has
moved by one draw and the generator of the game state by none. -/
theorem advance_gender_roll_uses_fallback :
    (∀ (E : Env) (t : unit_type) (s : St), (advance_gender E t s).game = s.game) ∧
    (advance_to genderEnv twoGenderType true true
      ⟨undecidedUnit, zeroRng, zeroRng, 0⟩).isOk = true ∧
    (advance_to genderEnv twoGenderType true true
      ⟨undecidedUnit, oneRng, zeroRng, 0⟩).isOk = true ∧
    (advance_to genderEnv twoGenderType true true
      ⟨undecidedUnit, zeroRng, zeroRng, 0⟩).state.u.cfg_.attr "gender" = "male" ∧
    (advance_to genderEnv twoGenderType true true
      ⟨undecidedUnit, oneRng, zeroRng, 0⟩).state.u.cfg_.attr "gender" = "female" ∧
    (advance_to genderEnv twoGenderType true true
      ⟨undecidedUnit, zeroRng, zeroRng, 0⟩).state.rnd.pos = 1 ∧
    (advance_to genderEnv twoGenderType true true
      ⟨undecidedUnit, zeroRng, zeroRng, 0⟩).state.game.pos = 0 := by
  refine ⟨advance_gender_game, by decide, by decide, by decide, by decide, by decide, by decide⟩

/-! ## The temporary records of the ledger (C28) -/

theorem keep_from_cons_zero (mod : String) (x : config) (rest : List (String × config)) :
    keep_from mod 0 ((mod, x) :: rest) =
      if is_temporary x = true then keep_from mod 0 rest else (mod, x) :: keep_from mod 0 rest := by
  simp only [keep_from, if_true]

theorem keep_from_cons_succ (mod : String) (x : config) (n : Nat)
    (rest : List (String × config)) :
    keep_from mod (n + 1) ((mod, x) :: rest) = (mod, x) :: keep_from mod n rest := by
  simp only [keep_from, if_true]

theorem keep_from_cons_ne (mod t : String) (x : config) (j : Nat)
    (rest : List (String × config)) (h : ¬ t = mod) :
    keep_from mod j ((t, x) :: rest) = (t, x) :: keep_from mod j rest := by
  simp only [keep_from, if_neg h]

theorem records_cons_eq (mod : String) (x : config) (rest : List (String × config)) :
    ((((mod, x) :: rest).filter (fun p => p.1 = mod)).map (fun p => p.2)) =
      x :: ((rest.filter (fun p => p.1 = mod)).map (fun p => p.2)) := by
  rw [List.filter_cons_of_pos (by simp), List.map_cons]

theorem records_cons_ne (mod t : String) (x : config) (rest : List (String × config))
    (h : ¬ t = mod) :
    ((((t, x) :: rest).filter (fun p => p.1 = mod)).map (fun p => p.2)) =
      ((rest.filter (fun p => p.1 = mod)).map (fun p => p.2)) := by
  rw [List.filter_cons_of_neg (by simpa using h)]

/-- Removing a temporary record at the index of the loop does not change what
the loop leaves. -/
theorem keep_from_remove (mod : String) :
    ∀ (l : List (String × config)) (j : Nat) (m : config),
      ((l.filter (fun p => p.1 = mod)).map (fun p => p.2)).get? j = some m →
      is_temporary m = true →
      keep_from mod j (remove_nth_tagged mod j l) = keep_from mod j l := by
  intro l
  induction l with
  | nil => intro j m h; cases h
  | cons p rest ih =>
    obtain ⟨t, x⟩ := p
    intro j m h htemp
    by_cases ht : t = mod
    · subst ht
      rw [records_cons_eq] at h
      cases j with
      | zero =>
        simp only [List.get?_cons_zero, Option.some.injEq] at h
        rw [remove_nth_tagged_zero, if_pos rfl, keep_from_cons_zero, h, if_pos htemp]
      | succ n =>
        simp only [List.get?_cons_succ] at h
        rw [remove_nth_tagged_succ, if_pos rfl, keep_from_cons_succ, keep_from_cons_succ,
          ih n m h htemp]
    · rw [records_cons_ne mod t x rest ht] at h
      have e : remove_nth_tagged mod j ((t, x) :: rest) =
          (t, x) :: remove_nth_tagged mod j rest := by
        cases j with
        | zero => rw [remove_nth_tagged_zero, if_neg ht]
        | succ n => rw [remove_nth_tagged_succ, if_neg ht]
      rw [e, keep_from_cons_ne mod t x j _ ht, keep_from_cons_ne mod t x j _ ht, ih j m h htemp]

/-- Stepping over a permanent record does not change what the loop leaves. -/
theorem keep_from_advance (mod : String) :
    ∀ (l : List (String × config)) (j : Nat) (m : config),
      ((l.filter (fun p => p.1 = mod)).map (fun p => p.2)).get? j = some m →
      is_temporary m = false →
      keep_from mod (j + 1) l = keep_from mod j l := by
  intro l
  induction l with
  | nil => intro j m h; cases h
  | cons p rest ih =>
    obtain ⟨t, x⟩ := p
    intro j m h hperm
    by_cases ht : t = mod
    · subst ht
      rw [records_cons_eq] at h
      cases j with
      | zero =>
        simp only [List.get?_cons_zero, Option.some.injEq] at h
        rw [keep_from_cons_succ, keep_from_cons_zero, h, if_neg (by rw [hperm]; decide)]
      | succ n =>
        simp only [List.get?_cons_succ] at h
        rw [keep_from_cons_succ, keep_from_cons_succ, ih n m h hperm]
    · rw [records_cons_ne mod t x rest ht] at h
      rw [keep_from_cons_ne mod t x _ _ ht, keep_from_cons_ne mod t x _ _ ht, ih j m h hperm]

/-- At the end of the records of the kind the loop leaves everything. -/
theorem keep_from_end (mod : String) :
    ∀ (l : List (String × config)) (j : Nat),
      ((l.filter (fun p => p.1 = mod)).map (fun p => p.2)).length ≤ j →
      keep_from mod j l = l := by
  intro l
  induction l with
  | nil => intro j _; rfl
  | cons p rest ih =>
    obtain ⟨t, x⟩ := p
    intro j h
    by_cases ht : t = mod
    · subst ht
      rw [records_cons_eq, List.length_cons] at h
      cases j with
      | zero => omega
      | succ n => rw [keep_from_cons_succ, ih n (by omega)]
    · rw [records_cons_ne mod t x rest ht] at h
      rw [keep_from_cons_ne mod t x _ _ ht, ih j h]

theorem records_remove_length (mod : String) :
    ∀ (l : List (String × config)) (j : Nat),
      j < ((l.filter (fun p => p.1 = mod)).map (fun p => p.2)).length →
      (((remove_nth_tagged mod j l).filter (fun p => p.1 = mod)).map (fun p => p.2)).length + 1 =
        ((l.filter (fun p => p.1 = mod)).map (fun p => p.2)).length := by
  intro l
  induction l with
  | nil => intro j h; cases h
  | cons p rest ih =>
    obtain ⟨t, x⟩ := p
    intro j h
    by_cases ht : t = mod
    · subst ht
      rw [records_cons_eq, List.length_cons] at h
      rw [records_cons_eq, List.length_cons]
      cases j with
      | zero => rw [remove_nth_tagged_zero, if_pos rfl]
      | succ n =>
        rw [remove_nth_tagged_succ, if_pos rfl, records_cons_eq, List.length_cons,
          ih n (by omega)]
    · rw [records_cons_ne mod t x rest ht] at h
      have e : remove_nth_tagged mod j ((t, x) :: rest) =
          (t, x) :: remove_nth_tagged mod j rest := by
        cases j with
        | zero => rw [remove_nth_tagged_zero, if_neg ht]
        | succ n => rw [remove_nth_tagged_succ, if_neg ht]
      rw [e, records_cons_ne mod t x _ ht, records_cons_ne mod t x _ ht, ih j h]

/-- The loop for one kind, given fuel for the records still ahead and one round
more: the children it leaves. -/
theorem remove_temporary_loop_spec (mod : String) :
    ∀ (fuel j : Nat) (v : List (String × String)) (l : List (String × config)),
      ((l.filter (fun p => p.1 = mod)).map (fun p => p.2)).length - j < fuel →
      j ≤ ((l.filter (fun p => p.1 = mod)).map (fun p => p.2)).length →
      remove_temporary_loop mod fuel j (config.mk v l) = config.mk v (keep_from mod j l) := by
  intro fuel
  induction fuel with
  | zero => intro j v l h; omega
  | succ n ih =>
    intro j v l h hj
    rw [remove_temporary_loop]
    show (if j = ((l.filter (fun p => p.1 = mod)).map (fun p => p.2)).length then config.mk v l
      else match ((l.filter (fun p => p.1 = mod)).map (fun p => p.2)).get? j with
        | none => config.mk v l
        | some m =>
          if is_temporary m = true then
            remove_temporary_loop mod n j (config.mk v (remove_nth_tagged mod j l))
          else remove_temporary_loop mod n (j + 1) (config.mk v l)) = _
    by_cases he : j = ((l.filter (fun p => p.1 = mod)).map (fun p => p.2)).length
    · rw [if_pos he, keep_from_end mod l j (by omega)]
    · rw [if_neg he]
      have hlt : j < ((l.filter (fun p => p.1 = mod)).map (fun p => p.2)).length := by omega
      cases hg : ((l.filter (fun p => p.1 = mod)).map (fun p => p.2)).get? j with
      | none =>
        rw [List.get?_eq_none] at hg
        omega
      | some m =>
        simp only
        have hlen := records_remove_length mod l j hlt
        by_cases htemp : is_temporary m = true
        · rw [if_pos htemp, ih j v _ (by omega) (by omega), keep_from_remove mod l j m hg htemp]
        · rw [if_neg htemp, ih (j + 1) v l (by omega) (by omega),
            keep_from_advance mod l j m hg (by simpa using htemp)]

theorem keep_from_zero (mod : String) (l : List (String × config)) :
    keep_from mod 0 l = l.filter (fun p => !(decide (p.1 = mod) && is_temporary p.2)) := by
  induction l with
  | nil => rfl
  | cons p rest ih =>
    obtain ⟨t, x⟩ := p
    by_cases ht : t = mod
    · subst ht
      rw [keep_from_cons_zero, ih]
      by_cases htemp : is_temporary x = true
      · rw [if_pos htemp, List.filter_cons_of_neg (by simp [htemp])]
      · rw [if_neg htemp, List.filter_cons_of_pos (by simpa using htemp)]
    · rw [keep_from_cons_ne mod t x 0 rest ht, ih, List.filter_cons_of_pos (by simp [ht])]

/-- The loop for one kind, started at index 0 with any fuel above the number of
records of the kind, filters the children. -/
theorem remove_temporary_loop_filter (mod : String) (ledger : config) (n : Nat) :
    remove_temporary_loop mod ((ledger.get_children mod).length + 1 + n) 0 ledger =
      config.mk ledger.values
        (ledger.children.filter (fun p => !(decide (p.1 = mod) && is_temporary p.2))) := by
  obtain ⟨v, l⟩ := ledger
  show remove_temporary_loop mod
    (((l.filter (fun p => p.1 = mod)).map (fun p => p.2)).length + 1 + n) 0 (config.mk v l) =
      config.mk v (l.filter _)
  rw [remove_temporary_loop_spec mod _ 0 v l (by omega) (by omega), keep_from_zero]

/-- The three loops of `remove_temporary_modifications` on a ledger: the
children that stay. -/
theorem remove_temporary_fold (ledger : config) :
    ModificationTypes.foldl
      (fun ledger mod =>
        remove_temporary_loop mod ((ledger.get_children mod).length + 1) 0 ledger)
      ledger = config.mk ledger.values (ledger.children.filter stays) := by
  have step : ∀ (mod : String) (ledger : config),
      remove_temporary_loop mod ((ledger.get_children mod).length + 1) 0 ledger =
        config.mk ledger.values
          (ledger.children.filter (fun p => !(decide (p.1 = mod) && is_temporary p.2))) :=
    fun mod ledger => remove_temporary_loop_filter mod ledger 0
  obtain ⟨v, l⟩ := ledger
  unfold ModificationTypes
  simp only [List.foldl_cons, List.foldl_nil, step]
  show config.mk v (((l.filter _).filter _).filter _) = config.mk v (l.filter stays)
  rw [List.filter_filter, List.filter_filter]
  congr 1
  apply List.filter_congr
  intro p _
  unfold stays ModificationTypes
  by_cases h1 : p.1 = "advance"
  · simp [h1]
  · by_cases h2 : p.1 = "trait"
    · simp [h2]
    · by_cases h3 : p.1 = "object"
      · simp [h3]
      · simp [h1, h2, h3]

/-- The unit after `remove_temporary_modifications`: only the ledger changes,
to the children that stay. -/
theorem remove_temporary_unit (u : unit) :
    remove_temporary_modifications u =
      { u with modifications_ :=
          config.mk u.modifications_.values (u.modifications_.children.filter stays) } := by
  unfold remove_temporary_modifications
  rw [remove_temporary_fold]

theorem remove_temporary_ledger (u : unit) :
    (remove_temporary_modifications u).modifications_ =
      config.mk u.modifications_.values (u.modifications_.children.filter stays) := by
  rw [remove_temporary_unit]

theorem stays_filter_idem (l : List (String × config)) :
    (l.filter stays).filter stays = l.filter stays := by
  rw [List.filter_filter]
  apply List.filter_congr
  intro p _
  simp

theorem get_children_stays (c : config) (kind : String) :
    (config.mk c.values (c.children.filter stays)).get_children kind =
      if kind ∈ ModificationTypes then (c.get_children kind).filter (fun m => !is_temporary m)
      else c.get_children kind := by
  rw [get_children_eq, get_children_eq]
  show ((c.children.filter stays).filter (fun p => p.1 = kind)).map _ = _
  by_cases hk : kind ∈ ModificationTypes
  · rw [if_pos hk, List.filter_map, List.filter_filter, List.filter_filter]
    congr 1
    apply List.filter_congr
    intro p _
    unfold stays
    by_cases hp : p.1 = kind
    · simp [hp, hk]
    · simp [hp]
  · rw [if_neg hk, List.filter_filter]
    congr 1
    apply List.filter_congr
    intro p _
    unfold stays
    by_cases hp : p.1 = kind
    · simp [hp, hk]
    · simp [hp]

/-- C28: after `remove_temporary_modifications` each of the three kinds holds
the records of the old ledger whose duration is `forever` or empty, in their
order; the records of every other tag and the rest of the unit are as before; a
second call changes nothing; and the loop needs no more rounds than it is
given. -/
theorem remove_temporary_keeps_permanent (u : unit) :
    (∀ kind ∈ ModificationTypes,
      (remove_temporary_modifications u).modifications_.get_children kind =
        (u.modifications_.get_children kind).filter (fun m => !is_temporary m)) ∧
    (∀ m : config, is_temporary m = false ↔
      (m.attr "duration" = "forever" ∨ m.attr "duration" = "")) ∧
    (∀ kind, kind ∉ ModificationTypes →
      (remove_temporary_modifications u).modifications_.get_children kind =
        u.modifications_.get_children kind) ∧
    remove_temporary_modifications u =
      { u with modifications_ := (remove_temporary_modifications u).modifications_ } ∧
    remove_temporary_modifications (remove_temporary_modifications u) =
      remove_temporary_modifications u ∧
    (∀ (mod : String) (ledger : config) (n : Nat),
      remove_temporary_loop mod ((ledger.get_children mod).length + 1 + n) 0 ledger =
        remove_temporary_loop mod ((ledger.get_children mod).length + 1) 0 ledger) := by
  refine ⟨?_, ?_, ?_, ?_, ?_, ?_⟩
  · intro kind hk
    rw [remove_temporary_ledger, get_children_stays, if_pos hk]
  · intro m
    unfold is_temporary
    rw [decide_eq_false_iff_not]
    constructor
    · intro h
      by_cases h1 : m.attr "duration" = "forever"
      · exact Or.inl h1
      · by_cases h2 : m.attr "duration" = ""
        · exact Or.inr h2
        · exact absurd ⟨h1, h2⟩ h
    · intro h hn
      rcases h with h | h
      · exact hn.1 h
      · exact hn.2 h
  · intro kind hk
    rw [remove_temporary_ledger, get_children_stays, if_neg hk]
  · rw [remove_temporary_unit u]
  · rw [remove_temporary_unit (remove_temporary_modifications u), remove_temporary_unit u]
    show ({ u with modifications_ :=
      (config.mk u.modifications_.values
        ((u.modifications_.children.filter stays).filter stays)) } : unit) = _
    rw [stays_filter_idem]
  · intro mod ledger n
    rw [remove_temporary_loop_filter mod ledger n, remove_temporary_loop_filter mod ledger 0]

/-! ## A second `new_level` (C27) -/

theorem capped_cap (c : Option Int) (x m : Int) :
    (if capped c x > m then m else capped c x) = capped (some (cap_min c m)) x := by
  cases c with
  | none => rfl
  | some c0 =>
    unfold capped cap_min
    simp only
    split_ifs <;> omega

theorem capped_idem (c : Option Int) (x : Int) : capped c (capped c x) = capped c x := by
  cases c with
  | none => rfl
  | some c0 =>
    unfold capped
    simp only
    split_ifs <;> omega

theorem smap_get_erase_ne (m : List (String × String)) (k k1 : String) (h : k1 ≠ k) :
    smap_get (smap_erase m k) k1 = smap_get m k1 := by
  unfold smap_get smap_erase
  induction m with
  | nil => rfl
  | cons p rest ih =>
    obtain ⟨k0, v0⟩ := p
    by_cases h0 : k0 = k
    · have hk : (k1 == k0) = false := by
        rw [beq_eq_false_iff_ne, h0]; exact h
      simp only [List.filter, h0, ne_eq, not_true_eq_false, decide_False, List.lookup]
      rw [← h0] at ih ⊢
      simp only [hk]
      exact ih
    · by_cases h1 : k1 = k0
      · have hk : (k1 == k0) = true := by rw [beq_iff_eq]; exact h1
        simp only [List.filter, h0, ne_eq, not_false_eq_true, decide_True, List.lookup, hk]
      · have hk : (k1 == k0) = false := by rw [beq_eq_false_iff_ne]; exact h1
        simp only [List.filter, h0, ne_eq, not_false_eq_true, decide_True, List.lookup, hk]
        exact ih

/-- The status flags after a `status` effect. -/
theorem effect_status_states (eff : config) (u : unit) :
    (effect_status eff u).states_ =
      if eff.attr "remove" ≠ "" then
        smap_erase (if eff.attr "add" ≠ "" then smap_set u.states_ (eff.attr "add") "yes"
          else u.states_) (eff.attr "remove")
      else (if eff.attr "add" ≠ "" then smap_set u.states_ (eff.attr "add") "yes"
          else u.states_) := by
  unfold effect_status
  by_cases c1 : eff.attr "remove" ≠ "" <;> by_cases c2 : eff.attr "add" ≠ ""
  · simp only [c1, c2, ne_eq, not_false_eq_true, if_true]; rfl
  · simp only [c1, c2, ne_eq, not_false_eq_true, if_true, if_false]; rfl
  · simp only [c1, c2, ne_eq, not_false_eq_true, if_true, if_false]; rfl
  · simp only [c1, c2, ne_eq, if_false]

/-- A status flag after a `status` effect: erased, set, or as before. -/
theorem effect_status_get (eff : config) (u : unit) (k : String) :
    (effect_status eff u).get_state k =
      if eff.attr "remove" ≠ "" ∧ eff.attr "remove" = k then ""
      else if eff.attr "add" ≠ "" ∧ eff.attr "add" = k then "yes"
      else u.get_state k := by
  unfold unit.get_state
  rw [effect_status_states]
  have hadd : smap_get (if eff.attr "add" ≠ "" then smap_set u.states_ (eff.attr "add") "yes"
      else u.states_) k =
      if eff.attr "add" ≠ "" ∧ eff.attr "add" = k then "yes" else smap_get u.states_ k := by
    by_cases c2 : eff.attr "add" ≠ ""
    · by_cases e2 : eff.attr "add" = k
      · have hP : eff.attr "add" ≠ "" ∧ eff.attr "add" = k := ⟨c2, e2⟩
        rw [if_pos hP]
        simp only [c2, ne_eq, not_false_eq_true, if_true]
        rw [← e2, smap_get_set_eq]
      · have hN : ¬ (eff.attr "add" ≠ "" ∧ eff.attr "add" = k) := fun h => e2 h.2
        rw [if_neg hN]
        simp only [c2, ne_eq, not_false_eq_true, if_true]
        exact smap_get_set_ne _ _ _ _ (fun h => e2 h.symm)
    · have hN : ¬ (eff.attr "add" ≠ "" ∧ eff.attr "add" = k) := fun h => c2 h.1
      rw [if_neg hN]
      simp only [c2, if_false]
  by_cases c1 : eff.attr "remove" ≠ ""
  · by_cases e1 : eff.attr "remove" = k
    · have hP : eff.attr "remove" ≠ "" ∧ eff.attr "remove" = k := ⟨c1, e1⟩
      rw [if_pos hP]
      simp only [c1, ne_eq, not_false_eq_true, if_true]
      rw [← e1, smap_get_erase]
    · have hN : ¬ (eff.attr "remove" ≠ "" ∧ eff.attr "remove" = k) := fun h => e1 h.2
      rw [if_neg hN, ← hadd]
      simp only [c1, ne_eq, not_false_eq_true, if_true]
      exact smap_get_erase_ne _ _ _ (fun h => e1 h.symm)
  · have hN : ¬ (eff.attr "remove" ≠ "" ∧ eff.attr "remove" = k) := fun h => c1 h.1
    rw [if_neg hN, ← hadd]
    simp only [c1, if_false]

/-- One effect body keeps two runs side by side. -/
theorem apply_effect_twin (E : Env) (eff : config) (mx my : Int)
    (sx sy : List (String × String)) (a b : unit) (h : twin_run mx my sx sy a b) :
    twin_run mx my sx sy (apply_effect E eff a) (apply_effect E eff b) := by
  have key : ∀ a b : unit, twin_run mx my sx sy a b →
      same_governed (apply_effect E eff a) (apply_effect E eff b) →
      twin_run mx my sx sy (apply_effect E eff a) (apply_effect E eff b) := by
    apply apply_effect_fun_cases
      (fun f => ∀ a b : unit, twin_run mx my sx sy a b → same_governed (f a) (f b) →
        twin_run mx my sx sy (f a) (f b))
    · intro a b h hg; exact ⟨hg, h.2.1, h.2.2⟩
    · intro a b h hg; exact ⟨hg, h.2.1, h.2.2⟩
    · intro a b h hg; exact ⟨hg, h.2.1, h.2.2⟩
    · intro a b h hg; exact ⟨hg, h.2.1, h.2.2⟩
    · intro a b h hg; exact ⟨hg, h.2.1, h.2.2⟩
    · intro a b h hg
      obtain ⟨c, ha, hb⟩ := h.2.1
      refine ⟨hg, ⟨some (cap_min c (movement_new_max E eff a.max_movement_)), ?_, ?_⟩, h.2.2⟩
      · show (if a.movement_ > movement_new_max E eff a.max_movement_ then
          movement_new_max E eff a.max_movement_ else a.movement_) = _
        rw [ha]
        exact capped_cap c mx _
      · show (if b.movement_ > movement_new_max E eff b.max_movement_ then
          movement_new_max E eff b.max_movement_ else b.movement_) = _
        rw [hb, ← h.1.2.2.2.2.1]
        exact capped_cap c my _
    · intro a b h hg; exact ⟨hg, h.2.1, h.2.2⟩
    · intro a b h hg; exact ⟨hg, h.2.1, h.2.2⟩
    · intro a b h hg
      refine ⟨hg, h.2.1, fun k => ?_⟩
      rw [effect_status_get, effect_status_get]
      by_cases c1 : eff.attr "remove" ≠ "" ∧ eff.attr "remove" = k
      · rw [if_pos c1, if_pos c1]; exact Or.inl rfl
      · rw [if_neg c1, if_neg c1]
        by_cases c2 : eff.attr "add" ≠ "" ∧ eff.attr "add" = k
        · rw [if_pos c2, if_pos c2]; exact Or.inl rfl
        · rw [if_neg c2, if_neg c2]; exact h.2.2 k
    · intro a b h hg; exact ⟨hg, h.2.1, h.2.2⟩
    · intro a b h hg; exact ⟨hg, h.2.1, h.2.2⟩
    · intro a b h hg; exact ⟨hg, h.2.1, h.2.2⟩
    · intro a b h hg; exact ⟨hg, h.2.1, h.2.2⟩
    · intro a b h hg; exact ⟨hg, h.2.1, h.2.2⟩
    · intro a b h hg; exact ⟨hg, h.2.1, h.2.2⟩
    · intro a b h hg; exact ⟨hg, h.2.1, h.2.2⟩
    · intro a b h _; exact h
  exact key a b h (apply_effect_congr E eff a b h.1)

theorem iterate_unit_twin (E : Env) (eff : config) (mx my : Int)
    (sx sy : List (String × String)) (n : Nat) (a b : unit) (h : twin_run mx my sx sy a b) :
    twin_run mx my sx sy (iterate_unit (apply_effect E eff) n a)
      (iterate_unit (apply_effect E eff) n b) := by
  induction n generalizing a b with
  | zero => exact h
  | succ n ih => exact ih _ _ (apply_effect_twin E eff mx my sx sy a b h)

theorem apply_effects_twin (E : Env) (m1 m2 : config) (mx my : Int)
    (sx sy : List (String × String)) (a b : unit)
    (hm : m1.get_children "effect" = m2.get_children "effect")
    (h : twin_run mx my sx sy a b) :
    twin_run mx my sx sy (apply_effects E m1 a) (apply_effects E m2 b) := by
  unfold apply_effects
  rw [hm]
  generalize m2.get_children "effect" = l
  induction l generalizing a b with
  | nil => exact h
  | cons eff rest ih =>
    rw [List.foldl_cons, List.foldl_cons]
    apply ih
    rw [effect_applies_congr E eff a b h.1, effect_times_congr eff a b h.1]
    by_cases c : effect_applies E eff b = true
    · rw [if_pos c, if_pos c]; exact iterate_unit_twin E eff mx my sx sy _ a b h
    · rw [if_neg c, if_neg c]; exact h

theorem records_twin (E : Env) (mx my : Int) (sx sy : List (String × String))
    (l1 l2 : List (String × config)) (a b : unit)
    (hl : l1.map (fun r => r.2.get_children "effect") =
      l2.map (fun r => r.2.get_children "effect"))
    (h : twin_run mx my sx sy a b) :
    twin_run mx my sx sy (l1.foldl (fun v r => apply_effects E r.2 v) a)
      (l2.foldl (fun v r => apply_effects E r.2 v) b) := by
  induction l1 generalizing l2 a b with
  | nil =>
    cases l2 with
    | nil => exact h
    | cons r rest => cases hl
  | cons r1 rest1 ih =>
    cases l2 with
    | nil => cases hl
    | cons r2 rest2 =>
      rw [List.map_cons, List.map_cons] at hl
      rw [List.foldl_cons, List.foldl_cons]
      exact ih rest2 _ _ (List.cons.inj hl).2
        (apply_effects_twin E r1.2 r2.2 mx my sx sy a b (List.cons.inj hl).1 h)

/-- The ledger pass keeps two runs side by side when the ledgers carry the same
effects. -/
theorem apply_modifications_twin (E : Env) (mx my : Int) (sx sy : List (String × String))
    (a b : unit)
    (hl : (ledger_records a.modifications_).map (fun r => r.2.get_children "effect") =
      (ledger_records b.modifications_).map (fun r => r.2.get_children "effect"))
    (h : twin_run mx my sx sy a b) :
    twin_run mx my sx sy (apply_modifications E a) (apply_modifications E b) := by
  have hrec := records_twin E mx my sx sy
    (ledger_records (note_traits a).modifications_) (ledger_records (note_traits b).modifications_)
    (note_traits a) (note_traits b)
    (by
      show (ledger_records (rename_traits a.gender_ a.modifications_)).map _ =
        (ledger_records (rename_traits b.gender_ b.modifications_)).map _
      rw [ledger_effects_rename, ledger_effects_rename, hl])
    ⟨note_traits_congr a b h.1, h.2.1, h.2.2⟩
  unfold apply_modifications
  exact ⟨finish_modifications_congr E _ _ _ _ hrec.1, hrec.2.1, hrec.2.2⟩

theorem rename_trait_idem (g : GENDER) (j : config) :
    rename_trait g (rename_trait g j) = rename_trait g j := by
  unfold rename_trait
  by_cases c : j.attr (gender_name_key g) ≠ ""
  · rw [if_pos c]
    have hk : gender_name_key g ≠ "name" := by
      unfold gender_name_key
      split <;> decide
    have e : (j.set_attr "name" (j.attr (gender_name_key g))).attr (gender_name_key g) =
        j.attr (gender_name_key g) := attr_set_attr_ne j "name" _ _ hk
    rw [e, if_pos c]
    show config.mk (smap_set (smap_set j.values "name" _) "name" _) j.children = _
    rw [smap_set_idem]
    rfl
  · rw [if_neg c, if_neg c]

theorem rename_traits_idem (g : GENDER) (ledger : config) :
    rename_traits g (rename_traits g ledger) = rename_traits g ledger := by
  unfold rename_traits
  show config.mk ledger.values ((ledger.children.map _).map _) = _
  rw [List.map_map]
  congr 1
  apply List.map_congr_left
  intro p _
  obtain ⟨t, x⟩ := p
  by_cases c : t = "trait"
  · simp only [Function.comp, c, if_true, rename_trait_idem]
  · simp only [Function.comp, c, if_false]

theorem is_temporary_rename (g : GENDER) (j : config) :
    is_temporary (rename_trait g j) = is_temporary j := by
  unfold rename_trait
  by_cases c : j.attr (gender_name_key g) ≠ ""
  · rw [if_pos c]
    unfold is_temporary
    rw [attr_set_attr_ne j "name" "duration" _ (by decide)]
  · rw [if_neg c]

/-- Renaming the traits of a ledger without temporary record leaves it without
temporary record. -/
theorem stays_rename_traits (g : GENDER) (v : List (String × String))
    (ch : List (String × config)) :
    config.mk (rename_traits g (config.mk v (ch.filter stays))).values
        ((rename_traits g (config.mk v (ch.filter stays))).children.filter stays) =
      rename_traits g (config.mk v (ch.filter stays)) := by
  unfold rename_traits
  show config.mk v (((ch.filter stays).map _).filter stays) = config.mk v ((ch.filter stays).map _)
  congr 1
  rw [List.filter_eq_self]
  intro p hp
  obtain ⟨q, hq, rfl⟩ := List.mem_map.mp hp
  have hs : stays q = true := (List.mem_filter.mp hq).2
  obtain ⟨t, x⟩ := q
  by_cases c : t = "trait"
  · simp only [c, if_true]
    unfold stays at hs ⊢
    simp only [is_temporary_rename]
    rw [c] at hs
    exact hs
  · simp only [c, if_false]
    exact hs

theorem get_state_erase (u : unit) (k0 k : String) :
    (u.set_state k0 "").get_state k = if k0 = k then "" else u.get_state k := by
  by_cases e : k0 = k
  · rw [if_pos e, ← e, get_state_set_state]
  · rw [if_neg e]
    show smap_get (smap_erase u.states_ k0) k = _
    exact smap_get_erase_ne _ _ _ (fun h => e h.symm)

/-- The result of `new_level` for a unit whose type resolves. -/
theorem new_level_ok (E : Env) (u : unit) (t : unit_type) (ht : u.type E = .ok (some t)) :
    new_level E u = .ok
      ((((apply_modifications E (reset_to t (remove_temporary_modifications
        { u with ai_special_ := "", goto_ := E.null_location }))).heal_all.set_state
          "slowed" "").set_state "poisoned" "").set_state "stoned" "") := by
  have hty : (remove_temporary_modifications
      { u with ai_special_ := "", goto_ := E.null_location }).type E = .ok (some t) := by
    rw [← ht]
    rfl
  unfold new_level reset_modifications
  rw [hty]
  rfl

/-- The closing steps of `new_level`, healing and clearing three status flags,
change the hitpoints and the status flags only. -/
theorem level_finish_fields (A : unit) :
    (((A.heal_all.set_state "slowed" "").set_state "poisoned" "").set_state "stoned" "").type_
      = A.type_ ∧
    (((A.heal_all.set_state "slowed" "").set_state "poisoned" "").set_state "stoned" "").gender_
      = A.gender_ ∧
    (((A.heal_all.set_state "slowed" "").set_state "poisoned" "").set_state "stoned"
      "").variation_ = A.variation_ ∧
    (((A.heal_all.set_state "slowed" "").set_state "poisoned" "").set_state "stoned" "").level_
      = A.level_ ∧
    (((A.heal_all.set_state "slowed" "").set_state "poisoned" "").set_state "stoned"
      "").movement_ = A.movement_ ∧
    (((A.heal_all.set_state "slowed" "").set_state "poisoned" "").set_state "stoned"
      "").modifications_ = A.modifications_ :=
  ⟨rfl, rfl, rfl, rfl, rfl, rfl⟩

theorem level_finish_stats (A : unit) :
    (((A.heal_all.set_state "slowed" "").set_state "poisoned" "").set_state "stoned"
      "").max_hit_points_ = A.max_hit_points_ ∧
    (((A.heal_all.set_state "slowed" "").set_state "poisoned" "").set_state "stoned"
      "").hit_points_ = A.max_hit_points_ ∧
    (((A.heal_all.set_state "slowed" "").set_state "poisoned" "").set_state "stoned"
      "").max_movement_ = A.max_movement_ ∧
    (((A.heal_all.set_state "slowed" "").set_state "poisoned" "").set_state "stoned"
      "").max_experience_ = A.max_experience_ ∧
    (((A.heal_all.set_state "slowed" "").set_state "poisoned" "").set_state "stoned"
      "").attacks_ = A.attacks_ ∧
    (((A.heal_all.set_state "slowed" "").set_state "poisoned" "").set_state "stoned"
      "").cfg_ = A.cfg_ :=
  ⟨rfl, rfl, rfl, rfl, rfl, rfl⟩

theorem level_finish_state (A : unit) (k : String) :
    (((A.heal_all.set_state "slowed" "").set_state "poisoned" "").set_state "stoned"
      "").get_state k =
      if "stoned" = k then "" else if "poisoned" = k then "" else if "slowed" = k then ""
      else A.get_state k := by
  rw [get_state_erase, get_state_erase, get_state_erase]
  rfl

/-- The unit on which `new_level` applies the ledger: identity, movement and
status flags are those of the unit before. -/
theorem level_start_fields (E : Env) (t : unit_type) (u : unit) :
    (reset_to t (remove_temporary_modifications
      { u with ai_special_ := "", goto_ := E.null_location })).type_ = u.type_ ∧
    (reset_to t (remove_temporary_modifications
      { u with ai_special_ := "", goto_ := E.null_location })).gender_ = u.gender_ ∧
    (reset_to t (remove_temporary_modifications
      { u with ai_special_ := "", goto_ := E.null_location })).variation_ = u.variation_ ∧
    (reset_to t (remove_temporary_modifications
      { u with ai_special_ := "", goto_ := E.null_location })).level_ = u.level_ ∧
    (reset_to t (remove_temporary_modifications
      { u with ai_special_ := "", goto_ := E.null_location })).movement_ = u.movement_ ∧
    (reset_to t (remove_temporary_modifications
      { u with ai_special_ := "", goto_ := E.null_location })).states_ = u.states_ :=
  ⟨rfl, rfl, rfl, rfl, rfl, rfl⟩

theorem level_start_stats (E : Env) (t : unit_type) (u : unit) :
    (reset_to t (remove_temporary_modifications
      { u with ai_special_ := "", goto_ := E.null_location })).max_hit_points_ = t.hitpoints ∧
    (reset_to t (remove_temporary_modifications
      { u with ai_special_ := "", goto_ := E.null_location })).max_movement_ = t.movement ∧
    (reset_to t (remove_temporary_modifications
      { u with ai_special_ := "", goto_ := E.null_location })).max_experience_ =
        t.experience_needed ∧
    (reset_to t (remove_temporary_modifications
      { u with ai_special_ := "", goto_ := E.null_location })).attacks_ = t.attacks :=
  ⟨rfl, rfl, rfl, rfl⟩

theorem reset_to_modifications (t : unit_type) (x : unit) :
    (reset_to t x).modifications_ = x.modifications_ := rfl

theorem level_start_ledger (E : Env) (t : unit_type) (u : unit) :
    (reset_to t (remove_temporary_modifications
      { u with ai_special_ := "", goto_ := E.null_location })).modifications_ =
      config.mk u.modifications_.values (u.modifications_.children.filter stays) := by
  rw [reset_to_modifications]
  exact remove_temporary_ledger { u with ai_special_ := "", goto_ := E.null_location }

/-- The start of a second `new_level` stands side by side with the start of the
first. -/
theorem level_start_twin (E : Env) (t : unit_type) (u a0 A u1 b0 : unit)
    (ha0 : reset_to t (remove_temporary_modifications
      { u with ai_special_ := "", goto_ := E.null_location }) = a0)
    (hA : apply_modifications E a0 = A)
    (hu1 : (((A.heal_all.set_state "slowed" "").set_state "poisoned" "").set_state
      "stoned" "") = u1)
    (hb0 : reset_to t (remove_temporary_modifications
      { u1 with ai_special_ := "", goto_ := E.null_location }) = b0) :
    twin_run a0.movement_ b0.movement_ a0.states_ b0.states_ a0 b0 ∧
    b0.modifications_ = rename_traits a0.gender_ a0.modifications_ ∧
    b0.gender_ = a0.gender_ ∧ b0.movement_ = A.movement_ ∧
    (∀ k, b0.get_state k = u1.get_state k) := by
  have hid := apply_modifications_identity E a0
  have hled := apply_modifications_ledger E a0
  rw [hA] at hid hled
  have hf := level_finish_fields A
  rw [hu1] at hf
  have hs := level_start_fields E t u1
  rw [hb0] at hs
  have hst := level_start_stats E t u
  rw [ha0] at hst
  have hst1 := level_start_stats E t u1
  rw [hb0] at hst1
  have hm := level_start_ledger E t u
  rw [ha0] at hm
  have hm1 := level_start_ledger E t u1
  rw [hb0, hf.2.2.2.2.2, hled, hm] at hm1
  have hb0m : b0.modifications_ = rename_traits a0.gender_ a0.modifications_ := by
    rw [hm1, hm]
    exact stays_rename_traits _ _ _
  have hgov : same_governed a0 b0 := by
    refine ⟨?_, ?_, ?_, ?_, ?_, ?_, ?_, ?_⟩
    · rw [hs.1, hf.1, hid.1]
    · rw [hs.2.1, hf.2.1, hid.2.1]
    · rw [hs.2.2.2.1, hf.2.2.2.1, hid.2.2.2]
    · rw [hst.1, hst1.1]
    · rw [hst.2.1, hst1.2.1]
    · rw [hst.2.2.1, hst1.2.2.1]
    · rw [hst.2.2.2, hst1.2.2.2]
    · intro tag htag
      rw [← ha0, ← hb0, reset_to_sections t _ tag htag, reset_to_sections t _ tag htag]
  refine ⟨⟨hgov, ⟨none, rfl, rfl⟩, fun _ => Or.inr ⟨rfl, rfl⟩⟩, hb0m, ?_, ?_, ?_⟩
  · rw [hs.2.1, hf.2.1, hid.2.1]
  · rw [hs.2.2.2.2.1, hf.2.2.2.2.1]
  · intro k
    unfold unit.get_state
    rw [hs.2.2.2.2.2]

/-- C27, as amended: for a unit whose type resolves, a second `new_level`
returns and leaves the maximum and the current hitpoints, the maximum and the
current movement, the experience threshold, the attacks, the governed sections
of the unit document (among them the abilities), every status flag and the
ledger as the first call left them. -/
theorem new_level_repeated (E : Env) (u : unit) (t : unit_type)
    (ht : u.type E = .ok (some t)) :
    ∃ u1 u2, new_level E u = .ok u1 ∧ new_level E u1 = .ok u2 ∧
      u2.max_hit_points_ = u1.max_hit_points_ ∧ u2.hit_points_ = u1.hit_points_ ∧
      u2.max_movement_ = u1.max_movement_ ∧ u2.movement_ = u1.movement_ ∧
      u2.max_experience_ = u1.max_experience_ ∧ u2.attacks_ = u1.attacks_ ∧
      (∀ tag ∈ mod_childs, u2.cfg_.get_children tag = u1.cfg_.get_children tag) ∧
      (∀ k : String, u2.get_state k = u1.get_state k) ∧
      u2.modifications_ = u1.modifications_ := by
  have h1 := new_level_ok E u t ht
  have hsu := level_start_fields E t u
  generalize ha0 : reset_to t (remove_temporary_modifications
    { u with ai_special_ := "", goto_ := E.null_location }) = a0 at h1 hsu
  have hid := apply_modifications_identity E a0
  have hled := apply_modifications_ledger E a0
  generalize hA : apply_modifications E a0 = A at h1 hid hled
  have hf1 := level_finish_fields A
  have hs1 := level_finish_stats A
  have hg1 := level_finish_state A
  generalize hu1 : (((A.heal_all.set_state "slowed" "").set_state "poisoned" "").set_state
    "stoned" "") = u1 at h1 hf1 hs1 hg1
  have hty1 : u1.type E = .ok (some t) := by
    rw [← ht]
    unfold unit.type unit.type_id
    rw [hf1.1, hf1.2.1, hf1.2.2.1, hid.1, hid.2.1, hid.2.2.1, hsu.1, hsu.2.1, hsu.2.2.1]
  have h2 := new_level_ok E u1 t hty1
  generalize hb0 : reset_to t (remove_temporary_modifications
    { u1 with ai_special_ := "", goto_ := E.null_location }) = b0 at h2
  obtain ⟨htwin, hb0m, hb0g, hb0mv, hb0s⟩ := level_start_twin E t u a0 A u1 b0 ha0 hA hu1 hb0
  have hl : (ledger_records a0.modifications_).map (fun r => r.2.get_children "effect") =
      (ledger_records b0.modifications_).map (fun r => r.2.get_children "effect") := by
    rw [hb0m, ledger_effects_rename]
  have hrun := apply_modifications_twin E _ _ _ _ a0 b0 hl htwin
  have hledB := apply_modifications_ledger E b0
  rw [hA] at hrun
  generalize hB : apply_modifications E b0 = B at h2 hrun hledB
  have hf2 := level_finish_fields B
  have hs2 := level_finish_stats B
  have hg2 := level_finish_state B
  generalize hu2 : (((B.heal_all.set_state "slowed" "").set_state "poisoned" "").set_state
    "stoned" "") = u2 at h2 hf2 hs2 hg2
  obtain ⟨hg, ⟨c, hca, hcb⟩, hst⟩ := hrun
  refine ⟨u1, u2, h1, h2, ?_, ?_, ?_, ?_, ?_, ?_, ?_, ?_, ?_⟩
  · rw [hs2.1, hs1.1, hg.2.2.2.1]
  · rw [hs2.2.1, hs1.2.1, hg.2.2.2.1]
  · rw [hs2.2.2.1, hs1.2.2.1, hg.2.2.2.2.1]
  · rw [hf2.2.2.2.2.1, hf1.2.2.2.2.1, hcb, hb0mv, hca, capped_idem]
  · rw [hs2.2.2.2.1, hs1.2.2.2.1, hg.2.2.2.2.2.1]
  · rw [hs2.2.2.2.2.1, hs1.2.2.2.2.1, hg.2.2.2.2.2.2.1]
  · intro tag htag
    rw [hs2.2.2.2.2.2, hs1.2.2.2.2.2, get_children_tagged, get_children_tagged,
      hg.2.2.2.2.2.2.2 tag htag]
  · intro k
    rw [hg2, hg1]
    by_cases k1 : "stoned" = k
    · rw [if_pos k1, if_pos k1]
    · rw [if_neg k1, if_neg k1]
      by_cases k2 : "poisoned" = k
      · rw [if_pos k2, if_pos k2]
      · rw [if_neg k2, if_neg k2]
        by_cases k3 : "slowed" = k
        · rw [if_pos k3, if_pos k3]
        · rw [if_neg k3, if_neg k3]
          rcases hst k with e | ⟨e1, e2⟩
          · exact e.symm
          · rw [e2]
            show b0.get_state k = _
            rw [hb0s k, hg1, if_neg k1, if_neg k2, if_neg k3]
  · rw [hf2.2.2.2.2.2, hf1.2.2.2.2.2, hledB, hled, hb0m, hb0g, rename_traits_idem]

theorem new_level_repeated_witness :
    tiredSpearman.type spearEnv = .ok (some sampleType) ∧
    ∃ u1 u2, new_level spearEnv tiredSpearman = .ok u1 ∧ new_level spearEnv u1 = .ok u2 ∧
      u2.max_hit_points_ = u1.max_hit_points_ ∧ u2.hit_points_ = u1.hit_points_ ∧
      u2.max_movement_ = u1.max_movement_ ∧ u2.movement_ = u1.movement_ ∧
      u2.max_experience_ = u1.max_experience_ ∧ u2.attacks_ = u1.attacks_ ∧
      (∀ tag ∈ mod_childs, u2.cfg_.get_children tag = u1.cfg_.get_children tag) ∧
      (∀ k : String, u2.get_state k = u1.get_state k) ∧
      u2.modifications_ = u1.modifications_ :=
  ⟨rfl, new_level_repeated spearEnv tiredSpearman sampleType rfl⟩

/-- C27 as stated fails: a unit without type id is not reset by
`reset_modifications`, so an object with `increase_total=5` takes its maximum
hitpoints from 30 to 35 at the first `new_level` and to 40 at the second; and
for a Spearman, whose type resolves, an object that adds an image modifier adds
it again at the second `new_level`, the image modifiers being no part of what
`reset_modifications` resets. -/
theorem new_level_accumulates :
    (strayUnit.type sampleEnv = .ok none ∧
      ∃ u1 u2, new_level sampleEnv strayUnit = .ok u1 ∧ new_level sampleEnv u1 = .ok u2 ∧
        u1.max_hit_points_ = 35 ∧ u2.max_hit_points_ = 40) ∧
    (paintedSpearman.type spearEnv = .ok (some sampleType) ∧
      ∃ u1 u2, new_level spearEnv paintedSpearman = .ok u1 ∧ new_level spearEnv u1 = .ok u2 ∧
        u1.image_mods_ = "~GS()" ∧ u2.image_mods_ = "~GS()~GS()") :=
  ⟨⟨rfl, _, _, rfl, rfl, by decide, by decide⟩, ⟨rfl, _, _, rfl, rfl, by decide, by decide⟩⟩

end Wesnoth
